import Mathlib

set_option linter.unusedSectionVars false
set_option linter.unusedVariables false

/-!
# Exotica task-space core: interaction mesh and task aggregators

A shallow embedding of `interaction_mesh.cpp` (`IMesh`) and `tasks.cpp`
(`Task`, `EndPoseTask`, `TimeIndexedTask`, `SamplingTask`).

Conventions of the embedding.

* `double` is modelled by an arbitrary linear ordered field `K` (exact
  arithmetic); the square root of `Eigen`'s `norm()` is a parameter `sqrt`,
  instantiated with `Real.sqrt` where a statement needs the real square root.
* `Eigen::VectorXd` / `Eigen::MatrixXd` are a size together with a coefficient
  function; a `std::vector` built by `push_back` is a `List`, one filled by
  `assign(T, v)` is a size with its elements by index.
* Dimensions, lengths and indices (`int` in the source) are natural numbers.
* `for (int i = lo; i < hi; ++i)` is `forRange lo body hi`; a loop whose body may
  throw is `forRangeM`, with `Except` for the exception.
* In `IMesh::ComputeLaplace` and `IMesh::Update(x, Phi, jacobian)` every access is
  inside its buffer for the sizes the methods check, and reads are plain coefficient
  reads. The writes to the vector that `IMesh::Update(x, Phi)` declares without a size,
  and in `tasks.cpp` the segment and row-range reads and writes, carry Eigen's range
  check (`Exception.eigenAssertion`).
* The task maps that `tasks[i]` points to are held by value in the list `tasks`. The
  one write through such a pointer, `tasks[i]->is_used = true`, is made to every
  element of `tasks` that points to the same task map (`Task.setUsed`).
* The members of `TaskSpaceVector` that the two source files call but do not define
  (`SetZero`, `operator-`, `TaskVectorEntry::reindex`) are modelled from the
  specification; the group difference of tagged coordinates is a parameter
  `lieDifference` of the `Update` methods.
-/

namespace Exotica

/-! ## Loops -/

/-- The loop `for (int i = lo; i < hi; ++i) s = body i s;`: the body is run at
`lo, lo+1, ..., hi-1` in increasing order. -/
def forRange {σ : Type} (lo : Nat) (body : Nat → σ → σ) : Nat → σ → σ
  | 0, s => s
  | hi + 1, s => if lo ≤ hi then body hi (forRange lo body hi s) else s

/-- The loop `for (int i = lo; i < hi; ++i)` whose body may throw: the first
failure ends the loop. -/
def forRangeM {ε σ : Type} (lo : Nat) (body : Nat → σ → Except ε σ) : Nat → σ → Except ε σ
  | 0, s => Except.ok s
  | hi + 1, s =>
    if lo ≤ hi then
      match forRangeM lo body hi s with
      | Except.ok s1 => body hi s1
      | Except.error e => Except.error e
    else Except.ok s

/-! ## Eigen vectors and matrices -/

/-- The fixed-size vector `Eigen::Vector3d` (also the position `p` of a `KDL::Frame`). -/
structure Vector3d (K : Type) where
  x : K
  y : K
  z : K

namespace Vector3d

variable {K : Type} [LinearOrderedField K]

/-- Componentwise difference `a - b`. -/
def sub (a b : Vector3d K) : Vector3d K := ⟨a.x - b.x, a.y - b.y, a.z - b.z⟩

/-- Componentwise sum `a + b`. -/
def add (a b : Vector3d K) : Vector3d K := ⟨a.x + b.x, a.y + b.y, a.z + b.z⟩

/-- Vector times scalar `a * c`. -/
def mulScalar (a : Vector3d K) (c : K) : Vector3d K := ⟨a.x * c, a.y * c, a.z * c⟩

/-- Vector divided by scalar `a / c`. -/
def divScalar (a : Vector3d K) (c : K) : Vector3d K := ⟨a.x / c, a.y / c, a.z / c⟩

/-- The inner product `a.dot(b)`. -/
def dot (a b : Vector3d K) : K := a.x * b.x + a.y * b.y + a.z * b.z

/-- Eigen's `squaredNorm()`. -/
def squaredNorm (a : Vector3d K) : K := a.dot a

/-- Eigen's `norm()`, the square root of `squaredNorm()`. -/
def norm (sqrt : K → K) (a : Vector3d K) : K := sqrt a.squaredNorm

/-- The zero vector `Eigen::Vector3d::Zero()`. -/
def zero : Vector3d K := ⟨0, 0, 0⟩

/-- Coefficient `c` (0, 1 or 2) of a 3-vector. -/
def coeff (a : Vector3d K) (c : Nat) : K :=
  match c with
  | 0 => a.x
  | 1 => a.y
  | _ => a.z

end Vector3d

/-- A dynamically sized column (`Eigen::Matrix<T, Dynamic, 1>`): `size` is
`rows()`, `coeff i` the entry at row `i`. -/
structure VectorX (α : Type) where
  size : Nat
  coeff : Nat → α

/-- The type `Eigen::VectorXd`. -/
abbrev VectorXd (K : Type) := VectorX K

/-- The type `Eigen::MatrixXd`: `coeff r c` is the entry at row `r`, column `c`. -/
structure MatrixXd (K : Type) where
  rows : Nat
  cols : Nat
  coeff : Nat → Nat → K

namespace VectorX

variable {α : Type}

/-- Write of one coefficient, `v(i) = a`. -/
def set (v : VectorX α) (i : Nat) (a : α) : VectorX α :=
  ⟨v.size, fun k => if k = i then a else v.coeff k⟩

/-- A vector of `n` copies of `a` (`Constant(n, a)`). -/
def constant (n : Nat) (a : α) : VectorX α := ⟨n, fun _ => a⟩

end VectorX

namespace VectorXd

variable {K : Type} [LinearOrderedField K]

/-- The vector `Eigen::VectorXd::Zero(n)`. -/
def Zero (n : Nat) : VectorXd K := ⟨n, fun _ => 0⟩

/-- Read of `v.segment(start, 3)`. -/
def segment3 (v : VectorXd K) (start : Nat) : Vector3d K :=
  ⟨v.coeff start, v.coeff (start + 1), v.coeff (start + 2)⟩

/-- Write `v.segment(start, 3) = p`. -/
def setSegment3 (v : VectorXd K) (start : Nat) (p : Vector3d K) : VectorXd K :=
  ⟨v.size, fun k =>
    if k = start then p.x else if k = start + 1 then p.y else if k = start + 2 then p.z
    else v.coeff k⟩

end VectorXd

namespace MatrixXd

variable {K : Type} [LinearOrderedField K]

/-- The matrix `Eigen::MatrixXd::Zero(r, c)`. -/
def Zero (r c : Nat) : MatrixXd K := ⟨r, c, fun _ _ => 0⟩

/-- Write of one coefficient, `m(r, c) = a`. -/
def set (m : MatrixXd K) (r c : Nat) (a : K) : MatrixXd K :=
  ⟨m.rows, m.cols, fun r1 c1 => if r1 = r ∧ c1 = c then a else m.coeff r1 c1⟩

/-- Read of `m.block(r, c, 3, 1)`. -/
def block31 (m : MatrixXd K) (r c : Nat) : Vector3d K :=
  ⟨m.coeff r c, m.coeff (r + 1) c, m.coeff (r + 2) c⟩

/-- Write `m.block(r, c, 3, 1) = p`. -/
def setBlock31 (m : MatrixXd K) (r c : Nat) (p : Vector3d K) : MatrixXd K :=
  ⟨m.rows, m.cols, fun r1 c1 =>
    if c1 = c then
      (if r1 = r then p.x else if r1 = r + 1 then p.y else if r1 = r + 2 then p.z
       else m.coeff r1 c1)
    else m.coeff r1 c1⟩

end MatrixXd

/-! ## `IMesh::ComputeLaplace` -/

/-- What `IMesh::ComputeLaplace` produces: the returned vector `Phi` and the two
optional outputs written through `dist_ptr` and `wsum_ptr`. -/
structure LaplaceResult (K : Type) where
  Phi : VectorXd K
  dist : MatrixXd K
  wsum : VectorXd K

/-- What a call can throw. The first constructors are the `ThrowNamed` /
`ThrowPretty` sites of the two files, with the numbers their messages report;
`eigenAssertion` is a failed Eigen index or size assertion (an access outside a
buffer, or a block assignment between blocks of different sizes). -/
inductive Exception (K : Type) where
  | wrongSizeOfPhi
  | wrongSizeOfJacobian (N : Nat)
  | invalidWeightElement (i j : Int) (M : Nat)
  | invalidWeight (weight : K)
  | invalidWeightMatrix (rows cols M : Nat)
  | taskMapNotDefined (name : String)
  | invalidTaskGoalSize (expecting got : Nat)
  | invalidTaskRhoSize (expecting got : Nat)
  | numberOfTasksMismatch
  | eigenAssertion

/-- The part of `kinematics[0]` that `IMesh` reads: `Phi i` is the position
`kinematics[0].Phi(i).p` of effector `i`, and `jacobian j` is the matrix
`kinematics[0].jacobian[j].data` (6 rows, one column per configuration coordinate). -/
structure KinematicResponse (K : Type) where
  Phi : Nat → Vector3d K
  jacobian : Nat → MatrixXd K

/-- The members of `IMesh` read by the computations: the number of effectors and
the weight matrix. -/
structure IMesh (K : Type) where
  eff_size_ : Nat
  weights_ : MatrixXd K

namespace IMesh

variable {K : Type} [LinearOrderedField K]

/-- First loop nest of `ComputeLaplace`: the distance matrix. -/
def ComputeLaplace.distLoop (sqrt : K → K) (eff_phi : VectorXd K) (N : Nat)
    (dist : MatrixXd K) : MatrixXd K :=
  forRange 0 (fun j dist =>
    forRange (j + 1) (fun l dist =>
      if ¬ (j ≥ N ∧ l ≥ N) then
        let d := ((eff_phi.segment3 (j * 3)).sub (eff_phi.segment3 (l * 3))).norm sqrt
        (dist.set l j d).set j l d
      else dist) N dist) N dist

/-- Second loop nest of `ComputeLaplace`: the weight normaliser. -/
def ComputeLaplace.wsumLoop (weights dist : MatrixXd K) (N : Nat)
    (wsum : VectorXd K) : VectorXd K :=
  forRange 0 (fun j wsum =>
    forRange 0 (fun l wsum =>
      if dist.coeff j l > 0 ∧ j ≠ l then
        wsum.set j (wsum.coeff j + weights.coeff j l / dist.coeff j l)
      else wsum) N wsum) N wsum

/-- Third loop nest of `ComputeLaplace`: the Laplace coordinates. -/
def ComputeLaplace.phiLoop (eff_phi : VectorXd K) (weights dist : MatrixXd K)
    (wsum : VectorXd K) (N : Nat) (Phi : VectorXd K) : VectorXd K :=
  forRange 0 (fun j Phi =>
    let Phi := Phi.setSegment3 (j * 3) (eff_phi.segment3 (j * 3))
    forRange 0 (fun l Phi =>
      if j ≠ l then
        if dist.coeff j l > 0 ∧ wsum.coeff j > 0 then
          Phi.setSegment3 (j * 3)
            ((Phi.segment3 (j * 3)).sub
              (((eff_phi.segment3 (l * 3)).mulScalar (weights.coeff j l)).divScalar
                (dist.coeff j l * wsum.coeff j)))
        else Phi
      else Phi) N Phi) N Phi

/-- The function `IMesh::ComputeLaplace(eff_phi, weights, dist_ptr, wsum_ptr)`. -/
def ComputeLaplace (sqrt : K → K) (eff_phi : VectorXd K) (weights : MatrixXd K) :
    LaplaceResult K :=
  let N := eff_phi.size / 3
  let Phi : VectorXd K := VectorXd.Zero (N * 3)
  let dist : MatrixXd K := MatrixXd.Zero N N
  let wsum : VectorXd K := VectorXd.Zero N
  let dist := ComputeLaplace.distLoop sqrt eff_phi N dist
  let wsum := ComputeLaplace.wsumLoop weights dist N wsum
  let Phi := ComputeLaplace.phiLoop eff_phi weights dist wsum N Phi
  ⟨Phi, dist, wsum⟩

/-- The loop of `Update` that gathers the effector positions into the flat vector
`eff_phi(M * 3)` (the freshly constructed vector is taken to hold zeros). -/
def Update.effPhi (M : Nat) (Phi : Nat → Vector3d K) : VectorXd K :=
  forRange 0 (fun i (eff_phi : VectorXd K) =>
    ((eff_phi.set (i * 3) (Phi i).x).set (i * 3 + 1) (Phi i).y).set (i * 3 + 2) (Phi i).z)
    M (VectorXd.Zero (M * 3))

/-- The innermost loop of `Update` (over `k`), which accumulates `_A` from 0. -/
def Update.dA (self : IMesh K) (kinematics : KinematicResponse K) (eff_phi : VectorXd K)
    (dist : MatrixXd K) (M i j l : Nat) (Sl : K) : K :=
  forRange 0 (fun k (_A : K) =>
    if j ≠ k ∧ dist.coeff j k > 0 ∧ self.weights_.coeff j k > 0 then
      let distance := (eff_phi.segment3 (j * 3)).sub (eff_phi.segment3 (k * 3))
      let _distance := ((kinematics.jacobian j).block31 0 i).sub
        ((kinematics.jacobian k).block31 0 i)
      let Sk := distance.dot _distance / dist.coeff j k
      _A + self.weights_.coeff j k * (Sl * dist.coeff j k - Sk * dist.coeff j l)
        / (dist.coeff j k * dist.coeff j k)
    else _A) M 0

/-- The pair `(w, _w)` that the body of the `l` loop of `Update` computes for the
pair `(j, l)` and the column `i`. The scalars `A`, `_A`, `Sk`, `Sl`, `w`, `_w` and the
vectors `distance`, `_distance` are declared before the loops in the source; each is
assigned before it is read in every iteration, so they are local here. -/
def Update.wPair (self : IMesh K) (kinematics : KinematicResponse K) (eff_phi : VectorXd K)
    (dist : MatrixXd K) (wsum : VectorXd K) (M i j l : Nat) : K × K :=
  if dist.coeff j l > 0 ∧ wsum.coeff j > 0 ∧ self.weights_.coeff j l > 0 then
    let A := dist.coeff j l * wsum.coeff j
    let w := self.weights_.coeff j l / A
    let distance := (eff_phi.segment3 (j * 3)).sub (eff_phi.segment3 (l * 3))
    let _distance := ((kinematics.jacobian j).block31 0 i).sub
      ((kinematics.jacobian l).block31 0 i)
    let Sl := distance.dot _distance / dist.coeff j l
    let _A := Update.dA self kinematics eff_phi dist M i j l Sl
    let _w := -self.weights_.coeff j l * _A / (A * A)
    (w, _w)
  else (0, 0)

/-- The three nested loops of `Update` (over `i`, `j`, `l`) that write the Jacobian. -/
def Update.jacobianLoop (self : IMesh K) (kinematics : KinematicResponse K)
    (eff_phi : VectorXd K) (dist : MatrixXd K) (wsum : VectorXd K) (M N : Nat)
    (jacobian : MatrixXd K) : MatrixXd K :=
  forRange 0 (fun i (jacobian : MatrixXd K) =>
    forRange 0 (fun j (jacobian : MatrixXd K) =>
      let jacobian :=
        if j < M then jacobian.setBlock31 (3 * j) i ((kinematics.jacobian j).block31 0 i)
        else jacobian
      forRange 0 (fun l (jacobian : MatrixXd K) =>
        if j ≠ l then
          let ww := Update.wPair self kinematics eff_phi dist wsum M i j l
          jacobian.setBlock31 (3 * j) i
            ((jacobian.block31 (3 * j) i).sub
              (((eff_phi.segment3 (l * 3)).mulScalar ww.2).add
                (((kinematics.jacobian l).block31 0 i).mulScalar ww.1)))
        else jacobian) M jacobian) M jacobian) N jacobian

/-- The method `IMesh::Update(x, Phi, jacobian)`: the configuration `x` is not read
(the kinematics are already evaluated), the result is the pair of the written
buffers. The debug publication is left out. -/
def Update (sqrt : K → K) (self : IMesh K) (kinematics : KinematicResponse K)
    (Phi : VectorXd K) (jacobian : MatrixXd K) :
    Except (Exception K) (VectorXd K × MatrixXd K) :=
  let M := self.eff_size_
  let N := (kinematics.jacobian 0).cols
  if Phi.size ≠ M * 3 then Except.error Exception.wrongSizeOfPhi
  else if jacobian.rows ≠ M * 3 ∨ jacobian.cols ≠ N then
    Except.error (Exception.wrongSizeOfJacobian N)
  else
    let eff_phi := Update.effPhi M kinematics.Phi
    let r := ComputeLaplace sqrt eff_phi self.weights_
    let Phi := r.Phi
    let jacobian := Update.jacobianLoop self kinematics eff_phi r.dist r.wsum M N jacobian
    Except.ok (Phi, jacobian)

/-- The method `IMesh::Update(x, Phi, jacobian)` with its two output references made
explicit: the exception thrown, if any, and the contents of the caller's `Phi` and
`jacobian` when the call ends. Both `ThrowNamed` statements come before the first
assignment to either buffer. -/
def Update.inPlace (sqrt : K → K) (self : IMesh K) (kinematics : KinematicResponse K)
    (Phi : VectorXd K) (jacobian : MatrixXd K) :
    Option (Exception K) × VectorXd K × MatrixXd K :=
  let M := self.eff_size_
  let N := (kinematics.jacobian 0).cols
  if Phi.size ≠ M * 3 then (some Exception.wrongSizeOfPhi, Phi, jacobian)
  else if jacobian.rows ≠ M * 3 ∨ jacobian.cols ≠ N then
    (some (Exception.wrongSizeOfJacobian N), Phi, jacobian)
  else
    let eff_phi := Update.effPhi M kinematics.Phi
    let r := ComputeLaplace sqrt eff_phi self.weights_
    let Phi := r.Phi
    let jacobian := Update.jacobianLoop self kinematics eff_phi r.dist r.wsum M N jacobian
    (none, Phi, jacobian)

/-- Point `j` of the flat position vector, `eff_phi.segment(j * 3, 3)`. -/
def point (eff_phi : VectorXd K) (j : Nat) : Vector3d K := eff_phi.segment3 (j * 3)

/-- Spec, step 1: the distance `d(j,l) = ‖P_j − P_l‖`. -/
def specDist (sqrt : K → K) (eff_phi : VectorXd K) (j l : Nat) : K :=
  ((point eff_phi j).sub (point eff_phi l)).norm sqrt

/-- Spec: the valid neighbours of point `j` among `M` points, the `l ≠ j` with `d(j,l) > 0`. -/
def specNeighbours (sqrt : K → K) (eff_phi : VectorXd K) (M j : Nat) : Finset Nat :=
  (Finset.range M).filter (fun l => l ≠ j ∧ 0 < specDist sqrt eff_phi j l)

/-- Spec, step 2: the normaliser `wsum(j) = Σ_{l≠j, d(j,l)>0} W(j,l)/d(j,l)`. -/
def specWsum (sqrt : K → K) (eff_phi : VectorXd K) (weights : MatrixXd K) (M j : Nat) : K :=
  ∑ l ∈ specNeighbours sqrt eff_phi M j, weights.coeff j l / specDist sqrt eff_phi j l

/-- Spec, step 3: the coefficient `c(j,l) = W(j,l) / (d(j,l)·wsum(j))`. -/
def specCoef (sqrt : K → K) (eff_phi : VectorXd K) (weights : MatrixXd K) (M j l : Nat) : K :=
  weights.coeff j l / (specDist sqrt eff_phi j l * specWsum sqrt eff_phi weights M j)

/-- Spec, step 3: the Laplace coordinate `L_j = P_j − Σ c(j,l)·P_l` over the valid
neighbours when `wsum(j) > 0`, and `L_j = P_j` otherwise. -/
def specLaplace (sqrt : K → K) (eff_phi : VectorXd K) (weights : MatrixXd K) (M j : Nat) :
    Vector3d K :=
  if 0 < specWsum sqrt eff_phi weights M j then
    (point eff_phi j).sub
      ⟨∑ l ∈ specNeighbours sqrt eff_phi M j,
          specCoef sqrt eff_phi weights M j l * (point eff_phi l).x,
        ∑ l ∈ specNeighbours sqrt eff_phi M j,
          specCoef sqrt eff_phi weights M j l * (point eff_phi l).y,
        ∑ l ∈ specNeighbours sqrt eff_phi M j,
          specCoef sqrt eff_phi weights M j l * (point eff_phi l).z⟩
  else point eff_phi j

/-- The translated point set `P + t`: the 3-vector `t` added to every point of the
flat position vector. -/
def translate (eff_phi : VectorXd K) (t : Vector3d K) : VectorXd K :=
  ⟨eff_phi.size, fun k => eff_phi.coeff k + t.coeff (k % 3)⟩

/-- The three points of the worked example, `P0=(0,0,0)`, `P1=(1,0,0)`, `P2=(0,1,0)`,
as a flat position vector. -/
def workedPoints : VectorXd K := ⟨9, fun k => if k = 3 ∨ k = 7 then 1 else 0⟩

/-- The weight matrix of the worked example: 3 × 3, ones off the diagonal. -/
def workedWeights : MatrixXd K := ⟨3, 3, fun r c => if r = c then 0 else 1⟩

/-- An interaction mesh of two effectors with unit weights. -/
def pairMesh : IMesh K := ⟨2, ⟨2, 2, fun _ _ => 1⟩⟩

/-- Kinematics for `pairMesh`: effectors at `(0,0,0)` and `(1,0,0)`, and one
configuration coordinate that moves the second effector along `y`. -/
def pairKinematics : KinematicResponse K :=
  ⟨fun a => if a = 1 then ⟨1, 0, 0⟩ else ⟨0, 0, 0⟩,
    fun a => ⟨6, 1, fun r _ => if a = 1 ∧ r = 1 then 1 else 0⟩⟩

/-- Kinematics for `pairMesh`: effectors at `(0,0,0)` and `(1,0,0)`, and one
configuration coordinate that moves both effectors along `y` (a translation). -/
def translatingKinematics : KinematicResponse K :=
  ⟨fun a => if a = 1 then ⟨1, 0, 0⟩ else ⟨0, 0, 0⟩,
    fun _ => ⟨6, 1, fun r _ => if r = 1 then 1 else 0⟩⟩

/-! ### The analytic Jacobian as the spec words it -/

/-- Spec: the per-point derivative `J_j = ∂P_j/∂x_i`, column `i` of the top three rows
of the Jacobian of effector `j`. -/
def specJ (kinematics : KinematicResponse K) (i j : Nat) : Vector3d K :=
  (kinematics.jacobian j).block31 0 i

/-- Spec: the distance derivative `S(j,l) = (P_j − P_l)·(J_j − J_l) / d(j,l)`. -/
def specS (sqrt : K → K) (eff_phi : VectorXd K) (kinematics : KinematicResponse K)
    (i j l : Nat) : K :=
  ((point eff_phi j).sub (point eff_phi l)).dot
      ((specJ kinematics i j).sub (specJ kinematics i l))
    / specDist sqrt eff_phi j l

/-- Spec: `A(j,l) = d(j,l)·wsum(j)`. -/
def specA (sqrt : K → K) (eff_phi : VectorXd K) (weights : MatrixXd K) (M j l : Nat) : K :=
  specDist sqrt eff_phi j l * specWsum sqrt eff_phi weights M j

/-- Spec: the normaliser derivative `dA(j,l)`, the sum over the valid neighbours `k`
of `j` of `W(j,k)·(S(j,l)·d(j,k) − S(j,k)·d(j,l)) / d(j,k)²`. -/
def specDA (sqrt : K → K) (eff_phi : VectorXd K) (weights : MatrixXd K)
    (kinematics : KinematicResponse K) (M i j l : Nat) : K :=
  ∑ k ∈ specNeighbours sqrt eff_phi M j,
    weights.coeff j k
      * (specS sqrt eff_phi kinematics i j l * specDist sqrt eff_phi j k
          - specS sqrt eff_phi kinematics i j k * specDist sqrt eff_phi j l)
      / (specDist sqrt eff_phi j k) ^ 2

/-- Spec: the weight `w(j,l) = W(j,l)/A(j,l)` of a term valid under the forward rule
(`d(j,l) > 0` and `wsum(j) > 0`), and 0 for an invalid term. -/
def specW (sqrt : K → K) (eff_phi : VectorXd K) (weights : MatrixXd K) (M j l : Nat) : K :=
  if 0 < specDist sqrt eff_phi j l ∧ 0 < specWsum sqrt eff_phi weights M j then
    weights.coeff j l / specA sqrt eff_phi weights M j l
  else 0

/-- Spec: the weight derivative `dw(j,l) = −W(j,l)·dA(j,l) / A(j,l)²` of a valid term,
and 0 for an invalid term. -/
def specDW (sqrt : K → K) (eff_phi : VectorXd K) (weights : MatrixXd K)
    (kinematics : KinematicResponse K) (M i j l : Nat) : K :=
  if 0 < specDist sqrt eff_phi j l ∧ 0 < specWsum sqrt eff_phi weights M j then
    -weights.coeff j l * specDA sqrt eff_phi weights kinematics M i j l
      / (specA sqrt eff_phi weights M j l) ^ 2
  else 0

/-- Spec: the block `∂L_j/∂x_i = J_j − Σ_{l≠j} (P_l·dw(j,l) + J_l·w(j,l))`. -/
def specJacobianBlock (sqrt : K → K) (eff_phi : VectorXd K) (weights : MatrixXd K)
    (kinematics : KinematicResponse K) (M i j : Nat) : Vector3d K :=
  (specJ kinematics i j).sub
    ⟨∑ l ∈ (Finset.range M).filter (fun l => l ≠ j),
        ((point eff_phi l).x * specDW sqrt eff_phi weights kinematics M i j l
          + (specJ kinematics i l).x * specW sqrt eff_phi weights M j l),
      ∑ l ∈ (Finset.range M).filter (fun l => l ≠ j),
        ((point eff_phi l).y * specDW sqrt eff_phi weights kinematics M i j l
          + (specJ kinematics i l).y * specW sqrt eff_phi weights M j l),
      ∑ l ∈ (Finset.range M).filter (fun l => l ≠ j),
        ((point eff_phi l).z * specDW sqrt eff_phi weights kinematics M i j l
          + (specJ kinematics i l).z * specW sqrt eff_phi weights M j l)⟩

/-! ### The remaining methods of `IMesh` -/

/-- The method `IMesh::TaskSpaceDim()`. -/
def TaskSpaceDim (self : IMesh K) : Nat := 3 * self.eff_size_

/-- The method `IMesh::SetWeight(i, j, weight)`; the indices are `int`s. -/
def SetWeight (i j : Int) (weight : K) (self : IMesh K) : Except (Exception K) (IMesh K) :=
  let M := self.weights_.cols
  if i < 0 ∨ i ≥ (M : Int) ∨ j < 0 ∨ j ≥ (M : Int) then
    Except.error (Exception.invalidWeightElement i j M)
  else if weight < 0 then
    Except.error (Exception.invalidWeight weight)
  else
    Except.ok { self with weights_ := self.weights_.set i.toNat j.toNat weight }

/-- The method `IMesh::SetWeights(weights)`. -/
def SetWeights (weights : MatrixXd K) (self : IMesh K) : Except (Exception K) (IMesh K) :=
  let M := self.weights_.cols
  if weights.rows ≠ M ∨ weights.cols ≠ M then
    Except.error (Exception.invalidWeightMatrix weights.rows weights.cols M)
  else
    Except.ok { self with weights_ := weights }

/-- The record `IMeshInitializer`: the reference frame and the flattened weights. -/
structure Initializer (K : Type) where
  ReferenceFrame : String
  Weights : VectorXd K

/-- The method `IMesh::Instantiate(init)`. The number of frames `frames_.size()` of the
base class is the argument `frames_size`; the result of Eigen's assignment
`weights_.array() = init.Weights.array()` of the flattened weights to the array view of
the matrix is the argument `arrayAssign`. The debug channel is left out. -/
def Instantiate (arrayAssign : MatrixXd K → VectorXd K → MatrixXd K) (frames_size : Nat)
    (init : Initializer K) (self : IMesh K) : IMesh K :=
  let self := { self with eff_size_ := frames_size }
  let self := { self with
    weights_ := ⟨self.eff_size_, self.eff_size_, fun _ _ => 1⟩ }
  if init.Weights.size = self.eff_size_ * self.eff_size_ then
    { self with weights_ := arrayAssign self.weights_ init.Weights }
  else self

/-- The object built by the constructor `IMesh::IMesh()`: no effector, an empty weight
matrix. -/
def new : IMesh K := ⟨0, MatrixXd.Zero 0 0⟩

/-- A 2 × 2 matrix with the entry `-1` at `(0, 1)` and ones elsewhere. -/
def negativeWeights : MatrixXd K := ⟨2, 2, fun r c => if r = 0 ∧ c = 1 then -1 else 1⟩

end IMesh

/-! ## `tasks.cpp`: the data model -/

/-- One tagged coordinate of a `TaskSpaceVector` layout: the rotation type (an
enumeration value) and the index of the coordinate block. -/
structure TaskVectorEntry where
  type : Nat
  id : Int

/-- Modelled from the spec: `TaskVectorEntry::reindex` is not in the two source
files; the tags of a task are copied to its assigned offset, each index moved from
the old start to the new start. -/
def TaskVectorEntry.reindex (map : List TaskVectorEntry) (old_start new_start : Nat) :
    List TaskVectorEntry :=
  map.map (fun e => ⟨e.type, e.id - (old_start : Int) + (new_start : Int)⟩)

/-- The class `TaskSpaceVector`: the coefficients and the Lie-group tags. -/
structure TaskSpaceVector (K : Type) where
  data : VectorXd K
  map : List TaskVectorEntry

/-- Modelled from the spec: `TaskSpaceVector::SetZero(n)` is not in the two source
files; the vector is resized to `n` zero coefficients and keeps its tags. -/
def TaskSpaceVector.SetZero {K : Type} [LinearOrderedField K] (v : TaskSpaceVector K)
    (n : Nat) : TaskSpaceVector K :=
  ⟨VectorXd.Zero n, v.map⟩

/-- The members of a resolved task map (`TaskMap`) that `tasks.cpp` reads or writes
through `tasks[i]->`: its slice of the provider's buffers, the `is_used` flag and the
result of `GetLieGroupIndices()`. -/
structure TaskMap where
  start : Nat
  length : Nat
  start_jacobian : Nat
  length_jacobian : Nat
  is_used : Bool
  lieGroupIndices : List TaskVectorEntry

/-- The record `TaskInitializer`: the name of the task map, the goal and the weight. -/
structure TaskInitializer (K : Type) where
  Task : String
  Goal : VectorXd K
  Rho : VectorXd K

/-- The record `TaskIndexing`. -/
structure TaskIndexing where
  id : Nat
  start : Nat
  length : Nat
  start_jacobian : Nat
  length_jacobian : Nat
deriving DecidableEq

/-- The part of the planning problem that `tasks.cpp` reads: the task maps by name
(`GetTaskMaps()`), whether the flags request the Jacobian (`GetFlags() & KIN_J`) and
its derivative (`GetFlags() & KIN_J_DOT`), and the configuration dimension `N`. -/
structure PlanningProblem where
  task_maps : List (String × TaskMap)
  KIN_J : Bool
  KIN_J_DOT : Bool
  N : Nat

/-- The lookup `GetTaskMaps().find(name)`, `none` for `end()`. -/
def PlanningProblem.find (prob : PlanningProblem) (name : String) : Option TaskMap :=
  (prob.task_maps.find? (fun e => e.1 = name)).map (fun e => e.2)

/-- The type `Hessian`, an Eigen array of matrices. -/
abbrev Hessian (K : Type) := VectorX (MatrixXd K)

namespace VectorXd

variable {K : Type} [LinearOrderedField K]

/-- The vector `Eigen::VectorXd::Ones(n)`. -/
def Ones (n : Nat) : VectorXd K := ⟨n, fun _ => 1⟩

/-- Read of `v.segment(start, n)`; Eigen asserts that the segment lies inside `v`. -/
def segment (v : VectorXd K) (start n : Nat) : Except (Exception K) (VectorXd K) :=
  if start + n ≤ v.size then Except.ok ⟨n, fun k => v.coeff (start + k)⟩
  else Except.error Exception.eigenAssertion

/-- Write `v.segment(start, n) = src`; Eigen asserts that the segment lies inside `v`
and that `src` has `n` coefficients. -/
def assignSegment (v : VectorXd K) (start n : Nat) (src : VectorXd K) :
    Except (Exception K) (VectorXd K) :=
  if start + n ≤ v.size ∧ src.size = n then
    Except.ok ⟨v.size, fun k =>
      if start ≤ k ∧ k < start + n then src.coeff (k - start) else v.coeff k⟩
  else Except.error Exception.eigenAssertion

end VectorXd

namespace MatrixXd

variable {K : Type} [LinearOrderedField K]

/-- The matrix `Eigen::MatrixXd::Identity(r, c)`. -/
def Identity (r c : Nat) : MatrixXd K := ⟨r, c, fun i j => if i = j then 1 else 0⟩

end MatrixXd

/-- The members of the class `Task` (the name-to-task-map table `task_maps`, which no
method of the file reads, is left out). -/
structure Task (K : Type) where
  tasks : List TaskMap
  task_initializers_ : List (TaskInitializer K)
  indexing : List TaskIndexing
  num_tasks : Nat
  length_phi : Nat
  length_jacobian : Nat

/-- The range-based loop `for (const T& x : xs)` whose body may throw. -/
def forEachM {ε σ α : Type} (body : α → σ → Except ε σ) : List α → σ → Except ε σ
  | [], s => Except.ok s
  | x :: xs, s =>
    match body x s with
    | Except.ok s1 => forEachM body xs s1
    | Except.error e => Except.error e

/-- The call `v.resize(n)` on a `std::vector`: truncated, or padded with
value-initialised elements. -/
def resizeList {α : Type} (v : List α) (n : Nat) (dflt : α) : List α :=
  v.take n ++ List.replicate (n - v.length) dflt

/-- Spec: the start of slice `i`, the sum `n_0 + ... + n_{i-1}` of the declared lengths
of the tasks registered before task `i`. -/
def sliceStart (tms : List TaskMap) (i : Nat) : Nat :=
  ((tms.map TaskMap.length).take i).sum

/-- Spec: the start of Jacobian slice `i`, the sum `m_0 + ... + m_{i-1}`. -/
def sliceStartJacobian (tms : List TaskMap) (i : Nat) : Nat :=
  ((tms.map TaskMap.length_jacobian).take i).sum

namespace Task

variable {K : Type} [LinearOrderedField K]

/-- The object built by the constructor `Task::Task()`. -/
def new : Task K := ⟨[], [], [], 0, 0, 0⟩

/-- Element `tasks[i]`. -/
def task (self : Task K) (i : Nat) : TaskMap := self.tasks.getD i ⟨0, 0, 0, 0, false, []⟩

/-- Element `indexing[i]`. -/
def index (self : Task K) (i : Nat) : TaskIndexing := self.indexing.getD i ⟨0, 0, 0, 0, 0⟩

/-- First loop of `Task::Initialize`: every initializer is resolved through the
problem's task maps and registered. -/
def Initialize.resolve (prob : PlanningProblem) (inits : List (TaskInitializer K))
    (self : Task K) : Except (Exception K) (Task K) :=
  forEachM (fun (task : TaskInitializer K) (self : Task K) =>
    match prob.find task.Task with
    | none => Except.error (Exception.taskMapNotDefined task.Task)
    | some it =>
      Except.ok { self with
        tasks := self.tasks ++ [it],
        task_initializers_ := self.task_initializers_ ++ [task] }) inits self

/-- Second loop of `Task::Initialize`: the slices by cumulative sums, and the tags of
the combined vector. -/
def Initialize.indexLoop (n : Nat) (st : Task K × TaskSpaceVector K) :
    Task K × TaskSpaceVector K :=
  forRange 0 (fun i (st : Task K × TaskSpaceVector K) =>
    let self := st.1
    let Phi := st.2
    let entry : TaskIndexing :=
      { id := i, start := self.length_phi, length := (self.task i).length,
        start_jacobian := self.length_jacobian,
        length_jacobian := (self.task i).length_jacobian }
    let self := { self with indexing := self.indexing.set i entry }
    let Phi : TaskSpaceVector K :=
      ⟨Phi.data, Phi.map ++ TaskVectorEntry.reindex (self.task i).lieGroupIndices
        (self.task i).start (self.index i).start⟩
    let self := { self with length_phi := self.length_phi + (self.task i).length }
    let self := { self with
      length_jacobian := self.length_jacobian + (self.task i).length_jacobian }
    (self, Phi)) n st

/-- The method `Task::Initialize(inits, prob, Phi)`; the result is the object and the
vector `Phi` passed by reference. -/
def Initialize (inits : List (TaskInitializer K)) (prob : PlanningProblem)
    (Phi : TaskSpaceVector K) (self : Task K) :
    Except (Exception K) (Task K × TaskSpaceVector K) :=
  match Initialize.resolve prob inits self with
  | Except.error e => Except.error e
  | Except.ok self =>
    let self := { self with num_tasks := self.tasks.length }
    let self := { self with length_phi := 0 }
    let self := { self with length_jacobian := 0 }
    let Phi : TaskSpaceVector K := ⟨Phi.data, []⟩
    let self := { self with
      indexing := resizeList self.indexing self.tasks.length ⟨0, 0, 0, 0, 0⟩ }
    let st := Initialize.indexLoop self.num_tasks (self, Phi)
    Except.ok (st.1, st.2.SetZero st.1.length_phi)

end Task

/-- The members of the class `TimeIndexedTask`, which derives from `Task`; a
`std::vector` filled by `assign(T, v)` is a size with its elements by index. -/
structure TimeIndexedTask (K : Type) extends Task K where
  T : Nat
  Phi : VectorX (TaskSpaceVector K)
  y : VectorX (TaskSpaceVector K)
  rho : VectorX (VectorXd K)
  jacobian : VectorX (MatrixXd K)
  hessian : VectorX (Hessian K)
  S : VectorX (MatrixXd K)
  ydiff : VectorX (VectorXd K)

namespace TimeIndexedTask

variable {K : Type} [LinearOrderedField K]

/-- The object built by the constructor `TimeIndexedTask::TimeIndexedTask()`. -/
def new : TimeIndexedTask K :=
  { toTask := Task.new, T := 0,
    Phi := ⟨0, fun _ => ⟨VectorXd.Zero 0, []⟩⟩, y := ⟨0, fun _ => ⟨VectorXd.Zero 0, []⟩⟩,
    rho := ⟨0, fun _ => VectorXd.Zero 0⟩, jacobian := ⟨0, fun _ => MatrixXd.Zero 0 0⟩,
    hessian := ⟨0, fun _ => ⟨0, fun _ => MatrixXd.Zero 0 0⟩⟩,
    S := ⟨0, fun _ => MatrixXd.Zero 0 0⟩, ydiff := ⟨0, fun _ => VectorXd.Zero 0⟩ }

/-- The method `TimeIndexedTask::Initialize(inits, prob, Phi)`. -/
def Initialize (inits : List (TaskInitializer K)) (prob : PlanningProblem)
    (Phi : TaskSpaceVector K) (self : TimeIndexedTask K) :
    Except (Exception K) (TimeIndexedTask K × TaskSpaceVector K) :=
  match Task.Initialize inits prob Phi self.toTask with
  | Except.error e => Except.error e
  | Except.ok (base, Phi) =>
    Except.ok ({ self with toTask := base }, Phi.SetZero base.length_phi)

/-- The assignment `y[t].data.segment(indexing[i].start, indexing[i].length) =
task.Goal.segment(offset, tasks[i]->length)` of `ReinitializeVariables`. -/
def ReinitializeVariables.setGoal (i : Nat) (task : TaskInitializer K) (offset t : Nat)
    (self : TimeIndexedTask K) : Except (Exception K) (TimeIndexedTask K) :=
  match task.Goal.segment offset (self.task i).length with
  | Except.error e => Except.error e
  | Except.ok src =>
    match (self.y.coeff t).data.assignSegment (self.index i).start (self.index i).length
        src with
    | Except.error e => Except.error e
    | Except.ok d => Except.ok { self with y := self.y.set t ⟨d, (self.y.coeff t).map⟩ }

/-- The goal part of the body of the task loop of `ReinitializeVariables`, for task `i`
with initializer `task`. -/
def ReinitializeVariables.goal (i : Nat) (task : TaskInitializer K)
    (self : TimeIndexedTask K) : Except (Exception K) (TimeIndexedTask K) :=
  if task.Goal.size = 0 then
    Except.ok self
  else if task.Goal.size = (self.task i).length * self.T then
    forRangeM 0 (fun t (self : TimeIndexedTask K) =>
      ReinitializeVariables.setGoal i task (t * (self.task i).length) t self) self.T self
  else if task.Goal.size = (self.task i).length then
    forRangeM 0 (fun t (self : TimeIndexedTask K) =>
      ReinitializeVariables.setGoal i task (self.task i).length t self) self.T self
  else
    Except.error
      (Exception.invalidTaskGoalSize ((self.task i).length * self.T) task.Goal.size)

/-- The weight part of the body of the task loop of `ReinitializeVariables`. -/
def ReinitializeVariables.rho (i : Nat) (task : TaskInitializer K)
    (self : TimeIndexedTask K) : Except (Exception K) (TimeIndexedTask K) :=
  if task.Rho.size = 0 then
    Except.ok self
  else if task.Rho.size = self.T then
    Except.ok (forRange 0 (fun t (self : TimeIndexedTask K) =>
      { self with rho := self.rho.set t ((self.rho.coeff t).set i (task.Rho.coeff t)) })
      self.T self)
  else if task.Rho.size = 1 then
    Except.ok (forRange 0 (fun t (self : TimeIndexedTask K) =>
      { self with rho := self.rho.set t ((self.rho.coeff t).set i (task.Rho.coeff 0)) })
      self.T self)
  else
    Except.error (Exception.invalidTaskRhoSize self.T task.Rho.size)

/-- The assignments of `ReinitializeVariables` before its task loop: every
per-timestep buffer is allocated. The matrices constructed without initial value are
taken to hold zeros. -/
def ReinitializeVariables.allocate (_T : Nat) (_prob : PlanningProblem)
    (phi_in : TaskSpaceVector K) (self : TimeIndexedTask K) : TimeIndexedTask K :=
  let self := { self with T := _T }
  let self := { self with Phi := VectorX.constant _T phi_in }
  let self := { self with y := self.Phi }
  let self := { self with rho := VectorX.constant self.T (VectorXd.Ones self.num_tasks) }
  let self :=
    if _prob.KIN_J then
      { self with
        jacobian := VectorX.constant self.T (MatrixXd.Zero self.length_jacobian _prob.N) }
    else self
  let self :=
    if _prob.KIN_J_DOT then
      { self with
        hessian := VectorX.constant self.T
          (VectorX.constant self.length_jacobian (MatrixXd.Zero _prob.N _prob.N)) }
    else self
  let self := { self with
    S := VectorX.constant self.T (MatrixXd.Identity self.length_jacobian self.length_jacobian) }
  { self with ydiff := VectorX.constant self.T (VectorXd.Zero self.length_jacobian) }

/-- The body of the task loop of `ReinitializeVariables` for task `i`. -/
def ReinitializeVariables.body (i : Nat) (self : TimeIndexedTask K) :
    Except (Exception K) (TimeIndexedTask K) :=
  let task := self.task_initializers_.getD i ⟨"", VectorXd.Zero 0, VectorXd.Zero 0⟩
  match ReinitializeVariables.goal i task self with
  | Except.error e => Except.error e
  | Except.ok self => ReinitializeVariables.rho i task self

/-- The method `TimeIndexedTask::ReinitializeVariables(_T, _prob, phi_in)`. -/
def ReinitializeVariables (_T : Nat) (_prob : PlanningProblem) (phi_in : TaskSpaceVector K)
    (self : TimeIndexedTask K) : Except (Exception K) (TimeIndexedTask K) :=
  let self := ReinitializeVariables.allocate _T _prob phi_in self
  if self.num_tasks ≠ self.task_initializers_.length then
    Except.error Exception.numberOfTasksMismatch
  else
    forRangeM 0 ReinitializeVariables.body self.num_tasks self

end TimeIndexedTask

/-! ## Example configurations -/

/-- A task map with three value rows and three Jacobian rows (a position). -/
def positionTask : TaskMap := ⟨0, 3, 0, 3, false, []⟩

/-- A task map with seven value rows and six Jacobian rows (a pose whose orientation
is a tagged block). -/
def poseTask : TaskMap := ⟨3, 7, 3, 6, false, [⟨1, 6⟩]⟩

/-- A task map with one value row and one Jacobian row. -/
def scalarTask : TaskMap := ⟨10, 1, 9, 1, false, []⟩

/-- A planning problem that provides the three example task maps. -/
def exampleProblem : PlanningProblem :=
  ⟨[("Position", positionTask), ("Pose", poseTask), ("Scalar", scalarTask)], true, false, 2⟩

/-- Two tasks without goal and without weight. -/
def twoInits {K : Type} [LinearOrderedField K] : List (TaskInitializer K) :=
  [⟨"Position", VectorXd.Zero 0, VectorXd.Zero 0⟩, ⟨"Pose", VectorXd.Zero 0, VectorXd.Zero 0⟩]

/-- One task of length 3 with a single goal `(1, 2, 3)` of length 3. -/
def broadcastInits {K : Type} [LinearOrderedField K] : List (TaskInitializer K) :=
  [⟨"Position", ⟨3, fun k => (k : K) + 1⟩, VectorXd.Zero 0⟩]

/-- A task of length 3 with the goals `(1, 2, 3)` and `(4, 5, 6)` for two timesteps,
followed by a task without goal. -/
def perTimestepInits {K : Type} [LinearOrderedField K] : List (TaskInitializer K) :=
  [⟨"Position", ⟨6, fun k => (k : K) + 1⟩, VectorXd.Zero 0⟩,
   ⟨"Pose", VectorXd.Zero 0, VectorXd.Zero 0⟩]

/-- One task of length 3 without goal. -/
def emptyGoalInits {K : Type} [LinearOrderedField K] : List (TaskInitializer K) :=
  [⟨"Position", VectorXd.Zero 0, VectorXd.Zero 0⟩]

/-- One task of length 1 with a goal of length 1 and a weight of length 1. -/
def scalarInits {K : Type} [LinearOrderedField K] : List (TaskInitializer K) :=
  [⟨"Scalar", ⟨1, fun _ => 4⟩, ⟨1, fun _ => 2⟩⟩]

/-! ## `tasks.cpp`: the single-pose and the sampling aggregator -/

/-- The range-based loop `for (const T& x : xs)` whose body does not throw. -/
def forEach {σ α : Type} (body : α → σ → σ) : List α → σ → σ
  | [], s => s
  | x :: xs, s => forEach body xs (body x s)

namespace MatrixXd

variable {K : Type} [LinearOrderedField K]

/-- Read of `m.middleRows(start, n)`; Eigen asserts that the rows lie inside `m`. -/
def middleRows (m : MatrixXd K) (start n : Nat) : Except (Exception K) (MatrixXd K) :=
  if start + n ≤ m.rows then Except.ok ⟨n, m.cols, fun r c => m.coeff (start + r) c⟩
  else Except.error Exception.eigenAssertion

/-- Write `m.middleRows(start, n) = src`; Eigen asserts that the rows lie inside `m` and
that `src` has `n` rows and as many columns as `m`. -/
def assignMiddleRows (m : MatrixXd K) (start n : Nat) (src : MatrixXd K) :
    Except (Exception K) (MatrixXd K) :=
  if start + n ≤ m.rows ∧ src.rows = n ∧ src.cols = m.cols then
    Except.ok ⟨m.rows, m.cols, fun r c =>
      if start ≤ r ∧ r < start + n then src.coeff (r - start) c else m.coeff r c⟩
  else Except.error Exception.eigenAssertion

end MatrixXd

/-- Modelled from the spec: `operator-` of `TaskSpaceVector` is not in the two source
files; the difference is the ordinary subtraction of the coefficients when no
coordinate carries a Lie-group tag, and otherwise the group difference, which is the
argument `lieDifference`. -/
def TaskSpaceVector.sub {K : Type} [LinearOrderedField K]
    (lieDifference : TaskSpaceVector K → TaskSpaceVector K → VectorXd K)
    (a b : TaskSpaceVector K) : VectorXd K :=
  if a.map.isEmpty then ⟨a.data.size, fun k => a.data.coeff k - b.data.coeff k⟩
  else lieDifference a b

namespace Task

variable {K : Type} [LinearOrderedField K]

/-- The assignment `Phi.data.segment(task.start, task.length) =
big_phi.data.segment(tasks[task.id]->start, tasks[task.id]->length)` of the `Update`
methods. -/
def copyValue (self : Task K) (task : TaskIndexing) (big_phi Phi : TaskSpaceVector K) :
    Except (Exception K) (TaskSpaceVector K) :=
  match big_phi.data.segment (self.task task.id).start (self.task task.id).length with
  | Except.error e => Except.error e
  | Except.ok src =>
    match Phi.data.assignSegment task.start task.length src with
    | Except.error e => Except.error e
    | Except.ok d => Except.ok ⟨d, Phi.map⟩

/-- The assignment `jacobian.middleRows(task.start_jacobian, task.length_jacobian) =
big_j.middleRows(tasks[task.id]->start_jacobian, tasks[task.id]->length_jacobian)` of the
`Update` methods. -/
def copyJacobian (self : Task K) (task : TaskIndexing) (big_j jacobian : MatrixXd K) :
    Except (Exception K) (MatrixXd K) :=
  match big_j.middleRows (self.task task.id).start_jacobian
      (self.task task.id).length_jacobian with
  | Except.error e => Except.error e
  | Except.ok src =>
    jacobian.assignMiddleRows task.start_jacobian task.length_jacobian src

/-- The goal part of the body of the task loop of `EndPoseTask::Initialize`, for task `i`
with initializer `task`; `SamplingTask::Initialize` repeats it word for word. -/
def goalPart (self : Task K) (i : Nat) (task : TaskInitializer K) (y : TaskSpaceVector K) :
    Except (Exception K) (TaskSpaceVector K) :=
  if task.Goal.size = 0 then
    Except.ok y
  else if task.Goal.size = (self.task i).length then
    match y.data.assignSegment (self.index i).start (self.index i).length task.Goal with
    | Except.error e => Except.error e
    | Except.ok d => Except.ok ⟨d, y.map⟩
  else
    Except.error (Exception.invalidTaskGoalSize (self.task i).length task.Goal.size)

/-- The weight part of the body of the task loop of `EndPoseTask::Initialize`;
`SamplingTask::Initialize` repeats it word for word. -/
def rhoPart (i : Nat) (task : TaskInitializer K) (rho : VectorXd K) :
    Except (Exception K) (VectorXd K) :=
  if task.Rho.size = 0 then
    Except.ok (rho.set i 1)
  else if task.Rho.size = 1 then
    Except.ok (rho.set i (task.Rho.coeff 0))
  else
    Except.error (Exception.invalidTaskRhoSize 1 task.Rho.size)

/-- Element `task_initializers_[i]`. -/
def initializer (self : Task K) (i : Nat) : TaskInitializer K :=
  self.task_initializers_.getD i ⟨"", VectorXd.Zero 0, VectorXd.Zero 0⟩

/-- The write `tasks[i]->is_used = true`, on the list `tasks`. The elements of `tasks`
are shared pointers into the problem's table of task maps, each pushed by
`Task::Initialize` together with the initializer whose name it was looked up by: two
elements point to the same task map exactly when their initializers carry the same
name. The write through the pointer sets the flag of that one task map, so of every
element of `tasks` that points to it. -/
def setUsed (self : Task K) (i : Nat) : List TaskMap :=
  if i < self.tasks.length then
    (List.range self.tasks.length).map (fun k =>
      if (self.initializer k).Task = (self.initializer i).Task then
        { self.task k with is_used := true }
      else self.task k)
  else self.tasks

/-- The body of the task loop of `EndPoseTask::Initialize` and of
`SamplingTask::Initialize` for task `i`, on the members `y` and `rho`; the initializer
is `inits[i]`. On a fresh object `num_tasks` is the length of `inits`; a read past the
end of `inits`, which only a repeated `Initialize` on the same object reaches, is taken
to give an initializer without goal and without weight. -/
def goalRhoBody (self : Task K) (inits : List (TaskInitializer K)) (i : Nat)
    (st : TaskSpaceVector K × VectorXd K) :
    Except (Exception K) (TaskSpaceVector K × VectorXd K) :=
  let task := inits.getD i ⟨"", VectorXd.Zero 0, VectorXd.Zero 0⟩
  match goalPart self i task st.1 with
  | Except.error e => Except.error e
  | Except.ok y =>
    match rhoPart i task st.2 with
    | Except.error e => Except.error e
    | Except.ok rho => Except.ok (y, rho)

end Task

/-- The members of the class `EndPoseTask`, which derives from `Task`. -/
structure EndPoseTask (K : Type) extends Task K where
  Phi : TaskSpaceVector K
  y : TaskSpaceVector K
  rho : VectorXd K
  jacobian : MatrixXd K
  hessian : Hessian K
  S : MatrixXd K
  ydiff : VectorXd K

namespace EndPoseTask

variable {K : Type} [LinearOrderedField K]

/-- The object built by the constructor `EndPoseTask::EndPoseTask()`. -/
def new : EndPoseTask K :=
  { toTask := Task.new, Phi := ⟨VectorXd.Zero 0, []⟩, y := ⟨VectorXd.Zero 0, []⟩,
    rho := VectorXd.Zero 0, jacobian := MatrixXd.Zero 0 0,
    hessian := ⟨0, fun _ => MatrixXd.Zero 0 0⟩, S := MatrixXd.Zero 0 0,
    ydiff := VectorXd.Zero 0 }

/-- The assignments of `EndPoseTask::Initialize` between the call of `Task::Initialize`
and the task loop. The matrix constructed without initial value is taken to hold
zeros. -/
def Initialize.allocate (prob : PlanningProblem) (base : Task K) (Phi : TaskSpaceVector K)
    (self : EndPoseTask K) : EndPoseTask K :=
  let self := { self with toTask := base, Phi := Phi }
  let self := { self with y := self.Phi }
  let self := { self with y := self.y.SetZero self.length_phi }
  let self := { self with rho := VectorXd.Ones self.num_tasks }
  let self :=
    if prob.KIN_J then
      { self with jacobian := MatrixXd.Zero self.length_jacobian prob.N }
    else self
  let self :=
    if prob.KIN_J_DOT then
      { self with
        hessian := VectorX.constant self.length_jacobian (MatrixXd.Zero prob.N prob.N) }
    else self
  let self := { self with
    S := MatrixXd.Identity self.length_jacobian self.length_jacobian }
  { self with ydiff := VectorXd.Zero self.length_jacobian }

/-- The method `EndPoseTask::Initialize(inits, prob, unused)`: `Task::Initialize` is
called on the member `Phi`, the last argument is not read. -/
def Initialize (inits : List (TaskInitializer K)) (prob : PlanningProblem)
    (_unused : TaskSpaceVector K) (self : EndPoseTask K) :
    Except (Exception K) (EndPoseTask K) :=
  match Task.Initialize inits prob self.Phi self.toTask with
  | Except.error e => Except.error e
  | Except.ok (base, Phi) =>
    let self := Initialize.allocate prob base Phi self
    match forRangeM 0 (Task.goalRhoBody self.toTask inits) self.num_tasks
        (self.y, self.rho) with
    | Except.error e => Except.error e
    | Except.ok st => Except.ok { self with y := st.1, rho := st.2 }

/-- The method `EndPoseTask::UpdateS()`. -/
def UpdateS (self : EndPoseTask K) : EndPoseTask K :=
  forEach (fun (task : TaskIndexing) (self : EndPoseTask K) =>
    let self := forRange 0 (fun i (self : EndPoseTask K) =>
      { self with
        S := self.S.set (i + task.start_jacobian) (i + task.start_jacobian)
          (self.rho.coeff task.id) }) task.length_jacobian self
    if self.rho.coeff task.id ≠ 0 then
      { self with tasks := self.toTask.setUsed task.id }
    else self) self.indexing self

/-- The loop of `EndPoseTask::Update(big_phi, big_j)` on the members `Phi` and
`jacobian`. -/
def Update.copyLoop (self : Task K) (big_phi : TaskSpaceVector K) (big_j : MatrixXd K)
    (st : TaskSpaceVector K × MatrixXd K) :
    Except (Exception K) (TaskSpaceVector K × MatrixXd K) :=
  forEachM (fun (task : TaskIndexing) (st : TaskSpaceVector K × MatrixXd K) =>
    match self.copyValue task big_phi st.1 with
    | Except.error e => Except.error e
    | Except.ok Phi =>
      match self.copyJacobian task big_j st.2 with
      | Except.error e => Except.error e
      | Except.ok jacobian => Except.ok (Phi, jacobian)) self.indexing st

/-- The method `EndPoseTask::Update(big_phi, big_j)`. -/
def Update (lieDifference : TaskSpaceVector K → TaskSpaceVector K → VectorXd K)
    (big_phi : TaskSpaceVector K) (big_j : MatrixXd K) (self : EndPoseTask K) :
    Except (Exception K) (EndPoseTask K) :=
  match Update.copyLoop self.toTask big_phi big_j (self.Phi, self.jacobian) with
  | Except.error e => Except.error e
  | Except.ok st =>
    let self := { self with Phi := st.1, jacobian := st.2 }
    Except.ok { self with ydiff := TaskSpaceVector.sub lieDifference self.Phi self.y }

/-- A step of a client of the aggregator: a write `rho(i) = v` to the public member
`rho`, or a call of `UpdateS()`. -/
inductive Op (K : Type) where
  | setRho (i : Nat) (v : K)
  | updateS

/-- The effect of one client step. -/
def Op.apply : Op K → EndPoseTask K → EndPoseTask K
  | Op.setRho i v, self => { self with rho := self.rho.set i v }
  | Op.updateS, self => self.UpdateS

/-- A sequence of client steps, run in order. -/
def run (ops : List (Op K)) (self : EndPoseTask K) : EndPoseTask K :=
  forEach Op.apply ops self

end EndPoseTask

/-- The members of the class `SamplingTask`, which derives from `Task`. -/
structure SamplingTask (K : Type) extends Task K where
  Phi : TaskSpaceVector K
  y : TaskSpaceVector K
  rho : VectorXd K
  S : MatrixXd K
  ydiff : VectorXd K
  tolerance : K

namespace SamplingTask

variable {K : Type} [LinearOrderedField K]

/-- The object built by the constructor `SamplingTask::SamplingTask()`. -/
def new : SamplingTask K :=
  { toTask := Task.new, Phi := ⟨VectorXd.Zero 0, []⟩, y := ⟨VectorXd.Zero 0, []⟩,
    rho := VectorXd.Zero 0, S := MatrixXd.Zero 0 0, ydiff := VectorXd.Zero 0,
    tolerance := 0 }

/-- The assignments of `SamplingTask::Initialize` between the call of
`Task::Initialize` and the task loop. -/
def Initialize.allocate (base : Task K) (Phi : TaskSpaceVector K) (self : SamplingTask K) :
    SamplingTask K :=
  let self := { self with toTask := base, Phi := Phi }
  let self := { self with y := self.Phi }
  let self := { self with y := self.y.SetZero self.length_phi }
  let self := { self with rho := VectorXd.Ones self.num_tasks }
  let self := { self with
    S := MatrixXd.Identity self.length_jacobian self.length_jacobian }
  { self with ydiff := VectorXd.Zero self.length_jacobian }

/-- The method `SamplingTask::Initialize(inits, prob, unused)`. -/
def Initialize (inits : List (TaskInitializer K)) (prob : PlanningProblem)
    (_unused : TaskSpaceVector K) (self : SamplingTask K) :
    Except (Exception K) (SamplingTask K) :=
  match Task.Initialize inits prob self.Phi self.toTask with
  | Except.error e => Except.error e
  | Except.ok (base, Phi) =>
    let self := Initialize.allocate base Phi self
    match forRangeM 0 (Task.goalRhoBody self.toTask inits) self.num_tasks
        (self.y, self.rho) with
    | Except.error e => Except.error e
    | Except.ok st => Except.ok { self with y := st.1, rho := st.2 }

/-- The copy loop of `SamplingTask::Update(big_phi)` on the member `Phi`. -/
def Update.copyLoop (self : Task K) (big_phi Phi : TaskSpaceVector K) :
    Except (Exception K) (TaskSpaceVector K) :=
  forEachM (fun (task : TaskIndexing) (Phi : TaskSpaceVector K) =>
    self.copyValue task big_phi Phi) self.indexing Phi

/-- The last loop of `SamplingTask::Update`: every component of `ydiff` whose absolute
value is below `tolerance` is set to zero. -/
def Update.deadband (tolerance : K) (ydiff : VectorXd K) : VectorXd K :=
  forRange 0 (fun i (ydiff : VectorXd K) =>
    if |ydiff.coeff i| < tolerance then ydiff.set i 0 else ydiff) ydiff.size ydiff

/-- The method `SamplingTask::Update(big_phi)`. -/
def Update (lieDifference : TaskSpaceVector K → TaskSpaceVector K → VectorXd K)
    (big_phi : TaskSpaceVector K) (self : SamplingTask K) :
    Except (Exception K) (SamplingTask K) :=
  match Update.copyLoop self.toTask big_phi self.Phi with
  | Except.error e => Except.error e
  | Except.ok Phi =>
    let self := { self with Phi := Phi }
    let self := { self with ydiff := TaskSpaceVector.sub lieDifference self.Phi self.y }
    Except.ok { self with ydiff := Update.deadband self.tolerance self.ydiff }

end SamplingTask

/-! ## Example configurations of the single-pose aggregators -/

/-- A task of length 3 with the goal `(1, 2, 3)`, followed by a task without goal and
with the weight `2`. -/
def goalInits {K : Type} [LinearOrderedField K] : List (TaskInitializer K) :=
  [⟨"Position", ⟨3, fun k => (k : K) + 1⟩, VectorXd.Zero 0⟩,
   ⟨"Pose", VectorXd.Zero 0, ⟨1, fun _ => 2⟩⟩]

/-- The task map `Position` stacked twice, with the weight `0` and with the weight
`1`. -/
def aliasedInits {K : Type} [LinearOrderedField K] : List (TaskInitializer K) :=
  [⟨"Position", VectorXd.Zero 0, ⟨1, fun _ => 0⟩⟩,
   ⟨"Position", VectorXd.Zero 0, ⟨1, fun _ => 1⟩⟩]

/-- One task of length 3 with a goal of length 2. -/
def shortGoalInits {K : Type} [LinearOrderedField K] : List (TaskInitializer K) :=
  [⟨"Position", ⟨2, fun k => (k : K) + 1⟩, VectorXd.Zero 0⟩]

/-- One task without goal and with a weight of length 2. -/
def longRhoInits {K : Type} [LinearOrderedField K] : List (TaskInitializer K) :=
  [⟨"Position", VectorXd.Zero 0, ⟨2, fun _ => 1⟩⟩]

/-- A provider vector of three coefficients `(5e-4, 2e-3, 1)`, without Lie-group tags. -/
def smallResiduals {K : Type} [LinearOrderedField K] : TaskSpaceVector K :=
  ⟨⟨3, fun k => if k = 0 then 1 / 2000 else if k = 1 then 1 / 500 else 1⟩, []⟩

/-- A task of length 3 with the goal `(1, 2, 3)`, followed by a task of length 1 without
goal; both without weight. -/
def positionScalarInits {K : Type} [LinearOrderedField K] : List (TaskInitializer K) :=
  [⟨"Position", ⟨3, fun k => (k : K) + 1⟩, VectorXd.Zero 0⟩,
   ⟨"Scalar", VectorXd.Zero 0, VectorXd.Zero 0⟩]

/-- A provider value vector for `exampleProblem`: 11 coefficients `a, a + 1, ...`,
without Lie-group tags. -/
def providerPhi {K : Type} [LinearOrderedField K] (a : K) : TaskSpaceVector K :=
  ⟨⟨11, fun k => a + (k : K)⟩, []⟩

/-- A provider Jacobian for `exampleProblem`: 10 rows and 2 columns, the entry at
`(r, c)` is `a + 2 r + c`. -/
def providerJ {K : Type} [LinearOrderedField K] (a : K) : MatrixXd K :=
  ⟨10, 2, fun r c => a + 2 * (r : K) + (c : K)⟩

/-- The aggregator left by `EndPoseTask::Initialize` on `positionScalarInits` and
`exampleProblem`. -/
def stackedExample {K : Type} [LinearOrderedField K] : EndPoseTask K :=
  match EndPoseTask.Initialize (positionScalarInits : List (TaskInitializer K)) exampleProblem
      ⟨VectorXd.Zero 0, []⟩ EndPoseTask.new with
  | Except.ok s => s
  | Except.error _ => EndPoseTask.new

/-! ## The value-only overload of `IMesh::Update` -/

/-- Write of one coefficient `v(i) = a` with Eigen's index check: the index has to lie
inside `v` (the access is out of bounds otherwise). -/
def VectorXd.assignCoeff {K : Type} [LinearOrderedField K] (v : VectorXd K) (i : Nat) (a : K) :
    Except (Exception K) (VectorXd K) :=
  if i < v.size then Except.ok (v.set i a) else Except.error Exception.eigenAssertion

/-- The loop of `IMesh::Update(x, Phi)` that gathers the effector positions. The vector
is declared as `Eigen::VectorXd eff_phi;`, without a size, so it has no coefficient
when the loop starts. -/
def IMesh.Update.valueOnly.effPhi {K : Type} [LinearOrderedField K] (M : Nat)
    (Phi : Nat → Vector3d K) : Except (Exception K) (VectorXd K) :=
  forRangeM 0 (fun i (eff_phi : VectorXd K) =>
    match eff_phi.assignCoeff (i * 3) (Phi i).x with
    | Except.error e => Except.error e
    | Except.ok eff_phi =>
      match eff_phi.assignCoeff (i * 3 + 1) (Phi i).y with
      | Except.error e => Except.error e
      | Except.ok eff_phi => eff_phi.assignCoeff (i * 3 + 2) (Phi i).z)
    M (VectorXd.Zero 0)

/-- The overload `IMesh::Update(x, Phi)`: the configuration `x` is not read, the result
is the written buffer `Phi`. The debug publication is left out. -/
def IMesh.Update.valueOnly {K : Type} [LinearOrderedField K] (sqrt : K → K) (self : IMesh K)
    (kinematics : KinematicResponse K) (Phi : VectorXd K) :
    Except (Exception K) (VectorXd K) :=
  let M := self.eff_size_
  if Phi.size ≠ M * 3 then Except.error Exception.wrongSizeOfPhi
  else
    match IMesh.Update.valueOnly.effPhi M kinematics.Phi with
    | Except.error e => Except.error e
    | Except.ok eff_phi =>
      let Phi := (IMesh.ComputeLaplace sqrt eff_phi self.weights_).Phi
      Except.ok Phi

/-! ## The overload of `EndPoseTask::Update` with a Hessian -/

/-- Read of `h.segment(start, n)` of an array of matrices; Eigen asserts that the
segment lies inside `h`. -/
def Hessian.segment {K : Type} [LinearOrderedField K] (h : Hessian K) (start n : Nat) :
    Except (Exception K) (Hessian K) :=
  if start + n ≤ h.size then Except.ok ⟨n, fun k => h.coeff (start + k)⟩
  else Except.error Exception.eigenAssertion

/-- Write `h.segment(start, n) = src`; Eigen asserts that the segment lies inside `h`
and that `src` has `n` entries. -/
def Hessian.assignSegment {K : Type} [LinearOrderedField K] (h : Hessian K) (start n : Nat)
    (src : Hessian K) : Except (Exception K) (Hessian K) :=
  if start + n ≤ h.size ∧ src.size = n then
    Except.ok ⟨h.size, fun k =>
      if start ≤ k ∧ k < start + n then src.coeff (k - start) else h.coeff k⟩
  else Except.error Exception.eigenAssertion

/-- The assignment `hessian.segment(task.start, task.length) =
big_h.segment(tasks[task.id]->start, tasks[task.id]->length)` of
`EndPoseTask::Update(big_phi, big_j, big_h)`. -/
def Task.copyHessian {K : Type} [LinearOrderedField K] (self : Task K) (task : TaskIndexing)
    (big_h hessian : Hessian K) : Except (Exception K) (Hessian K) :=
  match Hessian.segment big_h (self.task task.id).start (self.task task.id).length with
  | Except.error e => Except.error e
  | Except.ok src => Hessian.assignSegment hessian task.start task.length src

/-- The loop of `EndPoseTask::Update(big_phi, big_j, big_h)` on the members `Phi`,
`jacobian` and `hessian`. -/
def EndPoseTask.Update.withHessian.copyLoop {K : Type} [LinearOrderedField K] (self : Task K)
    (big_phi : TaskSpaceVector K) (big_j : MatrixXd K) (big_h : Hessian K)
    (st : TaskSpaceVector K × MatrixXd K × Hessian K) :
    Except (Exception K) (TaskSpaceVector K × MatrixXd K × Hessian K) :=
  forEachM (fun (task : TaskIndexing) (st : TaskSpaceVector K × MatrixXd K × Hessian K) =>
    match self.copyValue task big_phi st.1 with
    | Except.error e => Except.error e
    | Except.ok Phi =>
      match self.copyJacobian task big_j st.2.1 with
      | Except.error e => Except.error e
      | Except.ok jacobian =>
        match self.copyHessian task big_h st.2.2 with
        | Except.error e => Except.error e
        | Except.ok hessian => Except.ok (Phi, jacobian, hessian)) self.indexing st

/-- The overload `EndPoseTask::Update(big_phi, big_j, big_h)`. -/
def EndPoseTask.Update.withHessian {K : Type} [LinearOrderedField K]
    (lieDifference : TaskSpaceVector K → TaskSpaceVector K → VectorXd K)
    (big_phi : TaskSpaceVector K) (big_j : MatrixXd K) (big_h : Hessian K)
    (self : EndPoseTask K) : Except (Exception K) (EndPoseTask K) :=
  match EndPoseTask.Update.withHessian.copyLoop self.toTask big_phi big_j big_h
      (self.Phi, self.jacobian, self.hessian) with
  | Except.error e => Except.error e
  | Except.ok st =>
    let self := { self with
      Phi := st.fst
      jacobian := st.snd.fst
      hessian := st.snd.snd }
    Except.ok { self with ydiff := TaskSpaceVector.sub lieDifference self.Phi self.y }

/-- The planning problem `exampleProblem` with the second derivative requested as
well. -/
def hessianProblem : PlanningProblem :=
  ⟨[("Position", positionTask), ("Pose", poseTask), ("Scalar", scalarTask)], true, true, 2⟩

/-- One task: the pose, with seven value rows and six Jacobian rows. -/
def poseInits {K : Type} [LinearOrderedField K] : List (TaskInitializer K) :=
  [⟨"Pose", VectorXd.Zero 0, VectorXd.Zero 0⟩]

/-- A provider Hessian of `n` entries, each a 2 × 2 matrix; every coefficient of entry
`r` is `r`. -/
def providerH {K : Type} [LinearOrderedField K] (n : Nat) : Hessian K :=
  ⟨n, fun r => ⟨2, 2, fun _ _ => (r : K)⟩⟩

/-! ## Loop lemmas -/

section LoopLemmas

variable {σ : Type}

theorem forRange_zero_succ (body : Nat → σ → σ) (n : Nat) (s : σ) :
    forRange 0 body (n + 1) s = body n (forRange 0 body n s) := by
  simp [forRange]

theorem forRange_succ_of_le (lo : Nat) (body : Nat → σ → σ) (n : Nat) (s : σ) (h : lo ≤ n) :
    forRange lo body (n + 1) s = body n (forRange lo body n s) := by
  simp [forRange, h]

theorem forRange_of_le (lo : Nat) (body : Nat → σ → σ) (n : Nat) (s : σ) (h : n ≤ lo) :
    forRange lo body n s = s := by
  cases n with
  | zero => rfl
  | succ n =>
    have : ¬ lo ≤ n := by omega
    simp [forRange, this]

theorem forRange_invariant (P : σ → Prop) (lo : Nat) (body : Nat → σ → σ)
    (hbody : ∀ i s, P s → P (body i s)) (n : Nat) (s : σ) (hs : P s) :
    P (forRange lo body n s) := by
  induction n with
  | zero => exact hs
  | succ n ih =>
    unfold forRange
    split
    · exact hbody _ _ ih
    · exact hs

end LoopLemmas

/-! ## Reads after writes -/

section ReadWrite

variable {K : Type} [LinearOrderedField K]

theorem matrix_coeff_set (m : MatrixXd K) (r c : Nat) (a : K) (r1 c1 : Nat) :
    (m.set r c a).coeff r1 c1 = if r1 = r ∧ c1 = c then a else m.coeff r1 c1 := rfl

theorem vector_coeff_set {α : Type} (v : VectorX α) (i : Nat) (a : α) (k : Nat) :
    (v.set i a).coeff k = if k = i then a else v.coeff k := rfl

theorem vector_size_set {α : Type} (v : VectorX α) (i : Nat) (a : α) :
    (v.set i a).size = v.size := rfl

theorem vector_coeff_setSegment3 (v : VectorXd K) (start : Nat) (p : Vector3d K) (k : Nat) :
    (v.setSegment3 start p).coeff k =
      if k = start then p.x else if k = start + 1 then p.y else if k = start + 2 then p.z
      else v.coeff k := rfl

theorem vector_size_setSegment3 (v : VectorXd K) (start : Nat) (p : Vector3d K) :
    (v.setSegment3 start p).size = v.size := rfl

theorem vector_segment3_setSegment3 (v : VectorXd K) (start : Nat) (p : Vector3d K) :
    (v.setSegment3 start p).segment3 start = p := by
  cases p
  simp [VectorXd.segment3, VectorXd.setSegment3]

end ReadWrite

/-! ## Closed form of `ComputeLaplace` -/

namespace IMesh

variable {K : Type} [LinearOrderedField K]

theorem specDist_comm (sqrt : K → K) (eff_phi : VectorXd K) (a b : Nat) :
    specDist sqrt eff_phi a b = specDist sqrt eff_phi b a := by
  unfold specDist Vector3d.norm
  congr 1
  simp only [Vector3d.squaredNorm, Vector3d.dot, Vector3d.sub]
  ring

theorem distLoop_inner_coeff (sqrt : K → K) (eff_phi : VectorXd K) (N j : Nat)
    (dist : MatrixXd K) (hi : Nat) (hhi : hi ≤ N) (a b : Nat) :
    (forRange (j + 1) (fun l (dist : MatrixXd K) =>
      if ¬ (j ≥ N ∧ l ≥ N) then
        let d := ((eff_phi.segment3 (j * 3)).sub (eff_phi.segment3 (l * 3))).norm sqrt
        (dist.set l j d).set j l d
      else dist) hi dist).coeff a b
    = if a = j ∧ j < b ∧ b < hi then specDist sqrt eff_phi a b
      else if b = j ∧ j < a ∧ a < hi then specDist sqrt eff_phi b a
      else dist.coeff a b := by
  induction hi with
  | zero => simp [forRange]
  | succ n ih =>
    have ih1 := ih (by omega)
    by_cases hjn : j + 1 ≤ n
    · rw [forRange_succ_of_le _ _ _ _ hjn]
      have hc : ¬ (j ≥ N ∧ n ≥ N) := by omega
      simp only [hc, not_false_eq_true, if_true, matrix_coeff_set]
      rw [ih1]
      by_cases h1 : a = j ∧ b = n
      · obtain ⟨rfl, rfl⟩ := h1
        have : a < b := by omega
        simp [this, specDist, point]
      · rw [if_neg h1]
        by_cases h2 : a = n ∧ b = j
        · obtain ⟨rfl, rfl⟩ := h2
          have h3 : ¬ (a = b ∧ b < a ∧ a < a + 1) := by omega
          have h4 : b < a := by omega
          simp [h3, h4, specDist, point]
        · rw [if_neg h2]
          have e1 : (a = j ∧ j < b ∧ b < n + 1) ↔ (a = j ∧ j < b ∧ b < n) := by
            constructor
            · rintro ⟨h5, h6, h7⟩
              exact ⟨h5, h6, by
                rcases Nat.lt_or_ge b n with h8 | h8
                · exact h8
                · exact absurd ⟨h5, by omega⟩ h1⟩
            · rintro ⟨h5, h6, h7⟩
              exact ⟨h5, h6, by omega⟩
          have e2 : (b = j ∧ j < a ∧ a < n + 1) ↔ (b = j ∧ j < a ∧ a < n) := by
            constructor
            · rintro ⟨h5, h6, h7⟩
              exact ⟨h5, h6, by
                rcases Nat.lt_or_ge a n with h8 | h8
                · exact h8
                · exact absurd ⟨by omega, h5⟩ h2⟩
            · rintro ⟨h5, h6, h7⟩
              exact ⟨h5, h6, by omega⟩
          simp only [e1, e2]
    · rw [forRange_of_le _ _ _ _ (by omega)]
      have e1 : ¬ (a = j ∧ j < b ∧ b < n + 1) := by omega
      have e2 : ¬ (b = j ∧ j < a ∧ a < n + 1) := by omega
      simp [e1, e2]

theorem distLoop_outer_coeff (sqrt : K → K) (eff_phi : VectorXd K) (N : Nat)
    (dist : MatrixXd K) (hj : Nat) (hhj : hj ≤ N) (a b : Nat) :
    (forRange 0 (fun j (dist : MatrixXd K) =>
      forRange (j + 1) (fun l (dist : MatrixXd K) =>
        if ¬ (j ≥ N ∧ l ≥ N) then
          let d := ((eff_phi.segment3 (j * 3)).sub (eff_phi.segment3 (l * 3))).norm sqrt
          (dist.set l j d).set j l d
        else dist) N dist) hj dist).coeff a b
    = if a < b ∧ a < hj ∧ b < N then specDist sqrt eff_phi a b
      else if b < a ∧ b < hj ∧ a < N then specDist sqrt eff_phi b a
      else dist.coeff a b := by
  induction hj with
  | zero => simp [forRange]
  | succ n ih =>
    have ih1 := ih (by omega)
    rw [forRange_zero_succ, distLoop_inner_coeff sqrt eff_phi N n _ N le_rfl, ih1]
    by_cases h1 : a = n ∧ n < b ∧ b < N
    · have h2 : a < b ∧ a < n + 1 ∧ b < N := by omega
      rw [if_pos h1, if_pos h2]
    · rw [if_neg h1]
      by_cases h3 : b = n ∧ n < a ∧ a < N
      · have h4 : ¬ (a < b ∧ a < n + 1 ∧ b < N) := by omega
        have h5 : b < a ∧ b < n + 1 ∧ a < N := by omega
        rw [if_pos h3, if_neg h4, if_pos h5]
      · rw [if_neg h3]
        have e1 : (a < b ∧ a < n + 1 ∧ b < N) ↔ (a < b ∧ a < n ∧ b < N) := by
          constructor
          · rintro ⟨h5, h6, h7⟩
            refine ⟨h5, ?_, h7⟩
            rcases Nat.lt_or_ge a n with h8 | h8
            · exact h8
            · exact absurd ⟨by omega, by omega, h7⟩ h1
          · rintro ⟨h5, h6, h7⟩
            exact ⟨h5, by omega, h7⟩
        have e2 : (b < a ∧ b < n + 1 ∧ a < N) ↔ (b < a ∧ b < n ∧ a < N) := by
          constructor
          · rintro ⟨h5, h6, h7⟩
            refine ⟨h5, ?_, h7⟩
            rcases Nat.lt_or_ge b n with h8 | h8
            · exact h8
            · exact absurd ⟨by omega, by omega, h7⟩ h3
          · rintro ⟨h5, h6, h7⟩
            exact ⟨h5, by omega, h7⟩
        simp only [e1, e2]

/-- The distance matrix written by the first loop nest: `d(a,b)` off the diagonal
of the leading `N × N` block, zero elsewhere. -/
theorem distLoop_coeff (sqrt : K → K) (eff_phi : VectorXd K) (N a b : Nat) :
    (ComputeLaplace.distLoop sqrt eff_phi N (MatrixXd.Zero N N)).coeff a b
    = if a ≠ b ∧ a < N ∧ b < N then specDist sqrt eff_phi a b else 0 := by
  unfold ComputeLaplace.distLoop
  rw [distLoop_outer_coeff sqrt eff_phi N _ N le_rfl]
  by_cases h1 : a < b ∧ a < N ∧ b < N
  · rw [if_pos h1, if_pos (by omega)]
  · rw [if_neg h1]
    by_cases h2 : b < a ∧ b < N ∧ a < N
    · rw [if_pos h2, if_pos (by omega), specDist_comm]
    · rw [if_neg h2, if_neg (by omega)]
      rfl

theorem wsumLoop_inner (weights dist : MatrixXd K) (j : Nat) (wsum : VectorXd K)
    (hi : Nat) (a : Nat) :
    (forRange 0 (fun l (wsum : VectorXd K) =>
      if dist.coeff j l > 0 ∧ j ≠ l then
        wsum.set j (wsum.coeff j + weights.coeff j l / dist.coeff j l)
      else wsum) hi wsum).coeff a
    = if a = j then wsum.coeff j + ∑ l ∈ Finset.range hi,
        (if dist.coeff j l > 0 ∧ j ≠ l then weights.coeff j l / dist.coeff j l else 0)
      else wsum.coeff a := by
  induction hi generalizing a with
  | zero =>
    simp only [forRange, Finset.range_zero, Finset.sum_empty, add_zero]
    split
    · next h => rw [h]
    · rfl
  | succ n ih =>
    rw [forRange_zero_succ, Finset.sum_range_succ]
    by_cases h : dist.coeff j n > 0 ∧ j ≠ n
    · rw [if_pos h, if_pos h, vector_coeff_set, ih j, if_pos rfl]
      by_cases hk : a = j
      · rw [if_pos hk, if_pos hk, add_assoc]
      · rw [if_neg hk, if_neg hk, ih a, if_neg hk]
    · rw [if_neg h, if_neg h, add_zero, ih a]

theorem wsumLoop_outer (weights dist : MatrixXd K) (N : Nat) (wsum : VectorXd K)
    (hj : Nat) (a : Nat) :
    (forRange 0 (fun j (wsum : VectorXd K) =>
      forRange 0 (fun l (wsum : VectorXd K) =>
        if dist.coeff j l > 0 ∧ j ≠ l then
          wsum.set j (wsum.coeff j + weights.coeff j l / dist.coeff j l)
        else wsum) N wsum) hj wsum).coeff a
    = if a < hj then wsum.coeff a + ∑ l ∈ Finset.range N,
        (if dist.coeff a l > 0 ∧ a ≠ l then weights.coeff a l / dist.coeff a l else 0)
      else wsum.coeff a := by
  induction hj with
  | zero => simp [forRange]
  | succ n ih =>
    rw [forRange_zero_succ, wsumLoop_inner]
    by_cases h : a = n
    · subst h
      rw [if_pos rfl, ih, if_neg (lt_irrefl a), if_pos (Nat.lt_succ_self a)]
    · rw [if_neg h, ih]
      by_cases h2 : a < n
      · rw [if_pos h2, if_pos (by omega)]
      · rw [if_neg h2, if_neg (by omega)]

/-- The normaliser written by the second loop nest. -/
theorem wsumLoop_coeff (weights dist : MatrixXd K) (N a : Nat) :
    (ComputeLaplace.wsumLoop weights dist N (VectorXd.Zero N)).coeff a
    = if a < N then ∑ l ∈ Finset.range N,
        (if dist.coeff a l > 0 ∧ a ≠ l then weights.coeff a l / dist.coeff a l else 0)
      else 0 := by
  unfold ComputeLaplace.wsumLoop
  rw [wsumLoop_outer]
  simp [VectorXd.Zero]

theorem phiLoop_inner (eff_phi : VectorXd K) (weights dist : MatrixXd K)
    (wsum : VectorXd K) (j : Nat) (Phi : VectorXd K) (hi : Nat) (k : Nat) :
    (forRange 0 (fun l (Phi : VectorXd K) =>
      if j ≠ l then
        if dist.coeff j l > 0 ∧ wsum.coeff j > 0 then
          Phi.setSegment3 (j * 3)
            ((Phi.segment3 (j * 3)).sub
              (((eff_phi.segment3 (l * 3)).mulScalar (weights.coeff j l)).divScalar
                (dist.coeff j l * wsum.coeff j)))
        else Phi
      else Phi) hi Phi).coeff k
    = if j * 3 ≤ k ∧ k < j * 3 + 3 then
        Phi.coeff k - ∑ l ∈ Finset.range hi,
          (if j ≠ l ∧ dist.coeff j l > 0 ∧ wsum.coeff j > 0 then
            eff_phi.coeff (l * 3 + (k - j * 3)) * weights.coeff j l
              / (dist.coeff j l * wsum.coeff j)
          else 0)
      else Phi.coeff k := by
  induction hi generalizing k with
  | zero => simp [forRange]
  | succ n ih =>
    rw [forRange_zero_succ, Finset.sum_range_succ]
    generalize forRange 0 _ n Phi = s at ih ⊢
    by_cases h1 : j ≠ n
    · by_cases h2 : dist.coeff j n > 0 ∧ wsum.coeff j > 0
      · have h3 : j ≠ n ∧ dist.coeff j n > 0 ∧ wsum.coeff j > 0 := ⟨h1, h2⟩
        simp only [if_pos h1, if_pos h2, if_pos h3]
        rw [vector_coeff_setSegment3]
        simp only [VectorXd.segment3, Vector3d.sub, Vector3d.mulScalar, Vector3d.divScalar]
        by_cases hk0 : k = j * 3
        · subst hk0
          rw [if_pos rfl, ih, if_pos (by omega), if_pos (by omega)]
          simp only [Nat.sub_self, Nat.add_zero]
          ring
        · rw [if_neg hk0]
          by_cases hk1 : k = j * 3 + 1
          · subst hk1
            rw [if_pos rfl, ih, if_pos (by omega), if_pos (by omega)]
            simp only [Nat.add_sub_cancel_left]
            ring
          · rw [if_neg hk1]
            by_cases hk2 : k = j * 3 + 2
            · subst hk2
              rw [if_pos rfl, ih, if_pos (by omega), if_pos (by omega)]
              simp only [Nat.add_sub_cancel_left]
              ring
            · rw [if_neg hk2, ih, if_neg (by omega), if_neg (by omega)]
      · have h3 : ¬ (j ≠ n ∧ dist.coeff j n > 0 ∧ wsum.coeff j > 0) := fun h => h2 h.2
        simp only [if_pos h1, if_neg h2, if_neg h3, add_zero]
        exact ih k
    · have h3 : ¬ (j ≠ n ∧ dist.coeff j n > 0 ∧ wsum.coeff j > 0) := fun h => h1 h.1
      simp only [if_neg h1, if_neg h3, add_zero]
      exact ih k

theorem phiLoop_outer (eff_phi : VectorXd K) (weights dist : MatrixXd K)
    (wsum : VectorXd K) (N : Nat) (Phi : VectorXd K) (hj : Nat) (k : Nat) :
    (forRange 0 (fun j (Phi : VectorXd K) =>
      let Phi := Phi.setSegment3 (j * 3) (eff_phi.segment3 (j * 3))
      forRange 0 (fun l (Phi : VectorXd K) =>
        if j ≠ l then
          if dist.coeff j l > 0 ∧ wsum.coeff j > 0 then
            Phi.setSegment3 (j * 3)
              ((Phi.segment3 (j * 3)).sub
                (((eff_phi.segment3 (l * 3)).mulScalar (weights.coeff j l)).divScalar
                  (dist.coeff j l * wsum.coeff j)))
          else Phi
        else Phi) N Phi) hj Phi).coeff k
    = if k < hj * 3 then
        eff_phi.coeff k - ∑ l ∈ Finset.range N,
          (if k / 3 ≠ l ∧ dist.coeff (k / 3) l > 0 ∧ wsum.coeff (k / 3) > 0 then
            eff_phi.coeff (l * 3 + k % 3) * weights.coeff (k / 3) l
              / (dist.coeff (k / 3) l * wsum.coeff (k / 3))
          else 0)
      else Phi.coeff k := by
  induction hj generalizing k with
  | zero => simp [forRange]
  | succ n ih =>
    rw [forRange_zero_succ]
    simp only []
    rw [phiLoop_inner]
    by_cases h1 : n * 3 ≤ k ∧ k < n * 3 + 3
    · have hq : k / 3 = n := by omega
      have hr : k - n * 3 = k % 3 := by omega
      rw [if_pos h1, if_pos (by omega), vector_coeff_setSegment3, hq, hr]
      congr 1
      simp only [VectorXd.segment3]
      by_cases hk0 : k = n * 3
      · rw [if_pos hk0, hk0]
      · rw [if_neg hk0]
        by_cases hk1 : k = n * 3 + 1
        · rw [if_pos hk1, hk1]
        · rw [if_neg hk1]
          have hk2 : k = n * 3 + 2 := by omega
          rw [if_pos hk2, hk2]
    · rw [if_neg h1, vector_coeff_setSegment3, if_neg (by omega), if_neg (by omega),
        if_neg (by omega), ih]
      by_cases h2 : k < n * 3
      · rw [if_pos h2, if_pos (by omega)]
      · rw [if_neg h2, if_neg (by omega)]

theorem phiLoop_size (eff_phi : VectorXd K) (weights dist : MatrixXd K)
    (wsum : VectorXd K) (N : Nat) (Phi : VectorXd K) :
    (ComputeLaplace.phiLoop eff_phi weights dist wsum N Phi).size = Phi.size := by
  unfold ComputeLaplace.phiLoop
  have key : ∀ (hj : Nat) (P0 : VectorXd K), P0.size = Phi.size →
      (forRange 0 (fun j (Phi : VectorXd K) =>
        let Phi := Phi.setSegment3 (j * 3) (eff_phi.segment3 (j * 3))
        forRange 0 (fun l (Phi : VectorXd K) =>
          if j ≠ l then
            if dist.coeff j l > 0 ∧ wsum.coeff j > 0 then
              Phi.setSegment3 (j * 3)
                ((Phi.segment3 (j * 3)).sub
                  (((eff_phi.segment3 (l * 3)).mulScalar (weights.coeff j l)).divScalar
                    (dist.coeff j l * wsum.coeff j)))
            else Phi
          else Phi) N Phi) hj P0).size = Phi.size := by
    intro hj P0 h0
    apply forRange_invariant (fun (v : VectorXd K) => v.size = Phi.size)
    · intro j v hv
      apply forRange_invariant (fun (v : VectorXd K) => v.size = Phi.size)
      · intro l w hw
        dsimp only
        split
        · split
          · exact hw
          · exact hw
        · exact hw
      · exact hv
    · exact h0
  exact key N Phi rfl

theorem ComputeLaplace_dist (sqrt : K → K) (eff_phi : VectorXd K) (weights : MatrixXd K)
    (a b : Nat) :
    (ComputeLaplace sqrt eff_phi weights).dist.coeff a b
    = if a ≠ b ∧ a < eff_phi.size / 3 ∧ b < eff_phi.size / 3 then specDist sqrt eff_phi a b
      else 0 := by
  unfold ComputeLaplace
  exact distLoop_coeff sqrt eff_phi _ a b

theorem sum_dist_eq_specWsum (sqrt : K → K) (eff_phi : VectorXd K) (weights : MatrixXd K)
    (N j : Nat) (hj : j < N) :
    (∑ l ∈ Finset.range N,
      (if (if j ≠ l ∧ j < N ∧ l < N then specDist sqrt eff_phi j l else 0) > 0 ∧ j ≠ l then
        weights.coeff j l / (if j ≠ l ∧ j < N ∧ l < N then specDist sqrt eff_phi j l else 0)
      else 0))
    = specWsum sqrt eff_phi weights N j := by
  unfold specWsum specNeighbours
  rw [Finset.sum_filter]
  apply Finset.sum_congr rfl
  intro l hl
  have hl2 : l < N := Finset.mem_range.mp hl
  by_cases h1 : j ≠ l
  · have h2 : j ≠ l ∧ j < N ∧ l < N := ⟨h1, hj, hl2⟩
    simp only [if_pos h2]
    by_cases h3 : 0 < specDist sqrt eff_phi j l
    · rw [if_pos ⟨h3, h1⟩, if_pos ⟨fun h => h1 h.symm, h3⟩]
    · rw [if_neg (fun h => h3 h.1), if_neg (fun h => h3 h.2)]
  · rw [if_neg (fun h => h1 h.2), if_neg (fun h => h1 (fun e => h.1 e.symm))]

theorem ComputeLaplace_wsum (sqrt : K → K) (eff_phi : VectorXd K) (weights : MatrixXd K)
    (j : Nat) :
    (ComputeLaplace sqrt eff_phi weights).wsum.coeff j
    = if j < eff_phi.size / 3 then specWsum sqrt eff_phi weights (eff_phi.size / 3) j
      else 0 := by
  unfold ComputeLaplace
  simp only []
  rw [wsumLoop_coeff]
  by_cases hj : j < eff_phi.size / 3
  · rw [if_pos hj, if_pos hj, ← sum_dist_eq_specWsum sqrt eff_phi weights _ j hj]
    apply Finset.sum_congr rfl
    intro l _
    rw [distLoop_coeff]
  · rw [if_neg hj, if_neg hj]

theorem ComputeLaplace_size (sqrt : K → K) (eff_phi : VectorXd K) (weights : MatrixXd K) :
    (ComputeLaplace sqrt eff_phi weights).Phi.size = eff_phi.size / 3 * 3 := by
  unfold ComputeLaplace
  simp only []
  rw [phiLoop_size]
  rfl

/-- Coefficient `k` of the vector returned by `ComputeLaplace`, in terms of the
spec's distances and normaliser. -/
theorem ComputeLaplace_coeff (sqrt : K → K) (eff_phi : VectorXd K) (weights : MatrixXd K)
    (k : Nat) :
    (ComputeLaplace sqrt eff_phi weights).Phi.coeff k
    = if k < eff_phi.size / 3 * 3 then
        eff_phi.coeff k - ∑ l ∈ Finset.range (eff_phi.size / 3),
          (if l ≠ k / 3 ∧ 0 < specDist sqrt eff_phi (k / 3) l
              ∧ 0 < specWsum sqrt eff_phi weights (eff_phi.size / 3) (k / 3) then
            eff_phi.coeff (l * 3 + k % 3) * weights.coeff (k / 3) l
              / (specDist sqrt eff_phi (k / 3) l
                  * specWsum sqrt eff_phi weights (eff_phi.size / 3) (k / 3))
          else 0)
      else 0 := by
  have hd := ComputeLaplace_dist sqrt eff_phi weights
  have hw := ComputeLaplace_wsum sqrt eff_phi weights
  unfold ComputeLaplace at hd hw ⊢
  simp only [] at hd hw ⊢
  unfold ComputeLaplace.phiLoop
  rw [phiLoop_outer]
  by_cases hk : k < eff_phi.size / 3 * 3
  · rw [if_pos hk, if_pos hk]
    congr 1
    apply Finset.sum_congr rfl
    intro l hl
    have hl2 : l < eff_phi.size / 3 := Finset.mem_range.mp hl
    have hq : k / 3 < eff_phi.size / 3 := by omega
    simp only [hd, hw, if_pos hq, gt_iff_lt]
    by_cases h1 : k / 3 ≠ l
    · have h1b : l ≠ k / 3 := fun e => h1 e.symm
      have hc : k / 3 ≠ l ∧ k / 3 < eff_phi.size / 3 ∧ l < eff_phi.size / 3 := ⟨h1, hq, hl2⟩
      simp only [if_pos hc]
      by_cases h2 : 0 < specDist sqrt eff_phi (k / 3) l
          ∧ 0 < specWsum sqrt eff_phi weights (eff_phi.size / 3) (k / 3)
      · have h3 : k / 3 ≠ l ∧ 0 < specDist sqrt eff_phi (k / 3) l
          ∧ 0 < specWsum sqrt eff_phi weights (eff_phi.size / 3) (k / 3) := ⟨h1, h2⟩
        have h4 : l ≠ k / 3 ∧ 0 < specDist sqrt eff_phi (k / 3) l
          ∧ 0 < specWsum sqrt eff_phi weights (eff_phi.size / 3) (k / 3) := ⟨h1b, h2⟩
        simp only [if_pos h3, if_pos h4]
      · have h3 : ¬ (k / 3 ≠ l ∧ 0 < specDist sqrt eff_phi (k / 3) l
          ∧ 0 < specWsum sqrt eff_phi weights (eff_phi.size / 3) (k / 3)) := fun h => h2 h.2
        have h4 : ¬ (l ≠ k / 3 ∧ 0 < specDist sqrt eff_phi (k / 3) l
          ∧ 0 < specWsum sqrt eff_phi weights (eff_phi.size / 3) (k / 3)) := fun h => h2 h.2
        simp only [if_neg h3, if_neg h4]
    · have h3 : ∀ (p : Prop), ¬ (k / 3 ≠ l ∧ p) := fun p h => h1 h.1
      have h4 : ∀ (p : Prop), ¬ (l ≠ k / 3 ∧ p) := fun p h => h1 (fun e => h.1 e.symm)
      rw [if_neg (h3 _), if_neg (h4 _)]
  · rw [if_neg hk, if_neg hk]
    rfl

/-- Coefficient `c` of block `j` of the returned vector, for `j` among the
`eff_phi.size / 3` points. -/
theorem ComputeLaplace_block_coeff (sqrt : K → K) (eff_phi : VectorXd K)
    (weights : MatrixXd K) (j c : Nat) (hj : j < eff_phi.size / 3) (hc : c < 3) :
    (ComputeLaplace sqrt eff_phi weights).Phi.coeff (j * 3 + c)
    = if 0 < specWsum sqrt eff_phi weights (eff_phi.size / 3) j then
        eff_phi.coeff (j * 3 + c)
          - ∑ l ∈ specNeighbours sqrt eff_phi (eff_phi.size / 3) j,
              specCoef sqrt eff_phi weights (eff_phi.size / 3) j l * eff_phi.coeff (l * 3 + c)
      else eff_phi.coeff (j * 3 + c) := by
  rw [ComputeLaplace_coeff, if_pos (by omega)]
  have hq : (j * 3 + c) / 3 = j := by omega
  have hr : (j * 3 + c) % 3 = c := by omega
  rw [hq, hr]
  by_cases hw : 0 < specWsum sqrt eff_phi weights (eff_phi.size / 3) j
  · rw [if_pos hw]
    congr 1
    unfold specNeighbours
    rw [Finset.sum_filter]
    apply Finset.sum_congr rfl
    intro l _
    by_cases h1 : l ≠ j ∧ 0 < specDist sqrt eff_phi j l
    · have h2 : l ≠ j ∧ 0 < specDist sqrt eff_phi j l
          ∧ 0 < specWsum sqrt eff_phi weights (eff_phi.size / 3) j := ⟨h1.1, h1.2, hw⟩
      rw [if_pos h1, if_pos h2]
      unfold specCoef
      ring
    · have h2 : ¬ (l ≠ j ∧ 0 < specDist sqrt eff_phi j l
          ∧ 0 < specWsum sqrt eff_phi weights (eff_phi.size / 3) j) :=
        fun h => h1 ⟨h.1, h.2.1⟩
      rw [if_neg h1, if_neg h2]
  · rw [if_neg hw]
    have h0 : ∀ l ∈ Finset.range (eff_phi.size / 3),
        (if l ≠ j ∧ 0 < specDist sqrt eff_phi j l
            ∧ 0 < specWsum sqrt eff_phi weights (eff_phi.size / 3) j then
          eff_phi.coeff (l * 3 + c) * weights.coeff j l
            / (specDist sqrt eff_phi j l * specWsum sqrt eff_phi weights (eff_phi.size / 3) j)
        else 0) = 0 := by
      intro l _
      rw [if_neg (fun h => hw h.2.2)]
    rw [Finset.sum_eq_zero h0, sub_zero]

/-- Block `j` of the returned vector is the spec's Laplace coordinate. -/
theorem ComputeLaplace_block (sqrt : K → K) (eff_phi : VectorXd K) (weights : MatrixXd K)
    (M : Nat) (hsize : eff_phi.size = 3 * M) (j : Nat) (hj : j < M) :
    (ComputeLaplace sqrt eff_phi weights).Phi.segment3 (j * 3)
      = specLaplace sqrt eff_phi weights M j := by
  have hN : eff_phi.size / 3 = M := by omega
  have hj2 : j < eff_phi.size / 3 := by omega
  have h0 := ComputeLaplace_block_coeff sqrt eff_phi weights j 0 hj2 (by omega)
  have h1 := ComputeLaplace_block_coeff sqrt eff_phi weights j 1 hj2 (by omega)
  have h2 := ComputeLaplace_block_coeff sqrt eff_phi weights j 2 hj2 (by omega)
  rw [hN] at h0 h1 h2
  unfold specLaplace
  simp only [VectorXd.segment3]
  rw [h1, h2]
  have h0b := h0
  rw [Nat.add_zero] at h0b
  rw [h0b]
  by_cases hw : 0 < specWsum sqrt eff_phi weights M j
  · simp only [if_pos hw, point, VectorXd.segment3, Vector3d.sub, Nat.add_zero]
  · simp only [if_neg hw, point, VectorXd.segment3, Nat.add_zero]

/-- C1. For a vector `eff_phi` of `M` points (`3M` scalars) and any weight matrix,
`ComputeLaplace` returns a vector of `3M` scalars whose `j`-th 3-block is the spec's
Laplace coordinate: `P_j − Σ_{l≠j, d(j,l)>0} W(j,l)/(d(j,l)·wsum(j)) · P_l` when
`wsum(j) > 0` and `P_j` otherwise, with `d(j,l) = ‖P_j − P_l‖` and
`wsum(j) = Σ_{l≠j, d(j,l)>0} W(j,l)/d(j,l)`. -/
theorem ComputeLaplace_spec (sqrt : K → K) (eff_phi : VectorXd K) (weights : MatrixXd K)
    (M : Nat) (hsize : eff_phi.size = 3 * M) :
    (ComputeLaplace sqrt eff_phi weights).Phi.size = 3 * M ∧
    ∀ j, j < M →
      (ComputeLaplace sqrt eff_phi weights).Phi.segment3 (j * 3)
        = specLaplace sqrt eff_phi weights M j := by
  have hN : eff_phi.size / 3 = M := by omega
  constructor
  · rw [ComputeLaplace_size, hN]
    omega
  · intro j hj
    exact ComputeLaplace_block sqrt eff_phi weights M hsize j hj

/-- Witness for C1 on the worked example (three points, unit weights), block 1. -/
theorem ComputeLaplace_spec_witness :
    (workedPoints : VectorXd ℝ).size = 3 * 3 ∧ 1 < 3 ∧
    (ComputeLaplace Real.sqrt (workedPoints : VectorXd ℝ) workedWeights).Phi.segment3 (1 * 3)
      = specLaplace Real.sqrt (workedPoints : VectorXd ℝ) workedWeights 3 1 :=
  ⟨rfl, by decide,
    (ComputeLaplace_spec Real.sqrt (workedPoints : VectorXd ℝ) workedWeights 3 rfl).2 1
      (by decide)⟩

/-! ## Translation invariance -/

theorem specDist_translate (sqrt : K → K) (eff_phi : VectorXd K) (t : Vector3d K)
    (j l : Nat) :
    specDist sqrt (translate eff_phi t) j l = specDist sqrt eff_phi j l := by
  unfold specDist Vector3d.norm
  congr 1
  have h0 : ∀ a : Nat, (a * 3) % 3 = 0 := by intro a; omega
  have h1 : ∀ a : Nat, (a * 3 + 1) % 3 = 1 := by intro a; omega
  have h2 : ∀ a : Nat, (a * 3 + 2) % 3 = 2 := by intro a; omega
  simp only [Vector3d.squaredNorm, Vector3d.dot, Vector3d.sub, point, VectorXd.segment3,
    translate, h0, h1, h2]
  ring

theorem specNeighbours_translate (sqrt : K → K) (eff_phi : VectorXd K) (t : Vector3d K)
    (M j : Nat) :
    specNeighbours sqrt (translate eff_phi t) M j = specNeighbours sqrt eff_phi M j := by
  unfold specNeighbours
  simp only [specDist_translate]

theorem specWsum_translate (sqrt : K → K) (eff_phi : VectorXd K) (weights : MatrixXd K)
    (t : Vector3d K) (M j : Nat) :
    specWsum sqrt (translate eff_phi t) weights M j = specWsum sqrt eff_phi weights M j := by
  unfold specWsum
  simp only [specDist_translate, specNeighbours_translate]

theorem specCoef_translate (sqrt : K → K) (eff_phi : VectorXd K) (weights : MatrixXd K)
    (t : Vector3d K) (M j l : Nat) :
    specCoef sqrt (translate eff_phi t) weights M j l = specCoef sqrt eff_phi weights M j l := by
  unfold specCoef
  simp only [specDist_translate, specWsum_translate]

/-- The normalised coefficients of a row with non-zero normaliser sum to one. -/
theorem specCoef_sum_eq_one (sqrt : K → K) (eff_phi : VectorXd K) (weights : MatrixXd K)
    (M j : Nat) (hw : specWsum sqrt eff_phi weights M j ≠ 0) :
    ∑ l ∈ specNeighbours sqrt eff_phi M j, specCoef sqrt eff_phi weights M j l = 1 := by
  have h1 : ∀ l ∈ specNeighbours sqrt eff_phi M j,
      specCoef sqrt eff_phi weights M j l
        = (weights.coeff j l / specDist sqrt eff_phi j l)
            * (specWsum sqrt eff_phi weights M j)⁻¹ := by
    intro l _
    unfold specCoef
    rw [div_mul_eq_div_div, div_eq_mul_inv (weights.coeff j l / specDist sqrt eff_phi j l)]
  rw [Finset.sum_congr rfl h1, ← Finset.sum_mul]
  exact mul_inv_cancel₀ hw

/-- C2. Translation invariance: when every one of the `M` points has `wsum(j) > 0`,
the Laplace coordinates of the translated points `P + t` equal those of `P`; the
normalised coefficients of every such row sum to exactly 1. -/
theorem ComputeLaplace_translate (sqrt : K → K) (eff_phi : VectorXd K)
    (weights : MatrixXd K) (M : Nat) (t : Vector3d K) (hsize : eff_phi.size = 3 * M)
    (hw : ∀ j, j < M → 0 < specWsum sqrt eff_phi weights M j) :
    (ComputeLaplace sqrt (translate eff_phi t) weights).Phi
      = (ComputeLaplace sqrt eff_phi weights).Phi ∧
    ∀ j, j < M →
      ∑ l ∈ specNeighbours sqrt eff_phi M j, specCoef sqrt eff_phi weights M j l = 1 := by
  have hN : eff_phi.size / 3 = M := by omega
  have hN2 : (translate eff_phi t).size / 3 = M := hN
  refine ⟨?_, fun j hj => specCoef_sum_eq_one sqrt eff_phi weights M j (ne_of_gt (hw j hj))⟩
  have hsz : (ComputeLaplace sqrt (translate eff_phi t) weights).Phi.size
      = (ComputeLaplace sqrt eff_phi weights).Phi.size := by
    rw [ComputeLaplace_size, ComputeLaplace_size, hN, hN2]
  have hco : (ComputeLaplace sqrt (translate eff_phi t) weights).Phi.coeff
      = (ComputeLaplace sqrt eff_phi weights).Phi.coeff := by
    funext k
    by_cases hk : k < M * 3
    · have hj : k / 3 < M := by omega
      have hc : k % 3 < 3 := Nat.mod_lt _ (by omega)
      have hk2 : k = k / 3 * 3 + k % 3 := by omega
      have e1 := ComputeLaplace_block_coeff sqrt (translate eff_phi t) weights (k / 3) (k % 3)
        (by rw [hN2]; exact hj) hc
      have e2 := ComputeLaplace_block_coeff sqrt eff_phi weights (k / 3) (k % 3)
        (by rw [hN]; exact hj) hc
      rw [← hk2] at e1 e2
      rw [e1, e2, hN, hN2, specWsum_translate, specNeighbours_translate,
        if_pos (hw _ hj), if_pos (hw _ hj)]
      simp only [specCoef_translate]
      have hmod : ∀ l : Nat, (l * 3 + k % 3) % 3 = k % 3 := by intro l; omega
      simp only [translate, hmod, mul_add, Finset.sum_add_distrib, ← Finset.sum_mul]
      rw [specCoef_sum_eq_one sqrt eff_phi weights M _ (ne_of_gt (hw _ hj))]
      ring
    · rw [ComputeLaplace_coeff, ComputeLaplace_coeff, hN, hN2, if_neg hk, if_neg hk]
  calc (ComputeLaplace sqrt (translate eff_phi t) weights).Phi
      = ⟨(ComputeLaplace sqrt (translate eff_phi t) weights).Phi.size,
          (ComputeLaplace sqrt (translate eff_phi t) weights).Phi.coeff⟩ := rfl
    _ = ⟨(ComputeLaplace sqrt eff_phi weights).Phi.size,
          (ComputeLaplace sqrt eff_phi weights).Phi.coeff⟩ := by rw [hsz, hco]
    _ = (ComputeLaplace sqrt eff_phi weights).Phi := rfl

/-! ## The worked example -/

theorem worked_dist :
    specDist Real.sqrt (workedPoints : VectorXd ℝ) 0 1 = 1 ∧
    specDist Real.sqrt (workedPoints : VectorXd ℝ) 0 2 = 1 ∧
    specDist Real.sqrt (workedPoints : VectorXd ℝ) 1 2 = Real.sqrt 2 ∧
    specDist Real.sqrt (workedPoints : VectorXd ℝ) 1 0 = 1 ∧
    specDist Real.sqrt (workedPoints : VectorXd ℝ) 2 0 = 1 ∧
    specDist Real.sqrt (workedPoints : VectorXd ℝ) 2 1 = Real.sqrt 2 := by
  have h01 : specDist Real.sqrt (workedPoints : VectorXd ℝ) 0 1 = 1 := by
    simp [specDist, Vector3d.norm, Vector3d.squaredNorm, Vector3d.dot, Vector3d.sub, point,
      VectorXd.segment3, workedPoints]
  have h02 : specDist Real.sqrt (workedPoints : VectorXd ℝ) 0 2 = 1 := by
    simp [specDist, Vector3d.norm, Vector3d.squaredNorm, Vector3d.dot, Vector3d.sub, point,
      VectorXd.segment3, workedPoints]
  have h12 : specDist Real.sqrt (workedPoints : VectorXd ℝ) 1 2 = Real.sqrt 2 := by
    simp [specDist, Vector3d.norm, Vector3d.squaredNorm, Vector3d.dot, Vector3d.sub, point,
      VectorXd.segment3, workedPoints]
    norm_num
  exact ⟨h01, h02, h12, by rw [specDist_comm, h01], by rw [specDist_comm, h02],
    by rw [specDist_comm, h12]⟩

theorem worked_wsum (W : MatrixXd ℝ)
    (hW : ∀ r c, r < 3 → c < 3 → r ≠ c → W.coeff r c = 1) :
    specWsum Real.sqrt (workedPoints : VectorXd ℝ) W 3 0 = 2 ∧
    specWsum Real.sqrt (workedPoints : VectorXd ℝ) W 3 1 = 1 + 1 / Real.sqrt 2 ∧
    specWsum Real.sqrt (workedPoints : VectorXd ℝ) W 3 2 = 1 + 1 / Real.sqrt 2 := by
  obtain ⟨h01, h02, h12, h10, h20, h21⟩ := worked_dist
  have hs : (0 : ℝ) < Real.sqrt 2 := Real.sqrt_pos.mpr (by norm_num)
  refine ⟨?_, ?_, ?_⟩
  · unfold specWsum specNeighbours
    rw [Finset.sum_filter]
    simp [Finset.sum_range_succ, h01, h02, hW 0 1, hW 0 2]
    norm_num
  · unfold specWsum specNeighbours
    rw [Finset.sum_filter]
    simp [Finset.sum_range_succ, h10, h12, hW 1 0, hW 1 2, hs]
  · unfold specWsum specNeighbours
    rw [Finset.sum_filter]
    simp [Finset.sum_range_succ, h20, h21, hW 2 0, hW 2 1, hs]

theorem worked_coef_aux : (1 : ℝ) / (Real.sqrt 2 * (1 + 1 / Real.sqrt 2)) = Real.sqrt 2 - 1 := by
  have hs : (0 : ℝ) < Real.sqrt 2 := Real.sqrt_pos.mpr (by norm_num)
  have h2 : Real.sqrt 2 * Real.sqrt 2 = 2 := Real.mul_self_sqrt (by norm_num)
  have h3 : Real.sqrt 2 * (1 + 1 / Real.sqrt 2) = Real.sqrt 2 + 1 := by
    field_simp
  rw [h3, div_eq_iff (by positivity)]
  nlinarith

theorem worked_block (W : MatrixXd ℝ)
    (hW : ∀ r c, r < 3 → c < 3 → r ≠ c → W.coeff r c = 1) (j c : Nat) (hj : j < 3) (hc : c < 3) :
    (ComputeLaplace Real.sqrt (workedPoints : VectorXd ℝ) W).Phi.coeff (j * 3 + c)
    = (workedPoints : VectorXd ℝ).coeff (j * 3 + c)
          - ∑ l ∈ Finset.range 3, if l ≠ j then
              specCoef Real.sqrt (workedPoints : VectorXd ℝ) W 3 j l
                * (workedPoints : VectorXd ℝ).coeff (l * 3 + c) else 0 := by
  obtain ⟨h01, h02, h12, h10, h20, h21⟩ := worked_dist
  obtain ⟨w0, w1, w2⟩ := worked_wsum W hW
  have hs : (0 : ℝ) < Real.sqrt 2 := Real.sqrt_pos.mpr (by norm_num)
  have hN : (workedPoints : VectorXd ℝ).size / 3 = 3 := rfl
  have hpos : 0 < specWsum Real.sqrt (workedPoints : VectorXd ℝ) W 3 j := by
    interval_cases j
    · rw [w0]; norm_num
    · rw [w1]; positivity
    · rw [w2]; positivity
  rw [ComputeLaplace_block_coeff _ _ _ j c (by rw [hN]; exact hj) hc, hN, if_pos hpos]
  congr 1
  unfold specNeighbours
  rw [Finset.sum_filter]
  apply Finset.sum_congr rfl
  intro l hl
  have hl3 : l < 3 := Finset.mem_range.mp hl
  by_cases hlj : l ≠ j
  · have hd : 0 < specDist Real.sqrt (workedPoints : VectorXd ℝ) j l := by
      interval_cases j <;> interval_cases l <;> simp_all
    rw [if_pos ⟨hlj, hd⟩, if_pos hlj]
  · rw [if_neg (fun h => hlj h.1), if_neg hlj]

/-- C4. Worked example: for `P0=(0,0,0)`, `P1=(1,0,0)`, `P2=(0,1,0)` and a weight
matrix with all off-diagonal entries 1, `ComputeLaplace` yields `d(0,1)=d(0,2)=1`,
`d(1,2)=√2`, `wsum(0)=2`, `wsum(1)=1+1/√2 ≈ 1.7071`, `L0=(-1/2,-1/2,0)`,
`L1=(1,-(√2-1),0)` and `L2=(-(√2-1),1,0)`, with `√2-1 ≈ 0.4142`. -/
theorem ComputeLaplace_worked_example (W : MatrixXd ℝ)
    (hW : ∀ r c, r < 3 → c < 3 → r ≠ c → W.coeff r c = 1) :
    (ComputeLaplace Real.sqrt (workedPoints : VectorXd ℝ) W).dist.coeff 0 1 = 1 ∧
    (ComputeLaplace Real.sqrt (workedPoints : VectorXd ℝ) W).dist.coeff 0 2 = 1 ∧
    (ComputeLaplace Real.sqrt (workedPoints : VectorXd ℝ) W).dist.coeff 1 2 = Real.sqrt 2 ∧
    (ComputeLaplace Real.sqrt (workedPoints : VectorXd ℝ) W).wsum.coeff 0 = 2 ∧
    (ComputeLaplace Real.sqrt (workedPoints : VectorXd ℝ) W).wsum.coeff 1
      = 1 + 1 / Real.sqrt 2 ∧
    (ComputeLaplace Real.sqrt (workedPoints : VectorXd ℝ) W).Phi.segment3 (0 * 3)
      = ⟨-(1 / 2), -(1 / 2), 0⟩ ∧
    (ComputeLaplace Real.sqrt (workedPoints : VectorXd ℝ) W).Phi.segment3 (1 * 3)
      = ⟨1, -(Real.sqrt 2 - 1), 0⟩ ∧
    (ComputeLaplace Real.sqrt (workedPoints : VectorXd ℝ) W).Phi.segment3 (2 * 3)
      = ⟨-(Real.sqrt 2 - 1), 1, 0⟩ ∧
    |(1 + 1 / Real.sqrt 2) - 1.7071| < 0.0001 ∧
    |(Real.sqrt 2 - 1) - 0.4142| < 0.0001 := by
  obtain ⟨h01, h02, h12, h10, h20, h21⟩ := worked_dist
  obtain ⟨w0, w1, w2⟩ := worked_wsum W hW
  have hs : (0 : ℝ) < Real.sqrt 2 := Real.sqrt_pos.mpr (by norm_num)
  have hN : (workedPoints : VectorXd ℝ).size / 3 = 3 := rfl
  have hsq : Real.sqrt 2 * Real.sqrt 2 = 2 := Real.mul_self_sqrt (by norm_num)
  have hlo : (1.41421 : ℝ) < Real.sqrt 2 := by
    rw [show (1.41421 : ℝ) = Real.sqrt (1.41421 ^ 2) by
      rw [Real.sqrt_sq (by norm_num)]]
    exact Real.sqrt_lt_sqrt (by norm_num) (by norm_num)
  have hhi : Real.sqrt 2 < (1.41422 : ℝ) := by
    rw [show (1.41422 : ℝ) = Real.sqrt (1.41422 ^ 2) by
      rw [Real.sqrt_sq (by norm_num)]]
    exact Real.sqrt_lt_sqrt (by norm_num) (by norm_num)
  have hinv : 1 / Real.sqrt 2 = Real.sqrt 2 / 2 := by
    field_simp
  have c10 : specCoef Real.sqrt (workedPoints : VectorXd ℝ) W 3 1 2 = Real.sqrt 2 - 1 := by
    unfold specCoef
    rw [h12, w1, hW 1 2 (by omega) (by omega) (by omega)]
    exact worked_coef_aux
  have c20 : specCoef Real.sqrt (workedPoints : VectorXd ℝ) W 3 2 1 = Real.sqrt 2 - 1 := by
    unfold specCoef
    rw [h21, w2, hW 2 1 (by omega) (by omega) (by omega)]
    exact worked_coef_aux
  have c01 : specCoef Real.sqrt (workedPoints : VectorXd ℝ) W 3 0 1 = 1 / 2 := by
    unfold specCoef
    rw [h01, w0, hW 0 1 (by omega) (by omega) (by omega)]
    norm_num
  have c02 : specCoef Real.sqrt (workedPoints : VectorXd ℝ) W 3 0 2 = 1 / 2 := by
    unfold specCoef
    rw [h02, w0, hW 0 2 (by omega) (by omega) (by omega)]
    norm_num
  have b := worked_block W hW
  have hp : ∀ k, (workedPoints : VectorXd ℝ).coeff k = if k = 3 ∨ k = 7 then 1 else 0 :=
    fun _ => rfl
  refine ⟨?_, ?_, ?_, ?_, ?_, ?_, ?_, ?_, ?_, ?_⟩
  · rw [ComputeLaplace_dist, hN, if_pos (by omega), h01]
  · rw [ComputeLaplace_dist, hN, if_pos (by omega), h02]
  · rw [ComputeLaplace_dist, hN, if_pos (by omega), h12]
  · rw [ComputeLaplace_wsum, hN, if_pos (by omega), w0]
  · rw [ComputeLaplace_wsum, hN, if_pos (by omega), w1]
  · have b0 := b 0 0 (by omega) (by omega)
    have b1 := b 0 1 (by omega) (by omega)
    have b2 := b 0 2 (by omega) (by omega)
    simp only [VectorXd.segment3, Vector3d.mk.injEq]
    refine ⟨?_, ?_, ?_⟩
    · rw [b0]; simp [Finset.sum_range_succ, hp, c01]
    · rw [b1]; simp [Finset.sum_range_succ, hp, c02]
    · rw [b2]; simp [Finset.sum_range_succ, hp]
  · have b0 := b 1 0 (by omega) (by omega)
    have b1 := b 1 1 (by omega) (by omega)
    have b2 := b 1 2 (by omega) (by omega)
    simp only [VectorXd.segment3, Vector3d.mk.injEq]
    refine ⟨?_, ?_, ?_⟩
    · rw [b0]; simp [Finset.sum_range_succ, hp]
    · rw [b1]; simp [Finset.sum_range_succ, hp, c10]
    · rw [b2]; simp [Finset.sum_range_succ, hp]
  · have b0 := b 2 0 (by omega) (by omega)
    have b1 := b 2 1 (by omega) (by omega)
    have b2 := b 2 2 (by omega) (by omega)
    simp only [VectorXd.segment3, Vector3d.mk.injEq]
    refine ⟨?_, ?_, ?_⟩
    · rw [b0]; simp [Finset.sum_range_succ, hp, c20]
    · rw [b1]; simp [Finset.sum_range_succ, hp]
    · rw [b2]; simp [Finset.sum_range_succ, hp]
  · rw [hinv, abs_lt]
    constructor <;> linarith
  · rw [abs_lt]
    constructor <;> linarith

/-- Witness for C4: the matrix `workedWeights` has all off-diagonal entries 1. -/
theorem ComputeLaplace_worked_example_witness :
    (ComputeLaplace Real.sqrt (workedPoints : VectorXd ℝ) workedWeights).Phi.segment3 (1 * 3)
      = ⟨1, -(Real.sqrt 2 - 1), 0⟩ :=
  (ComputeLaplace_worked_example workedWeights (by
    intro r c _ _ hrc
    simp [workedWeights, hrc])).2.2.2.2.2.2.1

/-- Witness for C2 on the worked example, translated by `(1,2,3)`. -/
theorem ComputeLaplace_translate_witness :
    (workedPoints : VectorXd ℝ).size = 3 * 3 ∧
    (ComputeLaplace Real.sqrt (translate (workedPoints : VectorXd ℝ) ⟨1, 2, 3⟩)
        workedWeights).Phi
      = (ComputeLaplace Real.sqrt (workedPoints : VectorXd ℝ) workedWeights).Phi :=
  ⟨rfl, (ComputeLaplace_translate Real.sqrt (workedPoints : VectorXd ℝ) workedWeights 3
    ⟨1, 2, 3⟩ rfl (by
      have hW : ∀ r c, r < 3 → c < 3 → r ≠ c → (workedWeights : MatrixXd ℝ).coeff r c = 1 := by
        intro r c _ _ hrc
        simp [workedWeights, hrc]
      obtain ⟨w0, w1, w2⟩ := worked_wsum workedWeights hW
      intro j hj
      interval_cases j
      · rw [w0]; norm_num
      · rw [w1]; positivity
      · rw [w2]; positivity)).1⟩

/-! ## Degenerate neighbour sets -/

theorem specDist_of_point_eq (sqrt : K → K) (hsqrt : sqrt 0 = 0) (eff_phi : VectorXd K)
    (j l : Nat) (h : point eff_phi l = point eff_phi j) :
    specDist sqrt eff_phi j l = 0 := by
  unfold specDist Vector3d.norm
  rw [h]
  simp [Vector3d.squaredNorm, Vector3d.dot, Vector3d.sub, hsqrt]

theorem specWsum_eq_zero_of_degenerate (sqrt : K → K) (hsqrt : sqrt 0 = 0)
    (eff_phi : VectorXd K) (weights : MatrixXd K) (M j : Nat)
    (hdeg : ∀ l, l < M → l ≠ j → point eff_phi l = point eff_phi j ∨ weights.coeff j l = 0) :
    specWsum sqrt eff_phi weights M j = 0 := by
  unfold specWsum
  apply Finset.sum_eq_zero
  intro l hl
  unfold specNeighbours at hl
  rw [Finset.mem_filter, Finset.mem_range] at hl
  rcases hdeg l hl.1 hl.2.1 with h | h
  · have := specDist_of_point_eq sqrt hsqrt eff_phi j l h
    rw [this] at hl
    exact absurd hl.2.2 (lt_irrefl 0)
  · rw [h, zero_div]

/-- C3. Degenerate neighbour set. A point `j` all of whose other points coincide with
it or carry weight zero (in particular when `M = 1`) gets Laplace coordinate exactly
`P_j` (the square root maps 0 to 0); and for a weight matrix that is zero on the
`M × M` block the returned vector has the size and the coefficients of the input. -/
theorem ComputeLaplace_degenerate (sqrt : K → K) (eff_phi : VectorXd K)
    (weights : MatrixXd K) (M : Nat) (hsize : eff_phi.size = 3 * M) :
    (sqrt 0 = 0 → ∀ j, j < M →
      (∀ l, l < M → l ≠ j → point eff_phi l = point eff_phi j ∨ weights.coeff j l = 0) →
      (ComputeLaplace sqrt eff_phi weights).Phi.segment3 (j * 3) = point eff_phi j) ∧
    ((∀ r c, r < M → c < M → weights.coeff r c = 0) →
      (ComputeLaplace sqrt eff_phi weights).Phi.size = eff_phi.size ∧
      ∀ k, k < eff_phi.size →
        (ComputeLaplace sqrt eff_phi weights).Phi.coeff k = eff_phi.coeff k) := by
  have hN : eff_phi.size / 3 = M := by omega
  constructor
  · intro hsqrt j hj hdeg
    rw [ComputeLaplace_block sqrt eff_phi weights M hsize j hj]
    unfold specLaplace
    rw [specWsum_eq_zero_of_degenerate sqrt hsqrt eff_phi weights M j hdeg,
      if_neg (lt_irrefl 0)]
  · intro hzero
    constructor
    · rw [ComputeLaplace_size, hN]
      omega
    · intro k hk
      have hj : k / 3 < M := by omega
      have hk2 : k = k / 3 * 3 + k % 3 := by omega
      have e := ComputeLaplace_block_coeff sqrt eff_phi weights (k / 3) (k % 3)
        (by rw [hN]; exact hj) (Nat.mod_lt _ (by omega))
      rw [← hk2, hN] at e
      have hw : specWsum sqrt eff_phi weights M (k / 3) = 0 := by
        unfold specWsum
        apply Finset.sum_eq_zero
        intro l hl
        unfold specNeighbours at hl
        rw [Finset.mem_filter, Finset.mem_range] at hl
        rw [hzero _ _ hj hl.1, zero_div]
      rw [e, hw, if_neg (lt_irrefl 0)]

/-- Witness for C3: the worked example's point 0 under the zero weight matrix. -/
theorem ComputeLaplace_degenerate_witness :
    (workedPoints : VectorXd ℝ).size = 3 * 3 ∧ Real.sqrt 0 = 0 ∧
    (ComputeLaplace Real.sqrt (workedPoints : VectorXd ℝ) (MatrixXd.Zero 3 3)).Phi.segment3
        (0 * 3)
      = point (workedPoints : VectorXd ℝ) 0 ∧
    (ComputeLaplace Real.sqrt (workedPoints : VectorXd ℝ) (MatrixXd.Zero 3 3)).Phi.coeff 7
      = (workedPoints : VectorXd ℝ).coeff 7 :=
  ⟨rfl, Real.sqrt_zero,
    (ComputeLaplace_degenerate Real.sqrt (workedPoints : VectorXd ℝ) (MatrixXd.Zero 3 3) 3
      rfl).1 Real.sqrt_zero 0 (by decide) (fun _ _ _ => Or.inr rfl),
    ((ComputeLaplace_degenerate Real.sqrt (workedPoints : VectorXd ℝ) (MatrixXd.Zero 3 3) 3
      rfl).2 (fun _ _ _ _ => rfl)).2 7 (by decide)⟩

end IMesh

/-! ## Closed form of the Jacobian written by `Update` -/


theorem matrix_coeff_setBlock31 {K : Type} (m : MatrixXd K) (r c : Nat) (p : Vector3d K)
    (r1 c1 : Nat) :
    (m.setBlock31 r c p).coeff r1 c1 =
      if c1 = c then
        (if r1 = r then p.x else if r1 = r + 1 then p.y else if r1 = r + 2 then p.z
         else m.coeff r1 c1)
      else m.coeff r1 c1 := rfl

namespace IMesh

variable {K : Type} [LinearOrderedField K]

theorem effPhi_loop_coeff (Phi : Nat → Vector3d K) (v : VectorXd K) (hi k : Nat) :
    (forRange 0 (fun i (eff_phi : VectorXd K) =>
      ((eff_phi.set (i * 3) (Phi i).x).set (i * 3 + 1) (Phi i).y).set (i * 3 + 2) (Phi i).z)
      hi v).coeff k
    = if k < hi * 3 then (Phi (k / 3)).coeff (k % 3) else v.coeff k := by
  induction hi generalizing k with
  | zero => simp [forRange]
  | succ n ih =>
    rw [forRange_zero_succ]
    generalize forRange 0 _ n v = s at ih ⊢
    simp only [vector_coeff_set]
    by_cases h2 : k = n * 3 + 2
    · have hq : k / 3 = n := by omega
      have hr : k % 3 = 2 := by omega
      rw [if_pos h2, if_pos (by omega), hq, hr]
      rfl
    · rw [if_neg h2]
      by_cases h1 : k = n * 3 + 1
      · have hq : k / 3 = n := by omega
        have hr : k % 3 = 1 := by omega
        rw [if_pos h1, if_pos (by omega), hq, hr]
        rfl
      · rw [if_neg h1]
        by_cases h0 : k = n * 3
        · have hq : k / 3 = n := by omega
          have hr : k % 3 = 0 := by omega
          rw [if_pos h0, if_pos (by omega), hq, hr]
          rfl
        · rw [if_neg h0, ih]
          by_cases h3 : k < n * 3
          · rw [if_pos h3, if_pos (by omega)]
          · rw [if_neg h3, if_neg (by omega)]

theorem effPhi_coeff (M : Nat) (Phi : Nat → Vector3d K) (k : Nat) :
    (Update.effPhi M Phi).coeff k
      = if k < M * 3 then (Phi (k / 3)).coeff (k % 3) else 0 := by
  unfold Update.effPhi
  rw [effPhi_loop_coeff]
  rfl

theorem effPhi_size (M : Nat) (Phi : Nat → Vector3d K) :
    (Update.effPhi M Phi).size = M * 3 := by
  unfold Update.effPhi
  apply forRange_invariant (fun (v : VectorXd K) => v.size = M * 3)
  · intro i v hv
    exact hv
  · rfl

theorem effPhi_point (M : Nat) (Phi : Nat → Vector3d K) (j : Nat) (hj : j < M) :
    point (Update.effPhi M Phi) j = Phi j := by
  unfold point VectorXd.segment3
  rw [effPhi_coeff, effPhi_coeff, effPhi_coeff, if_pos (by omega), if_pos (by omega),
    if_pos (by omega)]
  have h0 : j * 3 / 3 = j := by omega
  have h1 : (j * 3 + 1) / 3 = j := by omega
  have h2 : (j * 3 + 2) / 3 = j := by omega
  have r0 : j * 3 % 3 = 0 := by omega
  have r1 : (j * 3 + 1) % 3 = 1 := by omega
  have r2 : (j * 3 + 2) % 3 = 2 := by omega
  rw [h0, h1, h2, r0, r1, r2]
  rfl

theorem dA_eq_sum (self : IMesh K) (kinematics : KinematicResponse K) (eff_phi : VectorXd K)
    (dist : MatrixXd K) (M i j l : Nat) (Sl : K) :
    Update.dA self kinematics eff_phi dist M i j l Sl
    = ∑ k ∈ Finset.range M,
        if j ≠ k ∧ dist.coeff j k > 0 ∧ self.weights_.coeff j k > 0 then
          self.weights_.coeff j k
            * (Sl * dist.coeff j k
              - ((eff_phi.segment3 (j * 3)).sub (eff_phi.segment3 (k * 3))).dot
                  (((kinematics.jacobian j).block31 0 i).sub
                    ((kinematics.jacobian k).block31 0 i)) / dist.coeff j k
                * dist.coeff j l)
            / (dist.coeff j k * dist.coeff j k)
        else 0 := by
  unfold Update.dA
  induction M with
  | zero => simp [forRange]
  | succ n ih =>
    rw [forRange_zero_succ, Finset.sum_range_succ, ← ih]
    generalize forRange 0 _ n (0 : K) = s
    by_cases h : j ≠ n ∧ dist.coeff j n > 0 ∧ self.weights_.coeff j n > 0
    · simp only [if_pos h]
    · simp only [if_neg h, add_zero]

theorem jacobianLoop_l (self : IMesh K) (kinematics : KinematicResponse K)
    (eff_phi : VectorXd K) (dist : MatrixXd K) (wsum : VectorXd K) (M i j : Nat)
    (m : MatrixXd K) (hi r c : Nat) :
    (forRange 0 (fun l (jacobian : MatrixXd K) =>
        if j ≠ l then
          let ww := Update.wPair self kinematics eff_phi dist wsum M i j l
          jacobian.setBlock31 (3 * j) i
            ((jacobian.block31 (3 * j) i).sub
              (((eff_phi.segment3 (l * 3)).mulScalar ww.2).add
                (((kinematics.jacobian l).block31 0 i).mulScalar ww.1)))
        else jacobian) hi m).coeff r c
    = if c = i ∧ 3 * j ≤ r ∧ r < 3 * j + 3 then
        m.coeff r c - ∑ l ∈ Finset.range hi,
          (if j ≠ l then
            eff_phi.coeff (l * 3 + (r - 3 * j))
                * (Update.wPair self kinematics eff_phi dist wsum M i j l).2
              + (kinematics.jacobian l).coeff (r - 3 * j) i
                * (Update.wPair self kinematics eff_phi dist wsum M i j l).1
          else 0)
      else m.coeff r c := by
  induction hi generalizing r c with
  | zero => simp [forRange]
  | succ n ih =>
    rw [forRange_zero_succ, Finset.sum_range_succ]
    generalize forRange 0 _ n m = s at ih ⊢
    by_cases h1 : j ≠ n
    · simp only [if_pos h1]
      rw [matrix_coeff_setBlock31]
      simp only [MatrixXd.block31, VectorXd.segment3, Vector3d.sub, Vector3d.add,
        Vector3d.mulScalar]
      by_cases hc : c = i
      · subst hc
        rw [if_pos rfl]
        by_cases hk0 : r = 3 * j
        · subst hk0
          rw [if_pos rfl, ih, if_pos (by omega), if_pos (by omega)]
          simp only [Nat.sub_self, Nat.add_zero]
          ring
        · rw [if_neg hk0]
          by_cases hk1 : r = 3 * j + 1
          · subst hk1
            rw [if_pos rfl, ih, if_pos (by omega), if_pos (by omega)]
            simp only [Nat.add_sub_cancel_left, Nat.zero_add]
            ring
          · rw [if_neg hk1]
            by_cases hk2 : r = 3 * j + 2
            · subst hk2
              rw [if_pos rfl, ih, if_pos (by omega), if_pos (by omega)]
              simp only [Nat.add_sub_cancel_left, Nat.zero_add]
              ring
            · rw [if_neg hk2, ih, if_neg (by omega), if_neg (by omega)]
      · rw [if_neg hc, ih, if_neg (fun h => hc h.1), if_neg (fun h => hc h.1)]
    · simp only [if_neg h1, add_zero]
      exact ih r c

theorem jacobianLoop_j (self : IMesh K) (kinematics : KinematicResponse K)
    (eff_phi : VectorXd K) (dist : MatrixXd K) (wsum : VectorXd K) (M i : Nat)
    (m : MatrixXd K) (hj : Nat) (hhj : hj ≤ M) (r c : Nat) :
    (forRange 0 (fun j (jacobian : MatrixXd K) =>
      let jacobian :=
        if j < M then jacobian.setBlock31 (3 * j) i ((kinematics.jacobian j).block31 0 i)
        else jacobian
      forRange 0 (fun l (jacobian : MatrixXd K) =>
        if j ≠ l then
          let ww := Update.wPair self kinematics eff_phi dist wsum M i j l
          jacobian.setBlock31 (3 * j) i
            ((jacobian.block31 (3 * j) i).sub
              (((eff_phi.segment3 (l * 3)).mulScalar ww.2).add
                (((kinematics.jacobian l).block31 0 i).mulScalar ww.1)))
        else jacobian) M jacobian) hj m).coeff r c
    = if c = i ∧ r < 3 * hj then
        (kinematics.jacobian (r / 3)).coeff (r % 3) i - ∑ l ∈ Finset.range M,
          (if r / 3 ≠ l then
            eff_phi.coeff (l * 3 + r % 3)
                * (Update.wPair self kinematics eff_phi dist wsum M i (r / 3) l).2
              + (kinematics.jacobian l).coeff (r % 3) i
                * (Update.wPair self kinematics eff_phi dist wsum M i (r / 3) l).1
          else 0)
      else m.coeff r c := by
  induction hj generalizing r c with
  | zero => simp [forRange]
  | succ n ih =>
    have ih1 := fun r c => ih (by omega) r c
    rw [forRange_zero_succ]
    generalize forRange 0 _ n m = s at ih1 ⊢
    have hn : n < M := by omega
    simp only [if_pos hn]
    rw [jacobianLoop_l, matrix_coeff_setBlock31]
    by_cases hc : c = i
    · subst hc
      simp only [true_and, if_true]
      by_cases hr : 3 * n ≤ r ∧ r < 3 * n + 3
      · have hq : r / 3 = n := by omega
        have hm : r - 3 * n = r % 3 := by omega
        have hr2 : r < 3 * (n + 1) := by omega
        simp only [if_pos hr, if_pos hr2, hq, hm]
        congr 1
        simp only [MatrixXd.block31]
        by_cases hk0 : r = 3 * n
        · have : r % 3 = 0 := by omega
          rw [if_pos hk0, this]
        · rw [if_neg hk0]
          by_cases hk1 : r = 3 * n + 1
          · have : r % 3 = 1 := by omega
            rw [if_pos hk1, this]
          · have hk2 : r = 3 * n + 2 := by omega
            have : r % 3 = 2 := by omega
            rw [if_neg hk1, if_pos hk2, this]
      · have e0 : ¬ r = 3 * n := by omega
        have e1 : ¬ r = 3 * n + 1 := by omega
        have e2 : ¬ r = 3 * n + 2 := by omega
        simp only [if_neg hr, if_neg e0, if_neg e1, if_neg e2]
        rw [ih1]
        simp only [true_and]
        by_cases h2 : r < 3 * n
        · have h3 : r < 3 * (n + 1) := by omega
          simp only [if_pos h2, if_pos h3]
        · have h3 : ¬ r < 3 * (n + 1) := by omega
          simp only [if_neg h2, if_neg h3]
    · have h1 : ∀ (p : Prop), ¬ (c = i ∧ p) := fun p h => hc h.1
      simp only [if_neg (h1 _), if_neg hc]
      rw [ih1, if_neg (h1 _)]

theorem jacobianLoop_coeff (self : IMesh K) (kinematics : KinematicResponse K)
    (eff_phi : VectorXd K) (dist : MatrixXd K) (wsum : VectorXd K) (M N : Nat)
    (m : MatrixXd K) (r c : Nat) :
    (Update.jacobianLoop self kinematics eff_phi dist wsum M N m).coeff r c
    = if c < N ∧ r < 3 * M then
        (kinematics.jacobian (r / 3)).coeff (r % 3) c - ∑ l ∈ Finset.range M,
          (if r / 3 ≠ l then
            eff_phi.coeff (l * 3 + r % 3)
                * (Update.wPair self kinematics eff_phi dist wsum M c (r / 3) l).2
              + (kinematics.jacobian l).coeff (r % 3) c
                * (Update.wPair self kinematics eff_phi dist wsum M c (r / 3) l).1
          else 0)
      else m.coeff r c := by
  unfold Update.jacobianLoop
  induction N generalizing r c with
  | zero => simp [forRange]
  | succ n ih =>
    rw [forRange_zero_succ]
    generalize forRange 0 _ n m = s at ih ⊢
    rw [jacobianLoop_j self kinematics eff_phi dist wsum M n s M le_rfl]
    by_cases hc : c = n
    · subst hc
      have hcc : c < c + 1 := by omega
      simp only [true_and, hcc]
      by_cases hr : r < 3 * M
      · simp only [if_pos hr]
      · simp only [if_neg hr]
        rw [ih]
        have : ¬ (c < c ∧ r < 3 * M) := by omega
        rw [if_neg this]
    · have h1 : ∀ (p : Prop), ¬ (c = n ∧ p) := fun p h => hc h.1
      rw [if_neg (h1 _), ih]
      by_cases h2 : c < n ∧ r < 3 * M
      · have h3 : c < n + 1 ∧ r < 3 * M := ⟨by omega, h2.2⟩
        rw [if_pos h2, if_pos h3]
      · have h3 : ¬ (c < n + 1 ∧ r < 3 * M) := fun h => h2 ⟨by omega, h.2⟩
        rw [if_neg h2, if_neg h3]

/-! ## The Jacobian is the derivative of the value function -/


/-- Derivative at 0 of a combination `p0 + v0·s − Σ_l W_l / (d_l(s)·ω(s)) · (p_l + v_l·s)`
with `ω(s) = Σ_k W_k / d_k(s)`: the quotient and product rules, with the derivative of
`d_l·ω` collected in the form in which `Update` accumulates `_A`. -/
theorem hasDerivAt_laplace_combination (nb : Finset Nat) (d : Nat → ℝ → ℝ) (S W p v : Nat → ℝ)
    (p0 v0 : ℝ)
    (hd : ∀ l ∈ nb, HasDerivAt (d l) (S l) 0)
    (hpos : ∀ l ∈ nb, 0 < d l 0)
    (hω : 0 < ∑ k ∈ nb, W k / d k 0) :
    HasDerivAt
      (fun s : ℝ => (p0 + v0 * s)
        - ∑ l ∈ nb, W l / (d l s * ∑ k ∈ nb, W k / d k s) * (p l + v l * s))
      (v0 - ∑ l ∈ nb,
        (p l * (-W l * (∑ k ∈ nb, W k * (S l * d k 0 - S k * d l 0) / (d k 0 * d k 0))
                  / ((d l 0 * ∑ k ∈ nb, W k / d k 0) * (d l 0 * ∑ k ∈ nb, W k / d k 0)))
          + v l * (W l / (d l 0 * ∑ k ∈ nb, W k / d k 0)))) 0 := by
  -- the normaliser
  have hω1 : HasDerivAt (fun s : ℝ => ∑ k ∈ nb, W k / d k s)
      (∑ k ∈ nb, (0 * d k 0 - W k * S k) / (d k 0) ^ 2) 0 := by
    apply HasDerivAt.sum
    intro k hk
    exact (hasDerivAt_const (0 : ℝ) (W k)).div (hd k hk) (ne_of_gt (hpos k hk))
  set ω0 : ℝ := ∑ k ∈ nb, W k / d k 0 with hω0
  set ω1 : ℝ := ∑ k ∈ nb, (0 * d k 0 - W k * S k) / (d k 0) ^ 2 with hω1def
  have hlin0 : HasDerivAt (fun s : ℝ => p0 + v0 * s) v0 0 := by
    have := ((hasDerivAt_id (0 : ℝ)).const_mul v0).const_add p0
    simpa using this
  have hterm : ∀ l ∈ nb, HasDerivAt
      (fun s : ℝ => W l / (d l s * ∑ k ∈ nb, W k / d k s) * (p l + v l * s))
      ((0 * (d l 0 * ω0) - W l * (S l * ω0 + d l 0 * ω1)) / (d l 0 * ω0) ^ 2 * (p l + v l * 0)
        + W l / (d l 0 * ω0) * v l) 0 := by
    intro l hl
    have hA : HasDerivAt (fun s : ℝ => d l s * ∑ k ∈ nb, W k / d k s)
        (S l * ω0 + d l 0 * ω1) 0 := (hd l hl).mul hω1
    have hne : d l 0 * ω0 ≠ 0 := ne_of_gt (mul_pos (hpos l hl) hω)
    have hc := (hasDerivAt_const (0 : ℝ) (W l)).div hA hne
    have hlin : HasDerivAt (fun s : ℝ => p l + v l * s) (v l) 0 := by
      have := ((hasDerivAt_id (0 : ℝ)).const_mul (v l)).const_add (p l)
      simpa using this
    exact hc.mul hlin
  have hsum := HasDerivAt.sum hterm
  have hall := hlin0.sub hsum
  -- the algebraic identity for the derivative of the normaliser
  have hdA : ∀ l ∈ nb, (∑ k ∈ nb, W k * (S l * d k 0 - S k * d l 0) / (d k 0 * d k 0))
      = S l * ω0 + d l 0 * ω1 := by
    intro l _
    rw [hω0, hω1def, Finset.mul_sum, Finset.mul_sum, ← Finset.sum_add_distrib]
    apply Finset.sum_congr rfl
    intro k hk
    have hk0 : d k 0 ≠ 0 := ne_of_gt (hpos k hk)
    field_simp
    ring
  convert hall using 1
  congr 1
  apply Finset.sum_congr rfl
  intro l hl
  rw [hdA l hl]
  have hne : d l 0 * ω0 ≠ 0 := ne_of_gt (mul_pos (hpos l hl) hω)
  field_simp
  ring

theorem vector3_coeff_add_mulScalar (a b : Vector3d ℝ) (s : ℝ) (c : Nat) :
    (a.add (b.mulScalar s)).coeff c = a.coeff c + b.coeff c * s := by
  rcases c with _ | _ | c <;> rfl

theorem vector3_eq_of_squaredNorm_sub (a b : Vector3d ℝ) (h : (a.sub b).squaredNorm = 0) :
    a = b := by
  simp only [Vector3d.squaredNorm, Vector3d.dot, Vector3d.sub] at h
  have hx : a.x - b.x = 0 := by
    nlinarith [mul_self_nonneg (a.x - b.x), mul_self_nonneg (a.y - b.y),
      mul_self_nonneg (a.z - b.z)]
  have hy : a.y - b.y = 0 := by
    nlinarith [mul_self_nonneg (a.x - b.x), mul_self_nonneg (a.y - b.y),
      mul_self_nonneg (a.z - b.z)]
  have hz : a.z - b.z = 0 := by
    nlinarith [mul_self_nonneg (a.x - b.x), mul_self_nonneg (a.y - b.y),
      mul_self_nonneg (a.z - b.z)]
  cases a
  cases b
  simp only [Vector3d.mk.injEq]
  simp only at hx hy hz
  exact ⟨by linarith, by linarith, by linarith⟩

theorem squaredNorm_sub_pos (a b : Vector3d ℝ) (h : a ≠ b) : 0 < (a.sub b).squaredNorm := by
  have h0 : 0 ≤ (a.sub b).squaredNorm := by
    simp only [Vector3d.squaredNorm, Vector3d.dot, Vector3d.sub]
    nlinarith [mul_self_nonneg (a.x - b.x), mul_self_nonneg (a.y - b.y),
      mul_self_nonneg (a.z - b.z)]
  rcases lt_or_eq_of_le h0 with h1 | h1
  · exact h1
  · exact absurd (vector3_eq_of_squaredNorm_sub a b h1.symm) h

/-- Derivative at 0 of the length of `a + s·b`, for `a ≠ 0`. -/
theorem hasDerivAt_norm_line (a b : Vector3d ℝ) (ha : 0 < a.squaredNorm) :
    HasDerivAt (fun s : ℝ => (a.add (b.mulScalar s)).norm Real.sqrt)
      (a.dot b / a.norm Real.sqrt) 0 := by
  have hq : HasDerivAt (fun s : ℝ => (a.add (b.mulScalar s)).squaredNorm)
      (2 * a.dot b) 0 := by
    have hx : HasDerivAt (fun s : ℝ => a.x + b.x * s) b.x 0 := by
      simpa using ((hasDerivAt_id (0 : ℝ)).const_mul b.x).const_add a.x
    have hy : HasDerivAt (fun s : ℝ => a.y + b.y * s) b.y 0 := by
      simpa using ((hasDerivAt_id (0 : ℝ)).const_mul b.y).const_add a.y
    have hz : HasDerivAt (fun s : ℝ => a.z + b.z * s) b.z 0 := by
      simpa using ((hasDerivAt_id (0 : ℝ)).const_mul b.z).const_add a.z
    have h := ((hx.mul hx).add (hy.mul hy)).add (hz.mul hz)
    convert h using 1
    simp only [Vector3d.dot]
    ring
  have h0 : (a.add (b.mulScalar 0)).squaredNorm = a.squaredNorm := by
    simp [Vector3d.squaredNorm, Vector3d.dot, Vector3d.add, Vector3d.mulScalar]
  have hs := hq.sqrt (by rw [h0]; exact ne_of_gt ha)
  rw [h0] at hs
  convert hs using 1
  unfold Vector3d.norm
  field_simp
  ring

section JacobianEntries

variable {K : Type} [LinearOrderedField K]

/-- With all other points at positive distance from point `j`, the valid neighbours of
`j` are all the other points. -/
theorem specNeighbours_of_pos (sqrt : K → K) (eff_phi : VectorXd K) (M j : Nat)
    (hD : ∀ l, l < M → l ≠ j → 0 < specDist sqrt eff_phi j l) :
    specNeighbours sqrt eff_phi M j = (Finset.range M).filter (fun l => l ≠ j) := by
  unfold specNeighbours
  apply Finset.filter_congr
  intro l hl
  have hl2 : l < M := Finset.mem_range.mp hl
  constructor
  · intro h
    exact h.1
  · intro h
    exact ⟨h, hD l hl2 h⟩

/-- The pair `(w, _w)` of `Update` for a pair `(j, l)` of distinct points, when all
other points are at positive distance from point `j` and the weights of row `j` are
non-negative: the guards on the weights do not change the values. -/
theorem wPair_eq (sqrt : K → K) (self : IMesh K) (kinematics : KinematicResponse K)
    (eff_phi : VectorXd K) (M i j l : Nat) (hsize : eff_phi.size / 3 = M)
    (hj : j < M) (hl : l < M) (hlj : l ≠ j)
    (hW : ∀ k, k < M → k ≠ j → 0 ≤ self.weights_.coeff j k)
    (hD : ∀ k, k < M → k ≠ j → 0 < specDist sqrt eff_phi j k)
    (hω : 0 < specWsum sqrt eff_phi self.weights_ M j) :
    Update.wPair self kinematics eff_phi (ComputeLaplace sqrt eff_phi self.weights_).dist
      (ComputeLaplace sqrt eff_phi self.weights_).wsum M i j l
    = (self.weights_.coeff j l
          / (specDist sqrt eff_phi j l * specWsum sqrt eff_phi self.weights_ M j),
       -self.weights_.coeff j l
          * (∑ k ∈ (Finset.range M).filter (fun k => k ≠ j),
              self.weights_.coeff j k
                * (((point eff_phi j).sub (point eff_phi l)).dot
                      (((kinematics.jacobian j).block31 0 i).sub
                        ((kinematics.jacobian l).block31 0 i))
                    / specDist sqrt eff_phi j l * specDist sqrt eff_phi j k
                  - ((point eff_phi j).sub (point eff_phi k)).dot
                      (((kinematics.jacobian j).block31 0 i).sub
                        ((kinematics.jacobian k).block31 0 i))
                    / specDist sqrt eff_phi j k * specDist sqrt eff_phi j l)
                / (specDist sqrt eff_phi j k * specDist sqrt eff_phi j k))
          / ((specDist sqrt eff_phi j l * specWsum sqrt eff_phi self.weights_ M j)
              * (specDist sqrt eff_phi j l * specWsum sqrt eff_phi self.weights_ M j))) := by
  have hdist : ∀ k, k < M → k ≠ j →
      (ComputeLaplace sqrt eff_phi self.weights_).dist.coeff j k = specDist sqrt eff_phi j k := by
    intro k hk hkj
    rw [ComputeLaplace_dist, hsize, if_pos ⟨fun e => hkj e.symm, hj, hk⟩]
  have hwsum : (ComputeLaplace sqrt eff_phi self.weights_).wsum.coeff j
      = specWsum sqrt eff_phi self.weights_ M j := by
    rw [ComputeLaplace_wsum, hsize, if_pos hj]
  unfold Update.wPair
  by_cases hWl : self.weights_.coeff j l > 0
  · have hc : (ComputeLaplace sqrt eff_phi self.weights_).dist.coeff j l > 0 ∧
        (ComputeLaplace sqrt eff_phi self.weights_).wsum.coeff j > 0 ∧
        self.weights_.coeff j l > 0 := by
      rw [hdist l hl hlj, hwsum]
      exact ⟨hD l hl hlj, hω, hWl⟩
    have hc2 : specDist sqrt eff_phi j l > 0 ∧
        specWsum sqrt eff_phi self.weights_ M j > 0 ∧ self.weights_.coeff j l > 0 :=
      ⟨hD l hl hlj, hω, hWl⟩
    simp only [dA_eq_sum, hdist l hl hlj, hwsum, if_pos hc2, Prod.mk.injEq, true_and]
    congr 2
    rw [Finset.sum_filter]
    apply Finset.sum_congr rfl
    intro k hk
    have hk2 : k < M := Finset.mem_range.mp hk
    by_cases hkj : k ≠ j
    · rw [hdist k hk2 hkj, if_pos hkj]
      by_cases hWk : self.weights_.coeff j k > 0
      · rw [if_pos ⟨fun e => hkj e.symm, hD k hk2 hkj, hWk⟩]
        rfl
      · have h0 : self.weights_.coeff j k = 0 :=
          le_antisymm (not_lt.mp hWk) (hW k hk2 hkj)
        rw [if_neg (fun h => hWk h.2.2), h0, zero_mul, zero_div]
    · rw [if_neg (fun h => hkj (fun e => h.1 e.symm)), if_neg hkj]
  · have h0 : self.weights_.coeff j l = 0 := le_antisymm (not_lt.mp hWl) (hW l hl hlj)
    rw [if_neg (fun h => hWl h.2.2), h0]
    simp

/-- When the normaliser of row `j` is not positive, `Update` computes `(w, _w) = (0, 0)`. -/
theorem wPair_eq_zero (sqrt : K → K) (self : IMesh K) (kinematics : KinematicResponse K)
    (eff_phi : VectorXd K) (M i j l : Nat) (hsize : eff_phi.size / 3 = M) (hj : j < M)
    (hω : ¬ 0 < specWsum sqrt eff_phi self.weights_ M j) :
    Update.wPair self kinematics eff_phi (ComputeLaplace sqrt eff_phi self.weights_).dist
      (ComputeLaplace sqrt eff_phi self.weights_).wsum M i j l = (0, 0) := by
  have hwsum : (ComputeLaplace sqrt eff_phi self.weights_).wsum.coeff j
      = specWsum sqrt eff_phi self.weights_ M j := by
    rw [ComputeLaplace_wsum, hsize, if_pos hj]
  unfold Update.wPair
  rw [hwsum, if_neg (fun h => hω h.2.1)]

end JacobianEntries

section ValueAlongLine

open Filter Topology

theorem block31_coeff (m : MatrixXd ℝ) (i c : Nat) (hc : c < 3) :
    (m.block31 0 i).coeff c = m.coeff c i := by
  interval_cases c <;> rfl

theorem add_mulScalar_zero (a b : Vector3d ℝ) : a.add (b.mulScalar 0) = a := by
  cases a
  simp [Vector3d.add, Vector3d.mulScalar]

/-- The distance between points `j` and `l` of the perturbed configuration `P + s·J`. -/
theorem specDist_line (M : Nat) (P J : Nat → Vector3d ℝ) (s : ℝ) (j l : Nat)
    (hj : j < M) (hl : l < M) :
    specDist Real.sqrt (Update.effPhi M (fun a => (P a).add ((J a).mulScalar s))) j l
      = (((P j).sub (P l)).add (((J j).sub (J l)).mulScalar s)).norm Real.sqrt := by
  unfold specDist
  rw [effPhi_point M _ j hj, effPhi_point M _ l hl]
  unfold Vector3d.norm
  congr 1
  simp only [Vector3d.squaredNorm, Vector3d.dot, Vector3d.sub, Vector3d.add,
    Vector3d.mulScalar]
  ring

theorem effPhi_line_coeff (M : Nat) (P J : Nat → Vector3d ℝ) (s : ℝ) (l c : Nat)
    (hl : l < M) (hc : c < 3) :
    (Update.effPhi M (fun a => (P a).add ((J a).mulScalar s))).coeff (l * 3 + c)
      = (P l).coeff c + (J l).coeff c * s := by
  rw [effPhi_coeff, if_pos (by omega)]
  have hq : (l * 3 + c) / 3 = l := by omega
  have hr : (l * 3 + c) % 3 = c := by omega
  rw [hq, hr, vector3_coeff_add_mulScalar]

theorem hasDerivAt_specDist_line (M : Nat) (P J : Nat → Vector3d ℝ) (j l : Nat)
    (hj : j < M) (hl : l < M) (hne : P j ≠ P l) :
    HasDerivAt
      (fun s : ℝ =>
        specDist Real.sqrt (Update.effPhi M (fun a => (P a).add ((J a).mulScalar s))) j l)
      (((P j).sub (P l)).dot ((J j).sub (J l))
        / specDist Real.sqrt (Update.effPhi M P) j l) 0 := by
  have h1 : (fun s : ℝ =>
      specDist Real.sqrt (Update.effPhi M (fun a => (P a).add ((J a).mulScalar s))) j l)
      = fun s : ℝ => (((P j).sub (P l)).add (((J j).sub (J l)).mulScalar s)).norm Real.sqrt := by
    funext s
    exact specDist_line M P J s j l hj hl
  have h2 : specDist Real.sqrt (Update.effPhi M P) j l = ((P j).sub (P l)).norm Real.sqrt := by
    unfold specDist
    rw [effPhi_point M _ j hj, effPhi_point M _ l hl]
  rw [h1, h2]
  exact hasDerivAt_norm_line _ _ (squaredNorm_sub_pos _ _ hne)

theorem specDist_pos_of_ne (M : Nat) (P : Nat → Vector3d ℝ) (j l : Nat)
    (hj : j < M) (hl : l < M) (hne : P j ≠ P l) :
    0 < specDist Real.sqrt (Update.effPhi M P) j l := by
  unfold specDist
  rw [effPhi_point M _ j hj, effPhi_point M _ l hl]
  exact Real.sqrt_pos.mpr (squaredNorm_sub_pos _ _ hne)

/-- The value function along the line `s ↦ P + s·J`, near `s = 0`, in terms of the
distances to the other points (all positive there). -/
theorem value_line_eq (W : MatrixXd ℝ) (M : Nat) (P J : Nat → Vector3d ℝ) (s : ℝ)
    (j c : Nat) (hj : j < M) (hc : c < 3)
    (hD : ∀ l, l < M → l ≠ j →
      0 < specDist Real.sqrt (Update.effPhi M (fun a => (P a).add ((J a).mulScalar s))) j l) :
    (ComputeLaplace Real.sqrt (Update.effPhi M (fun a => (P a).add ((J a).mulScalar s)))
        W).Phi.coeff (j * 3 + c)
    = if 0 < ∑ k ∈ (Finset.range M).filter (fun k => k ≠ j), W.coeff j k /
          specDist Real.sqrt (Update.effPhi M (fun a => (P a).add ((J a).mulScalar s))) j k
      then
        ((P j).coeff c + (J j).coeff c * s)
          - ∑ l ∈ (Finset.range M).filter (fun l => l ≠ j),
              W.coeff j l /
                (specDist Real.sqrt
                    (Update.effPhi M (fun a => (P a).add ((J a).mulScalar s))) j l
                  * ∑ k ∈ (Finset.range M).filter (fun k => k ≠ j), W.coeff j k /
                      specDist Real.sqrt
                        (Update.effPhi M (fun a => (P a).add ((J a).mulScalar s))) j k)
                * ((P l).coeff c + (J l).coeff c * s)
      else (P j).coeff c + (J j).coeff c * s := by
  have hsize : (Update.effPhi M (fun a => (P a).add ((J a).mulScalar s))).size / 3 = M := by
    rw [effPhi_size]
    omega
  rw [ComputeLaplace_block_coeff _ _ _ j c (by rw [hsize]; exact hj) hc, hsize]
  have hw : specWsum Real.sqrt (Update.effPhi M (fun a => (P a).add ((J a).mulScalar s))) W M j
      = ∑ k ∈ (Finset.range M).filter (fun k => k ≠ j), W.coeff j k /
          specDist Real.sqrt (Update.effPhi M (fun a => (P a).add ((J a).mulScalar s))) j k := by
    unfold specWsum
    rw [specNeighbours_of_pos _ _ _ _ hD]
  rw [specNeighbours_of_pos _ _ _ _ hD, effPhi_line_coeff M P J s j c hj hc]
  simp only [specCoef, hw]
  congr 1
  congr 1
  apply Finset.sum_congr rfl
  intro l hl
  rw [Finset.mem_filter, Finset.mem_range] at hl
  rw [effPhi_line_coeff M P J s l c hl.1 hc]

/-- The entry that `Update` writes at row `3j + c`, column `i` is the derivative at
`s = 0` of coefficient `3j + c` of the value function along `s ↦ P + s·J`. -/
theorem entry_hasDerivAt (self : IMesh ℝ) (kinematics : KinematicResponse ℝ) (M i j c : Nat)
    (hj : j < M) (hc : c < 3)
    (hW : ∀ k, k < M → k ≠ j → 0 ≤ self.weights_.coeff j k)
    (hP : ∀ k, k < M → k ≠ j → kinematics.Phi j ≠ kinematics.Phi k) :
    HasDerivAt
      (fun s : ℝ =>
        (ComputeLaplace Real.sqrt
          (Update.effPhi M (fun a =>
            (kinematics.Phi a).add (((kinematics.jacobian a).block31 0 i).mulScalar s)))
          self.weights_).Phi.coeff (j * 3 + c))
      ((kinematics.jacobian j).coeff c i - ∑ l ∈ Finset.range M,
        (if j ≠ l then
          (Update.effPhi M kinematics.Phi).coeff (l * 3 + c)
              * (Update.wPair self kinematics (Update.effPhi M kinematics.Phi)
                  (ComputeLaplace Real.sqrt (Update.effPhi M kinematics.Phi) self.weights_).dist
                  (ComputeLaplace Real.sqrt (Update.effPhi M kinematics.Phi) self.weights_).wsum
                  M i j l).2
            + (kinematics.jacobian l).coeff c i
              * (Update.wPair self kinematics (Update.effPhi M kinematics.Phi)
                  (ComputeLaplace Real.sqrt (Update.effPhi M kinematics.Phi) self.weights_).dist
                  (ComputeLaplace Real.sqrt (Update.effPhi M kinematics.Phi) self.weights_).wsum
                  M i j l).1
        else 0)) 0 := by
  -- abbreviations
  set P := kinematics.Phi with hPdef
  set J : Nat → Vector3d ℝ := fun a => (kinematics.jacobian a).block31 0 i with hJdef
  set W := self.weights_ with hWdef
  set eff0 := Update.effPhi M P with heff0
  set nb := (Finset.range M).filter (fun l => l ≠ j) with hnb
  have hmem : ∀ l, l ∈ nb ↔ l < M ∧ l ≠ j := by
    intro l
    rw [hnb, Finset.mem_filter, Finset.mem_range]
  have heffzero : Update.effPhi M (fun a => (P a).add ((J a).mulScalar 0)) = eff0 := by
    rw [heff0]
    congr 1
    funext a
    exact add_mulScalar_zero _ _
  have hsize0 : eff0.size / 3 = M := by
    rw [heff0, effPhi_size]
    omega
  have hD0 : ∀ l, l < M → l ≠ j → 0 < specDist Real.sqrt eff0 j l := by
    intro l hl hlj
    exact specDist_pos_of_ne M P j l hj hl (hP l hl hlj)
  -- the distances along the line and their derivatives
  have hd : ∀ l ∈ nb, HasDerivAt
      (fun s : ℝ =>
        specDist Real.sqrt (Update.effPhi M (fun a => (P a).add ((J a).mulScalar s))) j l)
      (((P j).sub (P l)).dot ((J j).sub (J l)) / specDist Real.sqrt eff0 j l) 0 := by
    intro l hl
    exact hasDerivAt_specDist_line M P J j l hj ((hmem l).mp hl).1 (hP l ((hmem l).mp hl).1
      ((hmem l).mp hl).2)
  have hpos : ∀ l ∈ nb,
      0 < (fun s : ℝ =>
        specDist Real.sqrt (Update.effPhi M (fun a => (P a).add ((J a).mulScalar s))) j l) 0 := by
    intro l hl
    show 0 < specDist Real.sqrt (Update.effPhi M (fun a => (P a).add ((J a).mulScalar 0))) j l
    rw [heffzero]
    exact hD0 l ((hmem l).mp hl).1 ((hmem l).mp hl).2
  -- near 0 all the other points stay at positive distance
  have hev : ∀ᶠ s in 𝓝 (0 : ℝ), ∀ l ∈ nb,
      0 < specDist Real.sqrt (Update.effPhi M (fun a => (P a).add ((J a).mulScalar s))) j l := by
    rw [Filter.eventually_all_finset]
    intro l hl
    exact (hd l hl).continuousAt.tendsto.eventually (lt_mem_nhds (hpos l hl))
  have hw0 : specWsum Real.sqrt eff0 W M j
      = ∑ k ∈ nb, W.coeff j k / specDist Real.sqrt eff0 j k := by
    unfold specWsum
    rw [specNeighbours_of_pos _ _ _ _ hD0]
  have hJc : ∀ a, (J a).coeff c = (kinematics.jacobian a).coeff c i := by
    intro a
    exact block31_coeff _ _ _ hc
  have hP0c : ∀ l, l < M → eff0.coeff (l * 3 + c) = (P l).coeff c := by
    intro l hl
    rw [heff0, effPhi_coeff, if_pos (by omega)]
    have hq : (l * 3 + c) / 3 = l := by omega
    have hr : (l * 3 + c) % 3 = c := by omega
    rw [hq, hr]
  by_cases hω : 0 < specWsum Real.sqrt eff0 W M j
  · -- positive normaliser: the smooth closed form
    have hω' : 0 < ∑ k ∈ nb, W.coeff j k /
        (fun s : ℝ => specDist Real.sqrt
          (Update.effPhi M (fun a => (P a).add ((J a).mulScalar s))) j k) 0 := by
      show 0 < ∑ k ∈ nb, W.coeff j k /
        specDist Real.sqrt (Update.effPhi M (fun a => (P a).add ((J a).mulScalar 0))) j k
      rw [heffzero, ← hw0]
      exact hω
    have hmain := hasDerivAt_laplace_combination nb
      (fun l s => specDist Real.sqrt
        (Update.effPhi M (fun a => (P a).add ((J a).mulScalar s))) j l)
      (fun l => ((P j).sub (P l)).dot ((J j).sub (J l)) / specDist Real.sqrt eff0 j l)
      (fun l => W.coeff j l) (fun l => (P l).coeff c) (fun l => (J l).coeff c)
      ((P j).coeff c) ((J j).coeff c) hd hpos hω'
    have hωcont : ContinuousAt (fun s : ℝ => ∑ k ∈ nb, W.coeff j k /
        specDist Real.sqrt (Update.effPhi M (fun a => (P a).add ((J a).mulScalar s))) j k) 0 := by
      have : HasDerivAt (fun s : ℝ => ∑ k ∈ nb, W.coeff j k /
          specDist Real.sqrt (Update.effPhi M (fun a => (P a).add ((J a).mulScalar s))) j k)
          (∑ k ∈ nb, (0 * specDist Real.sqrt
              (Update.effPhi M (fun a => (P a).add ((J a).mulScalar 0))) j k
            - W.coeff j k * (((P j).sub (P k)).dot ((J j).sub (J k))
                / specDist Real.sqrt eff0 j k))
            / (specDist Real.sqrt
                (Update.effPhi M (fun a => (P a).add ((J a).mulScalar 0))) j k) ^ 2) 0 := by
        apply HasDerivAt.sum
        intro k hk
        exact (hasDerivAt_const (0 : ℝ) (W.coeff j k)).div (hd k hk) (ne_of_gt (hpos k hk))
      exact this.continuousAt
    have hevω : ∀ᶠ s in 𝓝 (0 : ℝ), 0 < ∑ k ∈ nb, W.coeff j k /
        specDist Real.sqrt (Update.effPhi M (fun a => (P a).add ((J a).mulScalar s))) j k :=
      hωcont.tendsto.eventually (lt_mem_nhds hω')
    have heq : (fun s : ℝ =>
        (ComputeLaplace Real.sqrt (Update.effPhi M (fun a => (P a).add ((J a).mulScalar s)))
          W).Phi.coeff (j * 3 + c))
        =ᶠ[𝓝 0] (fun s : ℝ => ((P j).coeff c + (J j).coeff c * s)
          - ∑ l ∈ nb, W.coeff j l /
              (specDist Real.sqrt
                  (Update.effPhi M (fun a => (P a).add ((J a).mulScalar s))) j l
                * ∑ k ∈ nb, W.coeff j k / specDist Real.sqrt
                    (Update.effPhi M (fun a => (P a).add ((J a).mulScalar s))) j k)
              * ((P l).coeff c + (J l).coeff c * s)) := by
      filter_upwards [hev, hevω] with s hs1 hs2
      rw [value_line_eq W M P J s j c hj hc (fun l hl hlj => hs1 l ((hmem l).mpr ⟨hl, hlj⟩)),
        if_pos hs2]
    refine (hmain.congr_of_eventuallyEq heq).congr_deriv ?_
    simp only [heffzero, ← hw0]
    rw [hJc j]
    congr 1
    rw [hnb, Finset.sum_filter]
    apply Finset.sum_congr rfl
    intro l hl
    have hl2 : l < M := Finset.mem_range.mp hl
    by_cases hlj : l ≠ j
    · rw [if_pos hlj, if_pos (fun e => hlj e.symm),
        wPair_eq Real.sqrt self kinematics eff0 M i j l hsize0 hj hl2 hlj hW hD0 hω,
        hP0c l hl2, hJc l]
      simp only [point]
      have e1 : eff0.segment3 (j * 3) = P j := effPhi_point M P j hj
      have e2 : ∀ k, k ∈ nb → eff0.segment3 (k * 3) = P k := fun k hk =>
        effPhi_point M P k ((hmem k).mp hk).1
      have e3 : eff0.segment3 (l * 3) = P l := effPhi_point M P l hl2
      rw [e1, e3]
      congr 1
      congr 1
      congr 1
      congr 1
      apply Finset.sum_congr rfl
      intro k hk
      rw [e2 k hk]
    · rw [if_neg hlj, if_neg (fun h => hlj (fun e => h e.symm))]
  · -- zero normaliser: all the weights of the row vanish and the value is `P_j + s·J_j`
    have hterm : ∀ k ∈ nb, 0 ≤ W.coeff j k / specDist Real.sqrt eff0 j k := by
      intro k hk
      exact div_nonneg (hW k ((hmem k).mp hk).1 ((hmem k).mp hk).2)
        (le_of_lt (hD0 k ((hmem k).mp hk).1 ((hmem k).mp hk).2))
    have hsum0 : ∑ k ∈ nb, W.coeff j k / specDist Real.sqrt eff0 j k = 0 := by
      apply le_antisymm
      · rw [← hw0]
        exact not_lt.mp hω
      · exact Finset.sum_nonneg hterm
    have hWzero : ∀ k ∈ nb, W.coeff j k = 0 := by
      intro k hk
      have h1 := (Finset.sum_eq_zero_iff_of_nonneg hterm).mp hsum0 k hk
      have h2 : specDist Real.sqrt eff0 j k ≠ 0 :=
        ne_of_gt (hD0 k ((hmem k).mp hk).1 ((hmem k).mp hk).2)
      rcases div_eq_zero_iff.mp h1 with h3 | h3
      · exact h3
      · exact absurd h3 h2
    have hlin : HasDerivAt (fun s : ℝ => (P j).coeff c + (J j).coeff c * s)
        ((J j).coeff c) 0 := by
      simpa using ((hasDerivAt_id (0 : ℝ)).const_mul ((J j).coeff c)).const_add ((P j).coeff c)
    have heq : (fun s : ℝ =>
        (ComputeLaplace Real.sqrt (Update.effPhi M (fun a => (P a).add ((J a).mulScalar s)))
          W).Phi.coeff (j * 3 + c))
        =ᶠ[𝓝 0] (fun s : ℝ => (P j).coeff c + (J j).coeff c * s) := by
      filter_upwards [hev] with s hs1
      rw [value_line_eq W M P J s j c hj hc (fun l hl hlj => hs1 l ((hmem l).mpr ⟨hl, hlj⟩))]
      have hz : ∑ k ∈ nb, W.coeff j k / specDist Real.sqrt
          (Update.effPhi M (fun a => (P a).add ((J a).mulScalar s))) j k = 0 := by
        apply Finset.sum_eq_zero
        intro k hk
        rw [hWzero k hk, zero_div]
      rw [hz, if_neg (lt_irrefl 0)]
    refine (hlin.congr_of_eventuallyEq heq).congr_deriv ?_
    rw [hJc j]
    have hzero : ∀ l ∈ Finset.range M,
        (if j ≠ l then
          eff0.coeff (l * 3 + c)
              * (Update.wPair self kinematics eff0
                  (ComputeLaplace Real.sqrt eff0 W).dist
                  (ComputeLaplace Real.sqrt eff0 W).wsum M i j l).2
            + (kinematics.jacobian l).coeff c i
              * (Update.wPair self kinematics eff0
                  (ComputeLaplace Real.sqrt eff0 W).dist
                  (ComputeLaplace Real.sqrt eff0 W).wsum M i j l).1
        else 0) = 0 := by
      intro l _
      rw [wPair_eq_zero Real.sqrt self kinematics eff0 M i j l hsize0 hj hω]
      simp
    rw [Finset.sum_eq_zero hzero, sub_zero]

end ValueAlongLine

/-- C5. Jacobian correctness. For non-negative weights and pairwise distinct effector
positions `P`, with correctly sized buffers, `Update(x, Phi, jacobian)` completes, writes
the value `ComputeLaplace(P, W)`, and every entry `(3j + c, i)` of the Jacobian it writes
is the exact derivative at `s = 0` of coefficient `3j + c` of the value function
`s ↦ ComputeLaplace(P + s·J, W)`, where `J_a = dP_a/dx_i` is column `i` of the top three
rows of effector `a`'s Jacobian. -/
theorem Update_jacobian_is_derivative (self : IMesh ℝ) (kinematics : KinematicResponse ℝ)
    (Phi : VectorXd ℝ) (jacobian : MatrixXd ℝ)
    (hPhi : Phi.size = self.eff_size_ * 3)
    (hrows : jacobian.rows = self.eff_size_ * 3)
    (hcols : jacobian.cols = (kinematics.jacobian 0).cols)
    (hW : ∀ j l, j < self.eff_size_ → l < self.eff_size_ → l ≠ j →
      0 ≤ self.weights_.coeff j l)
    (hP : ∀ j l, j < self.eff_size_ → l < self.eff_size_ → l ≠ j →
      kinematics.Phi j ≠ kinematics.Phi l) :
    ∃ Phi1 jacobian1,
      Update Real.sqrt self kinematics Phi jacobian = Except.ok (Phi1, jacobian1) ∧
      Phi1 = (ComputeLaplace Real.sqrt (Update.effPhi self.eff_size_ kinematics.Phi)
        self.weights_).Phi ∧
      ∀ i j c, i < (kinematics.jacobian 0).cols → j < self.eff_size_ → c < 3 →
        HasDerivAt
          (fun s : ℝ =>
            (ComputeLaplace Real.sqrt
              (Update.effPhi self.eff_size_ (fun a =>
                (kinematics.Phi a).add (((kinematics.jacobian a).block31 0 i).mulScalar s)))
              self.weights_).Phi.coeff (3 * j + c))
          (jacobian1.coeff (3 * j + c) i) 0 := by
  refine ⟨(ComputeLaplace Real.sqrt (Update.effPhi self.eff_size_ kinematics.Phi)
      self.weights_).Phi,
    Update.jacobianLoop self kinematics (Update.effPhi self.eff_size_ kinematics.Phi)
      (ComputeLaplace Real.sqrt (Update.effPhi self.eff_size_ kinematics.Phi) self.weights_).dist
      (ComputeLaplace Real.sqrt (Update.effPhi self.eff_size_ kinematics.Phi) self.weights_).wsum
      self.eff_size_ (kinematics.jacobian 0).cols jacobian, ?_, rfl, ?_⟩
  · unfold Update
    have h1 : ¬ (Phi.size ≠ self.eff_size_ * 3) := fun h => h hPhi
    have h2 : ¬ (jacobian.rows ≠ self.eff_size_ * 3
        ∨ jacobian.cols ≠ (kinematics.jacobian 0).cols) := by
      rintro (h | h)
      · exact h hrows
      · exact h hcols
    simp only [if_neg h1, if_neg h2]
  · intro i j c hi hj hc
    rw [jacobianLoop_coeff, if_pos ⟨hi, by omega⟩]
    have hq : (3 * j + c) / 3 = j := by omega
    have hr : (3 * j + c) % 3 = c := by omega
    have hm : 3 * j + c = j * 3 + c := by omega
    rw [hq, hr, hm]
    exact entry_hasDerivAt self kinematics self.eff_size_ i j c hj hc
      (fun k hk hkj => hW j k hj hk hkj) (fun k hk hkj => hP j k hj hk hkj)

/-- Witness for C5: two effectors at `(0,0,0)` and `(1,0,0)`, unit weights, one
configuration coordinate moving the second effector along `y`. -/
theorem Update_jacobian_is_derivative_witness :
    ∃ Phi1 jacobian1,
      Update Real.sqrt (pairMesh : IMesh ℝ) pairKinematics (VectorXd.Zero 6) (MatrixXd.Zero 6 1)
        = Except.ok (Phi1, jacobian1) ∧
      HasDerivAt
        (fun s : ℝ =>
          (ComputeLaplace Real.sqrt
            (Update.effPhi 2 (fun a =>
              ((pairKinematics : KinematicResponse ℝ).Phi a).add
                ((((pairKinematics : KinematicResponse ℝ).jacobian a).block31 0 0).mulScalar s)))
            (pairMesh : IMesh ℝ).weights_).Phi.coeff (3 * 1 + 1))
        (jacobian1.coeff (3 * 1 + 1) 0) 0 := by
  obtain ⟨Phi1, jacobian1, h1, _, h2⟩ :=
    Update_jacobian_is_derivative (pairMesh : IMesh ℝ) pairKinematics (VectorXd.Zero 6)
      (MatrixXd.Zero 6 1) rfl rfl rfl
      (by
        intro j l _ _ _
        simp [pairMesh])
      (by
        intro j l hj hl hlj
        have hj2 : j < 2 := hj
        have hl2 : l < 2 := hl
        interval_cases j <;> interval_cases l <;> simp_all [pairKinematics])
  exact ⟨Phi1, jacobian1, h1, h2 0 1 1 (by decide) (by decide) (by decide)⟩

end IMesh

/-! ## `Task::Initialize`: the indexing partition -/


section TaskInitialize

variable {K : Type} [LinearOrderedField K]

theorem resolve_ok (prob : PlanningProblem) (inits : List (TaskInitializer K))
    (tms : List TaskMap) (self : Task K)
    (hres : inits.map (fun t => prob.find t.Task) = tms.map some) :
    Task.Initialize.resolve prob inits self
      = Except.ok { self with
          tasks := self.tasks ++ tms,
          task_initializers_ := self.task_initializers_ ++ inits } := by
  unfold Task.Initialize.resolve
  induction inits generalizing tms self with
  | nil =>
    cases tms with
    | nil => simp [forEachM]
    | cons a l => simp at hres
  | cons t ts ih =>
    cases tms with
    | nil => simp at hres
    | cons a l =>
      simp only [List.map_cons, List.cons.injEq] at hres
      simp only [forEachM, hres.1]
      rw [ih l _ hres.2]
      simp

theorem sliceStart_succ (tms : List TaskMap) (i : Nat) (hi : i < tms.length) :
    sliceStart tms (i + 1)
      = sliceStart tms i + (tms.getD i ⟨0, 0, 0, 0, false, []⟩).length := by
  unfold sliceStart
  rw [List.sum_take_succ _ _ (by simpa using hi)]
  simp [List.getElem?_eq_getElem hi]

theorem sliceStartJacobian_succ (tms : List TaskMap) (i : Nat) (hi : i < tms.length) :
    sliceStartJacobian tms (i + 1)
      = sliceStartJacobian tms i
        + (tms.getD i ⟨0, 0, 0, 0, false, []⟩).length_jacobian := by
  unfold sliceStartJacobian
  rw [List.sum_take_succ _ _ (by simpa using hi)]
  simp [List.getElem?_eq_getElem hi]

/-- State of the index loop of `Task::Initialize` after `n` iterations. -/
theorem indexLoop_invariant (self : Task K) (Phi : TaskSpaceVector K) (n : Nat)
    (hn : n ≤ self.tasks.length) (hlen : self.indexing.length = self.tasks.length)
    (h0 : self.length_phi = 0) (h1 : self.length_jacobian = 0) :
    (Task.Initialize.indexLoop n (self, Phi)).1.tasks = self.tasks ∧
    (Task.Initialize.indexLoop n (self, Phi)).1.task_initializers_ = self.task_initializers_ ∧
    (Task.Initialize.indexLoop n (self, Phi)).1.num_tasks = self.num_tasks ∧
    (Task.Initialize.indexLoop n (self, Phi)).1.indexing.length = self.tasks.length ∧
    (Task.Initialize.indexLoop n (self, Phi)).1.length_phi = sliceStart self.tasks n ∧
    (Task.Initialize.indexLoop n (self, Phi)).1.length_jacobian
      = sliceStartJacobian self.tasks n ∧
    ∀ i, i < n →
      (Task.Initialize.indexLoop n (self, Phi)).1.indexing[i]?
        = some { id := i, start := sliceStart self.tasks i, length := (self.task i).length,
                 start_jacobian := sliceStartJacobian self.tasks i,
                 length_jacobian := (self.task i).length_jacobian } := by
  unfold Task.Initialize.indexLoop
  induction n with
  | zero =>
    refine ⟨rfl, rfl, rfl, hlen, ?_, ?_, ?_⟩
    · simp [forRange, h0, sliceStart]
    · simp [forRange, h1, sliceStartJacobian]
    · intro i hi
      omega
  | succ n ih =>
    obtain ⟨e1, e2, e3, e4, e5, e6, e7⟩ := ih (by omega)
    rw [forRange_zero_succ]
    generalize forRange 0 _ n (self, Phi) = st at e1 e2 e3 e4 e5 e6 e7 ⊢
    have ht : st.1.task n = self.task n := by
      unfold Task.task
      rw [e1]
    refine ⟨e1, e2, e3, ?_, ?_, ?_, ?_⟩
    · simp only [List.length_set]
      exact e4
    · simp only [Task.task, e1, e5]
      rw [sliceStart_succ _ _ (by omega)]
    · simp only [Task.task, e1, e6]
      rw [sliceStartJacobian_succ _ _ (by omega)]
    · intro i hi
      simp only [List.getElem?_set]
      by_cases hin : n = i
      · subst hin
        rw [if_pos rfl, if_pos (by omega), e5, e6, ht]
      · rw [if_neg hin]
        exact e7 i (by omega)

theorem resolve_inv (prob : PlanningProblem) (inits : List (TaskInitializer K))
    (self s1 : Task K) (h : Task.Initialize.resolve prob inits self = Except.ok s1) :
    ∃ tms : List TaskMap, inits.map (fun t => prob.find t.Task) = tms.map some := by
  unfold Task.Initialize.resolve at h
  induction inits generalizing self with
  | nil => exact ⟨[], rfl⟩
  | cons t ts ih =>
    simp only [forEachM] at h
    cases hf : prob.find t.Task with
    | none =>
      rw [hf] at h
      simp at h
    | some it =>
      rw [hf] at h
      obtain ⟨tms, htms⟩ := ih _ h
      exact ⟨it :: tms, by simp [hf, htms]⟩

/-- The object after `Task::Initialize` on a fresh `Task`, when every initializer
resolves: the registered tasks, the cumulative slices and the totals. -/
theorem Initialize_state (inits : List (TaskInitializer K)) (prob : PlanningProblem)
    (Phi : TaskSpaceVector K) (tms : List TaskMap)
    (hres : inits.map (fun t => prob.find t.Task) = tms.map some) :
    ∃ s Phi1, Task.Initialize inits prob Phi Task.new = Except.ok (s, Phi1) ∧
      s.tasks = tms ∧ s.task_initializers_ = inits ∧ s.num_tasks = tms.length ∧
      s.indexing.length = tms.length ∧
      s.length_phi = sliceStart tms tms.length ∧
      s.length_jacobian = sliceStartJacobian tms tms.length ∧
      ∀ i, i < tms.length →
        s.index i = { id := i, start := sliceStart tms i, length := (s.task i).length,
                      start_jacobian := sliceStartJacobian tms i,
                      length_jacobian := (s.task i).length_jacobian } := by
  unfold Task.Initialize
  rw [resolve_ok prob inits tms Task.new hres]
  simp only [Task.new, List.nil_append]
  have hinv := indexLoop_invariant
    ({ tasks := tms, task_initializers_ := inits,
       indexing := resizeList [] tms.length ⟨0, 0, 0, 0, 0⟩,
       num_tasks := tms.length, length_phi := 0, length_jacobian := 0 } : Task K)
    ⟨Phi.data, []⟩ tms.length le_rfl (by simp [resizeList]) rfl rfl
  obtain ⟨e1, e2, e3, e4, e5, e6, e7⟩ := hinv
  refine ⟨_, _, rfl, e1, e2, e3, e4, e5, e6, ?_⟩
  intro i hi
  have h7 := e7 i hi
  unfold Task.index
  rw [List.getD_eq_getElem?_getD, h7]
  simp only [Option.getD_some, Task.task, e1]

theorem sliceStart_mono (tms : List TaskMap) (i j : Nat) (hij : i ≤ j) (hj : j ≤ tms.length) :
    sliceStart tms i ≤ sliceStart tms j := by
  induction j with
  | zero =>
    have : i = 0 := by omega
    rw [this]
  | succ n ih =>
    rcases Nat.lt_or_ge i (n + 1) with h | h
    · have := ih (by omega) (by omega)
      rw [sliceStart_succ tms n (by omega)]
      omega
    · have : i = n + 1 := by omega
      rw [this]

theorem sliceStartJacobian_mono (tms : List TaskMap) (i j : Nat) (hij : i ≤ j)
    (hj : j ≤ tms.length) : sliceStartJacobian tms i ≤ sliceStartJacobian tms j := by
  induction j with
  | zero =>
    have : i = 0 := by omega
    rw [this]
  | succ n ih =>
    rcases Nat.lt_or_ge i (n + 1) with h | h
    · have := ih (by omega) (by omega)
      rw [sliceStartJacobian_succ tms n (by omega)]
      omega
    · have : i = n + 1 := by omega
      rw [this]

theorem sliceStart_cover (tms : List TaskMap) (n p : Nat) (hn : n ≤ tms.length)
    (hp : p < sliceStart tms n) :
    ∃ i, i < n ∧ sliceStart tms i ≤ p ∧ p < sliceStart tms (i + 1) := by
  induction n with
  | zero => simp [sliceStart] at hp
  | succ n ih =>
    rcases Nat.lt_or_ge p (sliceStart tms n) with h | h
    · obtain ⟨i, hi, h1, h2⟩ := ih (by omega) h
      exact ⟨i, by omega, h1, h2⟩
    · exact ⟨n, by omega, h, hp⟩

theorem sliceStartJacobian_cover (tms : List TaskMap) (n p : Nat) (hn : n ≤ tms.length)
    (hp : p < sliceStartJacobian tms n) :
    ∃ i, i < n ∧ sliceStartJacobian tms i ≤ p ∧ p < sliceStartJacobian tms (i + 1) := by
  induction n with
  | zero => simp [sliceStartJacobian] at hp
  | succ n ih =>
    rcases Nat.lt_or_ge p (sliceStartJacobian tms n) with h | h
    · obtain ⟨i, hi, h1, h2⟩ := ih (by omega) h
      exact ⟨i, by omega, h1, h2⟩
    · exact ⟨n, by omega, h, hp⟩

/-- C6. Indexing partition. `Task::Initialize` on a fresh object and a list of
initializers that resolve to the tasks `tms` (declared lengths `n_i`, Jacobian lengths
`m_i`) succeeds with `indexing[i] = {i, n_0+...+n_{i-1}, n_i, m_0+...+m_{i-1}, m_i}`,
`length_phi = n_0+...+n_{k-1}` and `length_jacobian = m_0+...+m_{k-1}`; the slices
`[start, start+length)` are in registration order, pairwise disjoint, inside
`[0, length_phi)` and cover it, and likewise for the Jacobian slices. -/
theorem Task_Initialize_indexing_partition (inits : List (TaskInitializer K))
    (prob : PlanningProblem) (Phi : TaskSpaceVector K) (tms : List TaskMap)
    (hres : inits.map (fun t => prob.find t.Task) = tms.map some) :
    ∃ s Phi1, Task.Initialize inits prob Phi Task.new = Except.ok (s, Phi1) ∧
      s.tasks = tms ∧ s.num_tasks = tms.length ∧ s.indexing.length = tms.length ∧
      (∀ i, i < tms.length →
        s.index i = { id := i, start := sliceStart tms i, length := (s.task i).length,
                      start_jacobian := sliceStartJacobian tms i,
                      length_jacobian := (s.task i).length_jacobian }) ∧
      s.length_phi = sliceStart tms tms.length ∧
      s.length_jacobian = sliceStartJacobian tms tms.length ∧
      (∀ i j, i < j → j < tms.length →
        (s.index i).start + (s.index i).length ≤ (s.index j).start) ∧
      (∀ i, i < tms.length → (s.index i).start + (s.index i).length ≤ s.length_phi) ∧
      (∀ p, p < s.length_phi →
        ∃ i, i < tms.length ∧ (s.index i).start ≤ p
          ∧ p < (s.index i).start + (s.index i).length) ∧
      (∀ i j, i < j → j < tms.length →
        (s.index i).start_jacobian + (s.index i).length_jacobian
          ≤ (s.index j).start_jacobian) ∧
      (∀ i, i < tms.length →
        (s.index i).start_jacobian + (s.index i).length_jacobian ≤ s.length_jacobian) ∧
      (∀ p, p < s.length_jacobian →
        ∃ i, i < tms.length ∧ (s.index i).start_jacobian ≤ p
          ∧ p < (s.index i).start_jacobian + (s.index i).length_jacobian) := by
  obtain ⟨s, Phi1, hok, e1, e2, e3, e4, e5, e6, e7⟩ := Initialize_state inits prob Phi tms hres
  have hend : ∀ i, i < tms.length →
      (s.index i).start + (s.index i).length = sliceStart tms (i + 1) := by
    intro i hi
    rw [e7 i hi, sliceStart_succ tms i hi]
    simp only [Task.task, e1]
  have hendJ : ∀ i, i < tms.length →
      (s.index i).start_jacobian + (s.index i).length_jacobian
        = sliceStartJacobian tms (i + 1) := by
    intro i hi
    rw [e7 i hi, sliceStartJacobian_succ tms i hi]
    simp only [Task.task, e1]
  have hstart : ∀ i, i < tms.length → (s.index i).start = sliceStart tms i := by
    intro i hi
    rw [e7 i hi]
  have hstartJ : ∀ i, i < tms.length →
      (s.index i).start_jacobian = sliceStartJacobian tms i := by
    intro i hi
    rw [e7 i hi]
  refine ⟨s, Phi1, hok, e1, e3, e4, e7, e5, e6, ?_, ?_, ?_, ?_, ?_, ?_⟩
  · intro i j hij hj
    rw [hend i (by omega), hstart j hj]
    exact sliceStart_mono tms (i + 1) j (by omega) (by omega)
  · intro i hi
    rw [hend i hi, e5]
    exact sliceStart_mono tms (i + 1) tms.length (by omega) le_rfl
  · intro p hp
    rw [e5] at hp
    obtain ⟨i, hi, h1, h2⟩ := sliceStart_cover tms tms.length p le_rfl hp
    refine ⟨i, hi, ?_, ?_⟩
    · rw [hstart i hi]
      exact h1
    · rw [hend i hi]
      exact h2
  · intro i j hij hj
    rw [hendJ i (by omega), hstartJ j hj]
    exact sliceStartJacobian_mono tms (i + 1) j (by omega) (by omega)
  · intro i hi
    rw [hendJ i hi, e6]
    exact sliceStartJacobian_mono tms (i + 1) tms.length (by omega) le_rfl
  · intro p hp
    rw [e6] at hp
    obtain ⟨i, hi, h1, h2⟩ := sliceStartJacobian_cover tms tms.length p le_rfl hp
    refine ⟨i, hi, ?_, ?_⟩
    · rw [hstartJ i hi]
      exact h1
    · rw [hendJ i hi]
      exact h2

/-- Witness for C6: a position task (3 values, 3 Jacobian rows) followed by a pose
task (7 values, 6 Jacobian rows). -/
theorem Task_Initialize_indexing_partition_witness :
    (twoInits : List (TaskInitializer ℚ)).map (fun t => exampleProblem.find t.Task)
      = [positionTask, poseTask].map some ∧
    ∃ s Phi1,
      Task.Initialize (twoInits : List (TaskInitializer ℚ)) exampleProblem
        ⟨VectorXd.Zero 0, []⟩ Task.new = Except.ok (s, Phi1) ∧
      s.index 1 = ⟨1, 3, 7, 3, 6⟩ ∧ s.length_phi = 10 ∧ s.length_jacobian = 9 := by
  have hres : (twoInits : List (TaskInitializer ℚ)).map (fun t => exampleProblem.find t.Task)
      = [positionTask, poseTask].map some := rfl
  obtain ⟨s, Phi1, h1, h2, h3, h4, h5, h6, h7, _⟩ :=
    Task_Initialize_indexing_partition (twoInits : List (TaskInitializer ℚ)) exampleProblem
      ⟨VectorXd.Zero 0, []⟩ [positionTask, poseTask] hres
  refine ⟨hres, s, Phi1, h1, ?_, ?_, ?_⟩
  · rw [h5 1 (by decide)]
    simp only [Task.task, h2]
    rfl
  · rw [h6]
    rfl
  · rw [h7]
    rfl

end TaskInitialize

/-! ## `TimeIndexedTask::ReinitializeVariables` -/


section TimeIndexed

variable {K : Type} [LinearOrderedField K]

open TimeIndexedTask

theorem forRangeM_zero_succ {ε σ : Type} (body : Nat → σ → Except ε σ) (n : Nat) (s : σ) :
    forRangeM 0 body (n + 1) s
      = match forRangeM 0 body n s with
        | Except.ok s1 => body n s1
        | Except.error e => Except.error e := by
  simp [forRangeM]

theorem segment_ok (v : VectorXd K) (off n : Nat) (src : VectorXd K)
    (h : v.segment off n = Except.ok src) :
    off + n ≤ v.size ∧ src.size = n ∧ ∀ k, src.coeff k = v.coeff (off + k) := by
  unfold VectorXd.segment at h
  split at h
  · next hle =>
    injection h with h
    subst h
    exact ⟨hle, rfl, fun _ => rfl⟩
  · cases h

theorem assignSegment_ok (v : VectorXd K) (start n : Nat) (src d : VectorXd K)
    (h : v.assignSegment start n src = Except.ok d) :
    start + n ≤ v.size ∧ d.size = v.size ∧
    ∀ k, d.coeff k = if start ≤ k ∧ k < start + n then src.coeff (k - start) else v.coeff k := by
  unfold VectorXd.assignSegment at h
  split at h
  · next hle =>
    injection h with h
    subst h
    exact ⟨hle.1, rfl, fun _ => rfl⟩
  · cases h

theorem setGoal_ok (i : Nat) (task : TaskInitializer K) (off t : Nat)
    (st st1 : TimeIndexedTask K)
    (h : ReinitializeVariables.setGoal i task off t st = Except.ok st1) :
    st1.toTask = st.toTask ∧ st1.T = st.T ∧ st1.rho = st.rho ∧
    ∀ t1 k, (st1.y.coeff t1).data.coeff k
      = if t1 = t ∧ (st.index i).start ≤ k ∧ k < (st.index i).start + (st.index i).length then
          task.Goal.coeff (off + (k - (st.index i).start))
        else (st.y.coeff t1).data.coeff k := by
  unfold ReinitializeVariables.setGoal at h
  cases hs : task.Goal.segment off (st.task i).length with
  | error e =>
    rw [hs] at h
    cases h
  | ok src =>
    rw [hs] at h
    simp only at h
    cases ha : (st.y.coeff t).data.assignSegment (st.index i).start (st.index i).length src with
    | error e =>
      rw [ha] at h
      cases h
    | ok d =>
      rw [ha] at h
      simp only at h
      injection h with h
      subst h
      obtain ⟨_, _, hsrc⟩ := segment_ok _ _ _ _ hs
      obtain ⟨_, _, hd⟩ := assignSegment_ok _ _ _ _ _ ha
      refine ⟨rfl, rfl, rfl, ?_⟩
      intro t1 k
      simp only [vector_coeff_set]
      by_cases ht : t1 = t
      · subst ht
        simp only [if_true, true_and, hd, hsrc]
      · have h1 : ∀ (p : Prop), ¬ (t1 = t ∧ p) := fun p hp => ht hp.1
        rw [if_neg ht, if_neg (h1 _)]

theorem setGoal_loop (i : Nat) (task : TaskInitializer K) (off : Nat → Nat → Nat)
    (st st1 : TimeIndexedTask K) (n : Nat)
    (h : forRangeM 0 (fun t (self : TimeIndexedTask K) =>
        ReinitializeVariables.setGoal i task (off t (self.task i).length) t self) n st
      = Except.ok st1) :
    st1.toTask = st.toTask ∧ st1.T = st.T ∧ st1.rho = st.rho ∧
    ∀ t1 k, (st1.y.coeff t1).data.coeff k
      = if t1 < n ∧ (st.index i).start ≤ k ∧ k < (st.index i).start + (st.index i).length then
          task.Goal.coeff (off t1 (st.task i).length + (k - (st.index i).start))
        else (st.y.coeff t1).data.coeff k := by
  induction n generalizing st1 with
  | zero =>
    simp only [forRangeM] at h
    injection h with h
    subst h
    refine ⟨rfl, rfl, rfl, ?_⟩
    intro t1 k
    rw [if_neg (by omega)]
  | succ n ih =>
    rw [forRangeM_zero_succ] at h
    cases hm : forRangeM 0 (fun t (self : TimeIndexedTask K) =>
        ReinitializeVariables.setGoal i task (off t (self.task i).length) t self) n st with
    | error e =>
      rw [hm] at h
      cases h
    | ok s1 =>
      rw [hm] at h
      simp only at h
      obtain ⟨a1, a2, a3, a4⟩ := ih s1 hm
      obtain ⟨b1, b2, b3, b4⟩ := setGoal_ok _ _ _ _ _ _ h
      have hidx : s1.index i = st.index i := by
        unfold Task.index
        rw [a1]
      have htask : s1.task i = st.task i := by
        unfold Task.task
        rw [a1]
      refine ⟨b1.trans a1, b2.trans a2, b3.trans a3, ?_⟩
      intro t1 k
      rw [b4, a4, hidx, htask]
      by_cases hk : (st.index i).start ≤ k ∧ k < (st.index i).start + (st.index i).length
      · by_cases ht : t1 = n
        · subst ht
          rw [if_pos ⟨rfl, hk⟩, if_pos ⟨by omega, hk⟩]
        · rw [if_neg (fun hh => ht hh.1)]
          by_cases ht2 : t1 < n
          · rw [if_pos ⟨ht2, hk⟩, if_pos ⟨by omega, hk⟩]
          · rw [if_neg (fun hh => ht2 hh.1), if_neg (fun hh => by omega)]
      · rw [if_neg (fun hh => hk hh.2), if_neg (fun hh => hk hh.2), if_neg (fun hh => hk hh.2)]

/-- Effect of the goal part of the task loop for task `i`. -/
theorem goal_ok (i : Nat) (task : TaskInitializer K) (st st1 : TimeIndexedTask K)
    (h : ReinitializeVariables.goal i task st = Except.ok st1) :
    st1.toTask = st.toTask ∧ st1.T = st.T ∧ st1.rho = st.rho ∧
    ∀ t1 k, (st1.y.coeff t1).data.coeff k
      = if task.Goal.size ≠ 0 ∧ t1 < st.T ∧ (st.index i).start ≤ k
            ∧ k < (st.index i).start + (st.index i).length then
          (if task.Goal.size = (st.task i).length * st.T then
            task.Goal.coeff (t1 * (st.task i).length + (k - (st.index i).start))
          else task.Goal.coeff ((st.task i).length + (k - (st.index i).start)))
        else (st.y.coeff t1).data.coeff k := by
  unfold ReinitializeVariables.goal at h
  by_cases h0 : task.Goal.size = 0
  · rw [if_pos h0] at h
    injection h with h
    subst h
    refine ⟨rfl, rfl, rfl, ?_⟩
    intro t1 k
    rw [if_neg (fun hh => hh.1 h0)]
  · rw [if_neg h0] at h
    by_cases h1 : task.Goal.size = (st.task i).length * st.T
    · rw [if_pos h1] at h
      obtain ⟨a1, a2, a3, a4⟩ := setGoal_loop i task (fun t len => t * len) st st1 st.T h
      refine ⟨a1, a2, a3, ?_⟩
      intro t1 k
      rw [a4, if_pos h1]
      by_cases hc : t1 < st.T ∧ (st.index i).start ≤ k
          ∧ k < (st.index i).start + (st.index i).length
      · rw [if_pos hc, if_pos ⟨h0, hc⟩]
      · rw [if_neg hc, if_neg (fun hh => hc hh.2)]
    · rw [if_neg h1] at h
      by_cases h2 : task.Goal.size = (st.task i).length
      · rw [if_pos h2] at h
        obtain ⟨a1, a2, a3, a4⟩ := setGoal_loop i task (fun _ len => len) st st1 st.T h
        refine ⟨a1, a2, a3, ?_⟩
        intro t1 k
        rw [a4, if_neg h1]
        by_cases hc : t1 < st.T ∧ (st.index i).start ≤ k
            ∧ k < (st.index i).start + (st.index i).length
        · rw [if_pos hc, if_pos ⟨h0, hc⟩]
        · rw [if_neg hc, if_neg (fun hh => hc hh.2)]
      · rw [if_neg h2] at h
        cases h

/-- The weight part of the task loop leaves the goals untouched. -/
theorem rho_ok (i : Nat) (task : TaskInitializer K) (st st1 : TimeIndexedTask K)
    (h : ReinitializeVariables.rho i task st = Except.ok st1) :
    st1.toTask = st.toTask ∧ st1.T = st.T ∧ st1.y = st.y := by
  unfold ReinitializeVariables.rho at h
  by_cases h0 : task.Rho.size = 0
  · rw [if_pos h0] at h
    injection h with h
    subst h
    exact ⟨rfl, rfl, rfl⟩
  · rw [if_neg h0] at h
    by_cases h1 : task.Rho.size = st.T
    · rw [if_pos h1] at h
      injection h with h
      subst h
      apply forRange_invariant
        (fun (s : TimeIndexedTask K) => s.toTask = st.toTask ∧ s.T = st.T ∧ s.y = st.y)
      · intro t s hs
        exact hs
      · exact ⟨rfl, rfl, rfl⟩
    · rw [if_neg h1] at h
      by_cases h2 : task.Rho.size = 1
      · rw [if_pos h2] at h
        injection h with h
        subst h
        apply forRange_invariant
          (fun (s : TimeIndexedTask K) => s.toTask = st.toTask ∧ s.T = st.T ∧ s.y = st.y)
        · intro t s hs
          exact hs
        · exact ⟨rfl, rfl, rfl⟩
      · rw [if_neg h2] at h
        cases h

/-- Effect of one iteration of the task loop on the goals. -/
theorem body_ok (i : Nat) (st st1 : TimeIndexedTask K)
    (h : ReinitializeVariables.body i st = Except.ok st1) :
    st1.toTask = st.toTask ∧ st1.T = st.T ∧
    ∀ t1 k, (st1.y.coeff t1).data.coeff k
      = if (st.task_initializers_.getD i ⟨"", VectorXd.Zero 0, VectorXd.Zero 0⟩).Goal.size ≠ 0
            ∧ t1 < st.T ∧ (st.index i).start ≤ k
            ∧ k < (st.index i).start + (st.index i).length then
          (if (st.task_initializers_.getD i ⟨"", VectorXd.Zero 0, VectorXd.Zero 0⟩).Goal.size
              = (st.task i).length * st.T then
            (st.task_initializers_.getD i ⟨"", VectorXd.Zero 0, VectorXd.Zero 0⟩).Goal.coeff
              (t1 * (st.task i).length + (k - (st.index i).start))
          else
            (st.task_initializers_.getD i ⟨"", VectorXd.Zero 0, VectorXd.Zero 0⟩).Goal.coeff
              ((st.task i).length + (k - (st.index i).start)))
        else (st.y.coeff t1).data.coeff k := by
  unfold ReinitializeVariables.body at h
  simp only at h
  cases hg : ReinitializeVariables.goal i
      (st.task_initializers_.getD i ⟨"", VectorXd.Zero 0, VectorXd.Zero 0⟩) st with
  | error e =>
    rw [hg] at h
    cases h
  | ok s1 =>
    rw [hg] at h
    simp only at h
    obtain ⟨a1, a2, a3, a4⟩ := goal_ok _ _ _ _ hg
    obtain ⟨b1, b2, b3⟩ := rho_ok _ _ _ _ h
    refine ⟨b1.trans a1, b2.trans a2, ?_⟩
    intro t1 k
    rw [b3, a4]

theorem allocate_toTask (T : Nat) (prob : PlanningProblem) (phi_in : TaskSpaceVector K)
    (s : TimeIndexedTask K) :
    (ReinitializeVariables.allocate T prob phi_in s).toTask = s.toTask ∧
    (ReinitializeVariables.allocate T prob phi_in s).T = T ∧
    (ReinitializeVariables.allocate T prob phi_in s).y = VectorX.constant T phi_in := by
  unfold ReinitializeVariables.allocate
  cases prob.KIN_J <;> cases prob.KIN_J_DOT <;> exact ⟨rfl, rfl, rfl⟩

/-- The `Task` part of the object after `TimeIndexedTask::Initialize` on a fresh object. -/
theorem TimeIndexed_Initialize_state (inits : List (TaskInitializer K))
    (prob : PlanningProblem) (Phi Phi1 : TaskSpaceVector K) (s : TimeIndexedTask K)
    (hinit : TimeIndexedTask.Initialize inits prob Phi TimeIndexedTask.new
      = Except.ok (s, Phi1)) :
    s.task_initializers_ = inits ∧ s.num_tasks = s.tasks.length ∧
    inits.length = s.tasks.length ∧
    s.length_phi = sliceStart s.tasks s.tasks.length ∧
    ∀ i, i < s.tasks.length →
      s.index i = { id := i, start := sliceStart s.tasks i, length := (s.task i).length,
                    start_jacobian := sliceStartJacobian s.tasks i,
                    length_jacobian := (s.task i).length_jacobian } := by
  unfold TimeIndexedTask.Initialize at hinit
  cases hT : Task.Initialize inits prob Phi (TimeIndexedTask.new : TimeIndexedTask K).toTask with
  | error e =>
    rw [hT] at hinit
    cases hinit
  | ok r =>
    obtain ⟨base, Phi2⟩ := r
    rw [hT] at hinit
    simp only at hinit
    injection hinit with hinit
    injection hinit with hs hPhi
    have hbase : s.toTask = base := by
      rw [← hs]
    -- the initializers resolve
    have hres : ∃ tms : List TaskMap,
        inits.map (fun t => prob.find t.Task) = tms.map some := by
      have hT2 := hT
      unfold Task.Initialize at hT2
      cases hr : Task.Initialize.resolve prob inits
          (TimeIndexedTask.new : TimeIndexedTask K).toTask with
      | error e =>
        rw [hr] at hT2
        cases hT2
      | ok s1 => exact resolve_inv prob inits _ s1 hr
    obtain ⟨tms, htms⟩ := hres
    obtain ⟨s2, Phi3, hok, e1, e2, e3, e4, e5, e6, e7⟩ :=
      Initialize_state inits prob Phi tms htms
    have hnew : (TimeIndexedTask.new : TimeIndexedTask K).toTask = Task.new := rfl
    rw [hnew, hok] at hT
    injection hT with hT
    injection hT with hb _
    have hs2 : s.toTask = s2 := by rw [hbase, hb]
    have hlen : inits.length = tms.length := by
      have := congrArg List.length htms
      simpa using this
    have htasks : s.tasks = tms := by
      show s.toTask.tasks = tms
      rw [hs2, e1]
    refine ⟨?_, ?_, ?_, ?_, ?_⟩
    · show s.toTask.task_initializers_ = inits
      rw [hs2, e2]
    · show s.toTask.num_tasks = s.tasks.length
      rw [htasks, hs2, e3]
    · rw [htasks, hlen]
    · show s.toTask.length_phi = _
      rw [htasks, hs2, e5]
    · intro i hi
      rw [htasks] at hi ⊢
      have := e7 i hi
      show s.toTask.index i = _
      rw [hs2, this]

/-- The goal block of task `i0` after the first `n` iterations of the task loop, for
a task with per-timestep goals whose slice ends before the slices of the later tasks. -/
theorem taskLoop_goal (st0 st1 : TimeIndexedTask K) (n i0 : Nat)
    (h : forRangeM 0 ReinitializeVariables.body n st0 = Except.ok st1)
    (hdisj : ∀ j, i0 < j → j < n →
      (st0.index i0).start + (st0.index i0).length ≤ (st0.index j).start)
    (hlen : (st0.index i0).length = (st0.task i0).length)
    (hgoal : (st0.task_initializers_.getD i0 ⟨"", VectorXd.Zero 0, VectorXd.Zero 0⟩).Goal.size
      = (st0.task i0).length * st0.T) :
    st1.toTask = st0.toTask ∧ st1.T = st0.T ∧
    (i0 < n → ∀ t k, t < st0.T → k < (st0.task i0).length →
      (st1.y.coeff t).data.coeff ((st0.index i0).start + k)
        = (st0.task_initializers_.getD i0 ⟨"", VectorXd.Zero 0, VectorXd.Zero 0⟩).Goal.coeff
            (t * (st0.task i0).length + k)) := by
  induction n generalizing st1 with
  | zero =>
    simp only [forRangeM] at h
    injection h with h
    subst h
    exact ⟨rfl, rfl, fun hi => absurd hi (by omega)⟩
  | succ n ih =>
    rw [forRangeM_zero_succ] at h
    cases hm : forRangeM 0 ReinitializeVariables.body n st0 with
    | error e =>
      rw [hm] at h
      cases h
    | ok s1 =>
      rw [hm] at h
      simp only at h
      obtain ⟨a1, a2, a3⟩ := ih s1 hm (fun j h1 h2 => hdisj j h1 (by omega))
      obtain ⟨b1, b2, b3⟩ := body_ok n s1 st1 h
      have hidx : ∀ j, s1.index j = st0.index j := by
        intro j
        unfold Task.index
        rw [a1]
      have htask : ∀ j, s1.task j = st0.task j := by
        intro j
        unfold Task.task
        rw [a1]
      have hinits : s1.task_initializers_ = st0.task_initializers_ := by
        show s1.toTask.task_initializers_ = st0.toTask.task_initializers_
        rw [a1]
      refine ⟨b1.trans a1, b2.trans a2, ?_⟩
      intro hi0 t k ht hk
      rw [b3, hinits, hidx, htask, a2]
      by_cases hn : n = i0
      · subst hn
        have hpos : (st0.task_initializers_.getD n ⟨"", VectorXd.Zero 0, VectorXd.Zero 0⟩).Goal.size
            ≠ 0 := by
          rw [hgoal]
          have h1 : 0 < (st0.task n).length := by omega
          have h2 : 0 < st0.T := by omega
          exact Nat.pos_iff_ne_zero.mp (Nat.mul_pos h1 h2)
        rw [if_pos ⟨hpos, ht, by omega, by omega⟩, if_pos hgoal]
        congr 2
        omega
      · have hlt : i0 < n := by omega
        have hd := hdisj n hlt (by omega)
        rw [if_neg (fun hh => by omega)]
        exact a3 hlt t k ht hk

theorem forRangeM_ok_of_invariant {ε σ : Type} (P : σ → Prop) (body : Nat → σ → Except ε σ)
    (n : Nat) (s : σ) (hs : P s)
    (hbody : ∀ i s0, i < n → P s0 → ∃ s1, body i s0 = Except.ok s1 ∧ P s1) :
    ∃ s1, forRangeM 0 body n s = Except.ok s1 ∧ P s1 := by
  induction n with
  | zero => exact ⟨s, rfl, hs⟩
  | succ n ih =>
    obtain ⟨s1, h1, p1⟩ := ih (fun i s0 hi hp => hbody i s0 (by omega) hp)
    obtain ⟨s2, h2, p2⟩ := hbody n s1 (by omega) p1
    refine ⟨s2, ?_, p2⟩
    rw [forRangeM_zero_succ, h1]
    exact h2

/-- The goal assignment completes when both segments are in range. -/
theorem setGoal_completes (i : Nat) (task : TaskInitializer K) (off t : Nat)
    (st : TimeIndexedTask K)
    (hsrc : off + (st.task i).length ≤ task.Goal.size)
    (hdst : (st.index i).start + (st.index i).length ≤ (st.y.coeff t).data.size)
    (hlen : (st.index i).length = (st.task i).length) :
    ∃ st1, ReinitializeVariables.setGoal i task off t st = Except.ok st1 ∧
      st1.toTask = st.toTask ∧ st1.T = st.T ∧
      ∀ t1, (st1.y.coeff t1).data.size = (st.y.coeff t1).data.size := by
  unfold ReinitializeVariables.setGoal VectorXd.segment VectorXd.assignSegment
  rw [if_pos hsrc]
  simp only
  rw [if_pos ⟨hdst, hlen.symm⟩]
  refine ⟨_, rfl, rfl, rfl, ?_⟩
  intro t1
  simp only [vector_coeff_set]
  split
  · next h => rw [h]
  · rfl

/-- The goal part of the task loop completes for an empty goal and for per-timestep
goals, when the slice of the task lies inside every `y[t]`. -/
theorem goal_completes (i : Nat) (task : TaskInitializer K) (st : TimeIndexedTask K)
    (hsize : task.Goal.size = 0 ∨ task.Goal.size = (st.task i).length * st.T)
    (hdst : ∀ t, (st.index i).start + (st.index i).length ≤ (st.y.coeff t).data.size)
    (hlen : (st.index i).length = (st.task i).length) :
    ∃ st1, ReinitializeVariables.goal i task st = Except.ok st1 ∧
      st1.toTask = st.toTask ∧ st1.T = st.T ∧
      ∀ t1, (st1.y.coeff t1).data.size = (st.y.coeff t1).data.size := by
  unfold ReinitializeVariables.goal
  by_cases h0 : task.Goal.size = 0
  · rw [if_pos h0]
    exact ⟨st, rfl, rfl, rfl, fun _ => rfl⟩
  · have h1 : task.Goal.size = (st.task i).length * st.T := by
      rcases hsize with h | h
      · exact absurd h h0
      · exact h
    rw [if_neg h0, if_pos h1]
    have key := forRangeM_ok_of_invariant
      (fun (s0 : TimeIndexedTask K) => s0.toTask = st.toTask ∧ s0.T = st.T ∧
        ∀ t1, (s0.y.coeff t1).data.size = (st.y.coeff t1).data.size)
      (fun t (self : TimeIndexedTask K) =>
        ReinitializeVariables.setGoal i task (t * (self.task i).length) t self)
      st.T st ⟨rfl, rfl, fun _ => rfl⟩
      (by
        intro t s0 ht hp
        obtain ⟨p1, p2, p3⟩ := hp
        have hidx : s0.index i = st.index i := by
          unfold Task.index
          rw [p1]
        have htask : s0.task i = st.task i := by
          unfold Task.task
          rw [p1]
        have hsrc : t * (s0.task i).length + (s0.task i).length ≤ task.Goal.size := by
          rw [htask, h1]
          have : (t + 1) * (st.task i).length ≤ st.T * (st.task i).length :=
            Nat.mul_le_mul_right _ (by omega)
          calc t * (st.task i).length + (st.task i).length
              = (t + 1) * (st.task i).length := by ring
            _ ≤ st.T * (st.task i).length := this
            _ = (st.task i).length * st.T := by ring
        obtain ⟨s1, q0, q1, q2, q3⟩ := setGoal_completes i task (t * (s0.task i).length) t s0
          hsrc (by rw [hidx, p3]; exact hdst t) (by rw [hidx, htask]; exact hlen)
        exact ⟨s1, q0, q1.trans p1, q2.trans p2, fun t1 => (q3 t1).trans (p3 t1)⟩)
    obtain ⟨s1, k0, k1, k2, k3⟩ := key
    exact ⟨s1, k0, k1, k2, k3⟩

/-- The weight part of the task loop completes for a weight of length 0, `T` or 1. -/
theorem rho_completes (i : Nat) (task : TaskInitializer K) (st : TimeIndexedTask K)
    (hsize : task.Rho.size = 0 ∨ task.Rho.size = st.T ∨ task.Rho.size = 1) :
    ∃ st1, ReinitializeVariables.rho i task st = Except.ok st1 := by
  unfold ReinitializeVariables.rho
  by_cases h0 : task.Rho.size = 0
  · rw [if_pos h0]
    exact ⟨_, rfl⟩
  · rw [if_neg h0]
    by_cases h1 : task.Rho.size = st.T
    · rw [if_pos h1]
      exact ⟨_, rfl⟩
    · rw [if_neg h1]
      have h2 : task.Rho.size = 1 := by
        rcases hsize with h | h | h
        · exact absurd h h0
        · exact absurd h h1
        · exact h
      rw [if_pos h2]
      exact ⟨_, rfl⟩

/-- One iteration of the task loop completes under the two length conditions. -/
theorem body_completes (i : Nat) (st : TimeIndexedTask K)
    (hgoal : (st.task_initializers_.getD i ⟨"", VectorXd.Zero 0, VectorXd.Zero 0⟩).Goal.size = 0
      ∨ (st.task_initializers_.getD i ⟨"", VectorXd.Zero 0, VectorXd.Zero 0⟩).Goal.size
          = (st.task i).length * st.T)
    (hrho : (st.task_initializers_.getD i ⟨"", VectorXd.Zero 0, VectorXd.Zero 0⟩).Rho.size = 0
      ∨ (st.task_initializers_.getD i ⟨"", VectorXd.Zero 0, VectorXd.Zero 0⟩).Rho.size = st.T
      ∨ (st.task_initializers_.getD i ⟨"", VectorXd.Zero 0, VectorXd.Zero 0⟩).Rho.size = 1)
    (hdst : ∀ t, (st.index i).start + (st.index i).length ≤ (st.y.coeff t).data.size)
    (hlen : (st.index i).length = (st.task i).length) :
    ∃ st1, ReinitializeVariables.body i st = Except.ok st1 ∧
      st1.toTask = st.toTask ∧ st1.T = st.T ∧
      ∀ t1, (st1.y.coeff t1).data.size = (st.y.coeff t1).data.size := by
  obtain ⟨s1, g0, g1, g2, g3⟩ := goal_completes i _ st hgoal hdst hlen
  obtain ⟨s2, r0⟩ := rho_completes i
    (st.task_initializers_.getD i ⟨"", VectorXd.Zero 0, VectorXd.Zero 0⟩) s1
    (by rw [g2]; exact hrho)
  obtain ⟨r1, r2, r3⟩ := rho_ok _ _ _ _ r0
  refine ⟨s2, ?_, r1.trans g1, r2.trans g2, ?_⟩
  · unfold ReinitializeVariables.body
    simp only [g0, r0]
  · intro t1
    rw [r3]
    exact g3 t1

/-- After `Initialize`, `ReinitializeVariables` completes when every goal is empty or
has one block per timestep, every weight has length 0, `T` or 1, and the template has
at least `length_phi` coefficients. -/
theorem ReinitializeVariables_completes (inits : List (TaskInitializer K))
    (prob prob2 : PlanningProblem) (Phi Phi1 phi_in : TaskSpaceVector K)
    (s : TimeIndexedTask K) (T : Nat)
    (hinit : TimeIndexedTask.Initialize inits prob Phi TimeIndexedTask.new
      = Except.ok (s, Phi1))
    (hsizes : ∀ j, j < s.num_tasks →
      ((inits.getD j ⟨"", VectorXd.Zero 0, VectorXd.Zero 0⟩).Goal.size = 0
        ∨ (inits.getD j ⟨"", VectorXd.Zero 0, VectorXd.Zero 0⟩).Goal.size
            = (s.task j).length * T) ∧
      ((inits.getD j ⟨"", VectorXd.Zero 0, VectorXd.Zero 0⟩).Rho.size = 0
        ∨ (inits.getD j ⟨"", VectorXd.Zero 0, VectorXd.Zero 0⟩).Rho.size = T
        ∨ (inits.getD j ⟨"", VectorXd.Zero 0, VectorXd.Zero 0⟩).Rho.size = 1))
    (htemplate : s.length_phi ≤ phi_in.data.size) :
    ∃ s1, ReinitializeVariables T prob2 phi_in s = Except.ok s1 := by
  obtain ⟨e1, e2, e3, e4, e5⟩ := TimeIndexed_Initialize_state inits prob Phi Phi1 s hinit
  obtain ⟨c1, c2, c3⟩ := allocate_toTask T prob2 phi_in s
  have hnum : (ReinitializeVariables.allocate T prob2 phi_in s).num_tasks = s.num_tasks := by
    show (ReinitializeVariables.allocate T prob2 phi_in s).toTask.num_tasks = _
    rw [c1]
  have hinits : (ReinitializeVariables.allocate T prob2 phi_in s).task_initializers_
      = inits := by
    show (ReinitializeVariables.allocate T prob2 phi_in s).toTask.task_initializers_ = inits
    rw [c1]
    exact e1
  unfold ReinitializeVariables
  simp only
  have hcheck : ¬ ((ReinitializeVariables.allocate T prob2 phi_in s).num_tasks
      ≠ (ReinitializeVariables.allocate T prob2 phi_in s).task_initializers_.length) := by
    rw [hnum, hinits, e2, e3]
    exact fun h => h rfl
  rw [if_neg hcheck]
  have key := forRangeM_ok_of_invariant
    (fun (s0 : TimeIndexedTask K) => s0.toTask = s.toTask ∧ s0.T = T ∧
      ∀ t1, (s0.y.coeff t1).data.size = phi_in.data.size)
    ReinitializeVariables.body
    (ReinitializeVariables.allocate T prob2 phi_in s).num_tasks
    (ReinitializeVariables.allocate T prob2 phi_in s)
    ⟨c1, c2, by
      intro t1
      rw [c3]
      rfl⟩
    (by
      intro i s0 hi hp
      obtain ⟨p1, p2, p3⟩ := hp
      rw [hnum] at hi
      have hi2 : i < s.tasks.length := by omega
      have hidx : s0.index i = s.index i := by
        unfold Task.index
        rw [p1]
      have htask : s0.task i = s.task i := by
        unfold Task.task
        rw [p1]
      have hin : s0.task_initializers_ = inits := by
        show s0.toTask.task_initializers_ = inits
        rw [p1]
        exact e1
      have hlen : (s.index i).length = (s.task i).length := by
        rw [e5 i hi2]
      have hend : (s.index i).start + (s.index i).length ≤ s.length_phi := by
        rw [e5 i hi2, e4]
        have h1 := sliceStart_succ s.tasks i hi2
        have h2 := sliceStart_mono s.tasks (i + 1) s.tasks.length (by omega) le_rfl
        show sliceStart s.tasks i + (s.tasks.getD i ⟨0, 0, 0, 0, false, []⟩).length
          ≤ sliceStart s.tasks s.tasks.length
        omega
      obtain ⟨s1, b0, b1, b2, b3⟩ := body_completes i s0
        (by rw [hin, htask, p2]; exact (hsizes i hi).1)
        (by rw [hin, p2]; exact (hsizes i hi).2)
        (by
          intro t
          rw [hidx, p3]
          omega)
        (by rw [hidx, htask]; exact hlen)
      exact ⟨s1, b0, b1.trans p1, b2.trans p2, fun t1 => (b3 t1).trans (p3 t1)⟩)
  obtain ⟨s1, k0, _⟩ := key
  exact ⟨s1, k0⟩

/-- C8. Time-indexed per-timestep goals. After `Initialize` on a fresh object, for a
task `i` whose supplied goal has exactly `tasks[i].length * T` entries: whenever
`ReinitializeVariables(T, ...)` completes, for every timestep `t < T` the goal block
`y[t][start_i .. start_i + length_i)` equals `Goal[t*length_i .. (t+1)*length_i)`; the
goal assignment of task `i` changes no coefficient outside that block; and the call
does complete when every goal is empty or has one block per timestep, every weight has
length 0, `T` or 1, and the template has at least `length_phi` coefficients. -/
theorem ReinitializeVariables_per_timestep_goal (inits : List (TaskInitializer K))
    (prob prob2 : PlanningProblem) (Phi Phi1 phi_in : TaskSpaceVector K)
    (s : TimeIndexedTask K) (T i : Nat)
    (hinit : TimeIndexedTask.Initialize inits prob Phi TimeIndexedTask.new
      = Except.ok (s, Phi1))
    (hi : i < s.num_tasks)
    (hgoal : (inits.getD i ⟨"", VectorXd.Zero 0, VectorXd.Zero 0⟩).Goal.size
      = (s.task i).length * T) :
    (∀ s1, ReinitializeVariables T prob2 phi_in s = Except.ok s1 →
      ∀ t k, t < T → k < (s.task i).length →
        (s1.y.coeff t).data.coeff ((s.index i).start + k)
          = (inits.getD i ⟨"", VectorXd.Zero 0, VectorXd.Zero 0⟩).Goal.coeff
              (t * (s.task i).length + k)) ∧
    (∀ (task : TaskInitializer K) (st st1 : TimeIndexedTask K),
      ReinitializeVariables.goal i task st = Except.ok st1 →
      ∀ t k, ¬ ((st.index i).start ≤ k ∧ k < (st.index i).start + (st.index i).length) →
        (st1.y.coeff t).data.coeff k = (st.y.coeff t).data.coeff k) ∧
    ((∀ j, j < s.num_tasks →
        ((inits.getD j ⟨"", VectorXd.Zero 0, VectorXd.Zero 0⟩).Goal.size = 0
          ∨ (inits.getD j ⟨"", VectorXd.Zero 0, VectorXd.Zero 0⟩).Goal.size
              = (s.task j).length * T) ∧
        ((inits.getD j ⟨"", VectorXd.Zero 0, VectorXd.Zero 0⟩).Rho.size = 0
          ∨ (inits.getD j ⟨"", VectorXd.Zero 0, VectorXd.Zero 0⟩).Rho.size = T
          ∨ (inits.getD j ⟨"", VectorXd.Zero 0, VectorXd.Zero 0⟩).Rho.size = 1)) →
      s.length_phi ≤ phi_in.data.size →
      ∃ s1, ReinitializeVariables T prob2 phi_in s = Except.ok s1) := by
  refine ⟨?_, ?_, ?_⟩
  · intro s1 hre
    obtain ⟨e1, e2, e3, e4, e5⟩ := TimeIndexed_Initialize_state inits prob Phi Phi1 s hinit
    obtain ⟨c1, c2, c3⟩ := allocate_toTask T prob2 phi_in s
    unfold ReinitializeVariables at hre
    simp only at hre
    split at hre
    · cases hre
    · have hidx : ∀ j, (ReinitializeVariables.allocate T prob2 phi_in s).index j = s.index j := by
        intro j
        unfold Task.index
        rw [c1]
      have htask : ∀ j, (ReinitializeVariables.allocate T prob2 phi_in s).task j = s.task j := by
        intro j
        unfold Task.task
        rw [c1]
      have hinits : (ReinitializeVariables.allocate T prob2 phi_in s).task_initializers_
          = inits := by
        show (ReinitializeVariables.allocate T prob2 phi_in s).toTask.task_initializers_ = inits
        rw [c1]
        exact e1
      have hnum : (ReinitializeVariables.allocate T prob2 phi_in s).num_tasks = s.num_tasks := by
        show (ReinitializeVariables.allocate T prob2 phi_in s).toTask.num_tasks = _
        rw [c1]
      have hi2 : i < s.tasks.length := by omega
      have hlen : (s.index i).length = (s.task i).length := by
        rw [e5 i hi2]
      have hmain := taskLoop_goal (ReinitializeVariables.allocate T prob2 phi_in s) s1
        (ReinitializeVariables.allocate T prob2 phi_in s).num_tasks i hre
        (by
          intro j hij hj
          rw [hidx, hidx]
          rw [hnum] at hj
          have hj2 : j < s.tasks.length := by omega
          rw [e5 i hi2, e5 j hj2]
          have h1 := sliceStart_succ s.tasks i hi2
          have h2 := sliceStart_mono s.tasks (i + 1) j (by omega) (by omega)
          show sliceStart s.tasks i + (s.tasks.getD i ⟨0, 0, 0, 0, false, []⟩).length
            ≤ sliceStart s.tasks j
          omega)
        (by rw [hidx, htask]; exact hlen)
        (by rw [hinits, htask, c2]; exact hgoal)
      obtain ⟨_, _, m3⟩ := hmain
      intro t k ht hk
      have := m3 (by rw [hnum]; exact hi) t k (by rw [c2]; exact ht) (by rw [htask]; exact hk)
      rw [hidx, hinits, htask] at this
      exact this
  · intro task st st1 hg t k hk
    obtain ⟨_, _, _, a4⟩ := goal_ok i task st st1 hg
    rw [a4, if_neg (fun hh => hk ⟨hh.2.2.1, hh.2.2.2⟩)]
  · intro hsizes htemplate
    exact ReinitializeVariables_completes inits prob prob2 Phi Phi1 phi_in s T hinit hsizes
      htemplate

/-- Witness for C8: a task of length 3 with goals for two timesteps, followed by a
second task; the last coefficient of the block of timestep 1 is the last goal entry. -/
theorem ReinitializeVariables_per_timestep_goal_witness :
    ∃ s Phi1 s1,
      TimeIndexedTask.Initialize (perTimestepInits : List (TaskInitializer ℚ)) exampleProblem
        ⟨VectorXd.Zero 0, []⟩ TimeIndexedTask.new = Except.ok (s, Phi1) ∧
      ReinitializeVariables 2 exampleProblem ⟨VectorXd.Zero 10, []⟩ s = Except.ok s1 ∧
      (s1.y.coeff 1).data.coeff ((s.index 0).start + 2) = 6 := by
  refine ⟨_, _, _, rfl, rfl, ?_⟩
  have h := (ReinitializeVariables_per_timestep_goal
    (perTimestepInits : List (TaskInitializer ℚ)) exampleProblem exampleProblem
    ⟨VectorXd.Zero 0, []⟩ _ ⟨VectorXd.Zero 10, []⟩ _ 2 0 rfl (by decide) rfl).1 _ rfl 1 2
    (by decide) (by decide)
  rw [h]
  show ((5 : Nat) : ℚ) + 1 = 6
  norm_num

theorem forRangeM_error_first {ε σ : Type} (body : Nat → σ → Except ε σ) (n : Nat) (s : σ)
    (e : ε) (hn : 0 < n) (h : body 0 s = Except.error e) :
    forRangeM 0 body n s = Except.error e := by
  induction n with
  | zero => omega
  | succ n ih =>
    rw [forRangeM_zero_succ]
    rcases Nat.eq_zero_or_pos n with h0 | h0
    · subst h0
      simp only [forRangeM]
      exact h
    · rw [ih h0]

/-- The broadcast branch of the goal part never succeeds: for a goal with exactly
`tasks[i].length > 0` entries and `T > 1`, the read `Goal.segment(length, length)` is out
of range at the first timestep. -/
theorem goal_broadcast_fails (i : Nat) (task : TaskInitializer K) (st : TimeIndexedTask K)
    (hlen : task.Goal.size = (st.task i).length) (hpos : 0 < (st.task i).length)
    (hT : 1 < st.T) :
    ReinitializeVariables.goal i task st = Except.error Exception.eigenAssertion := by
  unfold ReinitializeVariables.goal
  have h0 : ¬ task.Goal.size = 0 := by omega
  have h1 : ¬ task.Goal.size = (st.task i).length * st.T := by
    rw [hlen]
    intro h
    have h2 : (st.task i).length * 2 ≤ (st.task i).length * st.T :=
      Nat.mul_le_mul_left _ hT
    omega
  rw [if_neg h0, if_neg h1, if_pos hlen]
  apply forRangeM_error_first _ _ _ _ (by omega)
  unfold ReinitializeVariables.setGoal VectorXd.segment
  have h3 : ¬ ((st.task i).length + (st.task i).length ≤ task.Goal.size) := by omega
  rw [if_neg h3]

/-- C7 (failing input). One task of length 3 with a goal of length 3 and `T = 5`:
the broadcast branch reads `Goal.segment(3, 3)`, outside the three goal entries, so
`ReinitializeVariables` stops on the Eigen assertion instead of copying the goal to
the five timesteps. -/
theorem ReinitializeVariables_broadcast_goal_out_of_range :
    ∃ s Phi1,
      TimeIndexedTask.Initialize (broadcastInits : List (TaskInitializer ℚ)) exampleProblem
        ⟨VectorXd.Zero 0, []⟩ TimeIndexedTask.new = Except.ok (s, Phi1) ∧
      ((broadcastInits : List (TaskInitializer ℚ)).getD 0
        ⟨"", VectorXd.Zero 0, VectorXd.Zero 0⟩).Goal.size = (s.task 0).length ∧
      ReinitializeVariables 5 exampleProblem Phi1 s
        = Except.error Exception.eigenAssertion :=
  ⟨_, _, rfl, rfl, rfl⟩

/-- C9 (failing input). One task of length 3 with an empty goal, `T = 2` and a
template whose coefficients are 7: the call completes and the goal block of timestep
0 holds the template's 7, not 0. -/
theorem ReinitializeVariables_empty_goal_keeps_template :
    ∃ s Phi1 s1,
      TimeIndexedTask.Initialize (emptyGoalInits : List (TaskInitializer ℚ)) exampleProblem
        ⟨VectorXd.Zero 0, []⟩ TimeIndexedTask.new = Except.ok (s, Phi1) ∧
      ReinitializeVariables 2 exampleProblem ⟨⟨3, fun _ => 7⟩, []⟩ s = Except.ok s1 ∧
      (s1.y.coeff 0).data.coeff (s.index 0).start = 7 ∧
      (s1.y.coeff 0).data.coeff (s.index 0).start ≠ 0 :=
  ⟨_, _, _, rfl, rfl, rfl, by
    show (7 : ℚ) ≠ 0
    norm_num⟩

/-- C10 (failing input). One task of length 1 with a goal of length 1 and a weight of
length 1, `T = 2`: both lengths are among the accepted ones, yet the call neither
completes nor reports a configuration error; it stops on the Eigen assertion of the
out-of-range read `Goal.segment(1, 1)`. -/
theorem ReinitializeVariables_valid_lengths_do_not_complete :
    ∃ s Phi1,
      TimeIndexedTask.Initialize (scalarInits : List (TaskInitializer ℚ)) exampleProblem
        ⟨VectorXd.Zero 0, []⟩ TimeIndexedTask.new = Except.ok (s, Phi1) ∧
      ((scalarInits : List (TaskInitializer ℚ)).getD 0
        ⟨"", VectorXd.Zero 0, VectorXd.Zero 0⟩).Goal.size = (s.task 0).length ∧
      ((scalarInits : List (TaskInitializer ℚ)).getD 0
        ⟨"", VectorXd.Zero 0, VectorXd.Zero 0⟩).Rho.size = 1 ∧
      ReinitializeVariables 2 exampleProblem Phi1 s
        = Except.error Exception.eigenAssertion :=
  ⟨_, _, rfl, rfl, rfl, rfl⟩

end TimeIndexed

namespace IMesh

section SpecJacobian

variable {K : Type} [LinearOrderedField K]

/-- The pair `(w, _w)` of `Update` is the spec's `(w, dw)` when the weights of row `j`
are non-negative off the diagonal. -/
theorem wPair_spec (sqrt : K → K) (self : IMesh K) (kinematics : KinematicResponse K)
    (eff_phi : VectorXd K) (M i j l : Nat) (hsize : eff_phi.size / 3 = M)
    (hj : j < M) (hl : l < M) (hlj : l ≠ j)
    (hW : ∀ k, k < M → k ≠ j → 0 ≤ self.weights_.coeff j k) :
    Update.wPair self kinematics eff_phi (ComputeLaplace sqrt eff_phi self.weights_).dist
      (ComputeLaplace sqrt eff_phi self.weights_).wsum M i j l
    = (specW sqrt eff_phi self.weights_ M j l,
       specDW sqrt eff_phi self.weights_ kinematics M i j l) := by
  have hdist : ∀ k, k < M → k ≠ j →
      (ComputeLaplace sqrt eff_phi self.weights_).dist.coeff j k = specDist sqrt eff_phi j k := by
    intro k hk hkj
    rw [ComputeLaplace_dist, hsize, if_pos ⟨fun e => hkj e.symm, hj, hk⟩]
  have hdistjj : (ComputeLaplace sqrt eff_phi self.weights_).dist.coeff j j = 0 := by
    rw [ComputeLaplace_dist, if_neg (fun h => h.1 rfl)]
  have hwsum : (ComputeLaplace sqrt eff_phi self.weights_).wsum.coeff j
      = specWsum sqrt eff_phi self.weights_ M j := by
    rw [ComputeLaplace_wsum, hsize, if_pos hj]
  unfold Update.wPair specW specDW
  by_cases hv : 0 < specDist sqrt eff_phi j l ∧ 0 < specWsum sqrt eff_phi self.weights_ M j
  · by_cases hWl : self.weights_.coeff j l > 0
    · have hc2 : specDist sqrt eff_phi j l > 0 ∧
          specWsum sqrt eff_phi self.weights_ M j > 0 ∧ self.weights_.coeff j l > 0 :=
        ⟨hv.1, hv.2, hWl⟩
      simp only [dA_eq_sum, hdist l hl hlj, hwsum, if_pos hc2, if_pos hv, Prod.mk.injEq,
        specA, true_and]
      rw [pow_two]
      congr 2
      unfold specDA specNeighbours
      rw [Finset.sum_filter]
      apply Finset.sum_congr rfl
      intro k hk
      have hk2 : k < M := Finset.mem_range.mp hk
      by_cases hkj : k ≠ j
      · rw [hdist k hk2 hkj]
        have hjk : j ≠ k := fun e => hkj e.symm
        by_cases hdk : 0 < specDist sqrt eff_phi j k
        · have hs : k ≠ j ∧ 0 < specDist sqrt eff_phi j k := ⟨hkj, hdk⟩
          by_cases hWk : self.weights_.coeff j k > 0
          · have hcode : j ≠ k ∧ specDist sqrt eff_phi j k > 0 ∧ self.weights_.coeff j k > 0 :=
              ⟨hjk, hdk, hWk⟩
            simp only [if_pos hs, if_pos hcode, pow_two]
            rfl
          · have h0 : self.weights_.coeff j k = 0 :=
              le_antisymm (not_lt.mp hWk) (hW k hk2 hkj)
            have hcode : ¬ (j ≠ k ∧ specDist sqrt eff_phi j k > 0
                ∧ self.weights_.coeff j k > 0) := fun h => hWk h.2.2
            rw [if_pos hs, if_neg hcode, h0, zero_mul, zero_div]
        · have hs : ¬ (k ≠ j ∧ 0 < specDist sqrt eff_phi j k) := fun h => hdk h.2
          have hcode : ¬ (j ≠ k ∧ specDist sqrt eff_phi j k > 0
              ∧ self.weights_.coeff j k > 0) := fun h => hdk h.2.1
          simp only [if_neg hs, if_neg hcode]
      · have hkj2 : k = j := not_not.mp hkj
        subst hkj2
        have hs : ∀ (p : Prop), ¬ (k ≠ k ∧ p) := fun p h => h.1 rfl
        rw [if_neg (hs _), if_neg (hs _)]
    · have h0 : self.weights_.coeff j l = 0 := le_antisymm (not_lt.mp hWl) (hW l hl hlj)
      rw [if_neg (fun h => hWl h.2.2), if_pos hv, if_pos hv, h0]
      simp
  · have hc : ¬ ((ComputeLaplace sqrt eff_phi self.weights_).dist.coeff j l > 0 ∧
        (ComputeLaplace sqrt eff_phi self.weights_).wsum.coeff j > 0 ∧
        self.weights_.coeff j l > 0) := by
      rw [hdist l hl hlj, hwsum]
      exact fun h => hv ⟨h.1, h.2.1⟩
    rw [if_neg hc, if_neg hv, if_neg hv]

/-- With correctly sized buffers `Update` completes and returns the value computed by
`ComputeLaplace` and the Jacobian written by the three nested loops. -/
theorem Update_eq_ok (sqrt : K → K) (self : IMesh K) (kinematics : KinematicResponse K)
    (Phi : VectorXd K) (jacobian : MatrixXd K)
    (hPhi : Phi.size = self.eff_size_ * 3)
    (hrows : jacobian.rows = self.eff_size_ * 3)
    (hcols : jacobian.cols = (kinematics.jacobian 0).cols) :
    Update sqrt self kinematics Phi jacobian
      = Except.ok
          ((ComputeLaplace sqrt (Update.effPhi self.eff_size_ kinematics.Phi)
              self.weights_).Phi,
            Update.jacobianLoop self kinematics (Update.effPhi self.eff_size_ kinematics.Phi)
              (ComputeLaplace sqrt (Update.effPhi self.eff_size_ kinematics.Phi)
                self.weights_).dist
              (ComputeLaplace sqrt (Update.effPhi self.eff_size_ kinematics.Phi)
                self.weights_).wsum
              self.eff_size_ (kinematics.jacobian 0).cols jacobian) := by
  unfold Update
  have h1 : ¬ (Phi.size ≠ self.eff_size_ * 3) := fun h => h hPhi
  have h2 : ¬ (jacobian.rows ≠ self.eff_size_ * 3
      ∨ jacobian.cols ≠ (kinematics.jacobian 0).cols) := by
    rintro (h | h)
    · exact h hrows
    · exact h hcols
  simp only [if_neg h1, if_neg h2]

/-- Entry `(3j + c, i)` of the Jacobian written by the loops of `Update`, in the spec's
terms, for non-negative weights. -/
theorem jacobianLoop_spec_coeff (sqrt : K → K) (self : IMesh K)
    (kinematics : KinematicResponse K) (N : Nat) (m : MatrixXd K) (i j c : Nat)
    (hi : i < N) (hj : j < self.eff_size_) (hc : c < 3)
    (hW : ∀ k, k < self.eff_size_ → k ≠ j → 0 ≤ self.weights_.coeff j k) :
    (Update.jacobianLoop self kinematics (Update.effPhi self.eff_size_ kinematics.Phi)
      (ComputeLaplace sqrt (Update.effPhi self.eff_size_ kinematics.Phi) self.weights_).dist
      (ComputeLaplace sqrt (Update.effPhi self.eff_size_ kinematics.Phi) self.weights_).wsum
      self.eff_size_ N m).coeff (3 * j + c) i
    = (kinematics.jacobian j).coeff c i
      - ∑ l ∈ (Finset.range self.eff_size_).filter (fun l => l ≠ j),
          ((Update.effPhi self.eff_size_ kinematics.Phi).coeff (l * 3 + c)
              * specDW sqrt (Update.effPhi self.eff_size_ kinematics.Phi) self.weights_
                  kinematics self.eff_size_ i j l
            + (kinematics.jacobian l).coeff c i
              * specW sqrt (Update.effPhi self.eff_size_ kinematics.Phi) self.weights_
                  self.eff_size_ j l) := by
  have hsize : (Update.effPhi self.eff_size_ kinematics.Phi).size / 3 = self.eff_size_ := by
    rw [effPhi_size]
    omega
  rw [jacobianLoop_coeff, if_pos ⟨hi, by omega⟩]
  have hq : (3 * j + c) / 3 = j := by omega
  have hr : (3 * j + c) % 3 = c := by omega
  rw [hq, hr]
  congr 1
  rw [Finset.sum_filter]
  apply Finset.sum_congr rfl
  intro l hl
  have hl2 : l < self.eff_size_ := Finset.mem_range.mp hl
  by_cases hlj : l ≠ j
  · have hjl : j ≠ l := fun e => hlj e.symm
    rw [if_pos hjl, if_pos hlj,
      wPair_spec sqrt self kinematics _ self.eff_size_ i j l hsize hj hl2 hlj hW]
  · have hjl : ¬ j ≠ l := fun h => hlj (fun e => h e.symm)
    rw [if_neg hjl, if_neg hlj]

/-- C20. The closed-form Jacobian agrees with the forward pass's omission rule. For
non-negative weights (off the diagonal) and correctly sized buffers, `Update` completes
and the block `(j, i)` it writes is the spec's `J_j − Σ_{l≠j} (P_l·dw(j,l) + J_l·w(j,l))`
with `w = W/A`, `dw = −W·dA/A²` for the terms valid under the forward rule
(`d(j,l) > 0` and `wsum(j) > 0`) and `w = dw = 0` otherwise, where `dA` sums over the
`k ≠ j` with `d(j,k) > 0`; the spec's terms carry no guard on the weights, so the
guards `W(j,l) > 0` and `W(j,k) > 0` of the code do not change the result. -/
theorem Update_jacobian_closed_form (sqrt : K → K) (self : IMesh K)
    (kinematics : KinematicResponse K) (Phi : VectorXd K) (jacobian : MatrixXd K)
    (hPhi : Phi.size = self.eff_size_ * 3)
    (hrows : jacobian.rows = self.eff_size_ * 3)
    (hcols : jacobian.cols = (kinematics.jacobian 0).cols)
    (hW : ∀ j l, j < self.eff_size_ → l < self.eff_size_ → l ≠ j →
      0 ≤ self.weights_.coeff j l) :
    ∃ Phi1 jacobian1,
      Update sqrt self kinematics Phi jacobian = Except.ok (Phi1, jacobian1) ∧
      ∀ i j, i < (kinematics.jacobian 0).cols → j < self.eff_size_ →
        jacobian1.block31 (3 * j) i
          = specJacobianBlock sqrt (Update.effPhi self.eff_size_ kinematics.Phi)
              self.weights_ kinematics self.eff_size_ i j := by
  refine ⟨_, _, Update_eq_ok sqrt self kinematics Phi jacobian hPhi hrows hcols, ?_⟩
  intro i j hi hj
  have h0 := jacobianLoop_spec_coeff sqrt self kinematics (kinematics.jacobian 0).cols
    jacobian i j 0 hi hj (by omega) (fun k hk hkj => hW j k hj hk hkj)
  have h1 := jacobianLoop_spec_coeff sqrt self kinematics (kinematics.jacobian 0).cols
    jacobian i j 1 hi hj (by omega) (fun k hk hkj => hW j k hj hk hkj)
  have h2 := jacobianLoop_spec_coeff sqrt self kinematics (kinematics.jacobian 0).cols
    jacobian i j 2 hi hj (by omega) (fun k hk hkj => hW j k hj hk hkj)
  simp only [Nat.add_zero] at h0
  unfold specJacobianBlock
  simp only [MatrixXd.block31, Vector3d.sub, specJ, point, VectorXd.segment3, Nat.zero_add,
    Nat.add_zero]
  rw [h0, h1, h2]

end SpecJacobian

/-- Witness for C20: the two-effector mesh with unit weights, over the reals. -/
theorem Update_jacobian_closed_form_witness :
    ∃ Phi1 jacobian1,
      Update Real.sqrt (pairMesh : IMesh ℝ) pairKinematics (VectorXd.Zero 6) (MatrixXd.Zero 6 1)
        = Except.ok (Phi1, jacobian1) ∧
      ∀ i j, i < ((pairKinematics : KinematicResponse ℝ).jacobian 0).cols →
        j < (pairMesh : IMesh ℝ).eff_size_ →
        jacobian1.block31 (3 * j) i
          = specJacobianBlock Real.sqrt
              (Update.effPhi (pairMesh : IMesh ℝ).eff_size_
                (pairKinematics : KinematicResponse ℝ).Phi)
              (pairMesh : IMesh ℝ).weights_ pairKinematics (pairMesh : IMesh ℝ).eff_size_ i j :=
  Update_jacobian_closed_form Real.sqrt (pairMesh : IMesh ℝ) pairKinematics (VectorXd.Zero 6)
    (MatrixXd.Zero 6 1) rfl rfl rfl
    (by
      intro j l _ _ _
      simp [pairMesh])

end IMesh

namespace IMesh

/-! ## The size check of `IMesh::Update` and the weight matrix -/

section SizeCheck

variable {K : Type} [LinearOrderedField K]

/-- The loops of `Update` keep the shape of the Jacobian buffer. -/
theorem jacobianLoop_shape (self : IMesh K) (kinematics : KinematicResponse K)
    (eff_phi : VectorXd K) (dist : MatrixXd K) (wsum : VectorXd K) (M N : Nat)
    (m : MatrixXd K) :
    (Update.jacobianLoop self kinematics eff_phi dist wsum M N m).rows = m.rows ∧
    (Update.jacobianLoop self kinematics eff_phi dist wsum M N m).cols = m.cols := by
  unfold Update.jacobianLoop
  apply forRange_invariant (fun (v : MatrixXd K) => v.rows = m.rows ∧ v.cols = m.cols)
  · intro i v hv
    apply forRange_invariant (fun (v : MatrixXd K) => v.rows = m.rows ∧ v.cols = m.cols)
    · intro j v hv
      apply forRange_invariant (fun (v : MatrixXd K) => v.rows = m.rows ∧ v.cols = m.cols)
      · intro l v hv
        split
        · exact hv
        · exact hv
      · split
        · exact hv
        · exact hv
    · exact hv
  · exact ⟨rfl, rfl⟩

/-- C18. With `M = eff_size_` effectors and `N` configuration coordinates,
`Update(x, Phi, jacobian)` throws if and only if `Phi` does not have `3M` rows or
`jacobian` is not `3M × N` (the first check reports the size of `Phi`, the second the
size of the Jacobian); a call that throws leaves both buffers as they were, a call
that returns hands back the written buffers of the same sizes; and `TaskSpaceDim()`
is `3M`. -/
theorem Update_size_check (sqrt : K → K) (self : IMesh K) (kinematics : KinematicResponse K)
    (Phi : VectorXd K) (jacobian : MatrixXd K) :
    ((∃ e, Update sqrt self kinematics Phi jacobian = Except.error e) ↔
      (Phi.size ≠ 3 * self.eff_size_ ∨ jacobian.rows ≠ 3 * self.eff_size_ ∨
        jacobian.cols ≠ (kinematics.jacobian 0).cols)) ∧
    (∀ e, Update sqrt self kinematics Phi jacobian = Except.error e ↔
      (Update.inPlace sqrt self kinematics Phi jacobian).1 = some e) ∧
    (∀ e, (Update.inPlace sqrt self kinematics Phi jacobian).1 = some e →
      (Update.inPlace sqrt self kinematics Phi jacobian).2 = (Phi, jacobian)) ∧
    (∀ Phi1 jacobian1, Update sqrt self kinematics Phi jacobian = Except.ok (Phi1, jacobian1) →
      (Update.inPlace sqrt self kinematics Phi jacobian) = (none, Phi1, jacobian1) ∧
      Phi1.size = TaskSpaceDim self ∧ jacobian1.rows = TaskSpaceDim self ∧
      jacobian1.cols = (kinematics.jacobian 0).cols) ∧
    (Phi.size ≠ 3 * self.eff_size_ →
      Update sqrt self kinematics Phi jacobian = Except.error Exception.wrongSizeOfPhi) ∧
    (Phi.size = 3 * self.eff_size_ →
      (jacobian.rows ≠ 3 * self.eff_size_ ∨ jacobian.cols ≠ (kinematics.jacobian 0).cols) →
      Update sqrt self kinematics Phi jacobian
        = Except.error (Exception.wrongSizeOfJacobian (kinematics.jacobian 0).cols)) ∧
    TaskSpaceDim self = 3 * self.eff_size_ := by
  have hm : self.eff_size_ * 3 = 3 * self.eff_size_ := Nat.mul_comm _ _
  by_cases h1 : Phi.size ≠ self.eff_size_ * 3
  · have hU : Update sqrt self kinematics Phi jacobian
        = Except.error Exception.wrongSizeOfPhi := by
      unfold Update
      simp only [if_pos h1]
    have hI : Update.inPlace sqrt self kinematics Phi jacobian
        = (some Exception.wrongSizeOfPhi, Phi, jacobian) := by
      unfold Update.inPlace
      simp only [if_pos h1]
    rw [hU, hI]
    refine ⟨⟨fun _ => Or.inl (hm ▸ h1), fun _ => ⟨_, rfl⟩⟩, ?_, ?_, ?_, fun _ => rfl, ?_, rfl⟩
    · intro e
      constructor
      · intro h
        injection h with h
        rw [h]
      · intro h
        injection h with h
        rw [h]
    · intro e _
      rfl
    · intro Phi1 jacobian1 h
      cases h
    · intro h
      exact absurd (hm ▸ h) h1
  · by_cases h2 : jacobian.rows ≠ self.eff_size_ * 3
        ∨ jacobian.cols ≠ (kinematics.jacobian 0).cols
    · have hU : Update sqrt self kinematics Phi jacobian
          = Except.error (Exception.wrongSizeOfJacobian (kinematics.jacobian 0).cols) := by
        unfold Update
        simp only [if_neg h1, if_pos h2]
      have hI : Update.inPlace sqrt self kinematics Phi jacobian
          = (some (Exception.wrongSizeOfJacobian (kinematics.jacobian 0).cols),
              Phi, jacobian) := by
        unfold Update.inPlace
        simp only [if_neg h1, if_pos h2]
      rw [hU, hI]
      refine ⟨⟨fun _ => Or.inr (hm ▸ h2), fun _ => ⟨_, rfl⟩⟩, ?_, ?_, ?_, ?_, fun _ _ => rfl,
        rfl⟩
      · intro e
        constructor
        · intro h
          injection h with h
          rw [h]
        · intro h
          injection h with h
          rw [h]
      · intro e _
        rfl
      · intro Phi1 jacobian1 h
        cases h
      · intro h
        exact absurd (hm ▸ h) h1
    · have hPhi : Phi.size = self.eff_size_ * 3 := not_not.mp h1
      have hrows : jacobian.rows = self.eff_size_ * 3 := by
        by_contra h
        exact h2 (Or.inl h)
      have hcols : jacobian.cols = (kinematics.jacobian 0).cols := by
        by_contra h
        exact h2 (Or.inr h)
      have hU := Update_eq_ok sqrt self kinematics Phi jacobian hPhi hrows hcols
      have hI : Update.inPlace sqrt self kinematics Phi jacobian
          = (none,
              (ComputeLaplace sqrt (Update.effPhi self.eff_size_ kinematics.Phi)
                self.weights_).Phi,
              Update.jacobianLoop self kinematics
                (Update.effPhi self.eff_size_ kinematics.Phi)
                (ComputeLaplace sqrt (Update.effPhi self.eff_size_ kinematics.Phi)
                  self.weights_).dist
                (ComputeLaplace sqrt (Update.effPhi self.eff_size_ kinematics.Phi)
                  self.weights_).wsum
                self.eff_size_ (kinematics.jacobian 0).cols jacobian) := by
        unfold Update.inPlace
        simp only [if_neg h1, if_neg h2]
      rw [hU, hI]
      refine ⟨⟨?_, ?_⟩, ?_, ?_, ?_, ?_, ?_, rfl⟩
      · rintro ⟨e, h⟩
        cases h
      · rintro (h | h | h)
        · exact absurd (hm ▸ hPhi) h
        · exact absurd (hm ▸ hrows) h
        · exact absurd hcols h
      · intro e
        constructor
        · intro h
          cases h
        · intro h
          cases h
      · intro e h
        cases h
      · intro Phi1 jacobian1 h
        injection h with h
        injection h with ha hb
        subst ha
        subst hb
        refine ⟨rfl, ?_, ?_, ?_⟩
        · rw [ComputeLaplace_size, effPhi_size]
          unfold TaskSpaceDim
          omega
        · rw [(jacobianLoop_shape _ _ _ _ _ _ _ _).1, hrows]
          unfold TaskSpaceDim
          omega
        · rw [(jacobianLoop_shape _ _ _ _ _ _ _ _).2, hcols]
      · intro h
        exact absurd (hm ▸ h) h1
      · intro _ h
        exact absurd h (hm ▸ h2)

end SizeCheck

/-- C19 (failing input). A mesh instantiated with two frames and no initial weights
holds the 2 × 2 matrix of ones. `SetWeights` with a 2 × 2 matrix whose entry `(0, 1)` is
`-1` returns without error and stores the negative entry, while `SetWeight(0, 1, -1)`
on the same mesh is rejected as an invalid weight. -/
theorem SetWeights_stores_negative_weight :
    ∃ s,
      (Instantiate (fun m _ => m) 2 ⟨"", VectorXd.Zero 0⟩ (new : IMesh ℚ)).weights_
        = ⟨2, 2, fun _ _ => 1⟩ ∧
      SetWeights negativeWeights
        (Instantiate (fun m _ => m) 2 ⟨"", VectorXd.Zero 0⟩ (new : IMesh ℚ)) = Except.ok s ∧
      s.weights_.rows = 2 ∧ s.weights_.cols = 2 ∧
      s.weights_.coeff 0 1 = -1 ∧ s.weights_.coeff 0 1 < 0 ∧
      SetWeight 0 1 (-1) (Instantiate (fun m _ => m) 2 ⟨"", VectorXd.Zero 0⟩ (new : IMesh ℚ))
        = Except.error (Exception.invalidWeight (-1)) :=
  ⟨_, rfl, rfl, rfl, rfl, rfl, by
    show (negativeWeights : MatrixXd ℚ).coeff 0 1 < 0
    simp [negativeWeights], by
    unfold SetWeight
    simp [Instantiate, new, VectorXd.Zero]⟩

end IMesh

/-! ## Loops with an indexed invariant -/

section IndexedLoops

theorem forRangeM_indexed_invariant {ε σ : Type} (P : Nat → σ → Prop)
    (body : Nat → σ → Except ε σ) (n : Nat) (s : σ) (hs : P 0 s)
    (hbody : ∀ i s0, i < n → P i s0 → ∃ s1, body i s0 = Except.ok s1 ∧ P (i + 1) s1) :
    ∃ s1, forRangeM 0 body n s = Except.ok s1 ∧ P n s1 := by
  induction n with
  | zero => exact ⟨s, rfl, hs⟩
  | succ n ih =>
    obtain ⟨s1, h1, p1⟩ := ih (fun i s0 hi hp => hbody i s0 (by omega) hp)
    obtain ⟨s2, h2, p2⟩ := hbody n s1 (by omega) p1
    refine ⟨s2, ?_, p2⟩
    rw [forRangeM_zero_succ, h1]
    exact h2

/-- A loop that fails in iteration `m` after `m` successful iterations fails with the
same exception for every bound above `m`. -/
theorem forRangeM_error_at {ε σ : Type} (body : Nat → σ → Except ε σ) (m n : Nat) (s s1 : σ)
    (e : ε) (hm : m < n) (h1 : forRangeM 0 body m s = Except.ok s1)
    (h2 : body m s1 = Except.error e) :
    forRangeM 0 body n s = Except.error e := by
  induction n with
  | zero => omega
  | succ n ih =>
    rw [forRangeM_zero_succ]
    rcases Nat.lt_or_ge m n with h | h
    · rw [ih h]
    · have : m = n := by omega
      subst this
      rw [h1]
      exact h2

theorem forEachM_indexed_invariant {ε σ α : Type} (P : Nat → σ → Prop)
    (body : α → σ → Except ε σ) (l : List α) (s : σ) (hs : P 0 s)
    (hbody : ∀ i x s0, l[i]? = some x → P i s0 →
      ∃ s1, body x s0 = Except.ok s1 ∧ P (i + 1) s1) :
    ∃ s1, forEachM body l s = Except.ok s1 ∧ P l.length s1 := by
  induction l generalizing P s with
  | nil => exact ⟨s, rfl, hs⟩
  | cons x xs ih =>
    obtain ⟨s1, h1, p1⟩ := hbody 0 x s (by simp) hs
    obtain ⟨s2, h2, p2⟩ := ih (fun i st => P (i + 1) st) s1 p1
      (fun i y s0 hy hp => hbody (i + 1) y s0 (by simpa using hy) hp)
    refine ⟨s2, ?_, p2⟩
    unfold forEachM
    rw [h1]
    exact h2

theorem forEach_indexed_invariant {σ α : Type} (P : Nat → σ → Prop)
    (body : α → σ → σ) (l : List α) (s : σ) (hs : P 0 s)
    (hbody : ∀ i x s0, l[i]? = some x → P i s0 → P (i + 1) (body x s0)) :
    P l.length (forEach body l s) := by
  induction l generalizing P s with
  | nil => exact hs
  | cons x xs ih =>
    unfold forEach
    exact ih (fun i st => P (i + 1) st) (body x s) (hbody 0 x s (by simp) hs)
      (fun i y s0 hy hp => hbody (i + 1) y s0 (by simpa using hy) hp)

theorem forRange_indexed_invariant {σ : Type} (P : Nat → σ → Prop)
    (body : Nat → σ → σ) (n : Nat) (s : σ) (hs : P 0 s)
    (hbody : ∀ i s0, i < n → P i s0 → P (i + 1) (body i s0)) :
    P n (forRange 0 body n s) := by
  induction n with
  | zero => exact hs
  | succ n ih =>
    rw [forRange_zero_succ]
    exact hbody n _ (by omega) (ih (fun i s0 hi hp => hbody i s0 (by omega) hp))

end IndexedLoops

/-! ## The goal and weight loop of the single-pose aggregators -/

section GoalRho

variable {K : Type} [LinearOrderedField K]

theorem getD_of_getElem? {α : Type} (l : List α) (i : Nat) (d x : α) (h : l[i]? = some x) :
    l.getD i d = x := by
  rw [List.getD_eq_getElem?_getD, h]
  rfl

theorem getElem?_of_lt_getD {α : Type} (l : List α) (i : Nat) (d : α) (h : i < l.length) :
    l[i]? = some (l.getD i d) := by
  rw [List.getD_eq_getElem?_getD, List.getElem?_eq_getElem h]
  rfl

/-- The goal part completes for an accepted goal length, and writes the goal to the
slice of task `i` only. -/
theorem goalPart_ok (base : Task K) (i : Nat) (task : TaskInitializer K)
    (y : TaskSpaceVector K)
    (hv : task.Goal.size = 0 ∨ task.Goal.size = (base.task i).length)
    (hlen : (base.index i).length = (base.task i).length)
    (hfit : (base.index i).start + (base.index i).length ≤ y.data.size) :
    ∃ y1, base.goalPart i task y = Except.ok y1 ∧ y1.map = y.map ∧
      y1.data.size = y.data.size ∧
      ∀ k, y1.data.coeff k
        = if task.Goal.size ≠ 0 ∧ (base.index i).start ≤ k ∧
              k < (base.index i).start + (base.index i).length then
            task.Goal.coeff (k - (base.index i).start)
          else y.data.coeff k := by
  unfold Task.goalPart
  by_cases h0 : task.Goal.size = 0
  · refine ⟨y, ?_, rfl, rfl, ?_⟩
    · rw [if_pos h0]
    · intro k
      rw [if_neg (fun h => h.1 h0)]
  · have h1 : task.Goal.size = (base.task i).length := by
      rcases hv with h | h
      · exact absurd h h0
      · exact h
    have hc : (base.index i).start + (base.index i).length ≤ y.data.size ∧
        task.Goal.size = (base.index i).length := ⟨hfit, by rw [h1, hlen]⟩
    refine ⟨⟨⟨y.data.size, fun k =>
      if (base.index i).start ≤ k ∧ k < (base.index i).start + (base.index i).length then
        task.Goal.coeff (k - (base.index i).start) else y.data.coeff k⟩, y.map⟩, ?_, rfl, rfl, ?_⟩
    · rw [if_neg h0, if_pos h1]
      unfold VectorXd.assignSegment
      rw [if_pos hc]
    · intro k
      by_cases hk : (base.index i).start ≤ k ∧
          k < (base.index i).start + (base.index i).length
      · rw [if_pos ⟨h0, hk⟩]
        show (if _ then _ else _) = _
        rw [if_pos hk]
      · rw [if_neg (fun h => hk h.2)]
        show (if _ then _ else _) = _
        rw [if_neg hk]

/-- The goal part reports a goal whose length is neither zero nor the task's. -/
theorem goalPart_error (base : Task K) (i : Nat) (task : TaskInitializer K)
    (y : TaskSpaceVector K) (h0 : task.Goal.size ≠ 0)
    (h1 : task.Goal.size ≠ (base.task i).length) :
    base.goalPart i task y
      = Except.error (Exception.invalidTaskGoalSize (base.task i).length task.Goal.size) := by
  unfold Task.goalPart
  rw [if_neg h0, if_neg h1]

theorem rhoPart_ok (i : Nat) (task : TaskInitializer K) (rho : VectorXd K)
    (hv : task.Rho.size = 0 ∨ task.Rho.size = 1) :
    ∃ rho1, Task.rhoPart i task rho = Except.ok rho1 ∧ rho1.size = rho.size ∧
      ∀ k, rho1.coeff k
        = if k = i then (if task.Rho.size = 0 then 1 else task.Rho.coeff 0)
          else rho.coeff k := by
  unfold Task.rhoPart
  by_cases h0 : task.Rho.size = 0
  · refine ⟨rho.set i 1, ?_, rfl, ?_⟩
    · rw [if_pos h0]
    · intro k
      rw [if_pos h0]
      rfl
  · have h1 : task.Rho.size = 1 := by
      rcases hv with h | h
      · exact absurd h h0
      · exact h
    refine ⟨rho.set i (task.Rho.coeff 0), ?_, rfl, ?_⟩
    · rw [if_neg h0, if_pos h1]
    · intro k
      rw [if_neg h0]
      rfl

theorem rhoPart_error (i : Nat) (task : TaskInitializer K) (rho : VectorXd K)
    (h0 : task.Rho.size ≠ 0) (h1 : task.Rho.size ≠ 1) :
    Task.rhoPart i task rho = Except.error (Exception.invalidTaskRhoSize 1 task.Rho.size) := by
  unfold Task.rhoPart
  rw [if_neg h0, if_neg h1]

/-- The task loop of `EndPoseTask::Initialize` and `SamplingTask::Initialize` after `m`
iterations with accepted goal and weight lengths: the slices and weights of the tasks
before `m` are set, everything else is as before the loop. -/
theorem goalRhoLoop_ok (base : Task K) (inits : List (TaskInitializer K)) (n m : Nat)
    (y0 : TaskSpaceVector K) (rho0 : VectorXd K)
    (hn : base.tasks.length = n)
    (hidx : ∀ i, i < n → (base.index i).start = sliceStart base.tasks i ∧
      (base.index i).length = (base.task i).length)
    (hy0 : y0.data.size = sliceStart base.tasks n) (hm : m ≤ n)
    (hvalid : ∀ i, i < m →
      ((inits.getD i ⟨"", VectorXd.Zero 0, VectorXd.Zero 0⟩).Goal.size = 0 ∨
        (inits.getD i ⟨"", VectorXd.Zero 0, VectorXd.Zero 0⟩).Goal.size
          = (base.task i).length) ∧
      ((inits.getD i ⟨"", VectorXd.Zero 0, VectorXd.Zero 0⟩).Rho.size = 0 ∨
        (inits.getD i ⟨"", VectorXd.Zero 0, VectorXd.Zero 0⟩).Rho.size = 1)) :
    ∃ st, forRangeM 0 (base.goalRhoBody inits) m (y0, rho0) = Except.ok st ∧
      st.1.map = y0.map ∧ st.1.data.size = y0.data.size ∧ st.2.size = rho0.size ∧
      (∀ i, i < m → ∀ k, k < (base.task i).length →
        st.1.data.coeff (sliceStart base.tasks i + k)
          = if (inits.getD i ⟨"", VectorXd.Zero 0, VectorXd.Zero 0⟩).Goal.size = 0 then
              y0.data.coeff (sliceStart base.tasks i + k)
            else (inits.getD i ⟨"", VectorXd.Zero 0, VectorXd.Zero 0⟩).Goal.coeff k) ∧
      (∀ p, sliceStart base.tasks m ≤ p → st.1.data.coeff p = y0.data.coeff p) ∧
      (∀ i, i < m →
        st.2.coeff i
          = if (inits.getD i ⟨"", VectorXd.Zero 0, VectorXd.Zero 0⟩).Rho.size = 0 then 1
            else (inits.getD i ⟨"", VectorXd.Zero 0, VectorXd.Zero 0⟩).Rho.coeff 0) ∧
      (∀ i, m ≤ i → st.2.coeff i = rho0.coeff i) := by
  apply forRangeM_indexed_invariant
    (fun m (st : TaskSpaceVector K × VectorXd K) =>
      st.1.map = y0.map ∧ st.1.data.size = y0.data.size ∧ st.2.size = rho0.size ∧
      (∀ i, i < m → ∀ k, k < (base.task i).length →
        st.1.data.coeff (sliceStart base.tasks i + k)
          = if (inits.getD i ⟨"", VectorXd.Zero 0, VectorXd.Zero 0⟩).Goal.size = 0 then
              y0.data.coeff (sliceStart base.tasks i + k)
            else (inits.getD i ⟨"", VectorXd.Zero 0, VectorXd.Zero 0⟩).Goal.coeff k) ∧
      (∀ p, sliceStart base.tasks m ≤ p → st.1.data.coeff p = y0.data.coeff p) ∧
      (∀ i, i < m →
        st.2.coeff i
          = if (inits.getD i ⟨"", VectorXd.Zero 0, VectorXd.Zero 0⟩).Rho.size = 0 then 1
            else (inits.getD i ⟨"", VectorXd.Zero 0, VectorXd.Zero 0⟩).Rho.coeff 0) ∧
      (∀ i, m ≤ i → st.2.coeff i = rho0.coeff i))
  · exact ⟨rfl, rfl, rfl, fun i hi => absurd hi (Nat.not_lt_zero i), fun _ _ => rfl,
      fun i hi => absurd hi (Nat.not_lt_zero i), fun _ _ => rfl⟩
  · intro i st hi ⟨p1, p2, p3, p4, p5, p6, p7⟩
    have hin : i < n := by omega
    have hs : sliceStart base.tasks (i + 1)
        = sliceStart base.tasks i + (base.task i).length :=
      sliceStart_succ base.tasks i (by omega)
    have hmono : sliceStart base.tasks (i + 1) ≤ sliceStart base.tasks n :=
      sliceStart_mono base.tasks (i + 1) n (by omega) (by omega)
    obtain ⟨hstart, hlen⟩ := hidx i hin
    obtain ⟨y1, hg, g1, g2, g3⟩ := goalPart_ok base i
      (inits.getD i ⟨"", VectorXd.Zero 0, VectorXd.Zero 0⟩) st.1 (hvalid i hi).1 hlen
      (by rw [hstart, hlen, p2, hy0]; omega)
    obtain ⟨rho1, hr, r1, r2⟩ := rhoPart_ok i
      (inits.getD i ⟨"", VectorXd.Zero 0, VectorXd.Zero 0⟩) st.2 (hvalid i hi).2
    refine ⟨(y1, rho1), ?_, g1.trans p1, g2.trans p2, r1.trans p3, ?_, ?_, ?_, ?_⟩
    · unfold Task.goalRhoBody
      simp only [hg, hr]
    · intro j hj k hk
      show y1.data.coeff _ = _
      rw [g3, hstart, hlen]
      rcases Nat.lt_or_ge j i with hji | hji
      · have hjs : sliceStart base.tasks (j + 1)
            = sliceStart base.tasks j + (base.task j).length :=
          sliceStart_succ base.tasks j (by omega)
        have hjm : sliceStart base.tasks (j + 1) ≤ sliceStart base.tasks i :=
          sliceStart_mono base.tasks (j + 1) i (by omega) (by omega)
        rw [if_neg (fun h => by omega)]
        exact p4 j hji k hk
      · have hje : j = i := by omega
        subst hje
        by_cases h0 : (inits.getD j ⟨"", VectorXd.Zero 0, VectorXd.Zero 0⟩).Goal.size = 0
        · rw [if_neg (fun h => h.1 h0), if_pos h0]
          exact p5 _ (by omega)
        · rw [if_pos ⟨h0, by omega, by omega⟩, if_neg h0]
          congr 1
          omega
    · intro p hp
      show y1.data.coeff _ = _
      rw [g3, hstart, hlen, if_neg (fun h => by omega)]
      exact p5 p (by omega)
    · intro j hj
      show rho1.coeff _ = _
      rw [r2]
      rcases Nat.lt_or_ge j i with hji | hji
      · rw [if_neg (by omega)]
        exact p6 j hji
      · have hje : j = i := by omega
        subst hje
        rw [if_pos rfl]
    · intro j hj
      show rho1.coeff _ = _
      rw [r2, if_neg (by omega)]
      exact p7 j (by omega)

end GoalRho

/-! ## The state left by `Initialize` -/

section InitializedState

variable {K : Type} [LinearOrderedField K]

/-- The first loop of `Task::Initialize` throws unless every initializer resolves. -/
theorem resolve_cases (prob : PlanningProblem) (inits : List (TaskInitializer K))
    (self : Task K) :
    (∃ tms : List TaskMap, inits.map (fun t => prob.find t.Task) = tms.map some) ∨
    (∃ e, Task.Initialize.resolve prob inits self = Except.error e) := by
  unfold Task.Initialize.resolve
  induction inits generalizing self with
  | nil => exact Or.inl ⟨[], rfl⟩
  | cons t ts ih =>
    cases hfind : prob.find t.Task with
    | none =>
      right
      simp only [forEachM, hfind]
      exact ⟨_, rfl⟩
    | some tm =>
      simp only [forEachM, hfind]
      rcases ih { self with
          tasks := self.tasks ++ [tm],
          task_initializers_ := self.task_initializers_ ++ [t] } with ⟨tms, h⟩ | ⟨e, h⟩
      · left
        refine ⟨tm :: tms, ?_⟩
        simp only [List.map_cons, hfind, h]
      · right
        exact ⟨e, h⟩

/-- The state after a call of `Task::Initialize` on a fresh object that returned: the
slices are the cumulative sums over the registered tasks and `Phi` is zero-filled. -/
theorem Task_Initialize_inv (inits : List (TaskInitializer K)) (prob : PlanningProblem)
    (Phi : TaskSpaceVector K) (base : Task K) (Phi1 : TaskSpaceVector K)
    (h : Task.Initialize inits prob Phi Task.new = Except.ok (base, Phi1)) :
    inits.map (fun t => prob.find t.Task) = base.tasks.map some ∧
    base.tasks.length = base.num_tasks ∧ base.indexing.length = base.num_tasks ∧
    (∀ i, i < base.num_tasks →
      base.index i = { id := i, start := sliceStart base.tasks i,
                       length := (base.task i).length,
                       start_jacobian := sliceStartJacobian base.tasks i,
                       length_jacobian := (base.task i).length_jacobian }) ∧
    base.length_phi = sliceStart base.tasks base.num_tasks ∧
    base.length_jacobian = sliceStartJacobian base.tasks base.num_tasks ∧
    Phi1.data = VectorXd.Zero base.length_phi := by
  rcases resolve_cases prob inits (Task.new : Task K) with ⟨tms, hres⟩ | ⟨e, he⟩
  · obtain ⟨s, Phi2, heq, e1, e2, e3, e4, e5, e6, e7⟩ := Initialize_state inits prob Phi tms hres
    have hPhi : Phi2.data = VectorXd.Zero s.length_phi := by
      unfold Task.Initialize at heq
      rw [resolve_ok prob inits tms Task.new hres] at heq
      simp only [] at heq
      injection heq with heq
      injection heq with ha hb
      rw [← hb, ← ha]
      rfl
    rw [heq] at h
    injection h with h
    injection h with ha hb
    subst ha
    subst hb
    refine ⟨by rw [e1]; exact hres, by rw [e1, e3], by rw [e4, e3], ?_, by rw [e5, e1, e3],
      by rw [e6, e1, e3], hPhi⟩
    intro i hi
    rw [e7 i (by omega), e1]
  · unfold Task.Initialize at h
    rw [he] at h
    cases h

/-- The members after the allocations of `EndPoseTask::Initialize`. -/
theorem EndPose_allocate_fields (prob : PlanningProblem) (base : Task K)
    (Phi : TaskSpaceVector K) (self : EndPoseTask K) :
    (EndPoseTask.Initialize.allocate prob base Phi self).toTask = base ∧
    (EndPoseTask.Initialize.allocate prob base Phi self).Phi = Phi ∧
    (EndPoseTask.Initialize.allocate prob base Phi self).y = Phi.SetZero base.length_phi ∧
    (EndPoseTask.Initialize.allocate prob base Phi self).rho = VectorXd.Ones base.num_tasks ∧
    (EndPoseTask.Initialize.allocate prob base Phi self).S
      = MatrixXd.Identity base.length_jacobian base.length_jacobian ∧
    (EndPoseTask.Initialize.allocate prob base Phi self).ydiff
      = VectorXd.Zero base.length_jacobian ∧
    (EndPoseTask.Initialize.allocate prob base Phi self).jacobian
      = (if prob.KIN_J then MatrixXd.Zero base.length_jacobian prob.N else self.jacobian) := by
  unfold EndPoseTask.Initialize.allocate
  cases prob.KIN_J <;> cases prob.KIN_J_DOT <;> simp

/-- The members after the allocations of `SamplingTask::Initialize`. -/
theorem Sampling_allocate_fields (base : Task K) (Phi : TaskSpaceVector K)
    (self : SamplingTask K) :
    (SamplingTask.Initialize.allocate base Phi self).toTask = base ∧
    (SamplingTask.Initialize.allocate base Phi self).Phi = Phi ∧
    (SamplingTask.Initialize.allocate base Phi self).y = Phi.SetZero base.length_phi ∧
    (SamplingTask.Initialize.allocate base Phi self).rho = VectorXd.Ones base.num_tasks ∧
    (SamplingTask.Initialize.allocate base Phi self).S
      = MatrixXd.Identity base.length_jacobian base.length_jacobian ∧
    (SamplingTask.Initialize.allocate base Phi self).ydiff
      = VectorXd.Zero base.length_jacobian ∧
    (SamplingTask.Initialize.allocate base Phi self).tolerance = self.tolerance := by
  unfold SamplingTask.Initialize.allocate
  simp

/-- The method `EndPoseTask::Initialize` on a fresh object, once `Task::Initialize` has
returned: the allocations followed by the task loop. -/
theorem EndPose_Initialize_eq (inits : List (TaskInitializer K)) (prob : PlanningProblem)
    (unused : TaskSpaceVector K) (base : Task K) (Phi1 : TaskSpaceVector K)
    (h : Task.Initialize inits prob (EndPoseTask.new : EndPoseTask K).Phi Task.new
      = Except.ok (base, Phi1)) :
    EndPoseTask.Initialize inits prob unused EndPoseTask.new
      = match forRangeM 0 (base.goalRhoBody inits) base.num_tasks
            (Phi1.SetZero base.length_phi, VectorXd.Ones base.num_tasks) with
        | Except.error e => Except.error e
        | Except.ok st =>
          Except.ok { EndPoseTask.Initialize.allocate prob base Phi1 EndPoseTask.new with
            y := st.1, rho := st.2 } := by
  unfold EndPoseTask.Initialize
  have h2 : Task.Initialize inits prob (EndPoseTask.new : EndPoseTask K).Phi
      (EndPoseTask.new : EndPoseTask K).toTask = Except.ok (base, Phi1) := h
  rw [h2]
  obtain ⟨a1, a2, a3, a4, a5, a6, a7⟩ :=
    EndPose_allocate_fields prob base Phi1 (EndPoseTask.new : EndPoseTask K)
  simp only [a1, a3, a4]

/-- The method `SamplingTask::Initialize` on a fresh object, once `Task::Initialize` has
returned: the allocations followed by the task loop. -/
theorem Sampling_Initialize_eq (inits : List (TaskInitializer K)) (prob : PlanningProblem)
    (unused : TaskSpaceVector K) (self : SamplingTask K) (base : Task K)
    (Phi1 : TaskSpaceVector K)
    (h : Task.Initialize inits prob self.Phi self.toTask = Except.ok (base, Phi1)) :
    SamplingTask.Initialize inits prob unused self
      = match forRangeM 0 (base.goalRhoBody inits) base.num_tasks
            (Phi1.SetZero base.length_phi, VectorXd.Ones base.num_tasks) with
        | Except.error e => Except.error e
        | Except.ok st =>
          Except.ok { SamplingTask.Initialize.allocate base Phi1 self with
            y := st.1, rho := st.2 } := by
  unfold SamplingTask.Initialize
  rw [h]
  obtain ⟨a1, a2, a3, a4, a5, a6, a7⟩ := Sampling_allocate_fields base Phi1 self
  simp only [a1, a3, a4]

end InitializedState

/-! ## Goal and weight validation of the single-pose aggregators -/

section GoalRhoValidation

variable {K : Type} [LinearOrderedField K]

theorem lt_of_getElem? {α : Type} (l : List α) (i : Nat) (x : α) (h : l[i]? = some x) :
    i < l.length := by
  by_contra hc
  rw [List.getElem?_eq_none (by omega)] at h
  cases h

/-- The call of `Task::Initialize` on a fresh object when every initializer resolves. -/
theorem Task_Initialize_fresh (inits : List (TaskInitializer K)) (prob : PlanningProblem)
    (Phi : TaskSpaceVector K) (tms : List TaskMap)
    (hres : inits.map (fun t => prob.find t.Task) = tms.map some) :
    ∃ base Phi1, Task.Initialize inits prob Phi Task.new = Except.ok (base, Phi1) ∧
      base.tasks = tms ∧ inits.length = tms.length ∧ base.num_tasks = tms.length ∧
      base.indexing.length = tms.length ∧
      (∀ i, i < tms.length →
        base.index i = { id := i, start := sliceStart tms i,
                         length := (base.task i).length,
                         start_jacobian := sliceStartJacobian tms i,
                         length_jacobian := (base.task i).length_jacobian }) ∧
      base.length_phi = sliceStart tms tms.length ∧
      base.length_jacobian = sliceStartJacobian tms tms.length ∧
      Phi1.data = VectorXd.Zero base.length_phi := by
  obtain ⟨s, Phi2, heq, e1, e2, e3, e4, e5, e6, e7⟩ := Initialize_state inits prob Phi tms hres
  obtain ⟨_, _, _, _, _, _, hPhi⟩ := Task_Initialize_inv inits prob Phi s Phi2 heq
  have hlen : inits.length = tms.length := by
    have := congrArg List.length hres
    simpa using this
  exact ⟨s, Phi2, heq, e1, hlen, e3, e4, e7, e5, e6, hPhi⟩

/-- The task loop fails with the goal error of the first task whose goal length is not
accepted. -/
theorem goalRhoLoop_goal_error (base : Task K) (inits : List (TaskInitializer K)) (n i : Nat)
    (y0 : TaskSpaceVector K) (rho0 : VectorXd K)
    (hn : base.tasks.length = n)
    (hidx : ∀ i, i < n → (base.index i).start = sliceStart base.tasks i ∧
      (base.index i).length = (base.task i).length)
    (hy0 : y0.data.size = sliceStart base.tasks n) (hi : i < n)
    (hvalid : ∀ j, j < i →
      ((inits.getD j ⟨"", VectorXd.Zero 0, VectorXd.Zero 0⟩).Goal.size = 0 ∨
        (inits.getD j ⟨"", VectorXd.Zero 0, VectorXd.Zero 0⟩).Goal.size
          = (base.task j).length) ∧
      ((inits.getD j ⟨"", VectorXd.Zero 0, VectorXd.Zero 0⟩).Rho.size = 0 ∨
        (inits.getD j ⟨"", VectorXd.Zero 0, VectorXd.Zero 0⟩).Rho.size = 1))
    (h0 : (inits.getD i ⟨"", VectorXd.Zero 0, VectorXd.Zero 0⟩).Goal.size ≠ 0)
    (h1 : (inits.getD i ⟨"", VectorXd.Zero 0, VectorXd.Zero 0⟩).Goal.size
      ≠ (base.task i).length) :
    forRangeM 0 (base.goalRhoBody inits) n (y0, rho0)
      = Except.error (Exception.invalidTaskGoalSize (base.task i).length
          (inits.getD i ⟨"", VectorXd.Zero 0, VectorXd.Zero 0⟩).Goal.size) := by
  obtain ⟨st, hok, _⟩ := goalRhoLoop_ok base inits n i y0 rho0 hn hidx hy0 (by omega) hvalid
  apply forRangeM_error_at _ i n _ st _ hi hok
  unfold Task.goalRhoBody
  simp only [goalPart_error base i _ st.1 h0 h1]

/-- The task loop fails with the weight error of the first task whose weight length is
not accepted, when its goal length is. -/
theorem goalRhoLoop_rho_error (base : Task K) (inits : List (TaskInitializer K)) (n i : Nat)
    (y0 : TaskSpaceVector K) (rho0 : VectorXd K)
    (hn : base.tasks.length = n)
    (hidx : ∀ i, i < n → (base.index i).start = sliceStart base.tasks i ∧
      (base.index i).length = (base.task i).length)
    (hy0 : y0.data.size = sliceStart base.tasks n) (hi : i < n)
    (hvalid : ∀ j, j < i →
      ((inits.getD j ⟨"", VectorXd.Zero 0, VectorXd.Zero 0⟩).Goal.size = 0 ∨
        (inits.getD j ⟨"", VectorXd.Zero 0, VectorXd.Zero 0⟩).Goal.size
          = (base.task j).length) ∧
      ((inits.getD j ⟨"", VectorXd.Zero 0, VectorXd.Zero 0⟩).Rho.size = 0 ∨
        (inits.getD j ⟨"", VectorXd.Zero 0, VectorXd.Zero 0⟩).Rho.size = 1))
    (hg : (inits.getD i ⟨"", VectorXd.Zero 0, VectorXd.Zero 0⟩).Goal.size = 0 ∨
      (inits.getD i ⟨"", VectorXd.Zero 0, VectorXd.Zero 0⟩).Goal.size = (base.task i).length)
    (h0 : (inits.getD i ⟨"", VectorXd.Zero 0, VectorXd.Zero 0⟩).Rho.size ≠ 0)
    (h1 : (inits.getD i ⟨"", VectorXd.Zero 0, VectorXd.Zero 0⟩).Rho.size ≠ 1) :
    forRangeM 0 (base.goalRhoBody inits) n (y0, rho0)
      = Except.error (Exception.invalidTaskRhoSize 1
          (inits.getD i ⟨"", VectorXd.Zero 0, VectorXd.Zero 0⟩).Rho.size) := by
  obtain ⟨st, hok, _, p2, _⟩ :=
    goalRhoLoop_ok base inits n i y0 rho0 hn hidx hy0 (by omega) hvalid
  apply forRangeM_error_at _ i n _ st _ hi hok
  have hs : sliceStart base.tasks (i + 1)
      = sliceStart base.tasks i + (base.task i).length :=
    sliceStart_succ base.tasks i (by omega)
  have hmono : sliceStart base.tasks (i + 1) ≤ sliceStart base.tasks n :=
    sliceStart_mono base.tasks (i + 1) n (by omega) (by omega)
  obtain ⟨hstart, hlen⟩ := hidx i hi
  obtain ⟨y1, hy1, _⟩ := goalPart_ok base i
    (inits.getD i ⟨"", VectorXd.Zero 0, VectorXd.Zero 0⟩) st.1 hg hlen
    (by rw [hstart, hlen, p2, hy0]; omega)
  unfold Task.goalRhoBody
  simp only [hy1, rhoPart_error i _ st.2 h0 h1]

end GoalRhoValidation

section GoalRhoClaims

variable {K : Type} [LinearOrderedField K]

/-- The task loop fails as soon as one task has a goal or weight length that is not
accepted. -/
theorem goalRhoLoop_fails (base : Task K) (inits : List (TaskInitializer K)) (n : Nat)
    (y0 : TaskSpaceVector K) (rho0 : VectorXd K)
    (hn : base.tasks.length = n)
    (hidx : ∀ i, i < n → (base.index i).start = sliceStart base.tasks i ∧
      (base.index i).length = (base.task i).length)
    (hy0 : y0.data.size = sliceStart base.tasks n) (i : Nat) (hi : i < n)
    (hbad : ¬ (((inits.getD i ⟨"", VectorXd.Zero 0, VectorXd.Zero 0⟩).Goal.size = 0 ∨
        (inits.getD i ⟨"", VectorXd.Zero 0, VectorXd.Zero 0⟩).Goal.size
          = (base.task i).length) ∧
      ((inits.getD i ⟨"", VectorXd.Zero 0, VectorXd.Zero 0⟩).Rho.size = 0 ∨
        (inits.getD i ⟨"", VectorXd.Zero 0, VectorXd.Zero 0⟩).Rho.size = 1))) :
    ∃ e, forRangeM 0 (base.goalRhoBody inits) n (y0, rho0) = Except.error e := by
  induction i using Nat.strong_induction_on with
  | _ i ih =>
    by_cases hall : ∀ j, j < i →
        ((inits.getD j ⟨"", VectorXd.Zero 0, VectorXd.Zero 0⟩).Goal.size = 0 ∨
          (inits.getD j ⟨"", VectorXd.Zero 0, VectorXd.Zero 0⟩).Goal.size
            = (base.task j).length) ∧
        ((inits.getD j ⟨"", VectorXd.Zero 0, VectorXd.Zero 0⟩).Rho.size = 0 ∨
          (inits.getD j ⟨"", VectorXd.Zero 0, VectorXd.Zero 0⟩).Rho.size = 1)
    · by_cases hg : (inits.getD i ⟨"", VectorXd.Zero 0, VectorXd.Zero 0⟩).Goal.size = 0 ∨
          (inits.getD i ⟨"", VectorXd.Zero 0, VectorXd.Zero 0⟩).Goal.size
            = (base.task i).length
      · have hr : ¬ ((inits.getD i ⟨"", VectorXd.Zero 0, VectorXd.Zero 0⟩).Rho.size = 0 ∨
            (inits.getD i ⟨"", VectorXd.Zero 0, VectorXd.Zero 0⟩).Rho.size = 1) :=
          fun h => hbad ⟨hg, h⟩
        exact ⟨_, goalRhoLoop_rho_error base inits n i y0 rho0 hn hidx hy0 hi hall hg
          (fun h => hr (Or.inl h)) (fun h => hr (Or.inr h))⟩
      · exact ⟨_, goalRhoLoop_goal_error base inits n i y0 rho0 hn hidx hy0 hi hall
          (fun h => hg (Or.inl h)) (fun h => hg (Or.inr h))⟩
    · push_neg at hall
      obtain ⟨j, hj, hjbad⟩ := hall
      exact ih j hj (by omega) (by
        intro h
        exact absurd (hjbad h.1) (by
          intro h2
          rcases h.2 with h3 | h3
          · exact h2.1 h3
          · exact h2.2 h3))

/-- C11. `EndPoseTask::Initialize` on a fresh object whose initializers all resolve
(to the task maps `tms`). If every goal has length 0 or the length of its task and every
weight has length 0 or 1, the call returns, and the goal block of task `i`, the
coefficients `y[start_i .. start_i + length_i)` with `start_i` the sum of the lengths
of the tasks before `i`, is all zero for an empty goal and equal to the supplied goal
otherwise. If the goal of task `i` has any other length and the tasks before `i` are
accepted, the call fails with the error that reports the expected length
`tasks[i].length` and the supplied length; and whatever the other tasks are, the call
fails. -/
theorem EndPoseTask_Initialize_goal (inits : List (TaskInitializer K))
    (prob : PlanningProblem) (unused : TaskSpaceVector K) (tms : List TaskMap)
    (hres : inits.map (fun t => prob.find t.Task) = tms.map some) :
    ((∀ (i : Nat) (task : TaskInitializer K) (tm : TaskMap), inits[i]? = some task → tms[i]? = some tm →
        (task.Goal.size = 0 ∨ task.Goal.size = tm.length) ∧
        (task.Rho.size = 0 ∨ task.Rho.size = 1)) →
      ∃ s, EndPoseTask.Initialize inits prob unused EndPoseTask.new = Except.ok s ∧
        s.y.data.size = s.length_phi ∧
        ∀ (i : Nat) (task : TaskInitializer K) (tm : TaskMap), inits[i]? = some task → tms[i]? = some tm →
          (s.task i).length = tm.length ∧ (s.index i).start = sliceStart tms i ∧
          (s.index i).length = tm.length ∧
          ∀ k, k < tm.length →
            s.y.data.coeff ((s.index i).start + k)
              = if task.Goal.size = 0 then 0 else task.Goal.coeff k) ∧
    (∀ (i : Nat) (task : TaskInitializer K) (tm : TaskMap), inits[i]? = some task → tms[i]? = some tm →
      (∀ (j : Nat) (task1 : TaskInitializer K) (tm1 : TaskMap), j < i → inits[j]? = some task1 → tms[j]? = some tm1 →
        (task1.Goal.size = 0 ∨ task1.Goal.size = tm1.length) ∧
        (task1.Rho.size = 0 ∨ task1.Rho.size = 1)) →
      task.Goal.size ≠ 0 → task.Goal.size ≠ tm.length →
      EndPoseTask.Initialize inits prob unused EndPoseTask.new
        = Except.error (Exception.invalidTaskGoalSize tm.length task.Goal.size)) ∧
    (∀ (i : Nat) (task : TaskInitializer K) (tm : TaskMap), inits[i]? = some task →
      tms[i]? = some tm → task.Goal.size ≠ 0 → task.Goal.size ≠ tm.length →
      ∃ e, EndPoseTask.Initialize inits prob unused EndPoseTask.new = Except.error e) := by
  obtain ⟨base, Phi1, heq, b1, b2, b3, b4, b5, b6, b7, b8⟩ :=
    Task_Initialize_fresh inits prob (EndPoseTask.new : EndPoseTask K).Phi tms hres
  have hloop := EndPose_Initialize_eq inits prob unused base Phi1 heq
  have hidx : ∀ i, i < base.num_tasks → (base.index i).start = sliceStart base.tasks i ∧
      (base.index i).length = (base.task i).length := by
    intro i hi
    rw [b5 i (by omega), b1]
    exact ⟨rfl, rfl⟩
  have hy0 : (Phi1.SetZero base.length_phi).data.size
      = sliceStart base.tasks base.num_tasks := by
    rw [b1, b3, ← b6]
    rfl
  have htask : ∀ i tm, tms[i]? = some tm → base.task i = tm := by
    intro i tm h
    unfold Task.task
    rw [b1]
    exact getD_of_getElem? tms i _ tm h
  refine ⟨?_, ?_, ?_⟩
  · intro hvalid
    obtain ⟨st, hok, p1, p2, p3, p4, p5, p6, p7⟩ :=
      goalRhoLoop_ok base inits base.num_tasks base.num_tasks (Phi1.SetZero base.length_phi)
        (VectorXd.Ones base.num_tasks) (by rw [b1, b3]) hidx hy0 le_rfl
        (by
          intro i hi
          have h := hvalid i _ _
            (getElem?_of_lt_getD inits i ⟨"", VectorXd.Zero 0, VectorXd.Zero 0⟩ (by omega))
            (getElem?_of_lt_getD tms i ⟨0, 0, 0, 0, false, []⟩ (by omega))
          unfold Task.task
          rw [b1]
          exact h)
    rw [hloop, hok]
    obtain ⟨a1, a2, a3, a4, a5, a6, a7⟩ :=
      EndPose_allocate_fields prob base Phi1 (EndPoseTask.new : EndPoseTask K)
    refine ⟨_, rfl, ?_, ?_⟩
    · show st.1.data.size = (EndPoseTask.Initialize.allocate prob base Phi1
        EndPoseTask.new).toTask.length_phi
      rw [a1, p2]
      rfl
    · intro i task tm hi ht
      have hin : i < tms.length := lt_of_getElem? tms i tm ht
      have htm := htask i tm ht
      have htk : inits.getD i ⟨"", VectorXd.Zero 0, VectorXd.Zero 0⟩ = task :=
        getD_of_getElem? inits i _ task hi
      show ((EndPoseTask.Initialize.allocate prob base Phi1 EndPoseTask.new).toTask.task i).length
          = tm.length ∧
        ((EndPoseTask.Initialize.allocate prob base Phi1 EndPoseTask.new).toTask.index i).start
          = sliceStart tms i ∧
        ((EndPoseTask.Initialize.allocate prob base Phi1 EndPoseTask.new).toTask.index i).length
          = tm.length ∧
        ∀ k, k < tm.length →
          st.1.data.coeff
            (((EndPoseTask.Initialize.allocate prob base Phi1
              EndPoseTask.new).toTask.index i).start + k)
            = if task.Goal.size = 0 then 0 else task.Goal.coeff k
      rw [a1, htm, b5 i hin, htm]
      refine ⟨rfl, rfl, rfl, ?_⟩
      intro k hk
      have h := p4 i (by omega) k (by rw [htm]; exact hk)
      rw [htk, b1] at h
      exact h
  · intro i task tm hi ht hvalid h0 h1
    have hin : i < tms.length := lt_of_getElem? tms i tm ht
    have htm := htask i tm ht
    have htk : inits.getD i ⟨"", VectorXd.Zero 0, VectorXd.Zero 0⟩ = task :=
      getD_of_getElem? inits i _ task hi
    have h := goalRhoLoop_goal_error base inits base.num_tasks i
      (Phi1.SetZero base.length_phi)
      (VectorXd.Ones base.num_tasks) (by rw [b1, b3]) hidx hy0 (by omega)
      (by
        intro j hj
        have h := hvalid j _ _ hj
          (getElem?_of_lt_getD inits j ⟨"", VectorXd.Zero 0, VectorXd.Zero 0⟩ (by omega))
          (getElem?_of_lt_getD tms j ⟨0, 0, 0, 0, false, []⟩ (by omega))
        unfold Task.task
        rw [b1]
        exact h)
      (by rw [htk]; exact h0) (by rw [htk, htm]; exact h1)
    rw [hloop, h, htk, htm]
  · intro i task tm hi ht h0 h1
    have hin : i < tms.length := lt_of_getElem? tms i tm ht
    have htm := htask i tm ht
    have htk : inits.getD i ⟨"", VectorXd.Zero 0, VectorXd.Zero 0⟩ = task :=
      getD_of_getElem? inits i _ task hi
    obtain ⟨e, h⟩ := goalRhoLoop_fails base inits base.num_tasks
      (Phi1.SetZero base.length_phi)
      (VectorXd.Ones base.num_tasks) (by rw [b1, b3]) hidx hy0 i (by omega)
      (by
        rw [htk, htm]
        intro h
        rcases h.1 with h2 | h2
        · exact h0 h2
        · exact h1 h2)
    exact ⟨e, by rw [hloop, h]⟩

/-- Witness for C11: a goal of length 2 for a task of length 3 is reported as
"expecting 3 got 2"; a goal of length 3 is stored, an empty goal leaves zeros. -/
theorem EndPoseTask_Initialize_goal_witness :
    (shortGoalInits : List (TaskInitializer ℚ)).map (fun t => exampleProblem.find t.Task)
      = [positionTask].map some ∧
    EndPoseTask.Initialize (shortGoalInits : List (TaskInitializer ℚ)) exampleProblem
        ⟨VectorXd.Zero 0, []⟩ EndPoseTask.new
      = Except.error (Exception.invalidTaskGoalSize 3 2) ∧
    ∃ s, EndPoseTask.Initialize (goalInits : List (TaskInitializer ℚ)) exampleProblem
        ⟨VectorXd.Zero 0, []⟩ EndPoseTask.new = Except.ok s ∧
      s.y.data.coeff ((s.index 0).start + 2) = 3 ∧
      s.y.data.coeff ((s.index 1).start + 6) = 0 := by
  refine ⟨rfl,
    (EndPoseTask_Initialize_goal (shortGoalInits : List (TaskInitializer ℚ)) exampleProblem
      ⟨VectorXd.Zero 0, []⟩ [positionTask] rfl).2.1 0 _ positionTask rfl rfl
      (fun j _ _ hj => absurd hj (Nat.not_lt_zero j)) (by decide) (by decide), ?_⟩
  obtain ⟨s, h1, _, h2⟩ :=
    (EndPoseTask_Initialize_goal (goalInits : List (TaskInitializer ℚ)) exampleProblem
      ⟨VectorXd.Zero 0, []⟩ [positionTask, poseTask] rfl).1 (by
        intro i task tm hi ht
        rcases i with _ | _ | i
        · simp only [goalInits, List.getElem?_cons_zero, Option.some.injEq] at hi ht
          subst hi
          subst ht
          exact ⟨Or.inr rfl, Or.inl rfl⟩
        · simp only [goalInits, List.getElem?_cons_succ, List.getElem?_cons_zero,
            Option.some.injEq] at hi ht
          subst hi
          subst ht
          exact ⟨Or.inl rfl, Or.inr rfl⟩
        · simp [goalInits] at hi)
  refine ⟨s, h1, ?_, ?_⟩
  · rw [(h2 0 _ positionTask rfl rfl).2.2.2 2 (by decide)]
    show (if (3 : Nat) = 0 then (0 : ℚ) else ((2 : Nat) : ℚ) + 1) = 3
    norm_num
  · rw [(h2 1 _ poseTask rfl rfl).2.2.2 6 (by decide)]
    rfl

/-- C12. `EndPoseTask::Initialize` and `SamplingTask::Initialize` on a fresh object
whose initializers all resolve. If every goal and weight length is accepted, both calls
return and, for every task `i`, `rho(i)` is 1 for an empty weight and `Rho(0)` for a
weight with one entry. If the weight of task `i` has any other length, both calls fail:
with the error that reports the expected length 1 and the supplied length when the
tasks before `i` and the goal of task `i` are accepted, and with some error whatever
the other tasks are. -/
theorem Initialize_rho (inits : List (TaskInitializer K))
    (prob : PlanningProblem) (unused : TaskSpaceVector K) (tms : List TaskMap)
    (hres : inits.map (fun t => prob.find t.Task) = tms.map some) :
    ((∀ (i : Nat) (task : TaskInitializer K) (tm : TaskMap), inits[i]? = some task →
        tms[i]? = some tm →
        (task.Goal.size = 0 ∨ task.Goal.size = tm.length) ∧
        (task.Rho.size = 0 ∨ task.Rho.size = 1)) →
      ∃ s1 s2, EndPoseTask.Initialize inits prob unused EndPoseTask.new = Except.ok s1 ∧
        SamplingTask.Initialize inits prob unused SamplingTask.new = Except.ok s2 ∧
        s1.rho.size = tms.length ∧ s2.rho.size = tms.length ∧
        ∀ (i : Nat) (task : TaskInitializer K), inits[i]? = some task →
          s1.rho.coeff i = (if task.Rho.size = 0 then 1 else task.Rho.coeff 0) ∧
          s2.rho.coeff i = (if task.Rho.size = 0 then 1 else task.Rho.coeff 0)) ∧
    (∀ (i : Nat) (task : TaskInitializer K) (tm : TaskMap), inits[i]? = some task →
      tms[i]? = some tm →
      (∀ (j : Nat) (task1 : TaskInitializer K) (tm1 : TaskMap), j < i →
        inits[j]? = some task1 → tms[j]? = some tm1 →
        (task1.Goal.size = 0 ∨ task1.Goal.size = tm1.length) ∧
        (task1.Rho.size = 0 ∨ task1.Rho.size = 1)) →
      (task.Goal.size = 0 ∨ task.Goal.size = tm.length) →
      task.Rho.size ≠ 0 → task.Rho.size ≠ 1 →
      EndPoseTask.Initialize inits prob unused EndPoseTask.new
        = Except.error (Exception.invalidTaskRhoSize 1 task.Rho.size) ∧
      SamplingTask.Initialize inits prob unused SamplingTask.new
        = Except.error (Exception.invalidTaskRhoSize 1 task.Rho.size)) ∧
    (∀ (i : Nat) (task : TaskInitializer K), inits[i]? = some task →
      task.Rho.size ≠ 0 → task.Rho.size ≠ 1 →
      (∃ e, EndPoseTask.Initialize inits prob unused EndPoseTask.new = Except.error e) ∧
      (∃ e, SamplingTask.Initialize inits prob unused SamplingTask.new = Except.error e)) := by
  obtain ⟨base, Phi1, heq, b1, b2, b3, b4, b5, b6, b7, b8⟩ :=
    Task_Initialize_fresh inits prob (EndPoseTask.new : EndPoseTask K).Phi tms hres
  have hloop := EndPose_Initialize_eq inits prob unused base Phi1 heq
  have hloop2 := Sampling_Initialize_eq inits prob unused (SamplingTask.new : SamplingTask K)
    base Phi1 heq
  have hidx : ∀ i, i < base.num_tasks → (base.index i).start = sliceStart base.tasks i ∧
      (base.index i).length = (base.task i).length := by
    intro i hi
    rw [b5 i (by omega), b1]
    exact ⟨rfl, rfl⟩
  have hy0 : (Phi1.SetZero base.length_phi).data.size
      = sliceStart base.tasks base.num_tasks := by
    rw [b1, b3, ← b6]
    rfl
  have htask : ∀ i tm, tms[i]? = some tm → base.task i = tm := by
    intro i tm h
    unfold Task.task
    rw [b1]
    exact getD_of_getElem? tms i _ tm h
  refine ⟨?_, ?_, ?_⟩
  · intro hvalid
    obtain ⟨st, hok, p1, p2, p3, p4, p5, p6, p7⟩ :=
      goalRhoLoop_ok base inits base.num_tasks base.num_tasks (Phi1.SetZero base.length_phi)
        (VectorXd.Ones base.num_tasks) (by rw [b1, b3]) hidx hy0 le_rfl
        (by
          intro i hi
          have h := hvalid i _ _
            (getElem?_of_lt_getD inits i ⟨"", VectorXd.Zero 0, VectorXd.Zero 0⟩ (by omega))
            (getElem?_of_lt_getD tms i ⟨0, 0, 0, 0, false, []⟩ (by omega))
          unfold Task.task
          rw [b1]
          exact h)
    rw [hloop, hloop2, hok]
    refine ⟨_, _, rfl, rfl, ?_, ?_, ?_⟩
    · show st.2.size = tms.length
      rw [p3, ← b3]
      rfl
    · show st.2.size = tms.length
      rw [p3, ← b3]
      rfl
    · intro i task hi
      have hin : i < inits.length := lt_of_getElem? inits i task hi
      have htk : inits.getD i ⟨"", VectorXd.Zero 0, VectorXd.Zero 0⟩ = task :=
        getD_of_getElem? inits i _ task hi
      have h := p6 i (by omega)
      rw [htk] at h
      exact ⟨h, h⟩
  · intro i task tm hi ht hvalid hg h0 h1
    have hin : i < tms.length := lt_of_getElem? tms i tm ht
    have htm := htask i tm ht
    have htk : inits.getD i ⟨"", VectorXd.Zero 0, VectorXd.Zero 0⟩ = task :=
      getD_of_getElem? inits i _ task hi
    have h := goalRhoLoop_rho_error base inits base.num_tasks i
      (Phi1.SetZero base.length_phi)
      (VectorXd.Ones base.num_tasks) (by rw [b1, b3]) hidx hy0 (by omega)
      (by
        intro j hj
        have h := hvalid j _ _ hj
          (getElem?_of_lt_getD inits j ⟨"", VectorXd.Zero 0, VectorXd.Zero 0⟩ (by omega))
          (getElem?_of_lt_getD tms j ⟨0, 0, 0, 0, false, []⟩ (by omega))
        unfold Task.task
        rw [b1]
        exact h)
      (by rw [htk, htm]; exact hg) (by rw [htk]; exact h0) (by rw [htk]; exact h1)
    rw [hloop, hloop2, h, htk]
    exact ⟨rfl, rfl⟩
  · intro i task hi h0 h1
    have hin : i < inits.length := lt_of_getElem? inits i task hi
    have htk : inits.getD i ⟨"", VectorXd.Zero 0, VectorXd.Zero 0⟩ = task :=
      getD_of_getElem? inits i _ task hi
    obtain ⟨e, h⟩ := goalRhoLoop_fails base inits base.num_tasks
      (Phi1.SetZero base.length_phi)
      (VectorXd.Ones base.num_tasks) (by rw [b1, b3]) hidx hy0 i (by omega)
      (by
        rw [htk]
        intro h
        rcases h.2 with h2 | h2
        · exact h0 h2
        · exact h1 h2)
    exact ⟨⟨e, by rw [hloop, h]⟩, ⟨e, by rw [hloop2, h]⟩⟩

/-- Witness for C12: a weight of length 2 is reported as "expecting 1 got 2" by both
aggregators. -/
theorem Initialize_rho_witness :
    (longRhoInits : List (TaskInitializer ℚ)).map (fun t => exampleProblem.find t.Task)
      = [positionTask].map some ∧
    EndPoseTask.Initialize (longRhoInits : List (TaskInitializer ℚ)) exampleProblem
        ⟨VectorXd.Zero 0, []⟩ EndPoseTask.new
      = Except.error (Exception.invalidTaskRhoSize 1 2) ∧
    SamplingTask.Initialize (longRhoInits : List (TaskInitializer ℚ)) exampleProblem
        ⟨VectorXd.Zero 0, []⟩ SamplingTask.new
      = Except.error (Exception.invalidTaskRhoSize 1 2) :=
  ⟨rfl,
    (Initialize_rho (longRhoInits : List (TaskInitializer ℚ)) exampleProblem
      ⟨VectorXd.Zero 0, []⟩ [positionTask] rfl).2.1 0 _ positionTask rfl rfl
      (fun j _ _ hj => absurd hj (Nat.not_lt_zero j)) (Or.inl rfl) (by decide) (by decide)⟩

end GoalRhoClaims

/-! ## `EndPoseTask::UpdateS` -/

section UpdateSLemmas

variable {K : Type} [LinearOrderedField K]

theorem getD_set {α : Type} (l : List α) (i j : Nat) (a d : α) (hi : i < l.length) :
    (l.set i a).getD j d = if j = i then a else l.getD j d := by
  rw [List.getD_eq_getElem?_getD, List.getD_eq_getElem?_getD, List.getElem?_set]
  by_cases h : i = j
  · subst h
    simp [hi]
  · have h2 : ¬ j = i := fun e => h e.symm
    simp [h, h2]

/-- The inner loop of `UpdateS` for one task: the diagonal entries of the task's
Jacobian rows are set to `rho(id)`, nothing else changes. -/
theorem UpdateS_inner (st : EndPoseTask K) (sj lj id : Nat) :
    forRange 0 (fun i (self : EndPoseTask K) =>
      { self with
        S := self.S.set (i + sj) (i + sj) (self.rho.coeff id) }) lj st
    = { st with
        S := ⟨st.S.rows, st.S.cols, fun r c =>
          if r = c ∧ sj ≤ r ∧ r < sj + lj then st.rho.coeff id else st.S.coeff r c⟩ } := by
  induction lj with
  | zero =>
    show st = _
    have h : (⟨st.S.rows, st.S.cols, fun r c =>
        if r = c ∧ sj ≤ r ∧ r < sj + 0 then st.rho.coeff id else st.S.coeff r c⟩ : MatrixXd K)
        = st.S := by
      have hf : (fun r c =>
          if r = c ∧ sj ≤ r ∧ r < sj + 0 then st.rho.coeff id else st.S.coeff r c)
          = st.S.coeff := by
        funext r c
        rw [if_neg (fun h => by omega)]
      rw [hf]
    rw [h]
  | succ n ih =>
    rw [forRange_zero_succ, ih]
    show ({ st with S := MatrixXd.set _ (n + sj) (n + sj) (st.rho.coeff id) } : EndPoseTask K) = _
    congr 1
    unfold MatrixXd.set
    congr 1
    funext r c
    by_cases h1 : r = n + sj ∧ c = n + sj
    · rw [if_pos h1, if_pos ⟨by omega, by omega, by omega⟩]
    · rw [if_neg h1]
      show (if r = c ∧ sj ≤ r ∧ r < sj + n then st.rho.coeff id else st.S.coeff r c) = _
      by_cases h2 : r = c ∧ sj ≤ r ∧ r < sj + n
      · rw [if_pos h2, if_pos ⟨h2.1, h2.2.1, by omega⟩]
      · rw [if_neg h2, if_neg (fun h => by omega)]

theorem setUsed_length (self : Task K) (i : Nat) :
    (self.setUsed i).length = self.tasks.length := by
  unfold Task.setUsed
  split
  · simp
  · rfl

theorem getD_map_range {α : Type} (n : Nat) (f : Nat → α) (j : Nat) (d : α) :
    ((List.range n).map f).getD j d = if j < n then f j else d := by
  rw [List.getD_eq_getElem?_getD]
  by_cases h : j < n
  · rw [if_pos h]
    simp [h]
  · rw [if_neg h, List.getElem?_eq_none (by simp; omega)]
    rfl

/-- Element `j` of `tasks` after the write `tasks[i]->is_used = true`: the flag is set
when element `j` points to the task map of element `i`. -/
theorem task_setUsed (self : Task K) (i j : Nat) (hi : i < self.tasks.length) :
    (self.setUsed i).getD j ⟨0, 0, 0, 0, false, []⟩
      = if j < self.tasks.length ∧ (self.initializer j).Task = (self.initializer i).Task then
          { self.task j with is_used := true }
        else self.task j := by
  unfold Task.setUsed
  rw [if_pos hi, getD_map_range]
  by_cases hj : j < self.tasks.length
  · rw [if_pos hj]
    by_cases ha : (self.initializer j).Task = (self.initializer i).Task
    · rw [if_pos ha, if_pos ⟨hj, ha⟩]
    · rw [if_neg ha, if_neg (fun h => ha h.2)]
  · rw [if_neg hj, if_neg (fun h => hj h.1)]
    unfold Task.task
    rw [List.getD_eq_getElem?_getD, List.getElem?_eq_none (by omega)]
    rfl

/-- The method `UpdateS` on an aggregator whose Jacobian slices are the cumulative sums
over the task maps `tms`: the diagonal entries of every task's Jacobian rows are set
to the task's `rho`, no other entry of `S` changes, an element of `tasks` is flagged as
used when a stacked task with non-zero `rho` points to its task map, and no other
member changes. -/
theorem UpdateS_spec (s : EndPoseTask K) (tms : List TaskMap) (n : Nat)
    (hil : s.indexing.length = n) (htl : s.tasks.length = n) (htms : tms.length = n)
    (hidx : ∀ i, i < n → (s.index i).id = i ∧
      (s.index i).start_jacobian = sliceStartJacobian tms i ∧
      (s.index i).length_jacobian
        = (tms.getD i ⟨0, 0, 0, 0, false, []⟩).length_jacobian) :
    s.UpdateS.rho = s.rho ∧ s.UpdateS.indexing = s.indexing ∧
    s.UpdateS.tasks.length = s.tasks.length ∧
    s.UpdateS.S.rows = s.S.rows ∧ s.UpdateS.S.cols = s.S.cols ∧
    s.UpdateS.num_tasks = s.num_tasks ∧ s.UpdateS.length_jacobian = s.length_jacobian ∧
    (∀ j, j < n → ∀ r, r < (tms.getD j ⟨0, 0, 0, 0, false, []⟩).length_jacobian →
      s.UpdateS.S.coeff (sliceStartJacobian tms j + r) (sliceStartJacobian tms j + r)
        = s.rho.coeff j) ∧
    (∀ r c, (r ≠ c ∨ sliceStartJacobian tms n ≤ r) →
      s.UpdateS.S.coeff r c = s.S.coeff r c) ∧
    (∀ j, j < n →
      (∃ k, k < n ∧ (s.initializer k).Task = (s.initializer j).Task ∧ s.rho.coeff k ≠ 0) →
      s.UpdateS.task j = { s.task j with is_used := true }) ∧
    (∀ j,
      ¬ (j < n ∧
        ∃ k, k < n ∧ (s.initializer k).Task = (s.initializer j).Task ∧ s.rho.coeff k ≠ 0) →
      s.UpdateS.task j = s.task j) ∧
    s.UpdateS.task_initializers_ = s.task_initializers_ := by
  have key := forEach_indexed_invariant
    (fun m (st : EndPoseTask K) => m ≤ n →
      st.rho = s.rho ∧ st.indexing = s.indexing ∧
      st.tasks.length = s.tasks.length ∧
      st.S.rows = s.S.rows ∧ st.S.cols = s.S.cols ∧
      st.num_tasks = s.num_tasks ∧ st.length_jacobian = s.length_jacobian ∧
      (∀ j, j < m → ∀ r, r < (tms.getD j ⟨0, 0, 0, 0, false, []⟩).length_jacobian →
        st.S.coeff (sliceStartJacobian tms j + r) (sliceStartJacobian tms j + r)
          = s.rho.coeff j) ∧
      (∀ r c, (r ≠ c ∨ sliceStartJacobian tms m ≤ r) → st.S.coeff r c = s.S.coeff r c) ∧
      (∀ j, j < n →
        (∃ k, k < m ∧ (s.initializer k).Task = (s.initializer j).Task ∧ s.rho.coeff k ≠ 0) →
        st.task j = { s.task j with is_used := true }) ∧
      (∀ j,
        ¬ (j < n ∧
          ∃ k, k < m ∧ (s.initializer k).Task = (s.initializer j).Task ∧
            s.rho.coeff k ≠ 0) →
        st.task j = s.task j) ∧
      st.task_initializers_ = s.task_initializers_)
    (fun (task : TaskIndexing) (self : EndPoseTask K) =>
      let self := forRange 0 (fun i (self : EndPoseTask K) =>
        { self with
          S := self.S.set (i + task.start_jacobian) (i + task.start_jacobian)
            (self.rho.coeff task.id) }) task.length_jacobian self
      if self.rho.coeff task.id ≠ 0 then
        { self with tasks := self.toTask.setUsed task.id }
      else self)
    s.indexing s
    (fun _ => ⟨rfl, rfl, rfl, rfl, rfl, rfl, rfl, fun j hj => absurd hj (Nat.not_lt_zero j),
      fun _ _ _ => rfl,
      fun j _ h => by
        obtain ⟨k, hk, _⟩ := h
        exact absurd hk (Nat.not_lt_zero k),
      fun _ _ => rfl, rfl⟩)
    (by
      intro i x st hx hP hle
      have hi : i < n := by omega
      obtain ⟨p1, p2, p3, p4, p5, p6, p7, p8, p9, p10, p11, p12⟩ := hP (by omega)
      have hx2 : s.index i = x := getD_of_getElem? s.indexing i _ x hx
      obtain ⟨hid, hsj, hlj⟩ := hidx i hi
      rw [hx2] at hid hsj hlj
      have hss : sliceStartJacobian tms (i + 1)
          = sliceStartJacobian tms i
            + (tms.getD i ⟨0, 0, 0, 0, false, []⟩).length_jacobian :=
        sliceStartJacobian_succ tms i (by omega)
      simp only [UpdateS_inner, hid, hsj, hlj, p1]
      have hA : ∀ j, j < i + 1 →
          ∀ r, r < (tms.getD j ⟨0, 0, 0, 0, false, []⟩).length_jacobian →
          (if sliceStartJacobian tms j + r = sliceStartJacobian tms j + r ∧
              sliceStartJacobian tms i ≤ sliceStartJacobian tms j + r ∧
              sliceStartJacobian tms j + r < sliceStartJacobian tms i
                + (tms.getD i ⟨0, 0, 0, 0, false, []⟩).length_jacobian
            then s.rho.coeff i
            else st.S.coeff (sliceStartJacobian tms j + r) (sliceStartJacobian tms j + r))
          = s.rho.coeff j := by
        intro j hj r hr
        rcases Nat.lt_or_ge j i with hji | hji
        · have h1 : sliceStartJacobian tms (j + 1)
              = sliceStartJacobian tms j
                + (tms.getD j ⟨0, 0, 0, 0, false, []⟩).length_jacobian :=
            sliceStartJacobian_succ tms j (by omega)
          have h2 : sliceStartJacobian tms (j + 1) ≤ sliceStartJacobian tms i :=
            sliceStartJacobian_mono tms (j + 1) i (by omega) (by omega)
          rw [if_neg (fun h => by omega)]
          exact p8 j hji r hr
        · have hje : j = i := by omega
          subst hje
          rw [if_pos ⟨rfl, by omega, by omega⟩]
      have hB : ∀ r c, (r ≠ c ∨ sliceStartJacobian tms (i + 1) ≤ r) →
          (if r = c ∧ sliceStartJacobian tms i ≤ r ∧
              r < sliceStartJacobian tms i
                + (tms.getD i ⟨0, 0, 0, 0, false, []⟩).length_jacobian
            then s.rho.coeff i else st.S.coeff r c) = s.S.coeff r c := by
        intro r c h
        rw [if_neg (fun h2 => by
          rcases h with h | h
          · exact h h2.1
          · omega)]
        apply p9
        rcases h with h | h
        · exact Or.inl h
        · exact Or.inr (by omega)
      have hname : ∀ j, (st.toTask.initializer j).Task = (s.initializer j).Task := by
        intro j
        unfold Task.initializer
        rw [p12]
      by_cases hr : s.rho.coeff i ≠ 0
      · rw [if_pos hr]
        refine ⟨rfl, p2, ?_, p4, p5, p6, p7, hA, hB, ?_, ?_, p12⟩
        · show (st.toTask.setUsed i).length = _
          rw [setUsed_length]
          exact p3
        · intro j hj hex
          show (st.toTask.setUsed i).getD j _ = _
          rw [task_setUsed _ _ _ (by omega), hname, hname]
          by_cases hal : (s.initializer j).Task = (s.initializer i).Task
          · rw [if_pos ⟨by omega, hal⟩]
            by_cases hprev : ∃ k, k < i ∧
                (s.initializer k).Task = (s.initializer j).Task ∧ s.rho.coeff k ≠ 0
            · show ({ st.task j with is_used := true } : TaskMap) = _
              rw [p10 j hj hprev]
            · show ({ st.task j with is_used := true } : TaskMap) = _
              rw [p11 j (fun h => hprev h.2)]
          · rw [if_neg (fun h => hal h.2)]
            obtain ⟨k, hk, hkn, hkr⟩ := hex
            have hki : k ≠ i := by
              intro e
              subst e
              exact hal hkn.symm
            exact p10 j hj ⟨k, by omega, hkn, hkr⟩
        · intro j hneg
          show (st.toTask.setUsed i).getD j _ = _
          rw [task_setUsed _ _ _ (by omega), hname, hname]
          by_cases hjn : j < n
          · have hal : ¬ (s.initializer j).Task = (s.initializer i).Task :=
              fun h => hneg ⟨hjn, i, by omega, h.symm, hr⟩
            rw [if_neg (fun h => hal h.2)]
            exact p11 j (fun h => hneg ⟨hjn, by
              obtain ⟨k, hk, hk2⟩ := h.2
              exact ⟨k, by omega, hk2⟩⟩)
          · rw [if_neg (fun h => hjn (by omega))]
            exact p11 j (fun h => hjn h.1)
      · rw [if_neg hr]
        refine ⟨rfl, p2, p3, p4, p5, p6, p7, hA, hB, ?_, ?_, p12⟩
        · intro j hj hex
          obtain ⟨k, hk, hkn, hkr⟩ := hex
          have hki : k ≠ i := by
            intro e
            subst e
            exact hr hkr
          exact p10 j hj ⟨k, by omega, hkn, hkr⟩
        · intro j hneg
          exact p11 j (fun h => hneg ⟨h.1, by
            obtain ⟨k, hk, hk2⟩ := h.2
            exact ⟨k, by omega, hk2⟩⟩))
  rw [hil] at key
  exact key le_rfl

/-- The state after a call of `EndPoseTask::Initialize` on a fresh object that returned:
the slices are the cumulative sums over the registered tasks, `Phi` and `ydiff` are
zero-filled, `S` is the identity and the Jacobian is allocated when requested. -/
theorem EndPose_Initialize_inv (inits : List (TaskInitializer K)) (prob : PlanningProblem)
    (unused : TaskSpaceVector K) (s : EndPoseTask K)
    (hinit : EndPoseTask.Initialize inits prob unused EndPoseTask.new = Except.ok s) :
    s.tasks.length = s.num_tasks ∧ s.indexing.length = s.num_tasks ∧
    (∀ i, i < s.num_tasks →
      s.index i = { id := i, start := sliceStart s.tasks i,
                    length := (s.task i).length,
                    start_jacobian := sliceStartJacobian s.tasks i,
                    length_jacobian := (s.task i).length_jacobian }) ∧
    s.length_phi = sliceStart s.tasks s.num_tasks ∧
    s.length_jacobian = sliceStartJacobian s.tasks s.num_tasks ∧
    s.Phi.data = VectorXd.Zero s.length_phi ∧
    s.S = MatrixXd.Identity s.length_jacobian s.length_jacobian ∧
    s.ydiff = VectorXd.Zero s.length_jacobian ∧
    s.jacobian
      = (if prob.KIN_J then MatrixXd.Zero s.length_jacobian prob.N else MatrixXd.Zero 0 0) := by
  cases hT : Task.Initialize inits prob (EndPoseTask.new : EndPoseTask K).Phi Task.new with
  | error e =>
    unfold EndPoseTask.Initialize at hinit
    have hT2 : Task.Initialize inits prob (EndPoseTask.new : EndPoseTask K).Phi
        (EndPoseTask.new : EndPoseTask K).toTask = Except.error e := hT
    rw [hT2] at hinit
    cases hinit
  | ok p =>
    obtain ⟨base, Phi1⟩ := p
    rw [EndPose_Initialize_eq inits prob unused base Phi1 hT] at hinit
    obtain ⟨t1, t2, t3, t4, t5, t6, t7⟩ := Task_Initialize_inv inits prob _ base Phi1 hT
    obtain ⟨a1, a2, a3, a4, a5, a6, a7⟩ :=
      EndPose_allocate_fields prob base Phi1 (EndPoseTask.new : EndPoseTask K)
    cases hL : forRangeM 0 (base.goalRhoBody inits) base.num_tasks
        (Phi1.SetZero base.length_phi, VectorXd.Ones base.num_tasks) with
    | error e =>
      rw [hL] at hinit
      cases hinit
    | ok st =>
      rw [hL] at hinit
      injection hinit with hinit
      have e1 : s.toTask = base := by
        rw [← hinit]
        exact a1
      have e2 : s.Phi = Phi1 := by
        rw [← hinit]
        exact a2
      have e5 : s.S = MatrixXd.Identity base.length_jacobian base.length_jacobian := by
        rw [← hinit]
        exact a5
      have e6 : s.ydiff = VectorXd.Zero base.length_jacobian := by
        rw [← hinit]
        exact a6
      have e7 : s.jacobian
          = (if prob.KIN_J then MatrixXd.Zero base.length_jacobian prob.N
             else MatrixXd.Zero 0 0) := by
        rw [← hinit]
        exact a7
      rw [e1, e2, e5, e6, e7]
      exact ⟨t2, t3, t4, t5, t6, t7, rfl, rfl, rfl⟩

/-- A write to `rho` and a call of `UpdateS` keep the stacking of the aggregator and
the shape of `S`: the lengths, the slices, the size of `S` and its zero entries off
the diagonal. -/
theorem run_invariant (tms : List TaskMap) (n lj : Nat) (ops : List (EndPoseTask.Op K))
    (s : EndPoseTask K) (htms : tms.length = n)
    (hil : s.indexing.length = n) (htl : s.tasks.length = n)
    (hidx : ∀ i, i < n → (s.index i).id = i ∧
      (s.index i).start_jacobian = sliceStartJacobian tms i ∧
      (s.index i).length_jacobian
        = (tms.getD i ⟨0, 0, 0, 0, false, []⟩).length_jacobian)
    (hrows : s.S.rows = lj) (hcols : s.S.cols = lj)
    (hoff : ∀ r c, r ≠ c → s.S.coeff r c = 0) :
    (EndPoseTask.run ops s).indexing = s.indexing ∧
    (EndPoseTask.run ops s).tasks.length = n ∧
    (EndPoseTask.run ops s).S.rows = lj ∧ (EndPoseTask.run ops s).S.cols = lj ∧
    (∀ r c, r ≠ c → (EndPoseTask.run ops s).S.coeff r c = 0) := by
  unfold EndPoseTask.run
  induction ops generalizing s with
  | nil => exact ⟨rfl, htl, hrows, hcols, hoff⟩
  | cons op ops ih =>
    unfold forEach
    cases op with
    | setRho i v =>
      exact ih _ hil htl hidx hrows hcols hoff
    | updateS =>
      obtain ⟨u1, u2, u3, u4, u5, u6, u7, u8, u9, u10⟩ :=
        UpdateS_spec s tms n hil htl htms hidx
      have h := ih s.UpdateS (by rw [u2]; exact hil) (by rw [u3]; exact htl)
        (by
          intro i hi
          have := hidx i hi
          unfold Task.index at this ⊢
          rw [u2]
          exact this)
        (by rw [u4]; exact hrows) (by rw [u5]; exact hcols)
        (by
          intro r c hrc
          rw [u9 r c (Or.inl hrc)]
          exact hoff r c hrc)
      rw [u2] at h
      exact h

end UpdateSLemmas

/-! ## The used flags and the scaling matrix -/

section UpdateSClaims

variable {K : Type} [LinearOrderedField K]

theorem forEach_append {σ α : Type} (body : α → σ → σ) (xs ys : List α) (s : σ) :
    forEach body (xs ++ ys) s = forEach body ys (forEach body xs s) := by
  induction xs generalizing s with
  | nil => rfl
  | cons x xs ih =>
    show forEach body (xs ++ ys) (body x s) = _
    rw [ih]
    rfl

/-- The stacking facts that `UpdateS` relies on hold in every state reached from
`Initialize` by writes to `rho` and calls of `UpdateS`. -/
theorem run_stacked (inits : List (TaskInitializer K)) (prob : PlanningProblem)
    (unused : TaskSpaceVector K) (s0 : EndPoseTask K) (ops : List (EndPoseTask.Op K))
    (hinit : EndPoseTask.Initialize inits prob unused EndPoseTask.new = Except.ok s0) :
    (EndPoseTask.run ops s0).indexing = s0.indexing ∧
    (EndPoseTask.run ops s0).indexing.length = s0.num_tasks ∧
    (EndPoseTask.run ops s0).tasks.length = s0.num_tasks ∧
    (∀ i, i < s0.num_tasks → ((EndPoseTask.run ops s0).index i).id = i ∧
      ((EndPoseTask.run ops s0).index i).start_jacobian = sliceStartJacobian s0.tasks i ∧
      ((EndPoseTask.run ops s0).index i).length_jacobian
        = (s0.tasks.getD i ⟨0, 0, 0, 0, false, []⟩).length_jacobian) ∧
    (EndPoseTask.run ops s0).S.rows = s0.length_jacobian ∧
    (EndPoseTask.run ops s0).S.cols = s0.length_jacobian ∧
    (∀ r c, r ≠ c → (EndPoseTask.run ops s0).S.coeff r c = 0) := by
  obtain ⟨t2, t3, t4, t5, t6, t7, t8, t9, t10⟩ :=
    EndPose_Initialize_inv inits prob unused s0 hinit
  have hidx : ∀ i, i < s0.num_tasks → (s0.index i).id = i ∧
      (s0.index i).start_jacobian = sliceStartJacobian s0.tasks i ∧
      (s0.index i).length_jacobian
        = (s0.tasks.getD i ⟨0, 0, 0, 0, false, []⟩).length_jacobian := by
    intro i hi
    rw [t4 i hi]
    exact ⟨rfl, rfl, rfl⟩
  obtain ⟨r1, r2, r3, r4, r5⟩ := run_invariant s0.tasks s0.num_tasks s0.length_jacobian ops s0
    t2 t3 t2 hidx (by rw [t8]; rfl) (by rw [t8]; rfl)
    (by
      intro r c hrc
      rw [t8]
      show (if r = c then (1 : K) else 0) = 0
      rw [if_neg hrc])
  refine ⟨r1, by rw [r1]; exact t3, r2, ?_, r3, r4, r5⟩
  intro i hi
  have h := hidx i hi
  unfold Task.index at h ⊢
  rw [r1]
  exact h

/-- C14 (counterexample). One task with the default weight 1: after `UpdateS` the task
is flagged as used; its weight is then set to 0 and `UpdateS` is called again. The
weight is zero and the task is still flagged as used. -/
theorem UpdateS_zero_rho_still_used :
    ∃ s0, EndPoseTask.Initialize (emptyGoalInits : List (TaskInitializer ℚ)) exampleProblem
        ⟨VectorXd.Zero 0, []⟩ EndPoseTask.new = Except.ok s0 ∧
      (s0.task 0).is_used = false ∧
      ((EndPoseTask.run [EndPoseTask.Op.updateS, EndPoseTask.Op.setRho 0 0] s0).task 0).is_used
        = true ∧
      (EndPoseTask.run [EndPoseTask.Op.updateS, EndPoseTask.Op.setRho 0 0] s0).rho.coeff 0
        = 0 ∧
      ((EndPoseTask.run [EndPoseTask.Op.updateS, EndPoseTask.Op.setRho 0 0]
        s0).UpdateS.task 0).is_used = true :=
  ⟨_, rfl, rfl, rfl, rfl, rfl⟩

/-- The method `UpdateS` leaves the registered initializers as they are. -/
theorem UpdateS_task_initializers (s : EndPoseTask K) :
    s.UpdateS.task_initializers_ = s.task_initializers_ := by
  have key := forEach_indexed_invariant
    (fun _ (st : EndPoseTask K) => st.task_initializers_ = s.task_initializers_)
    (fun (task : TaskIndexing) (self : EndPoseTask K) =>
      let self := forRange 0 (fun i (self : EndPoseTask K) =>
        { self with
          S := self.S.set (i + task.start_jacobian) (i + task.start_jacobian)
            (self.rho.coeff task.id) }) task.length_jacobian self
      if self.rho.coeff task.id ≠ 0 then
        { self with tasks := self.toTask.setUsed task.id }
      else self)
    s.indexing s rfl
    (by
      intro i x st _ hP
      simp only [UpdateS_inner]
      split
      · exact hP
      · exact hP)
  exact key

/-- Writes to `rho` and calls of `UpdateS` leave the registered initializers as they
are. -/
theorem run_task_initializers (ops : List (EndPoseTask.Op K)) (s : EndPoseTask K) :
    (EndPoseTask.run ops s).task_initializers_ = s.task_initializers_ := by
  unfold EndPoseTask.run
  induction ops generalizing s with
  | nil => rfl
  | cons op ops ih =>
    unfold forEach
    cases op with
    | setRho i v => exact ih _
    | updateS =>
      exact (ih s.UpdateS).trans (UpdateS_task_initializers s)

/-- After `EndPoseTask::Initialize` on a fresh object the registered initializers are
the supplied ones. -/
theorem EndPose_Initialize_initializers (inits : List (TaskInitializer K))
    (prob : PlanningProblem) (unused : TaskSpaceVector K) (s : EndPoseTask K)
    (hinit : EndPoseTask.Initialize inits prob unused EndPoseTask.new = Except.ok s) :
    s.task_initializers_ = inits := by
  cases hT : Task.Initialize inits prob (EndPoseTask.new : EndPoseTask K).Phi Task.new with
  | error e =>
    unfold EndPoseTask.Initialize at hinit
    have hT2 : Task.Initialize inits prob (EndPoseTask.new : EndPoseTask K).Phi
        (EndPoseTask.new : EndPoseTask K).toTask = Except.error e := hT
    rw [hT2] at hinit
    cases hinit
  | ok p =>
    obtain ⟨base, Phi1⟩ := p
    have hbase : base.task_initializers_ = inits := by
      rcases resolve_cases prob inits (Task.new : Task K) with ⟨tms, hres⟩ | ⟨e, he⟩
      · obtain ⟨s2, Phi2, heq, _, e2, _⟩ :=
          Initialize_state inits prob (EndPoseTask.new : EndPoseTask K).Phi tms hres
        rw [heq] at hT
        injection hT with hT
        injection hT with ha hb
        rw [← ha]
        exact e2
      · unfold Task.Initialize at hT
        rw [he] at hT
        cases hT
    rw [EndPose_Initialize_eq inits prob unused base Phi1 hT] at hinit
    obtain ⟨a1, _⟩ :=
      EndPose_allocate_fields prob base Phi1 (EndPoseTask.new : EndPoseTask K)
    cases hL : forRangeM 0 (base.goalRhoBody inits) base.num_tasks
        (Phi1.SetZero base.length_phi, VectorXd.Ones base.num_tasks) with
    | error e =>
      rw [hL] at hinit
      cases hinit
    | ok st =>
      rw [hL] at hinit
      injection hinit with hinit
      have e1 : s.toTask = base := by
        rw [← hinit]
        exact a1
      rw [e1]
      exact hbase

/-- C14 (amended). In every state reached from `Initialize` by writes to `rho` and
calls of `UpdateS`, a call of `UpdateS` leaves `rho` as it is, and a stacked task is
flagged as used after the call if and only if it was flagged as used before the call
or some stacked entry that refers to the same task map (an initializer with the same
name, the task itself included) has a non-zero `rho`: the call sets the flag and
never clears it. No other member of the task map changes. -/
theorem UpdateS_marks_used (inits : List (TaskInitializer K)) (prob : PlanningProblem)
    (unused : TaskSpaceVector K) (s0 : EndPoseTask K) (ops : List (EndPoseTask.Op K))
    (hinit : EndPoseTask.Initialize inits prob unused EndPoseTask.new = Except.ok s0) :
    s0.task_initializers_ = inits ∧
    (EndPoseTask.run ops s0).UpdateS.rho = (EndPoseTask.run ops s0).rho ∧
    ∀ i, i < s0.num_tasks →
      (((EndPoseTask.run ops s0).UpdateS.task i).is_used = true ↔
        (((EndPoseTask.run ops s0).task i).is_used = true ∨
          ∃ k, k < s0.num_tasks ∧ (s0.initializer k).Task = (s0.initializer i).Task ∧
            (EndPoseTask.run ops s0).rho.coeff k ≠ 0)) ∧
      (EndPoseTask.run ops s0).UpdateS.task i
        = { (EndPoseTask.run ops s0).task i with
            is_used := ((EndPoseTask.run ops s0).UpdateS.task i).is_used } := by
  obtain ⟨r1, r2, r3, r4, r5, r6, r7⟩ := run_stacked inits prob unused s0 ops hinit
  obtain ⟨t2, _⟩ := EndPose_Initialize_inv inits prob unused s0 hinit
  obtain ⟨u1, u2, u3, u4, u5, u6, u7, u8, u9, u10, u11, u12⟩ :=
    UpdateS_spec (EndPoseTask.run ops s0) s0.tasks s0.num_tasks r2 r3 t2 r4
  have hname : ∀ j, ((EndPoseTask.run ops s0).initializer j).Task
      = (s0.initializer j).Task := by
    intro j
    unfold Task.initializer
    rw [run_task_initializers ops s0]
  refine ⟨EndPose_Initialize_initializers inits prob unused s0 hinit, u1, ?_⟩
  intro i hi
  by_cases hex : ∃ k, k < s0.num_tasks ∧ (s0.initializer k).Task = (s0.initializer i).Task ∧
      (EndPoseTask.run ops s0).rho.coeff k ≠ 0
  · have h := u10 i hi (by
      obtain ⟨k, hk, hkn, hkr⟩ := hex
      exact ⟨k, hk, by rw [hname, hname]; exact hkn, hkr⟩)
    rw [h]
    exact ⟨⟨fun _ => Or.inr hex, fun _ => rfl⟩, rfl⟩
  · have h := u11 i (by
      rintro ⟨_, k, hk, hkn, hkr⟩
      exact hex ⟨k, hk, by rw [← hname, ← hname]; exact hkn, hkr⟩)
    rw [h]
    exact ⟨⟨fun h => Or.inl h, fun h => h.resolve_right hex⟩, rfl⟩

/-- Witness for C14: the task map `Position` stacked twice, with the weights 0 and 1.
The first entry has the weight 0 and was not flagged; after `UpdateS` it is flagged,
because the second entry refers to the same task map. -/
theorem UpdateS_marks_used_witness :
    ∃ s0, EndPoseTask.Initialize (aliasedInits : List (TaskInitializer ℚ)) exampleProblem
        ⟨VectorXd.Zero 0, []⟩ EndPoseTask.new = Except.ok s0 ∧
      s0.rho.coeff 0 = 0 ∧ (s0.task 0).is_used = false ∧
      ((EndPoseTask.run [] s0).UpdateS.task 0).is_used = true := by
  refine ⟨_, rfl, rfl, rfl, ?_⟩
  exact ((UpdateS_marks_used (aliasedInits : List (TaskInitializer ℚ)) exampleProblem
    ⟨VectorXd.Zero 0, []⟩ _ [] rfl).2.2 0 (by decide)).1.mpr
    (Or.inr ⟨1, by decide, rfl, by
      show (1 : ℚ) ≠ 0
      norm_num⟩)

/-- C15 (counterexample). One task of one row with the weight `Rho = (2)`: directly
after `Initialize` the weight is 2 and the diagonal entry of `S` is 1. And one task with
the default weight: after `UpdateS` and a write `rho(0) = 3` the weight is 3 and the
diagonal entry of `S` is 1. -/
theorem S_diagonal_differs_from_rho :
    (∃ s0, EndPoseTask.Initialize (scalarInits : List (TaskInitializer ℚ)) exampleProblem
        ⟨VectorXd.Zero 0, []⟩ EndPoseTask.new = Except.ok s0 ∧
      s0.rho.coeff 0 = 2 ∧ s0.S.coeff 0 0 = 1 ∧ s0.S.coeff 0 0 ≠ s0.rho.coeff 0) ∧
    (∃ s0, EndPoseTask.Initialize (emptyGoalInits : List (TaskInitializer ℚ)) exampleProblem
        ⟨VectorXd.Zero 0, []⟩ EndPoseTask.new = Except.ok s0 ∧
      (EndPoseTask.run [EndPoseTask.Op.updateS, EndPoseTask.Op.setRho 0 3] s0).rho.coeff 0
        = 3 ∧
      (EndPoseTask.run [EndPoseTask.Op.updateS, EndPoseTask.Op.setRho 0 3] s0).S.coeff 0 0
        = 1) :=
  ⟨⟨_, rfl, rfl, rfl, by
      show (1 : ℚ) ≠ 2
      norm_num⟩,
    ⟨_, rfl, rfl, rfl⟩⟩

/-- C15 (amended). Directly after `Initialize` the matrix `S` is the identity, whatever
the weights are. In every state reached from `Initialize` by writes to `rho` and calls
of `UpdateS`, `S` is `length_jacobian × length_jacobian` with zeros off the diagonal,
and after one more call of `UpdateS` its diagonal entry at row `start_jacobian_i + r`
is the current `rho(i)`, for every task `i` and every `r < length_jacobian_i`; every
row below `length_jacobian` lies in the Jacobian slice of exactly one task. -/
theorem UpdateS_scaling_matrix (inits : List (TaskInitializer K)) (prob : PlanningProblem)
    (unused : TaskSpaceVector K) (s0 : EndPoseTask K) (ops : List (EndPoseTask.Op K))
    (hinit : EndPoseTask.Initialize inits prob unused EndPoseTask.new = Except.ok s0) :
    s0.S = MatrixXd.Identity s0.length_jacobian s0.length_jacobian ∧
    (EndPoseTask.run ops s0).S.rows = s0.length_jacobian ∧
    (EndPoseTask.run ops s0).S.cols = s0.length_jacobian ∧
    (∀ r c, r ≠ c → (EndPoseTask.run ops s0).S.coeff r c = 0) ∧
    (EndPoseTask.run (ops ++ [EndPoseTask.Op.updateS]) s0).rho
      = (EndPoseTask.run ops s0).rho ∧
    (∀ i, i < s0.num_tasks → ∀ r, r < (s0.index i).length_jacobian →
      (EndPoseTask.run (ops ++ [EndPoseTask.Op.updateS]) s0).S.coeff
          ((s0.index i).start_jacobian + r) ((s0.index i).start_jacobian + r)
        = (EndPoseTask.run ops s0).rho.coeff i) ∧
    (∀ p, p < s0.length_jacobian →
      ∃! i, i < s0.num_tasks ∧ (s0.index i).start_jacobian ≤ p ∧
        p < (s0.index i).start_jacobian + (s0.index i).length_jacobian) := by
  obtain ⟨r1, r2, r3, r4, r5, r6, r7⟩ := run_stacked inits prob unused s0 ops hinit
  obtain ⟨t2, t3, t4, t5, t6, t7, t8, t9, t10⟩ :=
    EndPose_Initialize_inv inits prob unused s0 hinit
  obtain ⟨u1, u2, u3, u4, u5, u6, u7, u8, u9, u10⟩ :=
    UpdateS_spec (EndPoseTask.run ops s0) s0.tasks s0.num_tasks r2 r3 t2 r4
  have hrun : EndPoseTask.run (ops ++ [EndPoseTask.Op.updateS]) s0
      = (EndPoseTask.run ops s0).UpdateS := by
    unfold EndPoseTask.run
    rw [forEach_append]
    rfl
  have hsj : ∀ i, i < s0.num_tasks →
      (s0.index i).start_jacobian = sliceStartJacobian s0.tasks i ∧
      (s0.index i).length_jacobian
        = (s0.tasks.getD i ⟨0, 0, 0, 0, false, []⟩).length_jacobian := by
    intro i hi
    rw [t4 i hi]
    exact ⟨rfl, rfl⟩
  refine ⟨t8, r5, r6, r7, by rw [hrun]; exact u1, ?_, ?_⟩
  · intro i hi r hr
    rw [hrun, (hsj i hi).1]
    rw [(hsj i hi).2] at hr
    exact u8 i hi r hr
  · intro p hp
    rw [t6] at hp
    obtain ⟨i, hi, h1, h2⟩ := sliceStartJacobian_cover s0.tasks s0.num_tasks p (by omega) hp
    have hsucc : ∀ j, j < s0.num_tasks → sliceStartJacobian s0.tasks (j + 1)
        = (s0.index j).start_jacobian + (s0.index j).length_jacobian := by
      intro j hj
      rw [(hsj j hj).1, (hsj j hj).2]
      exact sliceStartJacobian_succ s0.tasks j (by omega)
    refine ⟨i, ⟨hi, by rw [(hsj i hi).1]; exact h1, by rw [← hsucc i hi]; exact h2⟩, ?_⟩
    rintro j ⟨hj, hj1, hj2⟩
    rw [← hsucc j hj] at hj2
    rw [(hsj j hj).1] at hj1
    rcases Nat.lt_trichotomy j i with h | h | h
    · have := sliceStartJacobian_mono s0.tasks (j + 1) i (by omega) (by omega)
      omega
    · exact h
    · have := sliceStartJacobian_mono s0.tasks (i + 1) j (by omega) (by omega)
      omega

/-- Witness for C15: two tasks, `UpdateS`, then `rho(1) = 5`, then `UpdateS` again: the
six diagonal entries of the second task are the current weight. -/
theorem UpdateS_scaling_matrix_witness :
    ∃ s0, EndPoseTask.Initialize (goalInits : List (TaskInitializer ℚ)) exampleProblem
        ⟨VectorXd.Zero 0, []⟩ EndPoseTask.new = Except.ok s0 ∧
      ∀ r, r < (s0.index 1).length_jacobian →
        (EndPoseTask.run
          ([EndPoseTask.Op.updateS, EndPoseTask.Op.setRho 1 5] ++ [EndPoseTask.Op.updateS])
          s0).S.coeff ((s0.index 1).start_jacobian + r) ((s0.index 1).start_jacobian + r)
        = (EndPoseTask.run [EndPoseTask.Op.updateS, EndPoseTask.Op.setRho 1 5]
            s0).rho.coeff 1 :=
  ⟨_, rfl,
    (UpdateS_scaling_matrix (goalInits : List (TaskInitializer ℚ)) exampleProblem
      ⟨VectorXd.Zero 0, []⟩ _ [EndPoseTask.Op.updateS, EndPoseTask.Op.setRho 1 5]
      rfl).2.2.2.2.2.1 1 (by decide)⟩

end UpdateSClaims

/-! ## The copy loops of `Update` -/

section CopyLoops

variable {K : Type} [LinearOrderedField K]

/-- The value copy of one task completes when both segments are in range, and writes
the slice of the task only. -/
theorem copyValue_ok (self : Task K) (task : TaskIndexing) (big_phi Phi : TaskSpaceVector K)
    (hsrc : (self.task task.id).start + (self.task task.id).length ≤ big_phi.data.size)
    (hdst : task.start + task.length ≤ Phi.data.size)
    (hlen : task.length = (self.task task.id).length) :
    ∃ Phi1, self.copyValue task big_phi Phi = Except.ok Phi1 ∧ Phi1.map = Phi.map ∧
      Phi1.data.size = Phi.data.size ∧
      ∀ k, Phi1.data.coeff k
        = if task.start ≤ k ∧ k < task.start + task.length then
            big_phi.data.coeff ((self.task task.id).start + (k - task.start))
          else Phi.data.coeff k := by
  unfold Task.copyValue VectorXd.segment
  rw [if_pos hsrc]
  unfold VectorXd.assignSegment
  have hc : task.start + task.length ≤ Phi.data.size ∧
      (⟨(self.task task.id).length, fun k =>
        big_phi.data.coeff ((self.task task.id).start + k)⟩ : VectorXd K).size
        = task.length := ⟨hdst, hlen.symm⟩
  simp only [if_pos hc]
  exact ⟨_, rfl, rfl, rfl, fun _ => rfl⟩

/-- The Jacobian copy of one task completes when both row ranges are in range and the
column counts agree, and writes the rows of the task only. -/
theorem copyJacobian_ok (self : Task K) (task : TaskIndexing) (big_j jacobian : MatrixXd K)
    (hsrc : (self.task task.id).start_jacobian + (self.task task.id).length_jacobian
      ≤ big_j.rows)
    (hdst : task.start_jacobian + task.length_jacobian ≤ jacobian.rows)
    (hlen : task.length_jacobian = (self.task task.id).length_jacobian)
    (hcols : big_j.cols = jacobian.cols) :
    ∃ J1, self.copyJacobian task big_j jacobian = Except.ok J1 ∧
      J1.rows = jacobian.rows ∧ J1.cols = jacobian.cols ∧
      ∀ r c, J1.coeff r c
        = if task.start_jacobian ≤ r ∧ r < task.start_jacobian + task.length_jacobian then
            big_j.coeff ((self.task task.id).start_jacobian + (r - task.start_jacobian)) c
          else jacobian.coeff r c := by
  unfold Task.copyJacobian MatrixXd.middleRows
  rw [if_pos hsrc]
  unfold MatrixXd.assignMiddleRows
  have hc : task.start_jacobian + task.length_jacobian ≤ jacobian.rows ∧
      (⟨(self.task task.id).length_jacobian, big_j.cols, fun r c =>
        big_j.coeff ((self.task task.id).start_jacobian + r) c⟩ : MatrixXd K).rows
        = task.length_jacobian ∧
      (⟨(self.task task.id).length_jacobian, big_j.cols, fun r c =>
        big_j.coeff ((self.task task.id).start_jacobian + r) c⟩ : MatrixXd K).cols
        = jacobian.cols := ⟨hdst, hlen.symm, hcols⟩
  simp only [if_pos hc]
  exact ⟨_, rfl, rfl, rfl, fun _ _ => rfl⟩

/-- One iteration of the value copy keeps the loop invariant: the slices of the tasks
before `i + 1` hold the provider's values, the coefficients from the end of slice `i`
on are untouched. -/
theorem copyValue_step (self : Task K) (n i : Nat) (x : TaskIndexing)
    (big_phi Phi0 Phi : TaskSpaceVector K)
    (hn : self.tasks.length = n) (hi : i < n)
    (hx : x = { id := i, start := sliceStart self.tasks i, length := (self.task i).length,
                start_jacobian := sliceStartJacobian self.tasks i,
                length_jacobian := (self.task i).length_jacobian })
    (hPhi0 : Phi0.data.size = sliceStart self.tasks n)
    (hbig : (self.task i).start + (self.task i).length ≤ big_phi.data.size)
    (p1 : Phi.map = Phi0.map) (p2 : Phi.data.size = Phi0.data.size)
    (p3 : ∀ j, j < i → ∀ k, k < (self.task j).length →
      Phi.data.coeff (sliceStart self.tasks j + k)
        = big_phi.data.coeff ((self.task j).start + k))
    (p4 : ∀ p, sliceStart self.tasks i ≤ p → Phi.data.coeff p = Phi0.data.coeff p) :
    ∃ Phi1, self.copyValue x big_phi Phi = Except.ok Phi1 ∧
      Phi1.map = Phi0.map ∧ Phi1.data.size = Phi0.data.size ∧
      (∀ j, j < i + 1 → ∀ k, k < (self.task j).length →
        Phi1.data.coeff (sliceStart self.tasks j + k)
          = big_phi.data.coeff ((self.task j).start + k)) ∧
      (∀ p, sliceStart self.tasks (i + 1) ≤ p → Phi1.data.coeff p = Phi0.data.coeff p) := by
  have hs : sliceStart self.tasks (i + 1)
      = sliceStart self.tasks i + (self.task i).length :=
    sliceStart_succ self.tasks i (by omega)
  have hmono : sliceStart self.tasks (i + 1) ≤ sliceStart self.tasks n :=
    sliceStart_mono self.tasks (i + 1) n (by omega) (by omega)
  have hid : x.id = i := by rw [hx]
  have hst : x.start = sliceStart self.tasks i := by rw [hx]
  have hlen : x.length = (self.task i).length := by rw [hx]
  obtain ⟨Phi1, h1, h2, h3, h4⟩ := copyValue_ok self x big_phi Phi
    (by rw [hid]; exact hbig) (by rw [hst, hlen, p2, hPhi0]; omega) (by rw [hid, hlen])
  rw [hid, hst, hlen] at h4
  refine ⟨Phi1, h1, h2.trans p1, h3.trans p2, ?_, ?_⟩
  · intro j hj k hk
    rw [h4]
    rcases Nat.lt_or_ge j i with hji | hji
    · have hjs : sliceStart self.tasks (j + 1)
          = sliceStart self.tasks j + (self.task j).length :=
        sliceStart_succ self.tasks j (by omega)
      have hjm : sliceStart self.tasks (j + 1) ≤ sliceStart self.tasks i :=
        sliceStart_mono self.tasks (j + 1) i (by omega) (by omega)
      rw [if_neg (fun h => by omega)]
      exact p3 j hji k hk
    · have hje : j = i := by omega
      subst hje
      rw [if_pos ⟨by omega, by omega⟩]
      congr 2
      omega
  · intro p hp
    rw [h4, if_neg (fun h => by omega)]
    exact p4 p (by omega)

/-- One iteration of the Jacobian copy keeps the loop invariant. -/
theorem copyJacobian_step (self : Task K) (n i : Nat) (x : TaskIndexing)
    (big_j J0 J : MatrixXd K)
    (hn : self.tasks.length = n) (hi : i < n)
    (hx : x = { id := i, start := sliceStart self.tasks i, length := (self.task i).length,
                start_jacobian := sliceStartJacobian self.tasks i,
                length_jacobian := (self.task i).length_jacobian })
    (hJ0 : J0.rows = sliceStartJacobian self.tasks n)
    (hbig : (self.task i).start_jacobian + (self.task i).length_jacobian ≤ big_j.rows)
    (hcols : big_j.cols = J0.cols)
    (p1 : J.rows = J0.rows) (p2 : J.cols = J0.cols)
    (p3 : ∀ j, j < i → ∀ r, r < (self.task j).length_jacobian → ∀ c,
      J.coeff (sliceStartJacobian self.tasks j + r) c
        = big_j.coeff ((self.task j).start_jacobian + r) c)
    (p4 : ∀ r c, sliceStartJacobian self.tasks i ≤ r → J.coeff r c = J0.coeff r c) :
    ∃ J1, self.copyJacobian x big_j J = Except.ok J1 ∧
      J1.rows = J0.rows ∧ J1.cols = J0.cols ∧
      (∀ j, j < i + 1 → ∀ r, r < (self.task j).length_jacobian → ∀ c,
        J1.coeff (sliceStartJacobian self.tasks j + r) c
          = big_j.coeff ((self.task j).start_jacobian + r) c) ∧
      (∀ r c, sliceStartJacobian self.tasks (i + 1) ≤ r → J1.coeff r c = J0.coeff r c) := by
  have hs : sliceStartJacobian self.tasks (i + 1)
      = sliceStartJacobian self.tasks i + (self.task i).length_jacobian :=
    sliceStartJacobian_succ self.tasks i (by omega)
  have hmono : sliceStartJacobian self.tasks (i + 1) ≤ sliceStartJacobian self.tasks n :=
    sliceStartJacobian_mono self.tasks (i + 1) n (by omega) (by omega)
  have hid : x.id = i := by rw [hx]
  have hst : x.start_jacobian = sliceStartJacobian self.tasks i := by rw [hx]
  have hlen : x.length_jacobian = (self.task i).length_jacobian := by rw [hx]
  obtain ⟨J1, h1, h2, h3, h4⟩ := copyJacobian_ok self x big_j J
    (by rw [hid]; exact hbig) (by rw [hst, hlen, p1, hJ0]; omega) (by rw [hid, hlen])
    (by rw [hcols, p2])
  rw [hid, hst, hlen] at h4
  refine ⟨J1, h1, h2.trans p1, h3.trans p2, ?_, ?_⟩
  · intro j hj r hr c
    rw [h4]
    rcases Nat.lt_or_ge j i with hji | hji
    · have hjs : sliceStartJacobian self.tasks (j + 1)
          = sliceStartJacobian self.tasks j + (self.task j).length_jacobian :=
        sliceStartJacobian_succ self.tasks j (by omega)
      have hjm : sliceStartJacobian self.tasks (j + 1) ≤ sliceStartJacobian self.tasks i :=
        sliceStartJacobian_mono self.tasks (j + 1) i (by omega) (by omega)
      rw [if_neg (fun h => by omega)]
      exact p3 j hji r hr c
    · have hje : j = i := by omega
      subst hje
      rw [if_pos ⟨by omega, by omega⟩]
      congr 2
      omega
  · intro r c hr
    rw [h4, if_neg (fun h => by omega)]
    exact p4 r c (by omega)

/-- The copy loop of `SamplingTask::Update` on a stacked aggregator whose `Phi` has
`length_phi` coefficients, for a provider vector that covers every task: the loop
completes, every slice holds the provider's values and nothing else changes. -/
theorem Sampling_copyLoop_ok (self : Task K) (n : Nat) (big_phi Phi0 : TaskSpaceVector K)
    (hn : self.tasks.length = n) (hil : self.indexing.length = n)
    (hidx : ∀ i, i < n →
      self.index i = { id := i, start := sliceStart self.tasks i,
                       length := (self.task i).length,
                       start_jacobian := sliceStartJacobian self.tasks i,
                       length_jacobian := (self.task i).length_jacobian })
    (hPhi0 : Phi0.data.size = sliceStart self.tasks n)
    (hbig : ∀ i, i < n → (self.task i).start + (self.task i).length ≤ big_phi.data.size) :
    ∃ Phi1, SamplingTask.Update.copyLoop self big_phi Phi0 = Except.ok Phi1 ∧
      Phi1.map = Phi0.map ∧ Phi1.data.size = Phi0.data.size ∧
      (∀ j, j < n → ∀ k, k < (self.task j).length →
        Phi1.data.coeff (sliceStart self.tasks j + k)
          = big_phi.data.coeff ((self.task j).start + k)) ∧
      (∀ p, sliceStart self.tasks n ≤ p → Phi1.data.coeff p = Phi0.data.coeff p) := by
  have key := forEachM_indexed_invariant
    (fun m (Phi : TaskSpaceVector K) => m ≤ n →
      Phi.map = Phi0.map ∧ Phi.data.size = Phi0.data.size ∧
      (∀ j, j < m → ∀ k, k < (self.task j).length →
        Phi.data.coeff (sliceStart self.tasks j + k)
          = big_phi.data.coeff ((self.task j).start + k)) ∧
      (∀ p, sliceStart self.tasks m ≤ p → Phi.data.coeff p = Phi0.data.coeff p))
    (fun (task : TaskIndexing) (Phi : TaskSpaceVector K) =>
      (self.copyValue task big_phi Phi : Except (Exception K) (TaskSpaceVector K)))
    self.indexing Phi0
    (fun _ => ⟨rfl, rfl, fun j hj => absurd hj (Nat.not_lt_zero j), fun _ _ => rfl⟩)
    (by
      intro i x Phi hx hP
      have hi : i < n := by
        have := lt_of_getElem? _ _ _ hx
        omega
      have hx2 : x = self.index i := (getD_of_getElem? self.indexing i _ x hx).symm
      obtain ⟨p1, p2, p3, p4⟩ := hP (by omega)
      obtain ⟨Phi1, h1, h2⟩ := copyValue_step self n i x big_phi Phi0 Phi hn hi
        (by rw [hx2]; exact hidx i hi) hPhi0 (hbig i hi) p1 p2 p3 p4
      exact ⟨Phi1, h1, fun _ => h2⟩)
  obtain ⟨Phi1, h1, h2⟩ := key
  rw [hil] at h2
  exact ⟨Phi1, h1, h2 le_rfl⟩

/-- The copy loop of `EndPoseTask::Update(big_phi, big_j)` on a stacked aggregator whose
buffers have the stacked sizes, for provider buffers that cover every task: the loop
completes, every slice holds the provider's values and rows, nothing else changes. -/
theorem EndPose_copyLoop_ok (self : Task K) (n : Nat) (big_phi Phi0 : TaskSpaceVector K)
    (big_j J0 : MatrixXd K)
    (hn : self.tasks.length = n) (hil : self.indexing.length = n)
    (hidx : ∀ i, i < n →
      self.index i = { id := i, start := sliceStart self.tasks i,
                       length := (self.task i).length,
                       start_jacobian := sliceStartJacobian self.tasks i,
                       length_jacobian := (self.task i).length_jacobian })
    (hPhi0 : Phi0.data.size = sliceStart self.tasks n)
    (hJ0 : J0.rows = sliceStartJacobian self.tasks n)
    (hbig : ∀ i, i < n → (self.task i).start + (self.task i).length ≤ big_phi.data.size)
    (hbigJ : ∀ i, i < n →
      (self.task i).start_jacobian + (self.task i).length_jacobian ≤ big_j.rows)
    (hcols : big_j.cols = J0.cols) :
    ∃ st, EndPoseTask.Update.copyLoop self big_phi big_j (Phi0, J0) = Except.ok st ∧
      st.1.map = Phi0.map ∧ st.1.data.size = Phi0.data.size ∧
      (∀ j, j < n → ∀ k, k < (self.task j).length →
        st.1.data.coeff (sliceStart self.tasks j + k)
          = big_phi.data.coeff ((self.task j).start + k)) ∧
      (∀ p, sliceStart self.tasks n ≤ p → st.1.data.coeff p = Phi0.data.coeff p) ∧
      st.2.rows = J0.rows ∧ st.2.cols = J0.cols ∧
      (∀ j, j < n → ∀ r, r < (self.task j).length_jacobian → ∀ c,
        st.2.coeff (sliceStartJacobian self.tasks j + r) c
          = big_j.coeff ((self.task j).start_jacobian + r) c) ∧
      (∀ r c, sliceStartJacobian self.tasks n ≤ r → st.2.coeff r c = J0.coeff r c) := by
  have key := forEachM_indexed_invariant
    (fun m (st : TaskSpaceVector K × MatrixXd K) => m ≤ n →
      st.1.map = Phi0.map ∧ st.1.data.size = Phi0.data.size ∧
      (∀ j, j < m → ∀ k, k < (self.task j).length →
        st.1.data.coeff (sliceStart self.tasks j + k)
          = big_phi.data.coeff ((self.task j).start + k)) ∧
      (∀ p, sliceStart self.tasks m ≤ p → st.1.data.coeff p = Phi0.data.coeff p) ∧
      st.2.rows = J0.rows ∧ st.2.cols = J0.cols ∧
      (∀ j, j < m → ∀ r, r < (self.task j).length_jacobian → ∀ c,
        st.2.coeff (sliceStartJacobian self.tasks j + r) c
          = big_j.coeff ((self.task j).start_jacobian + r) c) ∧
      (∀ r c, sliceStartJacobian self.tasks m ≤ r → st.2.coeff r c = J0.coeff r c))
    (fun (task : TaskIndexing) (st : TaskSpaceVector K × MatrixXd K) =>
      (match self.copyValue task big_phi st.1 with
      | Except.error e => Except.error e
      | Except.ok Phi =>
        match self.copyJacobian task big_j st.2 with
        | Except.error e => Except.error e
        | Except.ok jacobian => Except.ok (Phi, jacobian) :
        Except (Exception K) (TaskSpaceVector K × MatrixXd K)))
    self.indexing (Phi0, J0)
    (fun _ => ⟨rfl, rfl, fun j hj => absurd hj (Nat.not_lt_zero j), fun _ _ => rfl,
      rfl, rfl, fun j hj => absurd hj (Nat.not_lt_zero j), fun _ _ _ => rfl⟩)
    (by
      intro i x st hx hP
      have hi : i < n := by
        have := lt_of_getElem? _ _ _ hx
        omega
      have hx2 : x = self.index i := (getD_of_getElem? self.indexing i _ x hx).symm
      obtain ⟨p1, p2, p3, p4, q1, q2, q3, q4⟩ := hP (by omega)
      obtain ⟨Phi1, h1, h2⟩ := copyValue_step self n i x big_phi Phi0 st.1 hn hi
        (by rw [hx2]; exact hidx i hi) hPhi0 (hbig i hi) p1 p2 p3 p4
      obtain ⟨J1, g1, g2⟩ := copyJacobian_step self n i x big_j J0 st.2 hn hi
        (by rw [hx2]; exact hidx i hi) hJ0 (hbigJ i hi) hcols q1 q2 q3 q4
      refine ⟨(Phi1, J1), ?_, fun _ => ⟨h2.1, h2.2.1, h2.2.2.1, h2.2.2.2,
        g2.1, g2.2.1, g2.2.2.1, g2.2.2.2⟩⟩
      simp only [h1, g1])
  obtain ⟨st, h1, h2⟩ := key
  rw [hil] at h2
  exact ⟨st, h1, h2 le_rfl⟩

end CopyLoops

/-! ## `SamplingTask::Update`: the deadband -/

section Deadband

variable {K : Type} [LinearOrderedField K]

/-- The last loop of `SamplingTask::Update`: a component below the tolerance in absolute
value becomes zero, every other component is unchanged. -/
theorem deadband_spec (tolerance : K) (ydiff : VectorXd K) :
    (SamplingTask.Update.deadband tolerance ydiff).size = ydiff.size ∧
    ∀ i, (SamplingTask.Update.deadband tolerance ydiff).coeff i
      = if i < ydiff.size ∧ |ydiff.coeff i| < tolerance then 0 else ydiff.coeff i := by
  unfold SamplingTask.Update.deadband
  apply forRange_indexed_invariant
    (fun n (v : VectorXd K) => v.size = ydiff.size ∧
      ∀ i, v.coeff i = if i < n ∧ |ydiff.coeff i| < tolerance then 0 else ydiff.coeff i)
  · exact ⟨rfl, fun i => by rw [if_neg (fun h => Nat.not_lt_zero i h.1)]⟩
  · intro n v hn ⟨h1, h2⟩
    have hvn : v.coeff n = ydiff.coeff n := by
      rw [h2 n, if_neg (fun h => by omega)]
    rw [hvn]
    by_cases ht : |ydiff.coeff n| < tolerance
    · rw [if_pos ht]
      refine ⟨h1, ?_⟩
      intro i
      show (if i = n then (0 : K) else v.coeff i) = _
      by_cases hin : i = n
      · subst hin
        rw [if_pos rfl, if_pos ⟨by omega, ht⟩]
      · rw [if_neg hin, h2 i]
        by_cases hc : i < n ∧ |ydiff.coeff i| < tolerance
        · rw [if_pos hc, if_pos ⟨by omega, hc.2⟩]
        · rw [if_neg hc, if_neg (fun h => hc ⟨by omega, h.2⟩)]
    · rw [if_neg ht]
      refine ⟨h1, ?_⟩
      intro i
      rw [h2 i]
      by_cases hc : i < n ∧ |ydiff.coeff i| < tolerance
      · rw [if_pos hc, if_pos ⟨by omega, hc.2⟩]
      · rw [if_neg hc, if_neg (fun h => hc ⟨by
          rcases Nat.lt_or_ge i n with h3 | h3
          · exact h3
          · have : i = n := by omega
            subst this
            exact absurd h.2 ht, h.2⟩)]

/-- The state after a call of `SamplingTask::Initialize` on a fresh object that
returned. -/
theorem Sampling_Initialize_inv (inits : List (TaskInitializer K)) (prob : PlanningProblem)
    (unused : TaskSpaceVector K) (s : SamplingTask K)
    (hinit : SamplingTask.Initialize inits prob unused SamplingTask.new = Except.ok s) :
    s.tasks.length = s.num_tasks ∧ s.indexing.length = s.num_tasks ∧
    (∀ i, i < s.num_tasks →
      s.index i = { id := i, start := sliceStart s.tasks i,
                    length := (s.task i).length,
                    start_jacobian := sliceStartJacobian s.tasks i,
                    length_jacobian := (s.task i).length_jacobian }) ∧
    s.length_phi = sliceStart s.tasks s.num_tasks ∧
    s.length_jacobian = sliceStartJacobian s.tasks s.num_tasks ∧
    s.Phi.data = VectorXd.Zero s.length_phi := by
  cases hT : Task.Initialize inits prob (SamplingTask.new : SamplingTask K).Phi
      (SamplingTask.new : SamplingTask K).toTask with
  | error e =>
    unfold SamplingTask.Initialize at hinit
    rw [hT] at hinit
    cases hinit
  | ok p =>
    obtain ⟨base, Phi1⟩ := p
    rw [Sampling_Initialize_eq inits prob unused _ base Phi1 hT] at hinit
    obtain ⟨t1, t2, t3, t4, t5, t6, t7⟩ := Task_Initialize_inv inits prob _ base Phi1 hT
    obtain ⟨a1, a2, a3, a4, a5, a6, a7⟩ :=
      Sampling_allocate_fields base Phi1 (SamplingTask.new : SamplingTask K)
    cases hL : forRangeM 0 (base.goalRhoBody inits) base.num_tasks
        (Phi1.SetZero base.length_phi, VectorXd.Ones base.num_tasks) with
    | error e =>
      rw [hL] at hinit
      cases hinit
    | ok st =>
      rw [hL] at hinit
      injection hinit with hinit
      have e1 : s.toTask = base := by
        rw [← hinit]
        exact a1
      have e2 : s.Phi = Phi1 := by
        rw [← hinit]
        exact a2
      rw [e1, e2]
      exact ⟨t2, t3, t4, t5, t6, t7⟩

/-- C13. `SamplingTask::Update(big_phi)` on an aggregator prepared by `Initialize`, with
any tolerance, for a provider vector that covers every task's slice: the call returns,
the goal and the tolerance are unchanged, every task's slice of `Phi` holds the
provider's values, and every component `i` of the residual is 0 if `|d[i]| < tolerance`
and `d[i]` otherwise, where `d = Phi - y` is the difference of the freshly copied `Phi`
and the goal; for Euclidean coordinates (no Lie-group tag) `d[i] = Phi[i] - y[i]` and
the residual has `length_phi` components. -/
theorem SamplingTask_Update_deadband
    (lieDifference : TaskSpaceVector K → TaskSpaceVector K → VectorXd K)
    (inits : List (TaskInitializer K)) (prob : PlanningProblem)
    (unused : TaskSpaceVector K) (s0 : SamplingTask K) (tolerance : K)
    (big_phi : TaskSpaceVector K)
    (hinit : SamplingTask.Initialize inits prob unused SamplingTask.new = Except.ok s0)
    (hbig : ∀ i, i < s0.num_tasks →
      (s0.task i).start + (s0.task i).length ≤ big_phi.data.size) :
    ∃ s1, SamplingTask.Update lieDifference big_phi { s0 with tolerance := tolerance }
        = Except.ok s1 ∧
      s1.y = s0.y ∧ s1.tolerance = tolerance ∧
      (∀ i, i < s0.num_tasks → ∀ k, k < (s0.index i).length →
        s1.Phi.data.coeff ((s0.index i).start + k)
          = big_phi.data.coeff ((s0.task i).start + k)) ∧
      s1.ydiff.size = (TaskSpaceVector.sub lieDifference s1.Phi s1.y).size ∧
      (∀ i, i < s1.ydiff.size →
        s1.ydiff.coeff i
          = if |(TaskSpaceVector.sub lieDifference s1.Phi s1.y).coeff i| < tolerance then 0
            else (TaskSpaceVector.sub lieDifference s1.Phi s1.y).coeff i) ∧
      (s0.Phi.map = [] →
        s1.ydiff.size = s0.length_phi ∧
        ∀ i, i < s0.length_phi →
          s1.ydiff.coeff i
            = if |s1.Phi.data.coeff i - s1.y.data.coeff i| < tolerance then 0
              else s1.Phi.data.coeff i - s1.y.data.coeff i) := by
  obtain ⟨t2, t3, t4, t5, t6, t7⟩ := Sampling_Initialize_inv inits prob unused s0 hinit
  obtain ⟨Phi1, h1, h2, h3, h4, h5⟩ := Sampling_copyLoop_ok s0.toTask s0.num_tasks big_phi
    s0.Phi t2 t3 t4 (by rw [t7, ← t5]; rfl) hbig
  obtain ⟨d1, d2⟩ := deadband_spec tolerance (TaskSpaceVector.sub lieDifference Phi1 s0.y)
  have hU : SamplingTask.Update lieDifference big_phi { s0 with tolerance := tolerance }
      = Except.ok { s0 with
          tolerance := tolerance, Phi := Phi1,
          ydiff := SamplingTask.Update.deadband tolerance
            (TaskSpaceVector.sub lieDifference Phi1 s0.y) } := by
    unfold SamplingTask.Update
    have h1b : SamplingTask.Update.copyLoop
        ({ s0 with tolerance := tolerance } : SamplingTask K).toTask big_phi
        ({ s0 with tolerance := tolerance } : SamplingTask K).Phi = Except.ok Phi1 := h1
    rw [h1b]
  refine ⟨_, hU, rfl, rfl, ?_, d1, ?_, ?_⟩
  · intro i hi k hk
    rw [t4 i hi] at hk ⊢
    exact h4 i hi k hk
  · intro i hi
    show (SamplingTask.Update.deadband tolerance
      (TaskSpaceVector.sub lieDifference Phi1 s0.y)).coeff i = _
    rw [d2 i]
    have hi2 : i < (TaskSpaceVector.sub lieDifference Phi1 s0.y).size := by
      rw [← d1]
      exact hi
    by_cases ht : |(TaskSpaceVector.sub lieDifference Phi1 s0.y).coeff i| < tolerance
    · rw [if_pos ⟨hi2, ht⟩]
      show (0 : K) = if _ then _ else _
      rw [if_pos ht]
    · rw [if_neg (fun h => ht h.2)]
      show _ = if _ then _ else _
      rw [if_neg ht]
  · intro hmap
    have hsub : TaskSpaceVector.sub lieDifference Phi1 s0.y
        = ⟨Phi1.data.size, fun k => Phi1.data.coeff k - s0.y.data.coeff k⟩ := by
      unfold TaskSpaceVector.sub
      rw [h2, hmap]
      rfl
    have hsize : Phi1.data.size = s0.length_phi := by
      rw [h3, t7]
      rfl
    constructor
    · show (SamplingTask.Update.deadband tolerance
        (TaskSpaceVector.sub lieDifference Phi1 s0.y)).size = _
      rw [d1, hsub]
      exact hsize
    · intro i hi
      show (SamplingTask.Update.deadband tolerance
        (TaskSpaceVector.sub lieDifference Phi1 s0.y)).coeff i = _
      rw [d2 i, hsub]
      show (if i < Phi1.data.size ∧ |Phi1.data.coeff i - s0.y.data.coeff i| < tolerance
        then 0 else Phi1.data.coeff i - s0.y.data.coeff i)
        = if |Phi1.data.coeff i - s0.y.data.coeff i| < tolerance then 0
          else Phi1.data.coeff i - s0.y.data.coeff i
      by_cases ht : |Phi1.data.coeff i - s0.y.data.coeff i| < tolerance
      · rw [if_pos ⟨by omega, ht⟩, if_pos ht]
      · rw [if_neg (fun h => ht h.2), if_neg ht]

/-- Witness for C13: tolerance `1e-3`, a zero goal and the provider values `5e-4` and
`2e-3`: the first residual component becomes 0, the second is unchanged. -/
theorem SamplingTask_Update_deadband_witness :
    ∃ s0 s1,
      SamplingTask.Initialize (emptyGoalInits : List (TaskInitializer ℚ)) exampleProblem
        ⟨VectorXd.Zero 0, []⟩ SamplingTask.new = Except.ok s0 ∧
      SamplingTask.Update (fun a _ => a.data) smallResiduals
        { s0 with tolerance := 1 / 1000 } = Except.ok s1 ∧
      s1.ydiff.coeff 0 = 0 ∧ s1.ydiff.coeff 1 = 1 / 500 := by
  obtain ⟨s1, hU, hy, htol, hPhi, hsz, hd, hE⟩ :=
    SamplingTask_Update_deadband (fun a _ => a.data)
      (emptyGoalInits : List (TaskInitializer ℚ)) exampleProblem ⟨VectorXd.Zero 0, []⟩ _
      (1 / 1000) smallResiduals rfl
      (by
        intro i hi
        have hi1 : i < 1 := hi
        have hi0 : i = 0 := by omega
        subst hi0
        decide)
  obtain ⟨hE1, hE2⟩ := hE rfl
  have hp0 : s1.Phi.data.coeff 0 = 1 / 2000 := hPhi 0 (by decide) 0 (by decide)
  have hp1 : s1.Phi.data.coeff 1 = 1 / 500 := hPhi 0 (by decide) 1 (by decide)
  have hy0 : s1.y.data.coeff 0 = 0 := by
    rw [hy]
    rfl
  have hy1 : s1.y.data.coeff 1 = 0 := by
    rw [hy]
    rfl
  refine ⟨_, s1, rfl, hU, ?_, ?_⟩
  · rw [hE2 0 (by decide), hp0, hy0]
    norm_num [abs_of_pos]
  · rw [hE2 1 (by decide), hp1, hy1]
    norm_num [abs_of_pos]

end Deadband

/-! ## `EndPoseTask::Update(big_phi, big_j)` -/

section EndPoseUpdate

variable {K : Type} [LinearOrderedField K]

theorem vector_ext {α : Type} (a b : VectorX α) (h1 : a.size = b.size)
    (h2 : ∀ k, a.coeff k = b.coeff k) : a = b := by
  cases a
  cases b
  simp only [VectorX.mk.injEq]
  exact ⟨h1, funext h2⟩

theorem matrix_ext (a b : MatrixXd K) (h1 : a.rows = b.rows) (h2 : a.cols = b.cols)
    (h3 : ∀ r c, a.coeff r c = b.coeff r c) : a = b := by
  cases a
  cases b
  simp only [MatrixXd.mk.injEq]
  exact ⟨h1, h2, funext (fun r => funext (h3 r))⟩

theorem taskSpaceVector_ext (a b : TaskSpaceVector K) (h1 : a.data = b.data)
    (h2 : a.map = b.map) : a = b := by
  cases a
  cases b
  simp only [TaskSpaceVector.mk.injEq]
  exact ⟨h1, h2⟩

/-- The method `EndPoseTask::Update(big_phi, big_j)` on a stacked aggregator whose
buffers have the stacked sizes, for provider buffers that cover every task: the call
returns; the stacking, the goal, the weights, `S` and the Hessian are unchanged; every
slice of `Phi` and of the Jacobian holds the provider's values, nothing else in the two
buffers changes; and `ydiff` is the difference of the new `Phi` and the goal. -/
theorem EndPose_Update_spec
    (lieDifference : TaskSpaceVector K → TaskSpaceVector K → VectorXd K)
    (s : EndPoseTask K) (n : Nat) (big_phi : TaskSpaceVector K) (big_j : MatrixXd K)
    (hn : s.tasks.length = n) (hil : s.indexing.length = n)
    (hidx : ∀ i, i < n →
      s.index i = { id := i, start := sliceStart s.tasks i,
                    length := (s.task i).length,
                    start_jacobian := sliceStartJacobian s.tasks i,
                    length_jacobian := (s.task i).length_jacobian })
    (hPhi : s.Phi.data.size = sliceStart s.tasks n)
    (hJ : s.jacobian.rows = sliceStartJacobian s.tasks n)
    (hbig : ∀ i, i < n → (s.task i).start + (s.task i).length ≤ big_phi.data.size)
    (hbigJ : ∀ i, i < n →
      (s.task i).start_jacobian + (s.task i).length_jacobian ≤ big_j.rows)
    (hcols : big_j.cols = s.jacobian.cols) :
    ∃ s1, EndPoseTask.Update lieDifference big_phi big_j s = Except.ok s1 ∧
      s1.toTask = s.toTask ∧ s1.y = s.y ∧ s1.rho = s.rho ∧ s1.S = s.S ∧
      s1.hessian = s.hessian ∧
      s1.ydiff = TaskSpaceVector.sub lieDifference s1.Phi s1.y ∧
      s1.Phi.map = s.Phi.map ∧ s1.Phi.data.size = s.Phi.data.size ∧
      (∀ j, j < n → ∀ k, k < (s.task j).length →
        s1.Phi.data.coeff (sliceStart s.tasks j + k)
          = big_phi.data.coeff ((s.task j).start + k)) ∧
      (∀ p, sliceStart s.tasks n ≤ p → s1.Phi.data.coeff p = s.Phi.data.coeff p) ∧
      s1.jacobian.rows = s.jacobian.rows ∧ s1.jacobian.cols = s.jacobian.cols ∧
      (∀ j, j < n → ∀ r, r < (s.task j).length_jacobian → ∀ c,
        s1.jacobian.coeff (sliceStartJacobian s.tasks j + r) c
          = big_j.coeff ((s.task j).start_jacobian + r) c) ∧
      (∀ r c, sliceStartJacobian s.tasks n ≤ r →
        s1.jacobian.coeff r c = s.jacobian.coeff r c) := by
  obtain ⟨st, h1, p1, p2, p3, p4, q1, q2, q3, q4⟩ :=
    EndPose_copyLoop_ok s.toTask n big_phi s.Phi big_j s.jacobian hn hil hidx hPhi hJ hbig
      hbigJ hcols
  refine ⟨{ s with
      Phi := st.fst
      jacobian := st.snd
      ydiff := TaskSpaceVector.sub lieDifference st.fst s.y }, ?_, rfl, rfl, rfl, rfl, rfl,
    rfl, p1, p2, p3, p4, q1, q2, q3, q4⟩
  unfold EndPoseTask.Update
  rw [h1]

end EndPoseUpdate

section EndPoseUpdateClaims

variable {K : Type} [LinearOrderedField K]

/-- C16. `EndPoseTask::Update(big_phi, big_j)` on an aggregator with the stacking left by
`Initialize` and buffers of the stacked sizes (any contents, goal and weights), for
provider buffers that cover every task's slice: the call returns; for every task `i`,
`Phi[indexing[i].start + k] = big_phi[tasks[i].start + k]` for `k < length_i` and row
`indexing[i].start_jacobian + r` of the Jacobian is row `tasks[i].start_jacobian + r`
of `big_j` for `r < length_jacobian_i`; the goal `y` (with the stacking, the weights and
`S`) is unchanged; and `ydiff` is the difference `Phi - y` of the freshly copied `Phi`
and the goal, coefficient by coefficient when no coordinate carries a Lie-group tag. -/
theorem EndPoseTask_Update_postcondition
    (lieDifference : TaskSpaceVector K → TaskSpaceVector K → VectorXd K)
    (inits : List (TaskInitializer K)) (prob : PlanningProblem)
    (unused : TaskSpaceVector K) (s0 s : EndPoseTask K)
    (big_phi : TaskSpaceVector K) (big_j : MatrixXd K)
    (hinit : EndPoseTask.Initialize inits prob unused EndPoseTask.new = Except.ok s0)
    (hs : s.toTask = s0.toTask) (hPhi : s.Phi.data.size = s0.length_phi)
    (hJ : s.jacobian.rows = s0.length_jacobian) (hcols : big_j.cols = s.jacobian.cols)
    (hbig : ∀ i, i < s0.num_tasks →
      (s0.task i).start + (s0.task i).length ≤ big_phi.data.size)
    (hbigJ : ∀ i, i < s0.num_tasks →
      (s0.task i).start_jacobian + (s0.task i).length_jacobian ≤ big_j.rows) :
    ∃ s1, EndPoseTask.Update lieDifference big_phi big_j s = Except.ok s1 ∧
      (∀ i, i < s0.num_tasks → ∀ k, k < (s0.index i).length →
        s1.Phi.data.coeff ((s0.index i).start + k)
          = big_phi.data.coeff ((s0.task i).start + k)) ∧
      (∀ i, i < s0.num_tasks → ∀ r, r < (s0.index i).length_jacobian → ∀ c,
        s1.jacobian.coeff ((s0.index i).start_jacobian + r) c
          = big_j.coeff ((s0.task i).start_jacobian + r) c) ∧
      s1.jacobian.cols = big_j.cols ∧
      s1.y = s.y ∧
      s1.ydiff = TaskSpaceVector.sub lieDifference s1.Phi s1.y ∧
      (s.Phi.map = [] → s1.ydiff.size = s1.Phi.data.size ∧
        ∀ k, s1.ydiff.coeff k = s1.Phi.data.coeff k - s.y.data.coeff k) ∧
      s1.toTask = s.toTask ∧ s1.rho = s.rho ∧ s1.S = s.S := by
  obtain ⟨t2, t3, t4, t5, t6, t7, t8, t9, t10⟩ :=
    EndPose_Initialize_inv inits prob unused s0 hinit
  obtain ⟨s1, h1, u1, u2, u3, u4, u5, u6, u7, u8, u9, u10, v1, v2, v3, v4⟩ :=
    EndPose_Update_spec lieDifference s s0.num_tasks big_phi big_j
      (by rw [hs]; exact t2) (by rw [hs]; exact t3) (by rw [hs]; exact t4)
      (by rw [hs, hPhi, t5]) (by rw [hs, hJ, t6])
      (by rw [hs]; exact hbig) (by rw [hs]; exact hbigJ) hcols
  rw [hs] at u9 v3
  refine ⟨s1, h1, ?_, ?_, by rw [v2, hcols], u2, u6, ?_, u1, u3, u4⟩
  · intro i hi k hk
    rw [t4 i hi] at hk ⊢
    exact u9 i hi k hk
  · intro i hi r hr c
    rw [t4 i hi] at hr ⊢
    exact v3 i hi r hr c
  · intro hmap
    rw [u6]
    unfold TaskSpaceVector.sub
    rw [u7, hmap, u2]
    exact ⟨rfl, fun _ => rfl⟩

/-- Witness for C16: the second task has provider offsets 10 and 9 and aggregator
offsets 3 and 3; the first residual component is `1 - 1`. -/
theorem EndPoseTask_Update_postcondition_witness :
    EndPoseTask.Initialize (positionScalarInits : List (TaskInitializer ℚ)) exampleProblem
        ⟨VectorXd.Zero 0, []⟩ EndPoseTask.new = Except.ok stackedExample ∧
    ∃ s1,
      EndPoseTask.Update (fun a _ => a.data) (providerPhi 1) (providerJ 1)
        (stackedExample : EndPoseTask ℚ) = Except.ok s1 ∧
      s1.Phi.data.coeff 3 = (providerPhi (1 : ℚ)).data.coeff 10 ∧
      s1.jacobian.coeff 3 1 = (providerJ (1 : ℚ)).coeff 9 1 ∧
      s1.ydiff.coeff 0 = 0 := by
  obtain ⟨s1, hU, hPhi, hJ, _, hy, _, hE, _⟩ :=
    EndPoseTask_Update_postcondition (fun a _ => a.data)
      (positionScalarInits : List (TaskInitializer ℚ)) exampleProblem ⟨VectorXd.Zero 0, []⟩
      stackedExample stackedExample (providerPhi 1) (providerJ 1) rfl rfl rfl rfl rfl
      (by
        intro i hi
        have hi2 : i < 2 := hi
        interval_cases i <;> decide)
      (by
        intro i hi
        have hi2 : i < 2 := hi
        interval_cases i <;> decide)
  refine ⟨rfl, s1, hU, hPhi 1 (by decide) 0 (by decide), hJ 1 (by decide) 0 (by decide) 1, ?_⟩
  rw [(hE rfl).2 0]
  have h0 : s1.Phi.data.coeff 0 = (providerPhi (1 : ℚ)).data.coeff 0 :=
    hPhi 0 (by decide) 0 (by decide)
  rw [h0]
  show (1 : ℚ) + ((0 : Nat) : ℚ) - (((0 : Nat) : ℚ) + 1) = 0
  norm_num

/-- C17. Buffer isolation. For an aggregator with the stacking left by `Initialize` and
buffers of the stacked sizes, and two provider inputs `A` and `B` (values and
Jacobians) that cover every task's slice: `Update` with `A` and then with `B` returns
the same `Phi`, `jacobian` and `ydiff` as `Update` with `B` alone; every task's slice
holds the values of `B`; and the buffers keep their lengths, `length_phi` for `Phi`,
`length_jacobian` rows for the Jacobian and, for untagged coordinates with
`length_phi = length_jacobian`, the length of `ydiff` after `Initialize`. -/
theorem EndPoseTask_Update_isolation
    (lieDifference : TaskSpaceVector K → TaskSpaceVector K → VectorXd K)
    (inits : List (TaskInitializer K)) (prob : PlanningProblem)
    (unused : TaskSpaceVector K) (s0 s : EndPoseTask K)
    (phiA phiB : TaskSpaceVector K) (jA jB : MatrixXd K)
    (hinit : EndPoseTask.Initialize inits prob unused EndPoseTask.new = Except.ok s0)
    (hs : s.toTask = s0.toTask) (hPhi : s.Phi.data.size = s0.length_phi)
    (hJ : s.jacobian.rows = s0.length_jacobian)
    (hcolsA : jA.cols = s.jacobian.cols) (hcolsB : jB.cols = s.jacobian.cols)
    (hbigA : ∀ i, i < s0.num_tasks →
      (s0.task i).start + (s0.task i).length ≤ phiA.data.size)
    (hbigJA : ∀ i, i < s0.num_tasks →
      (s0.task i).start_jacobian + (s0.task i).length_jacobian ≤ jA.rows)
    (hbigB : ∀ i, i < s0.num_tasks →
      (s0.task i).start + (s0.task i).length ≤ phiB.data.size)
    (hbigJB : ∀ i, i < s0.num_tasks →
      (s0.task i).start_jacobian + (s0.task i).length_jacobian ≤ jB.rows) :
    ∃ sA sAB sB,
      EndPoseTask.Update lieDifference phiA jA s = Except.ok sA ∧
      EndPoseTask.Update lieDifference phiB jB sA = Except.ok sAB ∧
      EndPoseTask.Update lieDifference phiB jB s = Except.ok sB ∧
      sAB.Phi = sB.Phi ∧ sAB.jacobian = sB.jacobian ∧ sAB.ydiff = sB.ydiff ∧
      (∀ i, i < s0.num_tasks → ∀ k, k < (s0.index i).length →
        sAB.Phi.data.coeff ((s0.index i).start + k)
          = phiB.data.coeff ((s0.task i).start + k)) ∧
      (∀ i, i < s0.num_tasks → ∀ r, r < (s0.index i).length_jacobian → ∀ c,
        sAB.jacobian.coeff ((s0.index i).start_jacobian + r) c
          = jB.coeff ((s0.task i).start_jacobian + r) c) ∧
      s0.Phi.data.size = s0.length_phi ∧ s0.ydiff.size = s0.length_jacobian ∧
      sAB.Phi.data.size = s0.length_phi ∧ sAB.jacobian.rows = s0.length_jacobian ∧
      sAB.jacobian.cols = s.jacobian.cols ∧
      (s.Phi.map = [] → s0.length_phi = s0.length_jacobian →
        sAB.ydiff.size = s0.ydiff.size) := by
  obtain ⟨t2, t3, t4, t5, t6, t7, t8, t9, t10⟩ :=
    EndPose_Initialize_inv inits prob unused s0 hinit
  have hn : s.tasks.length = s0.num_tasks := by rw [hs]; exact t2
  have hil : s.indexing.length = s0.num_tasks := by rw [hs]; exact t3
  have hidx : ∀ i, i < s0.num_tasks →
      s.index i = { id := i, start := sliceStart s.tasks i,
                    length := (s.task i).length,
                    start_jacobian := sliceStartJacobian s.tasks i,
                    length_jacobian := (s.task i).length_jacobian } := by
    rw [hs]
    exact t4
  have hPhi2 : s.Phi.data.size = sliceStart s.tasks s0.num_tasks := by rw [hs, hPhi, t5]
  have hJ2 : s.jacobian.rows = sliceStartJacobian s.tasks s0.num_tasks := by rw [hs, hJ, t6]
  obtain ⟨sA, hA, a1, a2, a3, a4, a5, a6, a7, a8, a9, a10, b1, b2, b3, b4⟩ :=
    EndPose_Update_spec lieDifference s s0.num_tasks phiA jA hn hil hidx hPhi2 hJ2
      (by rw [hs]; exact hbigA) (by rw [hs]; exact hbigJA) hcolsA
  obtain ⟨sB, hB, c1, c2, c3, c4, c5, c6, c7, c8, c9, c10, d1, d2, d3, d4⟩ :=
    EndPose_Update_spec lieDifference s s0.num_tasks phiB jB hn hil hidx hPhi2 hJ2
      (by rw [hs]; exact hbigB) (by rw [hs]; exact hbigJB) hcolsB
  obtain ⟨sAB, hAB, e1, e2, e3, e4, e5, e6, e7, e8, e9, e10, f1, f2, f3, f4⟩ :=
    EndPose_Update_spec lieDifference sA s0.num_tasks phiB jB
      (by rw [a1]; exact hn) (by rw [a1]; exact hil) (by rw [a1]; exact hidx)
      (by rw [a1, a8]; exact hPhi2) (by rw [a1, b1]; exact hJ2)
      (by rw [a1, hs]; exact hbigB) (by rw [a1, hs]; exact hbigJB) (by rw [b2]; exact hcolsB)
  rw [a1] at e9 e10 f3 f4
  have hPhiEq : sAB.Phi = sB.Phi := by
    apply taskSpaceVector_ext
    · apply vector_ext
      · rw [e8, a8, c8]
      · intro p
        rcases Nat.lt_or_ge p (sliceStart s.tasks s0.num_tasks) with hp | hp
        · obtain ⟨i, hi, h1, h2⟩ := sliceStart_cover s.tasks s0.num_tasks p (by omega) hp
          have hsucc : sliceStart s.tasks (i + 1)
              = sliceStart s.tasks i + (s.task i).length :=
            sliceStart_succ s.tasks i (by omega)
          have hk : p = sliceStart s.tasks i + (p - sliceStart s.tasks i) := by omega
          rw [hk, e9 i hi _ (by omega), c9 i hi _ (by omega)]
        · rw [e10 p hp, a10 p hp, c10 p hp]
    · rw [e7, a7, c7]
  have hJEq : sAB.jacobian = sB.jacobian := by
    apply matrix_ext
    · rw [f1, b1, d1]
    · rw [f2, b2, d2]
    · intro r c
      rcases Nat.lt_or_ge r (sliceStartJacobian s.tasks s0.num_tasks) with hr | hr
      · obtain ⟨i, hi, h1, h2⟩ :=
          sliceStartJacobian_cover s.tasks s0.num_tasks r (by omega) hr
        have hsucc : sliceStartJacobian s.tasks (i + 1)
            = sliceStartJacobian s.tasks i + (s.task i).length_jacobian :=
          sliceStartJacobian_succ s.tasks i (by omega)
        have hk : r = sliceStartJacobian s.tasks i + (r - sliceStartJacobian s.tasks i) := by
          omega
        rw [hk, f3 i hi _ (by omega) c, d3 i hi _ (by omega) c]
      · rw [f4 r c hr, b4 r c hr, d4 r c hr]
  have hyEq : sAB.y = sB.y := by rw [e2, a2, c2]
  refine ⟨sA, sAB, sB, hA, hAB, hB, hPhiEq, hJEq, by rw [e6, c6, hPhiEq, hyEq], ?_, ?_,
    by rw [t7]; rfl, by rw [t9]; rfl, by rw [e8, a8, hPhi], by rw [f1, b1, hJ],
    by rw [f2, b2], ?_⟩
  · intro i hi k hk
    rw [hs] at e9
    rw [t4 i hi] at hk ⊢
    exact e9 i hi k hk
  · intro i hi r hr c
    rw [hs] at f3
    rw [t4 i hi] at hr ⊢
    exact f3 i hi r hr c
  · intro hmap hlen
    rw [e6, t9]
    unfold TaskSpaceVector.sub
    rw [e7, a7, hmap]
    show sAB.Phi.data.size = s0.length_jacobian
    rw [e8, a8, hPhi, hlen]

/-- Witness for C17: two different provider inputs on the aggregator of two tasks. -/
theorem EndPoseTask_Update_isolation_witness :
    EndPoseTask.Initialize (positionScalarInits : List (TaskInitializer ℚ)) exampleProblem
        ⟨VectorXd.Zero 0, []⟩ EndPoseTask.new = Except.ok stackedExample ∧
    ∃ sA sAB sB,
      EndPoseTask.Update (fun a _ => a.data) (providerPhi 1) (providerJ 1)
        (stackedExample : EndPoseTask ℚ) = Except.ok sA ∧
      EndPoseTask.Update (fun a _ => a.data) (providerPhi 7) (providerJ 5) sA
        = Except.ok sAB ∧
      EndPoseTask.Update (fun a _ => a.data) (providerPhi 7) (providerJ 5)
        (stackedExample : EndPoseTask ℚ) = Except.ok sB ∧
      sAB.Phi = sB.Phi ∧ sAB.jacobian = sB.jacobian ∧ sAB.ydiff = sB.ydiff ∧
      sAB.Phi.data.size = 4 ∧ sAB.jacobian.rows = 4 := by
  obtain ⟨sA, sAB, sB, h1, h2, h3, h4, h5, h6, _, _, _, _, h7, h8, _⟩ :=
    EndPoseTask_Update_isolation (fun a _ => a.data)
      (positionScalarInits : List (TaskInitializer ℚ)) exampleProblem ⟨VectorXd.Zero 0, []⟩
      stackedExample stackedExample (providerPhi 1) (providerPhi 7) (providerJ 1)
      (providerJ 5) rfl rfl rfl rfl rfl rfl
      (by
        intro i hi
        have hi2 : i < 2 := hi
        interval_cases i <;> decide)
      (by
        intro i hi
        have hi2 : i < 2 := hi
        interval_cases i <;> decide)
      (by
        intro i hi
        have hi2 : i < 2 := hi
        interval_cases i <;> decide)
      (by
        intro i hi
        have hi2 : i < 2 := hi
        interval_cases i <;> decide)
  exact ⟨rfl, sA, sAB, sB, h1, h2, h3, h4, h5, h6, h7, h8⟩

end EndPoseUpdateClaims

namespace IMesh

/-! ## The Jacobian annihilates translations -/

section Translations

variable {K : Type} [LinearOrderedField K]

/-- A double sum of an antisymmetric family over one index set is zero. -/
theorem sum_sum_antisymm {ι : Type} (s : Finset ι) (T : ι → ι → K)
    (h : ∀ a ∈ s, ∀ b ∈ s, T a b = -T b a) :
    ∑ a ∈ s, ∑ b ∈ s, T a b = 0 := by
  have h1 : ∑ a ∈ s, ∑ b ∈ s, T a b = -∑ a ∈ s, ∑ b ∈ s, T b a := by
    rw [← Finset.sum_neg_distrib]
    apply Finset.sum_congr rfl
    intro a ha
    rw [← Finset.sum_neg_distrib]
    apply Finset.sum_congr rfl
    intro b hb
    exact h a ha b hb
  have h2 : ∑ a ∈ s, ∑ b ∈ s, T b a = ∑ a ∈ s, ∑ b ∈ s, T a b := Finset.sum_comm
  rw [h2] at h1
  linarith

/-- The spec's weight derivatives of a row sum to zero. -/
theorem specDW_sum_eq_zero (sqrt : K → K) (eff_phi : VectorXd K) (weights : MatrixXd K)
    (kinematics : KinematicResponse K) (M i j : Nat) :
    ∑ l ∈ (Finset.range M).filter (fun l => l ≠ j),
      specDW sqrt eff_phi weights kinematics M i j l = 0 := by
  by_cases hws : 0 < specWsum sqrt eff_phi weights M j
  · have hws0 : specWsum sqrt eff_phi weights M j ≠ 0 := ne_of_gt hws
    have h1 : ∑ l ∈ (Finset.range M).filter (fun l => l ≠ j),
          specDW sqrt eff_phi weights kinematics M i j l
        = ∑ l ∈ specNeighbours sqrt eff_phi M j,
            ∑ k ∈ specNeighbours sqrt eff_phi M j,
              -(weights.coeff j l * weights.coeff j k
                * (specS sqrt eff_phi kinematics i j l * specDist sqrt eff_phi j k
                    - specS sqrt eff_phi kinematics i j k * specDist sqrt eff_phi j l)
                / ((specDist sqrt eff_phi j l) ^ 2 * (specDist sqrt eff_phi j k) ^ 2
                    * (specWsum sqrt eff_phi weights M j) ^ 2)) := by
      unfold specNeighbours
      rw [Finset.sum_filter, Finset.sum_filter]
      apply Finset.sum_congr rfl
      intro l hl
      by_cases hc : l ≠ j ∧ 0 < specDist sqrt eff_phi j l
      · rw [if_pos hc.1, if_pos hc]
        unfold specDW specDA specA specNeighbours
        rw [if_pos ⟨hc.2, hws⟩, Finset.mul_sum, Finset.sum_div]
        apply Finset.sum_congr rfl
        intro k hk
        have hdk : 0 < specDist sqrt eff_phi j k := (Finset.mem_filter.mp hk).2.2
        have hdk0 : specDist sqrt eff_phi j k ≠ 0 := ne_of_gt hdk
        have hdl0 : specDist sqrt eff_phi j l ≠ 0 := ne_of_gt hc.2
        field_simp
        ring
      · rw [if_neg hc]
        by_cases hlj : l ≠ j
        · rw [if_pos hlj]
          unfold specDW
          rw [if_neg (fun h => hc ⟨hlj, h.1⟩)]
        · rw [if_neg hlj]
    rw [h1]
    apply sum_sum_antisymm
    intro a _ b _
    ring
  · apply Finset.sum_eq_zero
    intro l _
    unfold specDW
    rw [if_neg (fun h => hws h.2)]

/-- The spec's weights of a row with positive normaliser sum to one. -/
theorem specW_sum_eq_one (sqrt : K → K) (eff_phi : VectorXd K) (weights : MatrixXd K)
    (M j : Nat) (hws : 0 < specWsum sqrt eff_phi weights M j) :
    ∑ l ∈ (Finset.range M).filter (fun l => l ≠ j), specW sqrt eff_phi weights M j l = 1 := by
  rw [← specCoef_sum_eq_one sqrt eff_phi weights M j (ne_of_gt hws)]
  unfold specNeighbours
  rw [Finset.sum_filter, Finset.sum_filter]
  apply Finset.sum_congr rfl
  intro l hl
  by_cases hc : l ≠ j ∧ 0 < specDist sqrt eff_phi j l
  · rw [if_pos hc.1, if_pos hc]
    unfold specW specA specCoef
    rw [if_pos ⟨hc.2, hws⟩]
  · rw [if_neg hc]
    by_cases hlj : l ≠ j
    · rw [if_pos hlj]
      unfold specW
      rw [if_neg (fun h => hc ⟨hlj, h.1⟩)]
    · rw [if_neg hlj]

/-- When all per-point derivatives of coordinate `i` are equal, every distance
derivative and so every weight derivative is zero. -/
theorem specDW_eq_zero_of_equal (sqrt : K → K) (eff_phi : VectorXd K) (weights : MatrixXd K)
    (kinematics : KinematicResponse K) (M i j l : Nat) (v : Vector3d K)
    (hv : ∀ k, k < M → specJ kinematics i k = v) (hj : j < M) (hl : l < M) :
    specDW sqrt eff_phi weights kinematics M i j l = 0 := by
  have hS : ∀ k, k < M → specS sqrt eff_phi kinematics i j k = 0 := by
    intro k hk
    unfold specS
    rw [hv j hj, hv k hk]
    simp [Vector3d.sub, Vector3d.dot]
  unfold specDW
  split
  · have hDA : specDA sqrt eff_phi weights kinematics M i j l = 0 := by
      unfold specDA
      apply Finset.sum_eq_zero
      intro k hk
      have hk2 : k < M := Finset.mem_range.mp (Finset.mem_filter.mp hk).1
      rw [hS l hl, hS k hk2]
      simp
    rw [hDA]
    simp
  · rfl

/-- Entry `(3j + c, i)` of the Jacobian written by `Update` is zero when all per-point
derivatives of coordinate `i` are equal, the weights are non-negative and the
normaliser of row `j` is positive. -/
theorem jacobianLoop_equal_coeff (sqrt : K → K) (self : IMesh K)
    (kinematics : KinematicResponse K) (N : Nat) (m : MatrixXd K) (i j c : Nat)
    (v : Vector3d K) (hi : i < N) (hj : j < self.eff_size_) (hc : c < 3)
    (hW : ∀ k, k < self.eff_size_ → k ≠ j → 0 ≤ self.weights_.coeff j k)
    (hws : 0 < specWsum sqrt (Update.effPhi self.eff_size_ kinematics.Phi) self.weights_
      self.eff_size_ j)
    (hv : ∀ k, k < self.eff_size_ → specJ kinematics i k = v) :
    (Update.jacobianLoop self kinematics (Update.effPhi self.eff_size_ kinematics.Phi)
      (ComputeLaplace sqrt (Update.effPhi self.eff_size_ kinematics.Phi) self.weights_).dist
      (ComputeLaplace sqrt (Update.effPhi self.eff_size_ kinematics.Phi) self.weights_).wsum
      self.eff_size_ N m).coeff (3 * j + c) i = 0 := by
  rw [jacobianLoop_spec_coeff sqrt self kinematics N m i j c hi hj hc hW]
  have hco : ∀ k, k < self.eff_size_ → (kinematics.jacobian k).coeff c i = v.coeff c := by
    intro k hk
    have h := hv k hk
    unfold specJ MatrixXd.block31 at h
    rw [← h]
    have hc3 : c = 0 ∨ c = 1 ∨ c = 2 := by omega
    rcases hc3 with h0 | h0 | h0 <;> subst h0 <;> rfl
  have hsum : ∑ l ∈ (Finset.range self.eff_size_).filter (fun l => l ≠ j),
        ((Update.effPhi self.eff_size_ kinematics.Phi).coeff (l * 3 + c)
            * specDW sqrt (Update.effPhi self.eff_size_ kinematics.Phi) self.weights_
                kinematics self.eff_size_ i j l
          + (kinematics.jacobian l).coeff c i
            * specW sqrt (Update.effPhi self.eff_size_ kinematics.Phi) self.weights_
                self.eff_size_ j l)
      = v.coeff c
        * ∑ l ∈ (Finset.range self.eff_size_).filter (fun l => l ≠ j),
            specW sqrt (Update.effPhi self.eff_size_ kinematics.Phi) self.weights_
              self.eff_size_ j l := by
    rw [Finset.mul_sum]
    apply Finset.sum_congr rfl
    intro l hl
    have hl2 : l < self.eff_size_ := Finset.mem_range.mp (Finset.mem_filter.mp hl).1
    rw [specDW_eq_zero_of_equal sqrt _ self.weights_ kinematics self.eff_size_ i j l v hv hj
      hl2, hco l hl2, mul_zero, zero_add]
  rw [hsum, specW_sum_eq_one sqrt _ self.weights_ self.eff_size_ j hws, hco j hj, mul_one,
    sub_self]

/-- The normaliser of a row is positive when the weights of the row are non-negative
and one neighbour at positive distance has a positive weight. -/
theorem specWsum_pos (sqrt : K → K) (eff_phi : VectorXd K) (weights : MatrixXd K)
    (M j l : Nat) (hW : ∀ k, k < M → k ≠ j → 0 ≤ weights.coeff j k)
    (hl : l < M) (hlj : l ≠ j) (hd : 0 < specDist sqrt eff_phi j l)
    (hWl : 0 < weights.coeff j l) :
    0 < specWsum sqrt eff_phi weights M j := by
  unfold specWsum
  apply Finset.sum_pos'
  · intro k hk
    obtain ⟨hk1, hk2, hk3⟩ := Finset.mem_filter.mp hk
    exact div_nonneg (hW k (Finset.mem_range.mp hk1) hk2) (le_of_lt hk3)
  · exact ⟨l, Finset.mem_filter.mpr ⟨Finset.mem_range.mpr hl, hlj, hd⟩, div_pos hWl hd⟩

/-- C23. The analytic Jacobian annihilates rigid translations. For correctly sized
buffers, weights that are non-negative off the diagonal and `wsum(j) > 0` for every
point `j`, `Update` completes and, for every coordinate `i` and every point `j`, the
weights `w(j,l)` computed by the loops sum to 1 over `l ≠ j` and the weight
derivatives `_w(j,l)` sum to 0; and if all per-point derivatives of coordinate `i` are
one vector `v`, every 3 × 1 block of column `i` of the Jacobian written by `Update`
is zero. -/
theorem Update_jacobian_annihilates_translations (sqrt : K → K) (self : IMesh K)
    (kinematics : KinematicResponse K) (Phi : VectorXd K) (jacobian : MatrixXd K)
    (hPhi : Phi.size = self.eff_size_ * 3)
    (hrows : jacobian.rows = self.eff_size_ * 3)
    (hcols : jacobian.cols = (kinematics.jacobian 0).cols)
    (hW : ∀ j l, j < self.eff_size_ → l < self.eff_size_ → l ≠ j →
      0 ≤ self.weights_.coeff j l)
    (hwsum : ∀ j, j < self.eff_size_ →
      0 < specWsum sqrt (Update.effPhi self.eff_size_ kinematics.Phi) self.weights_
        self.eff_size_ j) :
    ∃ Phi1 jacobian1,
      Update sqrt self kinematics Phi jacobian = Except.ok (Phi1, jacobian1) ∧
      (∀ i j, j < self.eff_size_ →
        ∑ l ∈ (Finset.range self.eff_size_).filter (fun l => l ≠ j),
          (Update.wPair self kinematics (Update.effPhi self.eff_size_ kinematics.Phi)
            (ComputeLaplace sqrt (Update.effPhi self.eff_size_ kinematics.Phi)
              self.weights_).dist
            (ComputeLaplace sqrt (Update.effPhi self.eff_size_ kinematics.Phi)
              self.weights_).wsum self.eff_size_ i j l).1 = 1 ∧
        ∑ l ∈ (Finset.range self.eff_size_).filter (fun l => l ≠ j),
          (Update.wPair self kinematics (Update.effPhi self.eff_size_ kinematics.Phi)
            (ComputeLaplace sqrt (Update.effPhi self.eff_size_ kinematics.Phi)
              self.weights_).dist
            (ComputeLaplace sqrt (Update.effPhi self.eff_size_ kinematics.Phi)
              self.weights_).wsum self.eff_size_ i j l).2 = 0) ∧
      (∀ i (v : Vector3d K), i < (kinematics.jacobian 0).cols →
        (∀ j, j < self.eff_size_ → (kinematics.jacobian j).block31 0 i = v) →
        ∀ j, j < self.eff_size_ → jacobian1.block31 (3 * j) i = Vector3d.zero) := by
  have hsize : (Update.effPhi self.eff_size_ kinematics.Phi).size / 3 = self.eff_size_ := by
    rw [effPhi_size]
    omega
  refine ⟨_, _, Update_eq_ok sqrt self kinematics Phi jacobian hPhi hrows hcols, ?_, ?_⟩
  · intro i j hj
    have hpair : ∀ l ∈ (Finset.range self.eff_size_).filter (fun l => l ≠ j),
        Update.wPair self kinematics (Update.effPhi self.eff_size_ kinematics.Phi)
          (ComputeLaplace sqrt (Update.effPhi self.eff_size_ kinematics.Phi)
            self.weights_).dist
          (ComputeLaplace sqrt (Update.effPhi self.eff_size_ kinematics.Phi)
            self.weights_).wsum self.eff_size_ i j l
        = (specW sqrt (Update.effPhi self.eff_size_ kinematics.Phi) self.weights_
              self.eff_size_ j l,
            specDW sqrt (Update.effPhi self.eff_size_ kinematics.Phi) self.weights_
              kinematics self.eff_size_ i j l) := by
      intro l hl
      obtain ⟨hl1, hl2⟩ := Finset.mem_filter.mp hl
      exact wPair_spec sqrt self kinematics _ self.eff_size_ i j l hsize hj
        (Finset.mem_range.mp hl1) hl2 (fun k hk hkj => hW j k hj hk hkj)
    constructor
    · rw [Finset.sum_congr rfl (fun l hl => congrArg Prod.fst (hpair l hl))]
      exact specW_sum_eq_one sqrt _ self.weights_ self.eff_size_ j (hwsum j hj)
    · rw [Finset.sum_congr rfl (fun l hl => congrArg Prod.snd (hpair l hl))]
      exact specDW_sum_eq_zero sqrt _ self.weights_ kinematics self.eff_size_ i j
  · intro i v hi hv j hj
    have h0 := jacobianLoop_equal_coeff sqrt self kinematics (kinematics.jacobian 0).cols
      jacobian i j 0 v hi hj (by omega) (fun k hk hkj => hW j k hj hk hkj) (hwsum j hj) hv
    have h1 := jacobianLoop_equal_coeff sqrt self kinematics (kinematics.jacobian 0).cols
      jacobian i j 1 v hi hj (by omega) (fun k hk hkj => hW j k hj hk hkj) (hwsum j hj) hv
    have h2 := jacobianLoop_equal_coeff sqrt self kinematics (kinematics.jacobian 0).cols
      jacobian i j 2 v hi hj (by omega) (fun k hk hkj => hW j k hj hk hkj) (hwsum j hj) hv
    simp only [Nat.add_zero] at h0
    unfold MatrixXd.block31 Vector3d.zero
    rw [h0, h1, h2]

end Translations

/-- Witness for C23: two effectors with unit weights and one configuration coordinate
that translates both along `y`; both blocks of the Jacobian column are zero. -/
theorem Update_jacobian_annihilates_translations_witness :
    ∃ Phi1 jacobian1,
      Update Real.sqrt (pairMesh : IMesh ℝ) translatingKinematics (VectorXd.Zero 6)
        (MatrixXd.Zero 6 1) = Except.ok (Phi1, jacobian1) ∧
      jacobian1.block31 (3 * 0) 0 = Vector3d.zero ∧
      jacobian1.block31 (3 * 1) 0 = Vector3d.zero := by
  obtain ⟨Phi1, jacobian1, h1, _, h2⟩ :=
    Update_jacobian_annihilates_translations Real.sqrt (pairMesh : IMesh ℝ)
      translatingKinematics (VectorXd.Zero 6) (MatrixXd.Zero 6 1) rfl rfl rfl
      (by
        intro j l _ _ _
        simp [pairMesh])
      (by
        intro j hj
        have hj2 : j < 2 := hj
        have hne : ∀ a b, a < 2 → b < 2 → a ≠ b →
            (translatingKinematics : KinematicResponse ℝ).Phi a
              ≠ (translatingKinematics : KinematicResponse ℝ).Phi b := by
          intro a b ha hb hab
          interval_cases a <;> interval_cases b <;> simp_all [translatingKinematics]
        interval_cases j
        · exact specWsum_pos Real.sqrt _ _ 2 0 1 (by intro k _ _; simp [pairMesh])
            (by decide) (by decide)
            (specDist_pos_of_ne 2 _ 0 1 (by decide) (by decide)
              (hne 0 1 (by decide) (by decide) (by decide)))
            (by simp [pairMesh])
        · exact specWsum_pos Real.sqrt _ _ 2 1 0 (by intro k _ _; simp [pairMesh])
            (by decide) (by decide)
            (specDist_pos_of_ne 2 _ 1 0 (by decide) (by decide)
              (hne 1 0 (by decide) (by decide) (by decide)))
            (by simp [pairMesh]))
  have hv : ∀ j, j < (pairMesh : IMesh ℝ).eff_size_ →
      ((translatingKinematics : KinematicResponse ℝ).jacobian j).block31 0 0
        = (⟨0, 1, 0⟩ : Vector3d ℝ) := by
    intro j _
    simp [translatingKinematics, MatrixXd.block31]
  exact ⟨Phi1, jacobian1, h1, h2 0 ⟨0, 1, 0⟩ (by decide) hv 0 (by decide),
    h2 0 ⟨0, 1, 0⟩ (by decide) hv 1 (by decide)⟩


end IMesh

/-! ## The value-only overload of `IMesh::Update` -/

section ValueOnly

variable {K : Type} [LinearOrderedField K]

/-- The gathering loop of the value-only overload fails at its first write whenever
there is an effector: the vector has no coefficient. -/
theorem valueOnly_effPhi_fails (M : Nat) (Phi : Nat → Vector3d K) (hM : 0 < M) :
    IMesh.Update.valueOnly.effPhi M Phi = Except.error Exception.eigenAssertion := by
  unfold IMesh.Update.valueOnly.effPhi
  apply forRangeM_error_first _ M _ _ hM
  rfl

/-- The value-only overload never completes on a mesh with at least one effector and a
correctly sized `Phi`. -/
theorem valueOnly_fails (sqrt : K → K) (self : IMesh K) (kinematics : KinematicResponse K)
    (Phi : VectorXd K) (hM : 0 < self.eff_size_) (hPhi : Phi.size = self.eff_size_ * 3) :
    IMesh.Update.valueOnly sqrt self kinematics Phi
      = Except.error Exception.eigenAssertion := by
  unfold IMesh.Update.valueOnly
  have h1 : ¬ (Phi.size ≠ self.eff_size_ * 3) := fun h => h hPhi
  simp only [if_neg h1, valueOnly_effPhi_fails self.eff_size_ kinematics.Phi hM]

/-- C22 (failing input). Two effectors with unit weights and a `Phi` of 6 rows. The
overload `Update(x, Phi, jacobian)` returns the value `ComputeLaplace` of the 6-vector of
positions, which has 6 rows. The overload `Update(x, Phi)` does not return: its vector
`eff_phi` is declared without a size and the first write `eff_phi(0)` is out of range;
and `ComputeLaplace` of a vector without coefficients has no rows. -/
theorem Update_valueOnly_does_not_complete :
    IMesh.Update.valueOnly Real.sqrt (IMesh.pairMesh : IMesh ℝ) IMesh.pairKinematics
        (VectorXd.Zero 6) = Except.error Exception.eigenAssertion ∧
    (∃ jacobian1,
      IMesh.Update Real.sqrt (IMesh.pairMesh : IMesh ℝ) IMesh.pairKinematics
          (VectorXd.Zero 6) (MatrixXd.Zero 6 1)
        = Except.ok
            ((IMesh.ComputeLaplace Real.sqrt
              (IMesh.Update.effPhi 2 (IMesh.pairKinematics : KinematicResponse ℝ).Phi)
              (IMesh.pairMesh : IMesh ℝ).weights_).Phi, jacobian1)) ∧
    (IMesh.ComputeLaplace Real.sqrt
      (IMesh.Update.effPhi 2 (IMesh.pairKinematics : KinematicResponse ℝ).Phi)
      (IMesh.pairMesh : IMesh ℝ).weights_).Phi.size = 6 ∧
    (∀ eff_phi : VectorXd ℝ, eff_phi.size = 0 →
      (IMesh.ComputeLaplace Real.sqrt eff_phi
        (IMesh.pairMesh : IMesh ℝ).weights_).Phi.size = 0) := by
  refine ⟨valueOnly_fails Real.sqrt _ _ _ (by decide) rfl,
    ⟨_, IMesh.Update_eq_ok Real.sqrt (IMesh.pairMesh : IMesh ℝ) IMesh.pairKinematics
      (VectorXd.Zero 6) (MatrixXd.Zero 6 1) rfl rfl rfl⟩, ?_, ?_⟩
  · rw [IMesh.ComputeLaplace_size, IMesh.effPhi_size]
  · intro eff_phi h
    rw [IMesh.ComputeLaplace_size, h]

end ValueOnly

/-! ## The overload of `EndPoseTask::Update` with a Hessian -/

/-- C21 (failing input). A single pose task (seven value rows, six Jacobian rows) on a
problem that requests the Hessian: after `Initialize` the Hessian buffer has six
entries, the two-argument `Update` returns, and `Update(big_phi, big_j, big_h)` fails
on the write `hessian.segment(0, 7)`. And for the position followed by the scalar task
(value offset 10, Jacobian offset 9 in the provider's buffers) and a provider Hessian of
11 entries, the call returns and entry 3 of the Hessian buffer is `big_h[10]`, not
`big_h[9]`; with the provider's 10 entries the read `big_h.segment(10, 1)` fails. -/
theorem Update_withHessian_uses_value_offsets :
    (∃ s0,
      EndPoseTask.Initialize (poseInits : List (TaskInitializer ℚ)) hessianProblem
        ⟨VectorXd.Zero 0, []⟩ EndPoseTask.new = Except.ok s0 ∧
      s0.hessian.size = 6 ∧ s0.length_jacobian = 6 ∧ s0.length_phi = 7 ∧
      (∃ s1, EndPoseTask.Update (fun a _ => a.data) (providerPhi 1) (providerJ 1) s0
        = Except.ok s1) ∧
      EndPoseTask.Update.withHessian (fun a _ => a.data) (providerPhi 1) (providerJ 1)
        (providerH 10) s0 = Except.error Exception.eigenAssertion) ∧
    (∃ s0 s1,
      EndPoseTask.Initialize (positionScalarInits : List (TaskInitializer ℚ)) hessianProblem
        ⟨VectorXd.Zero 0, []⟩ EndPoseTask.new = Except.ok s0 ∧
      s0.hessian.size = 4 ∧ (s0.index 1).start_jacobian = 3 ∧
      (s0.task 1).start_jacobian = 9 ∧ (s0.task 1).start = 10 ∧
      EndPoseTask.Update.withHessian (fun a _ => a.data) (providerPhi 1) (providerJ 1)
        (providerH 11) s0 = Except.ok s1 ∧
      (s1.hessian.coeff 3).coeff 0 0 = ((providerH 11 : Hessian ℚ).coeff 10).coeff 0 0 ∧
      (s1.hessian.coeff 3).coeff 0 0 ≠ ((providerH 11 : Hessian ℚ).coeff 9).coeff 0 0 ∧
      EndPoseTask.Update.withHessian (fun a _ => a.data) (providerPhi 1) (providerJ 1)
        (providerH 10) s0 = Except.error Exception.eigenAssertion) :=
  ⟨⟨_, rfl, rfl, rfl, rfl, ⟨_, rfl⟩, rfl⟩,
    ⟨_, _, rfl, rfl, rfl, rfl, rfl, rfl, rfl, by
      show ((10 : Nat) : ℚ) ≠ ((9 : Nat) : ℚ)
      norm_num, rfl⟩⟩

end Exotica
